import Mathlib

/-!
Bilateral-grid colour reconstruction, `src/iop/colorreconstruction.c`

A shallow embedding of darktable's colour reconstruction module (the CPU
path, the host side of the OpenCL path and the memory estimates), followed by
theorems about it.

Conventions of the embedding

* `float` values are rationals (`ℚ`).  The rounding of binary32 (`f32`: to the
  nearest value of 24 significant bits, ties to even) is applied where a
  computed value decides a branch, a grid size or a grid coordinate: the
  quotients `init` and the memory estimates round to the grid sizes, the
  pitches `sigma_s` and `sigma_r` stored by `init`, the three quotients of
  `image_to_grid`, the blend factor of `slice` and the zoom test of `process`.
  The scale and the pitch `process` passes to `init`, the pixel coordinates of
  `grid_rescale`, the accumulations of `splat`, the kernel of the blur and the
  interpolation and the blend of `slice` are the exact operations.  Overflow
  to infinity, underflow and NaN are not represented.  A division by zero,
  which yields an infinity or a NaN in the source, yields `0` here; theorems
  whose truth depends on a divisor state that it is nonzero.
* `int` values are `Int`, `size_t` values are `Nat`; the 64 bit wrap of
  `size_t` is not represented (grid sizes never exceed `1001 * 1001 * 201`).
* a pointer that may be `NULL` is an `Option`; the result of an allocation
  call is a parameter of the function that makes the call (`none` when the
  allocation fails, otherwise the fresh memory with whatever it contains).
* dereferencing `NULL` is the outcome `Run.fault`.
* the pixel buffers `in` and `out` are memories `Nat → ℚ` addressed by float
  index; a grid's cell buffer is a `List` of cells.
* a counted loop is a fold over `List.range` or an iterate of its body, in
  the sequential order of the source (the OpenMP pragmas are not
  represented).
* the mutex `g->lock` appears in the traced form of `process`
  (`process_traced`), which records the lock, the unlock and the accesses to
  the slot `g->can` among the calls; two stages running at once are a
  schedule, an interleaving of their events in which a stage takes the mutex
  only when it is free.
* the buffer accesses of `blur_line` are recorded by its traced form
  (`blur_line_traced`), in which every store goes through `traced_store`.
-/

/-! ## Macros and C library functions -/

/-- Modelled from the spec: the `CLAMPS(A, L, H)` macro, declared outside this
file; it clamps `A` to the interval `[L, H]`, as
`((A) > (L) ? ((A) < (H) ? (A) : (H)) : (L))`. -/
def CLAMPS {α : Type} [LinearOrder α] (A L H : α) : α :=
  if A > L then (if A < H then A else H) else L

/-- The `MAX(a, b)` macro of the glib headers: `((a) > (b)) ? (a) : (b)`. -/
def MAX {α : Type} [LinearOrder α] (a b : α) : α := if a > b then a else b

/-- The `MIN(a, b)` macro of the glib headers: `((a) < (b)) ? (a) : (b)`. -/
def MIN {α : Type} [LinearOrder α] (a b : α) : α := if a < b then a else b

/-- C `roundf` / `round`: nearest integral value, halfway cases away from zero. -/
def roundf (q : ℚ) : ℚ := if 0 ≤ q then (⌊q + 1 / 2⌋ : ℤ) else -(⌊-q + 1 / 2⌋ : ℤ)

/-- Smallest value of a 32 bit `int`. -/
def INT_MIN : ℤ := -2147483648

/-- Largest value of a 32 bit `int`. -/
def INT_MAX : ℤ := 2147483647

/-- The C conversion `(int)q` of a float: truncation toward zero.  A value
outside the range of `int` is undefined behaviour in C; it is given the value
`INT_MIN` that the x86 conversion instruction produces. -/
def float_to_int (q : ℚ) : ℤ :=
  let t : ℤ := if 0 ≤ q then ⌊q⌋ else -⌊-q⌋
  if INT_MIN ≤ t ∧ t ≤ INT_MAX then t else INT_MIN

/-- Rounding of a rational to the nearest integer, ties to the even one. -/
def round_half_even (t : ℚ) : ℤ :=
  let f : ℤ := ⌊t⌋
  if t - f < 1 / 2 then f
  else if t - f > 1 / 2 then f + 1
  else if f % 2 = 0 then f else f + 1

/-- The result of a binary32 operation whose exact result is `q`: `q` rounded
to the nearest number with 24 significant bits, ties to even.  With
`2 ^ e ≤ |q| < 2 ^ (e + 1)` the result is a multiple of `2 ^ (e - 23)`.  The
exponent is unbounded: overflow and underflow are not represented. -/
def f32 (q : ℚ) : ℚ :=
  if q = 0 then 0
  else
    let e : ℤ := Int.log 2 |q|
    (round_half_even (q / (2 : ℚ) ^ (e - 23)) : ℚ) * (2 : ℚ) ^ (e - 23)

/-- The binary32 value of the literal `1.05f`. -/
def float_1_05 : ℚ := 4404019 / 4194304

def DT_COLORRECONSTRUCT_BILATERAL_MAX_RES_S : ℤ := 1000

def DT_COLORRECONSTRUCT_BILATERAL_MAX_RES_R : ℤ := 200

def DT_COLORRECONSTRUCT_SPATIAL_APPROX : ℚ := 50

/-! ## Data model -/

/-- Outcome of running code that may dereference `NULL`. -/
inductive Run (α : Type) where
  | fault : Run α
  | done : α → Run α
deriving DecidableEq

/-- Modelled from the spec: the region of interest `dt_iop_roi_t`, a type
declared outside this file: the rectangular sub-window (`x`, `y`, `width`,
`height`) and the scale factor `scale`, the five fields this file reads. -/
structure dt_iop_roi_t where
  x : ℤ
  y : ℤ
  width : ℤ
  height : ℤ
  scale : ℚ
deriving DecidableEq

structure dt_iop_colorreconstruct_Lab_t where
  L : ℚ
  a : ℚ
  b : ℚ
  weight : ℚ
deriving DecidableEq

/-- The all-zero cell written by `memset(buf, 0, ...)`. -/
def Lab_zero : dt_iop_colorreconstruct_Lab_t := ⟨0, 0, 0, 0⟩

instance : Inhabited dt_iop_colorreconstruct_Lab_t := ⟨Lab_zero⟩

structure dt_iop_colorreconstruct_bilateral_t where
  size_x : ℕ
  size_y : ℕ
  size_z : ℕ
  width : ℤ
  height : ℤ
  x : ℤ
  y : ℤ
  scale : ℚ
  sigma_s : ℚ
  sigma_r : ℚ
  buf : Option (List dt_iop_colorreconstruct_Lab_t)
deriving DecidableEq

structure dt_iop_colorreconstruct_bilateral_frozen_t where
  size_x : ℕ
  size_y : ℕ
  size_z : ℕ
  width : ℤ
  height : ℤ
  x : ℤ
  y : ℤ
  scale : ℚ
  sigma_s : ℚ
  sigma_r : ℚ
  buf : Option (List dt_iop_colorreconstruct_Lab_t)
deriving DecidableEq

/-- C `memcpy(dst, src, n)` on cell buffers, `n` counted in cells. -/
def memcpy (dst src : List dt_iop_colorreconstruct_Lab_t) (n : ℕ) :
    List dt_iop_colorreconstruct_Lab_t :=
  src.take n ++ dst.drop n

/-- C `memset(dst, 0, n)` on a cell buffer, `n` counted in cells. -/
def memset_zero (dst : List dt_iop_colorreconstruct_Lab_t) (n : ℕ) :
    List dt_iop_colorreconstruct_Lab_t :=
  List.replicate (min n dst.length) Lab_zero ++ dst.drop n

/-! ## Grid construction and coordinate mapping -/

/-- Function `image_to_grid`: the grid coordinates `(x, y, z)` written through the three
out-pointers. -/
def image_to_grid (b : dt_iop_colorreconstruct_bilateral_t) (i j L : ℚ) : ℚ × ℚ × ℚ :=
  (CLAMPS (f32 (i / b.sigma_s)) 0 ((b.size_x : ℚ) - 1),
   CLAMPS (f32 (j / b.sigma_s)) 0 ((b.size_y : ℚ) - 1),
   CLAMPS (f32 (L / b.sigma_r)) 0 ((b.size_z : ℚ) - 1))

/-- Function `grid_rescale`: the pair `(px, py)` written through the two out-pointers. -/
def grid_rescale (b : dt_iop_colorreconstruct_bilateral_t) (i j : ℤ) (roi : dt_iop_roi_t)
    (iscale : ℚ) : ℚ × ℚ :=
  let scale : ℚ := (iscale / roi.scale) / b.scale
  (((roi.x + i : ℤ) : ℚ) * scale - (b.x : ℚ), ((roi.y + j : ℤ) : ℚ) * scale - (b.y : ℚ))

/-- Function `dt_iop_colorreconstruct_bilateral_init`.  `malloc_ok` tells whether the
`malloc` of the grid record succeeds and `mem` is the result of
`dt_alloc_align` for the cell buffer.  The source does not test the buffer
pointer before the `memset`, so a failed buffer allocation is a fault. -/
def dt_iop_colorreconstruct_bilateral_init (malloc_ok : Bool)
    (mem : Option (List dt_iop_colorreconstruct_Lab_t)) (roi : dt_iop_roi_t)
    (iscale sigma_s sigma_r : ℚ) : Run (Option dt_iop_colorreconstruct_bilateral_t) :=
  if !malloc_ok then Run.done none
  else
    let _x : ℚ := roundf (f32 ((roi.width : ℚ) / sigma_s))
    let _y : ℚ := roundf (f32 ((roi.height : ℚ) / sigma_s))
    let _z : ℚ := roundf (f32 (100 / sigma_r))
    let size_x : ℕ :=
      (CLAMPS (float_to_int _x) 4 DT_COLORRECONSTRUCT_BILATERAL_MAX_RES_S + 1).toNat
    let size_y : ℕ :=
      (CLAMPS (float_to_int _y) 4 DT_COLORRECONSTRUCT_BILATERAL_MAX_RES_S + 1).toNat
    let size_z : ℕ :=
      (CLAMPS (float_to_int _z) 4 DT_COLORRECONSTRUCT_BILATERAL_MAX_RES_R + 1).toNat
    match mem with
    | none => Run.fault
    | some m =>
      Run.done (some
        { size_x := size_x
          size_y := size_y
          size_z := size_z
          width := roi.width
          height := roi.height
          x := roi.x
          y := roi.y
          scale := iscale / roi.scale
          sigma_s := MAX (f32 ((roi.height : ℚ) / ((size_y : ℚ) - 1)))
                         (f32 ((roi.width : ℚ) / ((size_x : ℚ) - 1)))
          sigma_r := f32 (100 / ((size_z : ℚ) - 1))
          buf := some (memset_zero m (size_x * size_y * size_z)) })

/-- Function `dt_iop_colorreconstruct_bilateral_freeze`.  `malloc_ok` is the outcome of
the `malloc` of the snapshot record, `mem` the result of `dt_alloc_align`. -/
def dt_iop_colorreconstruct_bilateral_freeze (malloc_ok : Bool)
    (mem : Option (List dt_iop_colorreconstruct_Lab_t))
    (b : Option dt_iop_colorreconstruct_bilateral_t) :
    Option dt_iop_colorreconstruct_bilateral_frozen_t :=
  match b with
  | none => none
  | some b =>
    if !malloc_ok then none
    else
      match mem, b.buf with
      | some dst, some src =>
        some
          { size_x := b.size_x
            size_y := b.size_y
            size_z := b.size_z
            width := b.width
            height := b.height
            x := b.x
            y := b.y
            scale := b.scale
            sigma_s := b.sigma_s
            sigma_r := b.sigma_r
            buf := some (memcpy dst src (b.size_x * b.size_y * b.size_z)) }
      | _, _ => none

/-- Function `dt_iop_colorreconstruct_bilateral_thaw`, with the same allocation
parameters as `freeze`. -/
def dt_iop_colorreconstruct_bilateral_thaw (malloc_ok : Bool)
    (mem : Option (List dt_iop_colorreconstruct_Lab_t))
    (bf : Option dt_iop_colorreconstruct_bilateral_frozen_t) :
    Option dt_iop_colorreconstruct_bilateral_t :=
  match bf with
  | none => none
  | some bf =>
    if !malloc_ok then none
    else
      match mem, bf.buf with
      | some dst, some src =>
        some
          { size_x := bf.size_x
            size_y := bf.size_y
            size_z := bf.size_z
            width := bf.width
            height := bf.height
            x := bf.x
            y := bf.y
            scale := bf.scale
            sigma_s := bf.sigma_s
            sigma_r := bf.sigma_r
            buf := some (memcpy dst src (bf.size_x * bf.size_y * bf.size_z)) }
      | _, _ => none

/-! ## Cell buffer access -/

/-- Read of `buf[i]`.  An index outside the buffer is undefined behaviour in the
source; it reads the zero cell here. -/
def rd (buf : List dt_iop_colorreconstruct_Lab_t) (i : ℕ) : dt_iop_colorreconstruct_Lab_t :=
  buf.getD i Lab_zero

/-- Write of `buf[i]`.  An index outside the buffer is undefined behaviour in
the source; it writes nothing here. -/
def wr (buf : List dt_iop_colorreconstruct_Lab_t) (i : ℕ) (v : dt_iop_colorreconstruct_Lab_t) :
    List dt_iop_colorreconstruct_Lab_t :=
  buf.set i v

/-- A cell computed by one formula applied to each of the four fields
`L`, `a`, `b`, `weight` in turn. -/
def Lab_fields (f : (dt_iop_colorreconstruct_Lab_t → ℚ) → ℚ) : dt_iop_colorreconstruct_Lab_t :=
  ⟨f dt_iop_colorreconstruct_Lab_t.L, f dt_iop_colorreconstruct_Lab_t.a,
   f dt_iop_colorreconstruct_Lab_t.b, f dt_iop_colorreconstruct_Lab_t.weight⟩

/-! ## Splat -/

/-- Float index of pixel `(i, j)` in a 4-channel image that is `width` pixels
wide: `index = 4 * j * width`, advanced by 4 for every `i`. -/
def pixel_index (width : ℤ) (j i : ℕ) : ℕ := (4 * (j : ℤ) * width).toNat + 4 * i

/-- Grid index of the cell a pixel with luma `Lin` at `(i, j)` is splatted to:
`image_to_grid`, then closest integer, clamped. -/
def splat_index (b : dt_iop_colorreconstruct_bilateral_t) (j i : ℕ) (Lin : ℚ) : ℕ :=
  let p := image_to_grid b (i : ℚ) (j : ℚ) Lin
  let xi : ℤ := CLAMPS (float_to_int (roundf p.1)) 0 ((b.size_x : ℤ) - 1)
  let yi : ℤ := CLAMPS (float_to_int (roundf p.2.1)) 0 ((b.size_y : ℤ) - 1)
  let zi : ℤ := CLAMPS (float_to_int (roundf p.2.2)) 0 ((b.size_z : ℤ) - 1)
  (xi + (b.size_x : ℤ) * (yi + (b.size_y : ℤ) * zi)).toNat

/-- Body of the pixel loop of `dt_iop_colorreconstruct_bilateral_splat` for the
pixel `(i, j)`, on the cell buffer `buf` of grid `b`. -/
def splat_pixel (b : dt_iop_colorreconstruct_bilateral_t) (inp : ℕ → ℚ) (threshold : ℚ)
    (j i : ℕ) (buf : List dt_iop_colorreconstruct_Lab_t) : List dt_iop_colorreconstruct_Lab_t :=
  let index := pixel_index b.width j i
  let Lin := inp index
  let ain := inp (index + 1)
  let bin := inp (index + 2)
  if Lin > threshold then buf
  else
    let grid_index := splat_index b j i Lin
    let c := rd buf grid_index
    wr buf grid_index ⟨c.L + Lin, c.a + ain, c.b + bin, c.weight + 1⟩

/-- The two nested loops of `dt_iop_colorreconstruct_bilateral_splat` on the
cell buffer. -/
def splat_cells (b : dt_iop_colorreconstruct_bilateral_t) (inp : ℕ → ℚ) (threshold : ℚ)
    (buf : List dt_iop_colorreconstruct_Lab_t) : List dt_iop_colorreconstruct_Lab_t :=
  (List.range b.height.toNat).foldl
    (fun buf j => (List.range b.width.toNat).foldl
      (fun buf i => splat_pixel b inp threshold j i buf) buf) buf

/-- Function `dt_iop_colorreconstruct_bilateral_splat`: the grid after the call.  With
an absent cell buffer the first accumulated pixel dereferences `NULL`. -/
def dt_iop_colorreconstruct_bilateral_splat (b : dt_iop_colorreconstruct_bilateral_t)
    (inp : ℕ → ℚ) (threshold : ℚ) : Run dt_iop_colorreconstruct_bilateral_t :=
  match b.buf with
  | some buf => Run.done { b with buf := some (splat_cells b inp threshold buf) }
  | none =>
    if (List.range b.height.toNat).all (fun j => (List.range b.width.toNat).all
        (fun i => decide (inp (pixel_index b.width j i) > threshold)))
    then Run.done b else Run.fault

/-- Field-wise sum of two cells. -/
instance : Add dt_iop_colorreconstruct_Lab_t :=
  ⟨fun c d => ⟨c.L + d.L, c.a + d.a, c.b + d.b, c.weight + d.weight⟩⟩

instance : Zero dt_iop_colorreconstruct_Lab_t := ⟨Lab_zero⟩

/-- Cells under field-wise addition form a commutative monoid, the structure in
which the accumulations of `splat` are summed. -/
instance : AddCommMonoid dt_iop_colorreconstruct_Lab_t where
  add_assoc := fun c d e => by
    show (⟨_, _, _, _⟩ : dt_iop_colorreconstruct_Lab_t) = ⟨_, _, _, _⟩
    congr 1 <;> exact add_assoc _ _ _
  zero_add := fun c => by
    show (⟨_, _, _, _⟩ : dt_iop_colorreconstruct_Lab_t) = c
    cases c
    congr 1 <;> exact zero_add _
  add_zero := fun c => by
    show (⟨_, _, _, _⟩ : dt_iop_colorreconstruct_Lab_t) = c
    cases c
    congr 1 <;> exact add_zero _
  add_comm := fun c d => by
    show (⟨_, _, _, _⟩ : dt_iop_colorreconstruct_Lab_t) = ⟨_, _, _, _⟩
    congr 1 <;> exact add_comm _ _
  nsmul := nsmulRec

/-- The contribution of pixel `(i, j)` of the input to the cell it is splatted
to: its `L`, `a`, `b` and the weight 1. -/
def splat_contribution (width : ℤ) (inp : ℕ → ℚ) (j i : ℕ) : dt_iop_colorreconstruct_Lab_t :=
  ⟨inp (pixel_index width j i), inp (pixel_index width j i + 1),
   inp (pixel_index width j i + 2), 1⟩

/-! ## Blur -/

def blur_w0 : ℚ := 6 / 16

def blur_w1 : ℚ := 4 / 16

def blur_w2 : ℚ := 1 / 16

/-- Local state of the innermost loop of `blur_line`: the buffer, the running
`index` and the two saved cells `tmp1`, `tmp2`. -/
structure blur_state where
  buf : List dt_iop_colorreconstruct_Lab_t
  index : ℕ
  tmp1 : dt_iop_colorreconstruct_Lab_t
  tmp2 : dt_iop_colorreconstruct_Lab_t

/-- One iteration of `for(int i = 2; i < size3 - 2; i++)` in `blur_line`. -/
def blur_line_step (offset3 : ℕ) (s : blur_state) : blur_state :=
  let tmp3 := rd s.buf s.index
  let buf := wr s.buf s.index (Lab_fields fun f =>
    f (rd s.buf s.index) * blur_w0 + blur_w1 * (f (rd s.buf (s.index + offset3)) + f s.tmp2)
      + blur_w2 * (f (rd s.buf (s.index + 2 * offset3)) + f s.tmp1))
  { buf := buf, index := s.index + offset3, tmp1 := s.tmp2, tmp2 := tmp3 }

/-- One iteration of `for(int j = 0; j < size2; j++)` in `blur_line`: the blur
of the line that starts at `index`; the result is the buffer and the `index`
of the next line.  The last update `index += offset2 - offset3 * size3` is
computed in `ℕ` after adding `offset2`. -/
def blur_line_row (offset2 offset3 size3 : ℕ) (st : List dt_iop_colorreconstruct_Lab_t × ℕ) :
    List dt_iop_colorreconstruct_Lab_t × ℕ :=
  let buf := st.1
  let index := st.2
  let tmp1 := rd buf index
  let buf := wr buf index (Lab_fields fun f =>
    f (rd buf index) * blur_w0 + blur_w1 * f (rd buf (index + offset3))
      + blur_w2 * f (rd buf (index + 2 * offset3)))
  let index := index + offset3
  let tmp2 := rd buf index
  let buf := wr buf index (Lab_fields fun f =>
    f (rd buf index) * blur_w0 + blur_w1 * (f (rd buf (index + offset3)) + f tmp1)
      + blur_w2 * f (rd buf (index + 2 * offset3)))
  let index := index + offset3
  let s := (blur_line_step offset3)^[size3 - 4] { buf := buf, index := index, tmp1 := tmp1, tmp2 := tmp2 }
  let tmp3 := rd s.buf s.index
  let buf := wr s.buf s.index (Lab_fields fun f =>
    f (rd s.buf s.index) * blur_w0 + blur_w1 * (f (rd s.buf (s.index + offset3)) + f s.tmp2)
      + blur_w2 * f s.tmp1)
  let index := s.index + offset3
  let buf := wr buf index (Lab_fields fun f =>
    f (rd buf index) * blur_w0 + blur_w1 * f tmp3 + blur_w2 * f s.tmp2)
  let index := index + offset3
  (buf, index + offset2 - offset3 * size3)

/-- Function `blur_line` on a present buffer. -/
def blur_line (buf : List dt_iop_colorreconstruct_Lab_t)
    (offset1 offset2 offset3 size1 size2 size3 : ℕ) : List dt_iop_colorreconstruct_Lab_t :=
  (List.range size1).foldl
    (fun buf k => ((blur_line_row offset2 offset3 size3)^[size2] (buf, k * offset1)).1) buf

/-- Function `dt_iop_colorreconstruct_bilateral_blur`: the grid after the three passes.
With an absent cell buffer a pass dereferences `NULL` as soon as it has a line
to blur (`size1 > 0` and `size2 > 0`). -/
def dt_iop_colorreconstruct_bilateral_blur (b : dt_iop_colorreconstruct_bilateral_t) :
    Run dt_iop_colorreconstruct_bilateral_t :=
  match b.buf with
  | some buf =>
    let buf := blur_line buf (b.size_x * b.size_y) b.size_x 1 b.size_z b.size_y b.size_x
    let buf := blur_line buf (b.size_x * b.size_y) 1 b.size_x b.size_z b.size_x b.size_y
    let buf := blur_line buf 1 b.size_x (b.size_x * b.size_y) b.size_x b.size_y b.size_z
    Run.done { b with buf := some buf }
  | none =>
    if (0 < b.size_z ∧ 0 < b.size_y) ∨ (0 < b.size_z ∧ 0 < b.size_x)
        ∨ (0 < b.size_x ∧ 0 < b.size_y)
    then Run.fault else Run.done b

/-- The out-of-place form of the blur of one line of `n` values `o`: the
5-tap kernel `(1, 4, 6, 4, 1) / 16` at position `t`, the taps whose index falls
outside `[0, n - 1]` omitted. -/
def blur_kernel (o : ℕ → ℚ) (n t : ℕ) : ℚ :=
  blur_w0 * o t
    + blur_w1 * ((if t + 1 < n then o (t + 1) else 0) + (if 1 ≤ t then o (t - 1) else 0))
    + blur_w2 * ((if t + 2 < n then o (t + 2) else 0) + (if 2 ≤ t then o (t - 2) else 0))

/-- The sum of the kernel weights `blur_line` uses at position `t` of a line of
`n` cells: the kernel applied to the constant line `1`. -/
def blur_gain (n t : ℕ) : ℚ := blur_kernel (fun _ => 1) n t

/-! ## Slice -/

/-- The `blend` factor of a pixel with luma `Lin`. -/
def slice_blend (threshold Lin : ℚ) : ℚ :=
  CLAMPS (f32 (f32 (f32 (20 / threshold) * Lin) - 19)) 0 1

/-- The trilinear lookup of `dt_iop_colorreconstruct_bilateral_slice` at grid
coordinates `(x, y, z)`: the interpolated cell `(Lout, aout, bout, weight)`. -/
def slice_lookup (b : dt_iop_colorreconstruct_bilateral_t)
    (buf : List dt_iop_colorreconstruct_Lab_t) (x y z : ℚ) : dt_iop_colorreconstruct_Lab_t :=
  let ox : ℕ := 1
  let oy : ℕ := b.size_x
  let oz : ℕ := b.size_y * b.size_x
  let xi : ℤ := MIN (float_to_int x) ((b.size_x : ℤ) - 2)
  let yi : ℤ := MIN (float_to_int y) ((b.size_y : ℤ) - 2)
  let zi : ℤ := MIN (float_to_int z) ((b.size_z : ℤ) - 2)
  let xf : ℚ := x - xi
  let yf : ℚ := y - yi
  let zf : ℚ := z - zi
  let gi : ℕ := (xi + (b.size_x : ℤ) * (yi + (b.size_y : ℤ) * zi)).toNat
  Lab_fields fun f =>
      f (rd buf gi) * (1 - xf) * (1 - yf) * (1 - zf)
    + f (rd buf (gi + ox)) * xf * (1 - yf) * (1 - zf)
    + f (rd buf (gi + oy)) * (1 - xf) * yf * (1 - zf)
    + f (rd buf (gi + ox + oy)) * xf * yf * (1 - zf)
    + f (rd buf (gi + oz)) * (1 - xf) * (1 - yf) * zf
    + f (rd buf (gi + ox + oz)) * xf * (1 - yf) * zf
    + f (rd buf (gi + oy + oz)) * (1 - xf) * yf * zf
    + f (rd buf (gi + ox + oy + oz)) * xf * yf * zf

/-- Body of the pixel loop of `dt_iop_colorreconstruct_bilateral_slice` for the
pixel `(i, j)`: the output memory after the iteration.  `buf` is the cell
buffer `b->buf`. -/
def slice_pixel (b : dt_iop_colorreconstruct_bilateral_t)
    (buf : List dt_iop_colorreconstruct_Lab_t) (inp : ℕ → ℚ) (threshold : ℚ)
    (roi : dt_iop_roi_t) (iscale : ℚ) (j i : ℕ) (out : ℕ → ℚ) : ℕ → ℚ :=
  let index := pixel_index roi.width j i
  let Lin := inp (index + 0)
  let out := Function.update out (index + 0) Lin
  let ain := inp (index + 1)
  let out := Function.update out (index + 1) ain
  let bin := inp (index + 2)
  let out := Function.update out (index + 2) bin
  let out := Function.update out (index + 3) (inp (index + 3))
  let blend := slice_blend threshold Lin
  if blend = 0 then out
  else
    let p := grid_rescale b (i : ℤ) (j : ℤ) roi iscale
    let g := image_to_grid b p.1 p.2 Lin
    let c := slice_lookup b buf g.1 g.2.1 g.2.2
    let out := Function.update out (index + 1)
      (if c.weight > 0 then ain * (1 - blend) + c.a * Lin / c.L * blend else ain)
    let out := Function.update out (index + 2)
      (if c.weight > 0 then bin * (1 - blend) + c.b * Lin / c.L * blend else bin)
    out

/-- The two nested loops of `dt_iop_colorreconstruct_bilateral_slice` with a
present cell buffer. -/
def slice_cells (b : dt_iop_colorreconstruct_bilateral_t)
    (buf : List dt_iop_colorreconstruct_Lab_t) (inp : ℕ → ℚ) (out : ℕ → ℚ) (threshold : ℚ)
    (roi : dt_iop_roi_t) (iscale : ℚ) : ℕ → ℚ :=
  (List.range roi.height.toNat).foldl
    (fun out j => (List.range roi.width.toNat).foldl
      (fun out i => slice_pixel b buf inp threshold roi iscale j i out) out) out

/-- Function `dt_iop_colorreconstruct_bilateral_slice`: the output memory after the
call.  With an absent cell buffer the lookup of the first blending pixel
dereferences `NULL`; when no pixel blends no cell is read. -/
def dt_iop_colorreconstruct_bilateral_slice (b : dt_iop_colorreconstruct_bilateral_t)
    (inp : ℕ → ℚ) (out : ℕ → ℚ) (threshold : ℚ) (roi : dt_iop_roi_t) (iscale : ℚ) :
    Run (ℕ → ℚ) :=
  match b.buf with
  | some buf => Run.done (slice_cells b buf inp out threshold roi iscale)
  | none =>
    if (List.range roi.height.toNat).all (fun j => (List.range roi.width.toNat).all
        (fun i => decide (slice_blend threshold (inp (pixel_index roi.width j i + 0)) = 0)))
    then Run.done (slice_cells b [] inp out threshold roi iscale) else Run.fault

/-! ## The module entry point -/

/-- Modelled from the spec: the stage a pipeline belongs to, the enumeration
`dt_dev_pixelpipe_type_t` declared outside this file.  The spec distinguishes
the preview stage and the full-resolution stage, which `process` compares
`piece->pipe->type` against; the other values stand for the remaining pipes. -/
inductive dt_dev_pixelpipe_type_t where
  | DT_DEV_PIXELPIPE_NONE
  | DT_DEV_PIXELPIPE_EXPORT
  | DT_DEV_PIXELPIPE_FULL
  | DT_DEV_PIXELPIPE_PREVIEW
  | DT_DEV_PIXELPIPE_THUMBNAIL
deriving DecidableEq

structure dt_iop_colorreconstruct_data_t where
  threshold : ℚ
  spatial : ℚ
  range : ℚ
deriving DecidableEq

/-- The cache slot of `dt_iop_colorreconstruct_gui_data_t`: the field `can`
(the widgets are not represented; the mutex appears in `process_traced`). -/
structure dt_iop_colorreconstruct_gui_data_t where
  can : Option dt_iop_colorreconstruct_bilateral_frozen_t
deriving DecidableEq

/-- The calls `process` makes on the grid, recorded in order. -/
inductive Call where
  | thaw
  | init
  | splat
  | blur
  | slice
  | dump
  | freeze
deriving DecidableEq

/-- What `process` reads from its environment besides the pixel buffers and
the roi: `self->dev->gui_attached`, `piece->pipe->type`, `piece->iscale`, the
two values returned by `dt_dev_get_zoom_scale`, and the results of the
allocations made by `init` or `thaw` (`grid_*`) and by `freeze` (`frozen_*`). -/
structure process_env where
  gui_attached : Bool
  pipe_type : dt_dev_pixelpipe_type_t
  iscale : ℚ
  min_scale : ℚ
  cur_scale : ℚ
  grid_malloc_ok : Bool
  grid_mem : Option (List dt_iop_colorreconstruct_Lab_t)
  frozen_malloc_ok : Bool
  frozen_mem : Option (List dt_iop_colorreconstruct_Lab_t)

/-- State after `process`: the output memory, the gui data with its cache
slot, the grid `b` that was sliced and the calls that were made. -/
structure process_result where
  out : ℕ → ℚ
  g : Option dt_iop_colorreconstruct_gui_data_t
  b : dt_iop_colorreconstruct_bilateral_t
  calls : List Call

/-- The first half of `process`: the snapshot `can` taken from the cache slot,
or `NULL`. -/
def process_can (data : dt_iop_colorreconstruct_data_t)
    (g : Option dt_iop_colorreconstruct_gui_data_t) (env : process_env) :
    Option dt_iop_colorreconstruct_bilateral_frozen_t :=
  match g with
  | some gd =>
    if data.spatial > DT_COLORRECONSTRUCT_SPATIAL_APPROX ∧ env.gui_attached = true
        ∧ env.pipe_type = dt_dev_pixelpipe_type_t.DT_DEV_PIXELPIPE_FULL
    then (if env.cur_scale > f32 (float_1_05 * env.min_scale) then gd.can else none)
    else none
  | none => none

/-- The middle of `process`: the grid `b` that is handed to `slice` (`NULL`
included) and the calls made to obtain it. -/
def process_grid (data : dt_iop_colorreconstruct_data_t)
    (g : Option dt_iop_colorreconstruct_gui_data_t) (env : process_env) (inp : ℕ → ℚ)
    (roi_in : dt_iop_roi_t) : Run (Option dt_iop_colorreconstruct_bilateral_t × List Call) :=
  let scale : ℚ := env.iscale / roi_in.scale
  let sigma_r : ℚ := data.range
  let sigma_s : ℚ := data.spatial / scale
  match process_can data g env with
  | some can =>
    Run.done (dt_iop_colorreconstruct_bilateral_thaw env.grid_malloc_ok env.grid_mem (some can),
      [Call.thaw])
  | none =>
    match dt_iop_colorreconstruct_bilateral_init env.grid_malloc_ok env.grid_mem roi_in
        env.iscale sigma_s sigma_r with
    | Run.fault => Run.fault
    | Run.done none => Run.fault
    | Run.done (some b) =>
      match dt_iop_colorreconstruct_bilateral_splat b inp data.threshold with
      | Run.fault => Run.fault
      | Run.done b =>
        match dt_iop_colorreconstruct_bilateral_blur b with
        | Run.fault => Run.fault
        | Run.done b => Run.done (some b, [Call.init, Call.splat, Call.blur])

/-- Function `process`.  `inp` and `out` are the memories behind `ivoid` and `ovoid`.
A `NULL` grid faults in the first function that dereferences it (`splat` after
a failed `init`, `slice` after a failed `thaw`). -/
def process (data : dt_iop_colorreconstruct_data_t)
    (g : Option dt_iop_colorreconstruct_gui_data_t) (env : process_env) (inp : ℕ → ℚ)
    (out : ℕ → ℚ) (roi_in : dt_iop_roi_t) : Run process_result :=
  match process_grid data g env inp roi_in with
  | Run.fault => Run.fault
  | Run.done (none, _) => Run.fault
  | Run.done (some b, calls) =>
    match dt_iop_colorreconstruct_bilateral_slice b inp out data.threshold roi_in env.iscale with
    | Run.fault => Run.fault
    | Run.done out =>
      match g with
      | some gd =>
        if env.gui_attached = true
            ∧ env.pipe_type = dt_dev_pixelpipe_type_t.DT_DEV_PIXELPIPE_PREVIEW
        then
          if data.spatial > DT_COLORRECONSTRUCT_SPATIAL_APPROX
          then
            let can := dt_iop_colorreconstruct_bilateral_freeze env.frozen_malloc_ok
              env.frozen_mem (some b)
            Run.done
              { out := out
                g := some { gd with can := can }
                b := b
                calls := calls ++ [Call.slice, Call.dump, Call.freeze] }
          else Run.done
            { out := out
              g := some { gd with can := none }
              b := b
              calls := calls ++ [Call.slice, Call.dump] }
        else Run.done { out := out, g := some gd, b := b, calls := calls ++ [Call.slice] }
      | none => Run.done { out := out, g := none, b := b, calls := calls ++ [Call.slice] }

/-! ## A concrete scenario

The end-to-end scenario of the specification: a 4 × 4 image at roi scale 1 and
pipeline scale 1, every pixel `L = 50`, `a = 10`, `b = -5`, with the default
`threshold = 100`, `spatial = 400` and `range = 10`. -/

/-- The scenario's input memory (alpha is 1). -/
def scenario_in : ℕ → ℚ :=
  fun k => if k % 4 = 0 then 50 else if k % 4 = 1 then 10 else if k % 4 = 2 then -5 else 1

def scenario_roi : dt_iop_roi_t := ⟨0, 0, 4, 4, 1⟩

def scenario_data : dt_iop_colorreconstruct_data_t := ⟨100, 400, 10⟩

/-- The grid `init` builds in the scenario. -/
def scenario_grid : dt_iop_colorreconstruct_bilateral_t :=
  ⟨5, 5, 11, 4, 4, 0, 0, 1, 1, 10, some (List.replicate 275 Lab_zero)⟩

/-- An environment for the scenario: no GUI, every allocation succeeds. -/
def scenario_env : process_env :=
  { gui_attached := false
    pipe_type := dt_dev_pixelpipe_type_t.DT_DEV_PIXELPIPE_EXPORT
    iscale := 1
    min_scale := 1
    cur_scale := 1
    grid_malloc_ok := true
    grid_mem := some (List.replicate 275 Lab_zero)
    frozen_malloc_ok := true
    frozen_mem := some (List.replicate 275 Lab_zero) }

/-- A cell buffer of the scenario grid's shape in which cell `k` holds
`(L, a, b, weight) = (k + 1, 2 k, -k, k + 3)`. -/
def ramp_cells : List dt_iop_colorreconstruct_Lab_t :=
  (List.range 275).map fun (k : ℕ) => ⟨(k : ℚ) + 1, 2 * (k : ℚ), -(k : ℚ), (k : ℚ) + 3⟩

/-- The scenario's grid filled with `ramp_cells`. -/
def ramp_grid : dt_iop_colorreconstruct_bilateral_t :=
  ⟨5, 5, 11, 4, 4, 0, 0, 1, 1, 10, some ramp_cells⟩

/-- An input whose pixels have `L = 60`, `a = 10`, `b = -5` (alpha is 1). -/
def blend_in : ℕ → ℚ :=
  fun k => if k % 4 = 0 then 60 else if k % 4 = 1 then 10 else if k % 4 = 2 then -5 else 1

/-- A cell buffer of the scenario grid's shape in which every cell holds
`(L, a, b, weight) = (50, 20, 5, 1)`. -/
def flat_cells : List dt_iop_colorreconstruct_Lab_t := List.replicate 275 ⟨50, 20, 5, 1⟩

/-- The scenario's grid filled with `flat_cells`. -/
def flat_grid : dt_iop_colorreconstruct_bilateral_t :=
  ⟨5, 5, 11, 4, 4, 0, 0, 1, 1, 10, some flat_cells⟩

/-- A binary32 threshold, about 74.6742172. -/
def edge_threshold : ℚ := 9787699 / 131072

/-- An input whose pixels have the binary32 luma `4649157 / 65536`, about
70.940506, which is below 95 % of `edge_threshold`, and `a = 10`, `b = -5`
(alpha is 1). -/
def edge_in : ℕ → ℚ :=
  fun k => if k % 4 = 0 then 4649157 / 65536 else if k % 4 = 1 then 10
    else if k % 4 = 2 then -5 else 1

/-- An environment of the full pipe with a GUI attached, zoomed to
`cur_scale = 15414067 / 2097152` (about 7.3499999) over a fit scale of 7; every
allocation succeeds. -/
def zoom_env : process_env :=
  { gui_attached := true
    pipe_type := dt_dev_pixelpipe_type_t.DT_DEV_PIXELPIPE_FULL
    iscale := 1
    min_scale := 7
    cur_scale := 15414067 / 2097152
    grid_malloc_ok := true
    grid_mem := some (List.replicate 275 Lab_zero)
    frozen_malloc_ok := true
    frozen_mem := some (List.replicate 275 Lab_zero) }

/-- A cached snapshot: the frozen copy of `flat_grid`. -/
def zoom_can : dt_iop_colorreconstruct_bilateral_frozen_t :=
  ⟨5, 5, 11, 4, 4, 0, 0, 1, 1, 10, some flat_cells⟩

/-- The grid `init` builds for a 4 × 4 roi with the range pitch `33 / 32`
requested: 98 range cells, with the binary32 pitch `8648049 / 8388608` of
`100 / 97`. -/
def range_grid : dt_iop_colorreconstruct_bilateral_t :=
  ⟨5, 5, 98, 4, 4, 0, 0, 1, 1, 8648049 / 8388608, some (List.replicate 2450 Lab_zero)⟩

/-- The scenario's input with every pixel's chroma replaced (`a = b = 99`). -/
def scenario_in_other : ℕ → ℚ :=
  fun k => if k % 4 = 0 then 50 else if k % 4 = 3 then 1 else 99

/-! ## The OpenCL path: tile negotiation, init, freeze and thaw on the device -/

/-- The local variables of `dt_iop_colorreconstruct_bilateral_init_cl` and
`dt_iop_colorreconstruct_bilateral_thaw_cl` that the two device queries fill
in: `maxsizes[0]`, `maxsizes[1]`, `workgroupsize`, `localmemsize` and
`kernelworkgroupsize`. -/
structure cl_limits where
  maxsizes0 : ℕ
  maxsizes1 : ℕ
  workgroupsize : ℕ
  localmemsize : ℕ
  kernelworkgroupsize : ℕ
deriving DecidableEq

/-- The condition of the `while` loop of the tile negotiation: the tile
`blocksizex × blocksizey` exceeds one of the device limits
(`sizeof(float)` and `sizeof(int)` are 4). -/
def tile_exceeds (lim : cl_limits) (blocksizex blocksizey : ℕ) : Prop :=
  lim.maxsizes0 < blocksizex ∨ lim.maxsizes1 < blocksizey
    ∨ lim.localmemsize < blocksizex * blocksizey * (4 * 4 + 4)
    ∨ lim.workgroupsize < blocksizex * blocksizey
    ∨ lim.kernelworkgroupsize < blocksizex * blocksizey

instance (lim : cl_limits) (blocksizex blocksizey : ℕ) :
    Decidable (tile_exceeds lim blocksizex blocksizey) := by
  unfold tile_exceeds
  infer_instance

/-- The `while` loop of the tile negotiation, from the state
`(blocksizex, blocksizey)`: the state at which the loop is left.  The recursion
is well founded on `blocksizex + blocksizey`, which every iteration that
continues decreases. -/
def tile_loop (lim : cl_limits) (blocksizex blocksizey : ℕ) : ℕ × ℕ :=
  if _h : tile_exceeds lim blocksizex blocksizey then
    if _h1 : blocksizex = 1 ∨ blocksizey = 1 then (blocksizex, blocksizey)
    else if _h2 : blocksizex > blocksizey then tile_loop lim (blocksizex >>> 1) blocksizey
    else tile_loop lim blocksizex (blocksizey >>> 1)
  else (blocksizex, blocksizey)
termination_by blocksizex + blocksizey
decreasing_by
  · simp only [Nat.shiftRight_eq_div_pow, pow_one]
    omega
  · simp only [Nat.shiftRight_eq_div_pow, pow_one]
    have hy : blocksizey ≠ 0 := by
      intro h0
      have hx : blocksizex = 0 := by omega
      subst h0
      subst hx
      simp [tile_exceeds] at _h
    omega

/-- The head shared by `init_cl` and `thaw_cl`: the negotiated tile, or nothing
when the device limits could not be read (`lim = none`) or when the tile found
is smaller than `16 * 16`. -/
def bilateral_cl_blocksize (lim : Option cl_limits) : Option (ℕ × ℕ) :=
  match lim with
  | none => none
  | some lim =>
    let p := tile_loop lim 64 64
    if p.1 * p.2 < 16 * 16 then none else some p

structure dt_iop_colorreconstruct_bilateral_cl_t where
  size_x : ℕ
  size_y : ℕ
  size_z : ℕ
  width : ℤ
  height : ℤ
  x : ℤ
  y : ℤ
  scale : ℚ
  blocksizex : ℕ
  blocksizey : ℕ
  sigma_s : ℚ
  sigma_r : ℚ
  dev_grid : Option (List dt_iop_colorreconstruct_Lab_t)
  dev_grid_tmp : Option (List dt_iop_colorreconstruct_Lab_t)
deriving DecidableEq

/-- Modelled from the spec: the device kernel `colorreconstruct_zero`, whose
code is outside this file; it zero-fills the `wd * ht` floats of the grid
buffer (four floats to a cell). -/
def kernel_colorreconstruct_zero (dev_grid : List dt_iop_colorreconstruct_Lab_t) (wd ht : ℕ) :
    List dt_iop_colorreconstruct_Lab_t :=
  memset_zero dev_grid (wd * ht / 4)

/-- Function `dt_iop_colorreconstruct_bilateral_init_cl`.  `lim` is the outcome
of the two device queries, `malloc_ok` of the `malloc` of the record,
`dev_mem` and `dev_mem_tmp` are the results of the two
`dt_opencl_alloc_device_buffer` calls and `zero_ok` tells whether the
enqueueing of the zero kernel succeeds. -/
def dt_iop_colorreconstruct_bilateral_init_cl (lim : Option cl_limits) (malloc_ok : Bool)
    (dev_mem dev_mem_tmp : Option (List dt_iop_colorreconstruct_Lab_t)) (zero_ok : Bool)
    (roi : dt_iop_roi_t) (iscale sigma_s sigma_r : ℚ) :
    Option dt_iop_colorreconstruct_bilateral_cl_t :=
  match bilateral_cl_blocksize lim with
  | none => none
  | some (blocksizex, blocksizey) =>
    if !malloc_ok then none
    else
      let _x : ℚ := roundf (f32 ((roi.width : ℚ) / sigma_s))
      let _y : ℚ := roundf (f32 ((roi.height : ℚ) / sigma_s))
      let _z : ℚ := roundf (f32 (100 / sigma_r))
      let size_x : ℕ :=
        (CLAMPS (float_to_int _x) 4 DT_COLORRECONSTRUCT_BILATERAL_MAX_RES_S + 1).toNat
      let size_y : ℕ :=
        (CLAMPS (float_to_int _y) 4 DT_COLORRECONSTRUCT_BILATERAL_MAX_RES_S + 1).toNat
      let size_z : ℕ :=
        (CLAMPS (float_to_int _z) 4 DT_COLORRECONSTRUCT_BILATERAL_MAX_RES_R + 1).toNat
      match dev_mem with
      | none => none
      | some grid =>
        match dev_mem_tmp with
        | none => none
        | some tmp =>
          let wd : ℕ := 4 * size_x
          let ht : ℕ := size_y * size_z
          if !zero_ok then none
          else
            some
              { size_x := size_x
                size_y := size_y
                size_z := size_z
                width := roi.width
                height := roi.height
                x := roi.x
                y := roi.y
                scale := iscale / roi.scale
                blocksizex := blocksizex
                blocksizey := blocksizey
                sigma_s := MAX (f32 ((roi.height : ℚ) / ((size_y : ℚ) - 1)))
                               (f32 ((roi.width : ℚ) / ((size_x : ℚ) - 1)))
                sigma_r := f32 (100 / ((size_z : ℚ) - 1))
                dev_grid := some (kernel_colorreconstruct_zero grid wd ht)
                dev_grid_tmp := some tmp }

/-- Function `dt_iop_colorreconstruct_bilateral_freeze_cl`.  `malloc_ok` is the
outcome of the `malloc` of the snapshot record, `mem` the result of
`dt_alloc_align` for the host buffer and `read_ok` tells whether
`dt_opencl_read_buffer_from_device` succeeds.  The transfer is attempted only
when both buffers are present; there is no `else` branch, so otherwise the
snapshot is returned as it stands. -/
def dt_iop_colorreconstruct_bilateral_freeze_cl (malloc_ok : Bool)
    (mem : Option (List dt_iop_colorreconstruct_Lab_t)) (read_ok : Bool)
    (b : Option dt_iop_colorreconstruct_bilateral_cl_t) :
    Option dt_iop_colorreconstruct_bilateral_frozen_t :=
  match b with
  | none => none
  | some b =>
    if !malloc_ok then none
    else
      match mem, b.dev_grid with
      | some dst, some src =>
        if !read_ok then none
        else
          some
            { size_x := b.size_x
              size_y := b.size_y
              size_z := b.size_z
              width := b.width
              height := b.height
              x := b.x
              y := b.y
              scale := b.scale
              sigma_s := b.sigma_s
              sigma_r := b.sigma_r
              buf := some (memcpy dst src (b.size_x * b.size_y * b.size_z)) }
      | _, _ =>
        some
          { size_x := b.size_x
            size_y := b.size_y
            size_z := b.size_z
            width := b.width
            height := b.height
            x := b.x
            y := b.y
            scale := b.scale
            sigma_s := b.sigma_s
            sigma_r := b.sigma_r
            buf := mem }

/-- Function `dt_iop_colorreconstruct_bilateral_thaw_cl`, with the parameters
of `init_cl`; `write_ok` tells whether `dt_opencl_write_buffer_to_device`
succeeds.  The transfer is attempted only when the snapshot has a host buffer;
otherwise the grid is returned with its device buffer as allocated. -/
def dt_iop_colorreconstruct_bilateral_thaw_cl (lim : Option cl_limits) (malloc_ok : Bool)
    (dev_mem dev_mem_tmp : Option (List dt_iop_colorreconstruct_Lab_t)) (write_ok : Bool)
    (bf : Option dt_iop_colorreconstruct_bilateral_frozen_t) :
    Option dt_iop_colorreconstruct_bilateral_cl_t :=
  match bf with
  | none => none
  | some bf =>
    match bilateral_cl_blocksize lim with
    | none => none
    | some (blocksizex, blocksizey) =>
      if !malloc_ok then none
      else
        match dev_mem with
        | none => none
        | some grid =>
          match dev_mem_tmp with
          | none => none
          | some tmp =>
            match bf.buf with
            | some src =>
              if !write_ok then none
              else
                some
                  { size_x := bf.size_x
                    size_y := bf.size_y
                    size_z := bf.size_z
                    width := bf.width
                    height := bf.height
                    x := bf.x
                    y := bf.y
                    scale := bf.scale
                    blocksizex := blocksizex
                    blocksizey := blocksizey
                    sigma_s := bf.sigma_s
                    sigma_r := bf.sigma_r
                    dev_grid := some (memcpy grid src (bf.size_x * bf.size_y * bf.size_z))
                    dev_grid_tmp := some tmp }
            | none =>
              some
                { size_x := bf.size_x
                  size_y := bf.size_y
                  size_z := bf.size_z
                  width := bf.width
                  height := bf.height
                  x := bf.x
                  y := bf.y
                  scale := bf.scale
                  blocksizex := blocksizex
                  blocksizey := blocksizey
                  sigma_s := bf.sigma_s
                  sigma_r := bf.sigma_r
                  dev_grid := some grid
                  dev_grid_tmp := some tmp }

/-- Device limits for the scenario: 1024 items in each dimension and in total,
48 KiB of local memory. -/
def scenario_limits : cl_limits := ⟨1024, 1024, 1024, 49152, 1024⟩

/-- A device grid of the scenario's dimensions with both device buffers
present. -/
def scenario_grid_cl : dt_iop_colorreconstruct_bilateral_cl_t :=
  { size_x := 5
    size_y := 5
    size_z := 11
    width := 4
    height := 4
    x := 0
    y := 0
    scale := 1
    blocksizex := 32
    blocksizey := 32
    sigma_s := 1
    sigma_r := 10
    dev_grid := some (List.replicate 275 Lab_zero)
    dev_grid_tmp := some (List.replicate 275 Lab_zero) }


/-! ## The cache mutex in `process` and `process_cl` -/

/-- What `process` and `process_cl` do in order: `dt_pthread_mutex_lock` and
`dt_pthread_mutex_unlock` on `g->lock`, the read of the pointer `g->can`, the
assignment to `g->can`, and the calls on the grid. -/
inductive Event where
  | lock
  | unlock
  | read_can
  | install
  | op (c : Call)
deriving DecidableEq

/-- The call of an event, if it is one. -/
def Event.call : Event → Option Call
  | Event.op c => some c
  | _ => none

/-- The events of a trace, other than those on the mutex itself, that occur
while the mutex is held; `held` tells whether it is held at the start of the
trace. -/
def events_under_lock : Bool → List Event → List Event
  | _, [] => []
  | _, Event.lock :: es => events_under_lock true es
  | _, Event.unlock :: es => events_under_lock false es
  | held, Event.read_can :: es =>
    if held then Event.read_can :: events_under_lock held es else events_under_lock held es
  | held, Event.install :: es =>
    if held then Event.install :: events_under_lock held es else events_under_lock held es
  | held, Event.op c :: es =>
    if held then Event.op c :: events_under_lock held es else events_under_lock held es

/-- The events of a trace, other than those on the mutex itself, that occur
while the mutex is not held. -/
def events_outside_lock : Bool → List Event → List Event
  | _, [] => []
  | _, Event.lock :: es => events_outside_lock true es
  | _, Event.unlock :: es => events_outside_lock false es
  | held, Event.read_can :: es =>
    if held then events_outside_lock held es else Event.read_can :: events_outside_lock held es
  | held, Event.install :: es =>
    if held then events_outside_lock held es else Event.install :: events_outside_lock held es
  | held, Event.op c :: es =>
    if held then events_outside_lock held es else Event.op c :: events_outside_lock held es

/-- The first block of `process` and of `process_cl`, with its events: on the
full pipe with a GUI and `spatial` above the approximation limit the mutex is
taken, the pointer `g->can` is read when the zoom test passes, and the mutex
is released.  The result is the local `can` and the events. -/
def process_first_block (data : dt_iop_colorreconstruct_data_t)
    (g : Option dt_iop_colorreconstruct_gui_data_t) (env : process_env) :
    Option dt_iop_colorreconstruct_bilateral_frozen_t × List Event :=
  match g with
  | some gd =>
    if data.spatial > DT_COLORRECONSTRUCT_SPATIAL_APPROX ∧ env.gui_attached = true
        ∧ env.pipe_type = dt_dev_pixelpipe_type_t.DT_DEV_PIXELPIPE_FULL
    then
      if env.cur_scale > f32 (float_1_05 * env.min_scale)
      then (gd.can, [Event.lock, Event.read_can, Event.unlock])
      else (none, [Event.lock, Event.unlock])
    else (none, [])
  | none => (none, [])

/-- The events of the last block of `process` and of `process_cl`: on the
preview pipe with a GUI the mutex is taken, the cached snapshot is dumped, the
new one is made by `freeze` when `spatial` is above the approximation limit,
the result (or `NULL`) is assigned to `g->can`, and the mutex is released. -/
def process_last_block_events (data : dt_iop_colorreconstruct_data_t)
    (g : Option dt_iop_colorreconstruct_gui_data_t) (env : process_env) : List Event :=
  match g with
  | some _ =>
    if env.gui_attached = true
        ∧ env.pipe_type = dt_dev_pixelpipe_type_t.DT_DEV_PIXELPIPE_PREVIEW
    then
      if data.spatial > DT_COLORRECONSTRUCT_SPATIAL_APPROX
      then [Event.lock, Event.op Call.dump, Event.op Call.freeze, Event.install, Event.unlock]
      else [Event.lock, Event.op Call.dump, Event.install, Event.unlock]
    else []
  | none => []

/-- Function `process` with its events: the statements of the source in order,
each call on the grid, each operation on the mutex and each access to the
slot `g->can` recorded when it is executed.  The result is the state `process`
returns and the events of the run; in the last block the events are recorded
with the statements that update the slot. -/
def process_traced (data : dt_iop_colorreconstruct_data_t)
    (g : Option dt_iop_colorreconstruct_gui_data_t) (env : process_env) (inp : ℕ → ℚ)
    (out : ℕ → ℚ) (roi_in : dt_iop_roi_t) : Run (process_result × List Event) :=
  let scale : ℚ := env.iscale / roi_in.scale
  let sigma_r : ℚ := data.range
  let sigma_s : ℚ := data.spatial / scale
  let first := process_first_block data g env
  let grid : Run (Option dt_iop_colorreconstruct_bilateral_t × List Event) :=
    match first.1 with
    | some can =>
      Run.done (dt_iop_colorreconstruct_bilateral_thaw env.grid_malloc_ok env.grid_mem (some can),
        first.2 ++ [Event.op Call.thaw])
    | none =>
      match dt_iop_colorreconstruct_bilateral_init env.grid_malloc_ok env.grid_mem roi_in
          env.iscale sigma_s sigma_r with
      | Run.fault => Run.fault
      | Run.done none => Run.fault
      | Run.done (some b) =>
        match dt_iop_colorreconstruct_bilateral_splat b inp data.threshold with
        | Run.fault => Run.fault
        | Run.done b =>
          match dt_iop_colorreconstruct_bilateral_blur b with
          | Run.fault => Run.fault
          | Run.done b =>
            Run.done (some b,
              first.2 ++ [Event.op Call.init, Event.op Call.splat, Event.op Call.blur])
  match grid with
  | Run.fault => Run.fault
  | Run.done (none, _) => Run.fault
  | Run.done (some b, es) =>
    match dt_iop_colorreconstruct_bilateral_slice b inp out data.threshold roi_in env.iscale with
    | Run.fault => Run.fault
    | Run.done out =>
      let es := es ++ [Event.op Call.slice]
      match g with
      | some gd =>
        if env.gui_attached = true
            ∧ env.pipe_type = dt_dev_pixelpipe_type_t.DT_DEV_PIXELPIPE_PREVIEW
        then
          if data.spatial > DT_COLORRECONSTRUCT_SPATIAL_APPROX
          then
            let can := dt_iop_colorreconstruct_bilateral_freeze env.frozen_malloc_ok
              env.frozen_mem (some b)
            let es := es ++ [Event.lock, Event.op Call.dump, Event.op Call.freeze,
              Event.install, Event.unlock]
            Run.done
              ({ out := out
                 g := some { gd with can := can }
                 b := b
                 calls := es.filterMap Event.call }, es)
          else
            let es := es ++ [Event.lock, Event.op Call.dump, Event.install, Event.unlock]
            Run.done
              ({ out := out
                 g := some { gd with can := none }
                 b := b
                 calls := es.filterMap Event.call }, es)
        else
          Run.done ({ out := out, g := some gd, b := b, calls := es.filterMap Event.call }, es)
      | none =>
        Run.done ({ out := out, g := none, b := b, calls := es.filterMap Event.call }, es)

/-- The events of a run of `process_cl` and its return value.  `grid_ok` tells
whether `thaw_cl` or `init_cl` returns a grid, `splat_ok`, `blur_ok` and
`slice_ok` whether the device steps return `CL_SUCCESS`; a failure jumps to
the `error` label, which takes no lock and does not touch `g->can`. -/
def process_cl_events (data : dt_iop_colorreconstruct_data_t)
    (g : Option dt_iop_colorreconstruct_gui_data_t) (env : process_env)
    (grid_ok splat_ok blur_ok slice_ok : Bool) : List Event × Bool :=
  let first := process_first_block data g env
  let last := process_last_block_events data g env
  match first.1 with
  | some _ =>
    if !grid_ok then (first.2 ++ [Event.op Call.thaw], false)
    else if !slice_ok then (first.2 ++ [Event.op Call.thaw, Event.op Call.slice], false)
    else (first.2 ++ [Event.op Call.thaw, Event.op Call.slice] ++ last, true)
  | none =>
    if !grid_ok then (first.2 ++ [Event.op Call.init], false)
    else if !splat_ok then (first.2 ++ [Event.op Call.init, Event.op Call.splat], false)
    else if !blur_ok then
      (first.2 ++ [Event.op Call.init, Event.op Call.splat, Event.op Call.blur], false)
    else if !slice_ok then
      (first.2 ++ [Event.op Call.init, Event.op Call.splat, Event.op Call.blur,
        Event.op Call.slice], false)
    else
      (first.2 ++ [Event.op Call.init, Event.op Call.splat, Event.op Call.blur,
        Event.op Call.slice] ++ last, true)

/-- The two pixelpipes that run `process` on one module instance, each in its
own thread. -/
inductive Stage where
  | full
  | preview
deriving DecidableEq

/-- Whether a schedule, the events of the two stages in the order in which
they are executed, respects the mutex: a stage takes it only when it is free
and only its holder releases it.  `holder` is the stage that holds the mutex
at the start. -/
def mutex_respected : Option Stage → List (Stage × Event) → Bool
  | _, [] => true
  | none, (s, Event.lock) :: es => mutex_respected (some s) es
  | some _, (_, Event.lock) :: _ => false
  | some h, (s, Event.unlock) :: es => if h = s then mutex_respected none es else false
  | none, (_, Event.unlock) :: _ => false
  | holder, (_, Event.read_can) :: es => mutex_respected holder es
  | holder, (_, Event.install) :: es => mutex_respected holder es
  | holder, (_, Event.op _) :: es => mutex_respected holder es

/-- The events of one stage in a schedule, in order. -/
def schedule_of (s : Stage) (sched : List (Stage × Event)) : List Event :=
  (sched.filter fun p => decide (p.1 = s)).map Prod.snd

/-- A schedule of a run of the full stage and a run of the preview stage: the
full stage reads the pointer `g->can` and releases the mutex, the preview
stage runs to its end, dumping the snapshot the pointer refers to, and the
full stage then makes its thaw copy from the pointer it holds. -/
def race_schedule : List (Stage × Event) :=
  [(Stage.full, Event.lock), (Stage.full, Event.read_can), (Stage.full, Event.unlock),
   (Stage.preview, Event.op Call.init), (Stage.preview, Event.op Call.splat),
   (Stage.preview, Event.op Call.blur), (Stage.preview, Event.op Call.slice),
   (Stage.preview, Event.lock), (Stage.preview, Event.op Call.dump),
   (Stage.preview, Event.op Call.freeze), (Stage.preview, Event.install),
   (Stage.preview, Event.unlock),
   (Stage.full, Event.op Call.thaw), (Stage.full, Event.op Call.slice)]

/-- The scenario run by the preview pipe with a GUI attached. -/
def scenario_env_preview : process_env :=
  { gui_attached := true
    pipe_type := dt_dev_pixelpipe_type_t.DT_DEV_PIXELPIPE_PREVIEW
    iscale := 1
    min_scale := 1
    cur_scale := 1
    grid_malloc_ok := true
    grid_mem := some (List.replicate 275 Lab_zero)
    frozen_malloc_ok := true
    frozen_mem := some (List.replicate 275 Lab_zero) }

/-- A line of five cells with `L = 1, 2, 3, 4, 5`. -/
def scenario_line : List dt_iop_colorreconstruct_Lab_t :=
  [⟨1, 10, -5, 1⟩, ⟨2, 10, -5, 1⟩, ⟨3, 10, -5, 1⟩, ⟨4, 10, -5, 1⟩, ⟨5, 10, -5, 1⟩]

/-! ## Memory estimates for tiling -/

/-- The value of `sizeof(float)` on the platforms the module is built for
(`float` is IEEE binary32); the cell type has four `float` fields, so a cell
takes `4 * sizeof_float = 16` bytes. -/
def sizeof_float : ℕ := 4

/-- Function `dt_iop_colorreconstruct_bilateral_memory_use`.  The product is
computed in `size_t`, that is modulo `2 ^ 64`. -/
def dt_iop_colorreconstruct_bilateral_memory_use (width height : ℤ) (sigma_s sigma_r : ℚ) :
    ℕ :=
  let _x : ℚ := roundf (f32 ((width : ℚ) / sigma_s))
  let _y : ℚ := roundf (f32 ((height : ℚ) / sigma_s))
  let _z : ℚ := roundf (f32 (100 / sigma_r))
  let size_x : ℕ :=
    (CLAMPS (float_to_int _x) 4 DT_COLORRECONSTRUCT_BILATERAL_MAX_RES_S + 1).toNat
  let size_y : ℕ :=
    (CLAMPS (float_to_int _y) 4 DT_COLORRECONSTRUCT_BILATERAL_MAX_RES_S + 1).toNat
  let size_z : ℕ :=
    (CLAMPS (float_to_int _z) 4 DT_COLORRECONSTRUCT_BILATERAL_MAX_RES_R + 1).toNat
  (size_x * size_y * size_z * 4 * sizeof_float * 2) % 2 ^ 64

/-- Function `dt_iop_colorreconstruct_bilateral_singlebuffer_size`.  The
product is computed in `size_t`, that is modulo `2 ^ 64`. -/
def dt_iop_colorreconstruct_bilateral_singlebuffer_size (width height : ℤ)
    (sigma_s sigma_r : ℚ) : ℕ :=
  let _x : ℚ := roundf (f32 ((width : ℚ) / sigma_s))
  let _y : ℚ := roundf (f32 ((height : ℚ) / sigma_s))
  let _z : ℚ := roundf (f32 (100 / sigma_r))
  let size_x : ℕ :=
    (CLAMPS (float_to_int _x) 4 DT_COLORRECONSTRUCT_BILATERAL_MAX_RES_S + 1).toNat
  let size_y : ℕ :=
    (CLAMPS (float_to_int _y) 4 DT_COLORRECONSTRUCT_BILATERAL_MAX_RES_S + 1).toNat
  let size_z : ℕ :=
    (CLAMPS (float_to_int _z) 4 DT_COLORRECONSTRUCT_BILATERAL_MAX_RES_R + 1).toNat
  (size_x * size_y * size_z * 4 * sizeof_float) % 2 ^ 64

/-! ## The trilinear lookup of slice, by parts -/

/-- The floor indices `(xi, yi, zi)` of the trilinear lookup of `slice` at grid
coordinates `(x, y, z)`. -/
def slice_floor_index (b : dt_iop_colorreconstruct_bilateral_t) (x y z : ℚ) : ℤ × ℤ × ℤ :=
  (MIN (float_to_int x) ((b.size_x : ℤ) - 2), MIN (float_to_int y) ((b.size_y : ℤ) - 2),
   MIN (float_to_int z) ((b.size_z : ℤ) - 2))

/-- The eight indices `gi`, `gi + ox`, `gi + oy`, `gi + ox + oy`, `gi + oz`,
`gi + ox + oz`, `gi + oy + oz`, `gi + ox + oy + oz` at which the trilinear
lookup of `slice` reads the cell buffer. -/
def slice_lookup_indices (b : dt_iop_colorreconstruct_bilateral_t) (x y z : ℚ) : List ℕ :=
  let ox : ℕ := 1
  let oy : ℕ := b.size_x
  let oz : ℕ := b.size_y * b.size_x
  let xi : ℤ := (slice_floor_index b x y z).1
  let yi : ℤ := (slice_floor_index b x y z).2.1
  let zi : ℤ := (slice_floor_index b x y z).2.2
  let gi : ℕ := (xi + (b.size_x : ℤ) * (yi + (b.size_y : ℤ) * zi)).toNat
  [gi, gi + ox, gi + oy, gi + ox + oy, gi + oz, gi + ox + oz, gi + oy + oz, gi + ox + oy + oz]

/-! ## The buffer accesses of `blur_line` -/

/-- One store of `blur_line`: the index of the cell written and the indices of
the cells of the buffer read by the statement (the saved cells `tmp1`, `tmp2`,
`tmp3` are locals). -/
structure blur_access where
  write : ℕ
  reads : List ℕ
deriving DecidableEq

/-- A cell buffer together with the log of the stores made to it. -/
structure traced_buf where
  buf : List dt_iop_colorreconstruct_Lab_t
  log : List blur_access

/-- One store statement of `blur_line` on a traced buffer: the cells at the
indices `reads` are loaded, `buf[index]` receives `val` of the loaded cells, and
the access is appended to the log.  The loaded cells are returned as well (the
source saves `buf[index]` in a local before it stores to it). -/
def traced_store (m : traced_buf) (index : ℕ) (reads : List ℕ)
    (val : List dt_iop_colorreconstruct_Lab_t → dt_iop_colorreconstruct_Lab_t) :
    traced_buf × List dt_iop_colorreconstruct_Lab_t :=
  let cells := reads.map (rd m.buf)
  (⟨wr m.buf index (val cells), m.log ++ [⟨index, reads⟩]⟩, cells)

/-- Local state of the innermost loop of `blur_line` on a traced buffer. -/
structure blur_traced_state where
  m : traced_buf
  index : ℕ
  tmp1 : dt_iop_colorreconstruct_Lab_t
  tmp2 : dt_iop_colorreconstruct_Lab_t

/-- One iteration of `for(int i = 2; i < size3 - 2; i++)` in `blur_line`, every
access to the buffer made through `traced_store`. -/
def blur_line_step_traced (offset3 : ℕ) (s : blur_traced_state) : blur_traced_state :=
  let r := traced_store s.m s.index [s.index, s.index + offset3, s.index + 2 * offset3]
    (fun c => Lab_fields fun f =>
      f (c.getD 0 Lab_zero) * blur_w0 + blur_w1 * (f (c.getD 1 Lab_zero) + f s.tmp2)
        + blur_w2 * (f (c.getD 2 Lab_zero) + f s.tmp1))
  { m := r.1, index := s.index + offset3, tmp1 := s.tmp2, tmp2 := r.2.getD 0 Lab_zero }

/-- One iteration of `for(int j = 0; j < size2; j++)` in `blur_line`, every
access to the buffer made through `traced_store`: the five store statements of
the source in order, with the cells each of them reads from the buffer. -/
def blur_line_row_traced (offset2 offset3 size3 : ℕ) (st : traced_buf × ℕ) : traced_buf × ℕ :=
  let m := st.1
  let index := st.2
  let r := traced_store m index [index, index + offset3, index + 2 * offset3]
    (fun c => Lab_fields fun f =>
      f (c.getD 0 Lab_zero) * blur_w0 + blur_w1 * f (c.getD 1 Lab_zero)
        + blur_w2 * f (c.getD 2 Lab_zero))
  let tmp1 := r.2.getD 0 Lab_zero
  let index := index + offset3
  let r := traced_store r.1 index [index, index + offset3, index + 2 * offset3]
    (fun c => Lab_fields fun f =>
      f (c.getD 0 Lab_zero) * blur_w0 + blur_w1 * (f (c.getD 1 Lab_zero) + f tmp1)
        + blur_w2 * f (c.getD 2 Lab_zero))
  let tmp2 := r.2.getD 0 Lab_zero
  let index := index + offset3
  let s := (blur_line_step_traced offset3)^[size3 - 4]
    { m := r.1, index := index, tmp1 := tmp1, tmp2 := tmp2 }
  let r := traced_store s.m s.index [s.index, s.index + offset3]
    (fun c => Lab_fields fun f =>
      f (c.getD 0 Lab_zero) * blur_w0 + blur_w1 * (f (c.getD 1 Lab_zero) + f s.tmp2)
        + blur_w2 * f s.tmp1)
  let tmp3 := r.2.getD 0 Lab_zero
  let index := s.index + offset3
  let r := traced_store r.1 index [index]
    (fun c => Lab_fields fun f =>
      f (c.getD 0 Lab_zero) * blur_w0 + blur_w1 * f tmp3 + blur_w2 * f s.tmp2)
  let index := index + offset3
  (r.1, index + offset2 - offset3 * size3)

/-- Function `blur_line` on a traced buffer: the buffer it leaves and the log
of its stores, in the order of the source. -/
def blur_line_traced (m : traced_buf) (offset1 offset2 offset3 size1 size2 size3 : ℕ) :
    traced_buf :=
  (List.range size1).foldl
    (fun m k => ((blur_line_row_traced offset2 offset3 size3)^[size2] (m, k * offset1)).1) m

/-- The log of `blur_line_step_traced` alone: the access it appends and the
`index` it leaves. -/
def blur_access_step (offset3 : ℕ) (s : List blur_access × ℕ) : List blur_access × ℕ :=
  (s.1 ++ [⟨s.2, [s.2, s.2 + offset3, s.2 + 2 * offset3]⟩], s.2 + offset3)

/-- The log of `blur_line_row_traced` alone: the five kinds of accesses it
appends, and the `index` it leaves. -/
def blur_line_row_accesses (offset2 offset3 size3 : ℕ) (st : List blur_access × ℕ) :
    List blur_access × ℕ :=
  let acc := st.1
  let index := st.2
  let acc := acc ++ [⟨index, [index, index + offset3, index + 2 * offset3]⟩]
  let index := index + offset3
  let acc := acc ++ [⟨index, [index, index + offset3, index + 2 * offset3]⟩]
  let index := index + offset3
  let s := (blur_access_step offset3)^[size3 - 4] (acc, index)
  let acc := s.1 ++ [⟨s.2, [s.2, s.2 + offset3]⟩]
  let index := s.2 + offset3
  let acc := acc ++ [⟨index, [index]⟩]
  let index := index + offset3
  (acc, index + offset2 - offset3 * size3)

/-- The log of `blur_line_traced` alone, started empty: it does not depend on
the contents of the buffer. -/
def blur_line_accesses (offset1 offset2 offset3 size1 size2 size3 : ℕ) : List blur_access :=
  (List.range size1).foldl
    (fun acc k => ((blur_line_row_accesses offset2 offset3 size3)^[size2] (acc, k * offset1)).1)
    []

/-- The access of `blur_line` at position `t` of the line that starts at
`index`, in closed form. -/
def blur_line_access_at (offset3 size3 index t : ℕ) : blur_access :=
  ⟨index + t * offset3,
   if t + 2 < size3 then
     [index + t * offset3, index + (t + 1) * offset3, index + (t + 2) * offset3]
   else if t + 1 < size3 then [index + t * offset3, index + (t + 1) * offset3]
   else [index + t * offset3]⟩

/-! ## The weight guard of slice -/

/-- The relation between the `weight` and the `L` of a cell accumulated from
pixels of positive luma: both are non-negative, and `weight` is positive
exactly when `L` is. -/
def cell_guarded (w l : ℚ) : Prop := 0 ≤ w ∧ 0 ≤ l ∧ (0 < w ↔ 0 < l)
/-! ## Theorems -/

/-! ### Rounding to binary32 -/

/-- The rounded integer is within one half of the argument. -/
theorem round_half_even_near (t : ℚ) : |(round_half_even t : ℚ) - t| ≤ 1 / 2 := by
  unfold round_half_even
  have h1 := Int.floor_le t
  have h2 := Int.lt_floor_add_one t
  simp only []
  split_ifs with a b c
  · rw [abs_le]; constructor <;> linarith
  · rw [abs_le]; push_cast; constructor <;> linarith
  · rw [abs_le]; constructor <;> linarith
  · rw [abs_le]; push_cast; constructor <;> linarith

/-- An integer strictly closer than one half is the rounded value. -/
theorem round_half_even_eq (t : ℚ) (n : ℤ) (h : |t - n| < 1 / 2) : round_half_even t = n := by
  rw [abs_lt] at h
  unfold round_half_even
  simp only []
  by_cases hn : (n : ℚ) ≤ t
  · have hf : ⌊t⌋ = n := by
      rw [Int.floor_eq_iff]
      constructor
      · exact hn
      · linarith
    rw [hf, if_pos (by linarith)]
  · have hf : ⌊t⌋ = n - 1 := by
      rw [Int.floor_eq_iff]
      push_cast
      constructor <;> linarith
    rw [hf]
    push_cast
    rw [if_neg (by linarith), if_pos (by linarith)]
    ring

/-- A tie goes to the even neighbour. -/
theorem round_half_even_tie (t : ℚ) (n : ℤ) (hn : n % 2 = 0)
    (h : t = n + 1 / 2 ∨ t = n - 1 / 2) : round_half_even t = n := by
  unfold round_half_even
  simp only []
  rcases h with h | h
  · have hf : ⌊t⌋ = n := by
      rw [Int.floor_eq_iff]
      constructor <;> linarith
    rw [hf, if_neg (by linarith), if_neg (by linarith), if_pos hn]
  · have hf : ⌊t⌋ = n - 1 := by
      rw [Int.floor_eq_iff]
      push_cast
      constructor <;> linarith
    rw [hf]
    push_cast
    rw [if_neg (by linarith), if_neg (by linarith), if_neg (by omega)]
    ring

theorem round_half_even_intCast (n : ℤ) : round_half_even (n : ℚ) = n :=
  round_half_even_eq _ n (by simp)

/-- The binade of a nonzero rational. -/
theorem binade_bounds (q : ℚ) (hq : q ≠ 0) :
    (2 : ℚ) ^ (Int.log 2 |q|) ≤ |q| ∧ |q| < (2 : ℚ) ^ (Int.log 2 |q| + 1) := by
  have hpos : 0 < |q| := abs_pos.mpr hq
  constructor
  · exact_mod_cast Int.zpow_log_le_self (b := 2) (by norm_num) hpos
  · exact_mod_cast Int.lt_zpow_succ_log_self (b := 2) (by norm_num) |q|

/-- The binade is determined by its bounds. -/
theorem binade_eq (q : ℚ) (e : ℤ) (h1 : (2 : ℚ) ^ e ≤ |q|) (h2 : |q| < (2 : ℚ) ^ (e + 1)) :
    Int.log 2 |q| = e := by
  have hpos : 0 < |q| := lt_of_lt_of_le (zpow_pos (by norm_num) e) h1
  have a : e ≤ Int.log 2 |q| := by
    rw [← Int.zpow_le_iff_le_log (by norm_num) hpos]
    exact_mod_cast h1
  have b : Int.log 2 |q| < e + 1 := by
    rw [← Int.lt_zpow_iff_log_lt (by norm_num) hpos]
    exact_mod_cast h2
  omega

theorem f32_zero : f32 0 = 0 := by
  unfold f32
  rw [if_pos rfl]

/-- Evaluation of the rounding in a known binade. -/
theorem f32_eval (q : ℚ) (e : ℤ) (h1 : (2 : ℚ) ^ e ≤ |q|) (h2 : |q| < (2 : ℚ) ^ (e + 1)) :
    f32 q = (round_half_even (q / (2 : ℚ) ^ (e - 23)) : ℚ) * (2 : ℚ) ^ (e - 23) := by
  have hq : q ≠ 0 := by
    intro h
    rw [h, abs_zero] at h1
    exact absurd h1 (not_le.mpr (zpow_pos (by norm_num) e))
  unfold f32
  rw [if_neg hq]
  simp only [binade_eq q e h1 h2]

/-- The relative error of the rounding is at most `2 ^ (-24)`. -/
theorem f32_error (q : ℚ) : |f32 q - q| ≤ |q| / 2 ^ 24 := by
  by_cases hq : q = 0
  · rw [hq, f32_zero]; simp
  · obtain ⟨h1, h2⟩ := binade_bounds q hq
    rw [f32_eval q _ h1 h2]
    have hu : (0 : ℚ) < 2 ^ (Int.log 2 |q| - 23) := zpow_pos (by norm_num) _
    have hn := round_half_even_near (q / 2 ^ (Int.log 2 |q| - 23))
    have e1 : (round_half_even (q / 2 ^ (Int.log 2 |q| - 23)) : ℚ) * 2 ^ (Int.log 2 |q| - 23) - q
        = ((round_half_even (q / 2 ^ (Int.log 2 |q| - 23)) : ℚ) - q / 2 ^ (Int.log 2 |q| - 23))
          * 2 ^ (Int.log 2 |q| - 23) := by
      field_simp
    rw [e1, abs_mul, abs_of_pos hu]
    have e2 : (2 : ℚ) ^ (Int.log 2 |q| - 23) = 2 ^ (Int.log 2 |q|) / 2 ^ 23 := by
      rw [zpow_sub₀ (by norm_num)]
      norm_num
    calc |(round_half_even (q / 2 ^ (Int.log 2 |q| - 23)) : ℚ) - q / 2 ^ (Int.log 2 |q| - 23)|
          * 2 ^ (Int.log 2 |q| - 23)
        ≤ 1 / 2 * 2 ^ (Int.log 2 |q| - 23) := by
          exact mul_le_mul_of_nonneg_right hn (le_of_lt hu)
      _ = 2 ^ (Int.log 2 |q|) / 2 ^ 24 := by rw [e2]; ring
      _ ≤ |q| / 2 ^ 24 := by
          apply div_le_div_of_nonneg_right h1 (by norm_num)

/-- The rounding keeps the sign of a positive value. -/
theorem f32_pos (q : ℚ) (hq : 0 < q) : 0 < f32 q := by
  have h := f32_error q
  rw [abs_of_pos hq, abs_le] at h
  have : q / 2 ^ 24 < q := by
    rw [div_lt_iff₀ (by norm_num)]
    nlinarith
  linarith [h.1]

/-- The rounding keeps the sign of a negative value. -/
theorem f32_neg (q : ℚ) (hq : q < 0) : f32 q < 0 := by
  have h := f32_error q
  rw [abs_of_neg hq, abs_le] at h
  have : -q / 2 ^ 24 < -q := by
    rw [div_lt_iff₀ (by norm_num)]
    nlinarith
  linarith [h.2]

/-- The rounded value is positive exactly when the value is. -/
theorem f32_pos_iff (q : ℚ) : 0 < f32 q ↔ 0 < q := by
  constructor
  · intro h
    by_contra hq
    rcases lt_or_eq_of_le (not_lt.mp hq) with a | a
    · linarith [f32_neg q a]
    · rw [a, f32_zero] at h
      exact lt_irrefl _ h
  · exact f32_pos q

/-- Evaluation of the rounding of a positive value: the binade `e` and the
nearest integer `n` of the scaled value determine the result. -/
theorem f32_eval_pos (q : ℚ) (e n : ℤ) (h1 : (2 : ℚ) ^ e ≤ q) (h2 : q < (2 : ℚ) ^ (e + 1))
    (h3 : (n : ℚ) - 1 / 2 < q / (2 : ℚ) ^ (e - 23))
    (h4 : q / (2 : ℚ) ^ (e - 23) < (n : ℚ) + 1 / 2) :
    f32 q = (n : ℚ) * (2 : ℚ) ^ (e - 23) := by
  have hq : 0 < q := lt_of_lt_of_le (zpow_pos (by norm_num) e) h1
  rw [f32_eval q e (by rwa [abs_of_pos hq]) (by rwa [abs_of_pos hq]),
    round_half_even_eq _ n (by rw [abs_lt]; constructor <;> linarith)]

/-- Evaluation of the rounding of a positive value that lies halfway between
two neighbours: the even one is taken. -/
theorem f32_eval_tie (q : ℚ) (e n : ℤ) (h1 : (2 : ℚ) ^ e ≤ q) (h2 : q < (2 : ℚ) ^ (e + 1))
    (hn : n % 2 = 0)
    (h3 : q / (2 : ℚ) ^ (e - 23) = (n : ℚ) + 1 / 2 ∨ q / (2 : ℚ) ^ (e - 23) = (n : ℚ) - 1 / 2) :
    f32 q = (n : ℚ) * (2 : ℚ) ^ (e - 23) := by
  have hq : 0 < q := lt_of_lt_of_le (zpow_pos (by norm_num) e) h1
  rw [f32_eval q e (by rwa [abs_of_pos hq]) (by rwa [abs_of_pos hq]),
    round_half_even_tie _ n hn h3]

/-- A number with at most 24 significant bits is its own rounding. -/
theorem f32_fixed (m k : ℤ) (hm : |m| < 2 ^ 24) :
    f32 ((m : ℚ) * (2 : ℚ) ^ k) = (m : ℚ) * (2 : ℚ) ^ k := by
  by_cases hm0 : m = 0
  · rw [hm0]; simp [f32_zero]
  have h2k : (0 : ℚ) < 2 ^ k := zpow_pos (by norm_num) k
  have hq : (m : ℚ) * (2 : ℚ) ^ k ≠ 0 :=
    mul_ne_zero (by exact_mod_cast hm0) (ne_of_gt h2k)
  obtain ⟨h1, h2⟩ := binade_bounds _ hq
  set e : ℤ := Int.log 2 |(m : ℚ) * (2 : ℚ) ^ k| with he
  have habs : |(m : ℚ) * (2 : ℚ) ^ k| = (|m| : ℤ) * (2 : ℚ) ^ k := by
    rw [abs_mul, abs_of_pos h2k]; push_cast; rfl
  rw [habs] at h1
  have hmq : ((|m| : ℤ) : ℚ) < 2 ^ 24 := by exact_mod_cast hm
  have hlt : (2 : ℚ) ^ e < (2 : ℚ) ^ (24 + k) := by
    calc (2 : ℚ) ^ e ≤ (|m| : ℤ) * (2 : ℚ) ^ k := h1
      _ < 2 ^ 24 * (2 : ℚ) ^ k := mul_lt_mul_of_pos_right hmq h2k
      _ = (2 : ℚ) ^ (24 + k) := by
          rw [zpow_add₀ (by norm_num)]; norm_num
  have hek : e < 24 + k := (zpow_lt_zpow_iff_right₀ (by norm_num)).mp hlt
  obtain ⟨d, hd⟩ : ∃ d : ℕ, k - e + 23 = (d : ℤ) := ⟨(k - e + 23).toNat, by omega⟩
  have hdiv : (m : ℚ) * (2 : ℚ) ^ k / (2 : ℚ) ^ (e - 23) = ((m * 2 ^ d : ℤ) : ℚ) := by
    have hk : k = (e - 23) + (d : ℤ) := by omega
    have hu : (2 : ℚ) ^ (e - 23) ≠ 0 := ne_of_gt (zpow_pos (by norm_num) _)
    have hk2 : (2 : ℚ) ^ k = (2 : ℚ) ^ (e - 23) * 2 ^ d := by
      nth_rewrite 1 [hk]
      rw [zpow_add₀ (by norm_num), zpow_natCast]
    rw [hk2]
    push_cast
    field_simp
    ring
  have hu : (2 : ℚ) ^ (e - 23) ≠ 0 := ne_of_gt (zpow_pos (by norm_num) _)
  rw [f32_eval _ e (by rw [habs]; exact h1) h2, hdiv, round_half_even_intCast, ← hdiv]
  field_simp

/-- An integer below `2 ^ 24` in absolute value is its own rounding. -/
theorem f32_intCast (m : ℤ) (hm : |m| < 2 ^ 24) : f32 (m : ℚ) = m := by
  have h := f32_fixed m 0 hm
  simpa using h

/-- An integer at or above the argument is at or above its rounding. -/
theorem round_half_even_le (t : ℚ) (n : ℤ) (h : t ≤ n) : round_half_even t ≤ n := by
  have hn := round_half_even_near t
  rw [abs_le] at hn
  have h1 : (round_half_even t : ℚ) < (n : ℚ) + 1 := by linarith [hn.2]
  have h2 : round_half_even t < n + 1 := by exact_mod_cast h1
  omega

/-- A number of 24 significant bits that reaches the binade `e` is a multiple
of the unit `2 ^ (e - 23)` of that binade. -/
theorem dyadic_multiple (m k e : ℤ) (hm : |m| < 2 ^ 24)
    (h : (2 : ℚ) ^ e ≤ ((|m| : ℤ) : ℚ) * (2 : ℚ) ^ k) :
    ∃ N : ℤ, (m : ℚ) * (2 : ℚ) ^ k = (N : ℚ) * (2 : ℚ) ^ (e - 23) := by
  have h2k : (0 : ℚ) < 2 ^ k := zpow_pos (by norm_num) k
  have hmq : ((|m| : ℤ) : ℚ) < 2 ^ 24 := by exact_mod_cast hm
  have hlt : (2 : ℚ) ^ e < (2 : ℚ) ^ (24 + k) := by
    calc (2 : ℚ) ^ e ≤ (|m| : ℤ) * (2 : ℚ) ^ k := h
      _ < 2 ^ 24 * (2 : ℚ) ^ k := mul_lt_mul_of_pos_right hmq h2k
      _ = (2 : ℚ) ^ (24 + k) := by
          rw [zpow_add₀ (by norm_num)]; norm_num
  have hek : e < 24 + k := (zpow_lt_zpow_iff_right₀ (by norm_num)).mp hlt
  obtain ⟨d, hd⟩ : ∃ d : ℕ, k - e + 23 = (d : ℤ) := ⟨(k - e + 23).toNat, by omega⟩
  refine ⟨m * 2 ^ d, ?_⟩
  have hk : k = (e - 23) + (d : ℤ) := by omega
  rw [hk, zpow_add₀ (by norm_num), zpow_natCast]
  push_cast
  ring

/-- The rounding does not cross a number with at most 24 significant bits
from below. -/
theorem f32_le_fixed (q : ℚ) (m k : ℤ) (hm : |m| < 2 ^ 24) (h : q ≤ (m : ℚ) * (2 : ℚ) ^ k) :
    f32 q ≤ (m : ℚ) * (2 : ℚ) ^ k := by
  have h2k : (0 : ℚ) < 2 ^ k := zpow_pos (by norm_num) k
  rcases lt_trichotomy q 0 with hq | hq | hq
  · -- negative argument
    obtain ⟨h1, h2⟩ := binade_bounds q (ne_of_lt hq)
    rw [f32_eval q _ h1 h2]
    generalize Int.log 2 |q| = e at h1 h2 ⊢
    rw [abs_of_neg hq] at h1
    have hu : (0 : ℚ) < 2 ^ (e - 23) := zpow_pos (by norm_num) _
    have he : (2 : ℚ) ^ (e) = 2 ^ 23 * 2 ^ (e - 23) := by
      rw [zpow_sub₀ (by norm_num)]
      field_simp
      ring
    by_cases hx : (m : ℚ) * (2 : ℚ) ^ k < -(2 : ℚ) ^ (e)
    · have hm0 : m < 0 := by
        by_contra hc
        have : (0 : ℚ) ≤ (m : ℚ) := by exact_mod_cast (not_lt.mp hc)
        have h3 : (0 : ℚ) < (2 : ℚ) ^ (e) := zpow_pos (by norm_num) _
        nlinarith [mul_nonneg this (le_of_lt h2k)]
      have habs : ((|m| : ℤ) : ℚ) = -(m : ℚ) := by
        rw [abs_of_neg hm0]; push_cast; rfl
      obtain ⟨N, hN⟩ := dyadic_multiple m k (e) hm (by rw [habs]; linarith)
      rw [hN]
      apply mul_le_mul_of_nonneg_right _ (le_of_lt hu)
      have : round_half_even (q / 2 ^ (e - 23)) ≤ N := by
        apply round_half_even_le
        rw [div_le_iff₀ hu, ← hN]
        exact h
      exact_mod_cast this
    · have : round_half_even (q / 2 ^ (e - 23)) ≤ -(2 ^ 23 : ℤ) := by
        apply round_half_even_le
        rw [div_le_iff₀ hu]
        push_cast
        linarith
      have h3 : (round_half_even (q / 2 ^ (e - 23)) : ℚ) ≤ -(2 ^ 23 : ℚ) := by
        exact_mod_cast this
      have h4 := mul_le_mul_of_nonneg_right h3 (le_of_lt hu)
      linarith [not_lt.mp hx]
  · rw [hq, f32_zero]
    rw [hq] at h
    exact h
  · -- positive argument
    obtain ⟨h1, h2⟩ := binade_bounds q (ne_of_gt hq)
    rw [f32_eval q _ h1 h2]
    generalize Int.log 2 |q| = e at h1 h2 ⊢
    rw [abs_of_pos hq] at h1
    have hu : (0 : ℚ) < 2 ^ (e - 23) := zpow_pos (by norm_num) _
    have hm0 : 0 < m := by
      by_contra hc
      have : (m : ℚ) ≤ 0 := by exact_mod_cast (not_lt.mp hc)
      nlinarith [mul_nonneg (neg_nonneg.mpr this) (le_of_lt h2k)]
    have habs : ((|m| : ℤ) : ℚ) = (m : ℚ) := by
      rw [abs_of_pos hm0]
    obtain ⟨N, hN⟩ := dyadic_multiple m k (e) hm (by rw [habs]; linarith)
    rw [hN]
    apply mul_le_mul_of_nonneg_right _ (le_of_lt hu)
    have : round_half_even (q / 2 ^ (e - 23)) ≤ N := by
      apply round_half_even_le
      rw [div_le_iff₀ hu, ← hN]
      exact h
    exact_mod_cast this

/-- The rounding does not cross an integer below `2 ^ 24` from below. -/
theorem f32_le_intCast (q : ℚ) (m : ℤ) (hm : |m| < 2 ^ 24) (h : q ≤ (m : ℚ)) :
    f32 q ≤ (m : ℚ) := by
  have := f32_le_fixed q m 0 hm (by simpa using h)
  simpa using this

/-- A natural number below `2 ^ 24` is its own rounding. -/
theorem f32_natCast (n : ℕ) (hn : n < 2 ^ 24) : f32 (n : ℚ) = n := by
  have h := f32_intCast (n : ℤ) (by rw [abs_lt]; constructor <;> omega)
  simpa using h

theorem f32_one : f32 1 = 1 := by simpa using f32_natCast 1 (by norm_num)

theorem f32_two : f32 2 = 2 := by simpa using f32_natCast 2 (by norm_num)

theorem f32_three : f32 3 = 3 := by simpa using f32_natCast 3 (by norm_num)

theorem f32_four : f32 4 = 4 := by simpa using f32_natCast 4 (by norm_num)

theorem f32_five : f32 5 = 5 := by simpa using f32_natCast 5 (by norm_num)

theorem f32_ten : f32 10 = 10 := by simpa using f32_natCast 10 (by norm_num)

/-- The binary32 value of `4 / 400`. -/
theorem f32_hundredth : f32 (1 / 100) = 5368709 / 536870912 := by
  rw [f32_eval_pos _ (-7) 10737418 (by norm_num) (by norm_num) (by norm_num) (by norm_num)]
  norm_num

theorem CLAMPS_ge {α : Type} [LinearOrder α] (A L H : α) (h : L ≤ H) : L ≤ CLAMPS A L H := by
  unfold CLAMPS
  split_ifs with h1 h2
  · exact le_of_lt h1
  · exact h
  · exact le_refl L

theorem CLAMPS_le {α : Type} [LinearOrder α] (A L H : α) (h : L ≤ H) : CLAMPS A L H ≤ H := by
  unfold CLAMPS
  split_ifs with h1 h2
  · exact le_of_lt h2
  · exact le_refl H
  · exact h

/-- Bounds on the sizes computed by `init`, for all arguments: the clamp bounds
whatever integer the conversion of the rounded quotient produces. -/
theorem C1_bounds_aux (m : List dt_iop_colorreconstruct_Lab_t) (roi : dt_iop_roi_t)
    (iscale sigma_s sigma_r : ℚ) :
    ∃ b, dt_iop_colorreconstruct_bilateral_init true (some m) roi iscale sigma_s sigma_r
          = Run.done (some b)
      ∧ 5 ≤ b.size_x ∧ b.size_x ≤ 1001 ∧ 5 ≤ b.size_y ∧ b.size_y ≤ 1001
      ∧ 5 ≤ b.size_z ∧ b.size_z ≤ 201 := by
  refine ⟨_, rfl, ?_⟩
  have hS : (4 : ℤ) ≤ DT_COLORRECONSTRUCT_BILATERAL_MAX_RES_S := by decide
  have hR : (4 : ℤ) ≤ DT_COLORRECONSTRUCT_BILATERAL_MAX_RES_R := by decide
  have x1 := CLAMPS_ge (float_to_int (roundf (f32 ((roi.width : ℚ) / sigma_s)))) 4 _ hS
  have x2 := CLAMPS_le (float_to_int (roundf (f32 ((roi.width : ℚ) / sigma_s)))) 4 _ hS
  have y1 := CLAMPS_ge (float_to_int (roundf (f32 ((roi.height : ℚ) / sigma_s)))) 4 _ hS
  have y2 := CLAMPS_le (float_to_int (roundf (f32 ((roi.height : ℚ) / sigma_s)))) 4 _ hS
  have z1 := CLAMPS_ge (float_to_int (roundf (f32 (100 / sigma_r)))) 4 _ hR
  have z2 := CLAMPS_le (float_to_int (roundf (f32 (100 / sigma_r)))) 4 _ hR
  simp only [DT_COLORRECONSTRUCT_BILATERAL_MAX_RES_S, DT_COLORRECONSTRUCT_BILATERAL_MAX_RES_R]
    at x1 x2 y1 y2 z1 z2 ⊢
  omega

/-- C1. Resolution bounds: for every roi with positive width and height, every
requested `sigma_s > 0` and every requested `sigma_r`, `init` (with both
allocations succeeding) returns a grid, and that grid has
`5 ≤ size_x, size_y ≤ 1001` and `5 ≤ size_z ≤ 201`. -/
theorem C1_resolution_bounds (m : List dt_iop_colorreconstruct_Lab_t) (roi : dt_iop_roi_t)
    (iscale sigma_s sigma_r : ℚ) (_hw : 0 < roi.width) (_hh : 0 < roi.height)
    (_hs : 0 < sigma_s) :
    ∃ b, dt_iop_colorreconstruct_bilateral_init true (some m) roi iscale sigma_s sigma_r
          = Run.done (some b)
      ∧ 5 ≤ b.size_x ∧ b.size_x ≤ 1001 ∧ 5 ≤ b.size_y ∧ b.size_y ≤ 1001
      ∧ 5 ≤ b.size_z ∧ b.size_z ≤ 201 :=
  C1_bounds_aux m roi iscale sigma_s sigma_r

theorem C1_resolution_bounds_witness :
    ∃ b, dt_iop_colorreconstruct_bilateral_init true (some []) ⟨0, 0, 4, 4, 1⟩ 1 400 10
          = Run.done (some b)
      ∧ 5 ≤ b.size_x ∧ b.size_x ≤ 1001 ∧ 5 ≤ b.size_y ∧ b.size_y ≤ 1001
      ∧ 5 ≤ b.size_z ∧ b.size_z ≤ 201 :=
  C1_resolution_bounds [] ⟨0, 0, 4, 4, 1⟩ 1 400 10 (by decide) (by decide) (by norm_num)

theorem memcpy_full (dst src : List dt_iop_colorreconstruct_Lab_t) (n : ℕ)
    (hs : src.length = n) (hd : dst.length = n) : memcpy dst src n = src := by
  unfold memcpy
  rw [List.take_of_length_le (le_of_eq hs), List.drop_of_length_le (le_of_eq hd)]
  simp

/-- C4. Freeze/thaw round trip: for every grid `g` whose cell buffer is present
(and holds `size_x * size_y * size_z` cells), when the allocations of `freeze`
and of `thaw` succeed, `thaw (freeze g)` is a grid equal to `g` in all its
metadata and in its cell buffer. -/
theorem C4_freeze_thaw_roundtrip (g : dt_iop_colorreconstruct_bilateral_t)
    (cells m1 m2 : List dt_iop_colorreconstruct_Lab_t)
    (hbuf : g.buf = some cells)
    (hlen : cells.length = g.size_x * g.size_y * g.size_z)
    (h1 : m1.length = g.size_x * g.size_y * g.size_z)
    (h2 : m2.length = g.size_x * g.size_y * g.size_z) :
    dt_iop_colorreconstruct_bilateral_thaw true (some m2)
        (dt_iop_colorreconstruct_bilateral_freeze true (some m1) (some g)) = some g := by
  obtain ⟨sx, sy, sz, w, h, x, y, sc, ss, sr, buf⟩ := g
  simp only at hbuf hlen h1 h2
  subst hbuf
  simp [dt_iop_colorreconstruct_bilateral_freeze, dt_iop_colorreconstruct_bilateral_thaw,
    memcpy_full _ _ _ hlen h1, memcpy_full _ _ _ hlen h2]

theorem C4_freeze_thaw_roundtrip_witness :
    dt_iop_colorreconstruct_bilateral_thaw true (some [Lab_zero])
        (dt_iop_colorreconstruct_bilateral_freeze true (some [Lab_zero])
          (some ⟨1, 1, 1, 4, 4, 0, 0, 1, 1, 10, some [⟨50, 10, -5, 1⟩]⟩))
      = some ⟨1, 1, 1, 4, 4, 0, 0, 1, 1, 10, some [⟨50, 10, -5, 1⟩]⟩ :=
  C4_freeze_thaw_roundtrip ⟨1, 1, 1, 4, 4, 0, 0, 1, 1, 10, some [⟨50, 10, -5, 1⟩]⟩
    [⟨50, 10, -5, 1⟩] [Lab_zero] [Lab_zero] rfl rfl rfl rfl

theorem CLAMPS_id {α : Type} [LinearOrder α] (A L H : α) (h1 : L ≤ A) (h2 : A ≤ H) :
    CLAMPS A L H = A := by
  unfold CLAMPS
  split_ifs with h3 h4
  · rfl
  · exact le_antisymm (not_lt.mp h4) h2
  · exact le_antisymm h1 (not_lt.mp h3)

theorem MAX_ge_left {α : Type} [LinearOrder α] (a b : α) : a ≤ MAX a b := by
  unfold MAX
  split_ifs with h
  · exact le_refl a
  · exact not_lt.mp h

theorem MAX_ge_right {α : Type} [LinearOrder α] (a b : α) : b ≤ MAX a b := by
  unfold MAX
  split_ifs with h
  · exact le_of_lt h
  · exact le_refl b

theorem MAX_eq_max {α : Type} [LinearOrder α] (a b : α) : MAX a b = max a b := by
  unfold MAX
  split_ifs with h
  · exact (max_eq_left (le_of_lt h)).symm
  · exact (max_eq_right (not_lt.mp h)).symm

/-- Covering bound on one axis: a pitch at least the binary32 quotient of
`w / (n - 1)`, for a width `w ≤ 2 ^ 24`, maps every pixel coordinate below `w`
to at most `n - 1`. -/
theorem pitch_covers (w : ℤ) (s : ℚ) (n : ℕ) (i : ℤ) (hn : 2 ≤ n) (hw : 0 < w)
    (hw24 : w ≤ 2 ^ 24) (hs : f32 ((w : ℚ) / ((n : ℚ) - 1)) ≤ s) (hi : i < w) :
    0 < s ∧ (i : ℚ) / s ≤ (n : ℚ) - 1 := by
  have hn1 : (0 : ℚ) < (n : ℚ) - 1 := by
    have : (2 : ℚ) ≤ (n : ℚ) := by exact_mod_cast hn
    linarith
  have hwq : (0 : ℚ) < (w : ℚ) := by exact_mod_cast hw
  have hw24q : (w : ℚ) ≤ 2 ^ 24 := by exact_mod_cast hw24
  have hiq : (i : ℚ) ≤ (w : ℚ) - 1 := by
    have : i ≤ w - 1 := by omega
    exact_mod_cast this
  have hq : 0 < (w : ℚ) / ((n : ℚ) - 1) := div_pos hwq hn1
  have he := f32_error ((w : ℚ) / ((n : ℚ) - 1))
  rw [abs_of_pos hq, abs_le] at he
  have hs0 : 0 < s := lt_of_lt_of_le (f32_pos _ hq) hs
  refine ⟨hs0, ?_⟩
  rw [div_le_iff₀ hs0]
  have h1 : (w : ℚ) / ((n : ℚ) - 1) * ((n : ℚ) - 1) = (w : ℚ) := by
    field_simp
  have h2 : (w : ℚ) / ((n : ℚ) - 1) / 2 ^ 24 * ((n : ℚ) - 1) = (w : ℚ) / 2 ^ 24 := by
    field_simp
    ring
  have h3 : (w : ℚ) / 2 ^ 24 ≤ 1 := by
    rw [div_le_iff₀ (by norm_num)]
    linarith
  have h4 : ((w : ℚ) / ((n : ℚ) - 1) - (w : ℚ) / ((n : ℚ) - 1) / 2 ^ 24) * ((n : ℚ) - 1)
      ≤ s * ((n : ℚ) - 1) :=
    mul_le_mul_of_nonneg_right (by linarith [he.1]) (le_of_lt hn1)
  rw [mul_comm]
  linarith [sub_mul ((w : ℚ) / ((n : ℚ) - 1)) ((w : ℚ) / ((n : ℚ) - 1) / 2 ^ 24) ((n : ℚ) - 1)]

/-- Covering bound on the range axis: with the binary32 pitch of
`100 / (n - 1)` every `L` up to `100 * (1 - 2 ^ (-24))` has a quotient of at
most `n - 1`. -/
theorem range_pitch_covers (n : ℕ) (L : ℚ) (hn : 2 ≤ n)
    (hL : L ≤ 100 * (1 - 1 / 2 ^ 24)) :
    0 < f32 (100 / ((n : ℚ) - 1)) ∧ L / f32 (100 / ((n : ℚ) - 1)) ≤ (n : ℚ) - 1 := by
  have hn1 : (0 : ℚ) < (n : ℚ) - 1 := by
    have : (2 : ℚ) ≤ (n : ℚ) := by exact_mod_cast hn
    linarith
  have hq : 0 < (100 : ℚ) / ((n : ℚ) - 1) := div_pos (by norm_num) hn1
  have he := f32_error ((100 : ℚ) / ((n : ℚ) - 1))
  rw [abs_of_pos hq, abs_le] at he
  have hs0 := f32_pos _ hq
  refine ⟨hs0, ?_⟩
  rw [div_le_iff₀ hs0]
  have h1 : (100 : ℚ) / ((n : ℚ) - 1) * ((n : ℚ) - 1) = 100 := by
    field_simp
  have h2 : (100 : ℚ) / ((n : ℚ) - 1) / 2 ^ 24 * ((n : ℚ) - 1) = 100 / 2 ^ 24 := by
    field_simp
    ring
  have h4 : ((100 : ℚ) / ((n : ℚ) - 1) - (100 : ℚ) / ((n : ℚ) - 1) / 2 ^ 24) * ((n : ℚ) - 1)
      ≤ f32 (100 / ((n : ℚ) - 1)) * ((n : ℚ) - 1) :=
    mul_le_mul_of_nonneg_right (by linarith [he.1]) (le_of_lt hn1)
  rw [mul_comm]
  linarith [sub_mul ((100 : ℚ) / ((n : ℚ) - 1)) ((100 : ℚ) / ((n : ℚ) - 1) / 2 ^ 24)
    ((n : ℚ) - 1)]

/-- A rounded quotient that is nonnegative and at most `n - 1` before rounding,
for a size `n` below `2 ^ 24`, passes the clamp of `image_to_grid` unchanged. -/
theorem CLAMPS_f32_id (q : ℚ) (n : ℕ) (hn : 1 ≤ n) (hn24 : n ≤ 2 ^ 24) (h0 : 0 ≤ q)
    (h1 : q ≤ (n : ℚ) - 1) : CLAMPS (f32 q) 0 ((n : ℚ) - 1) = f32 q := by
  apply CLAMPS_id
  · rcases lt_or_eq_of_le h0 with h | h
    · exact le_of_lt (f32_pos q h)
    · rw [← h, f32_zero]
  · have e : (n : ℚ) - 1 = (((n : ℤ) - 1 : ℤ) : ℚ) := by push_cast; ring
    rw [e]
    apply f32_le_intCast
    · rw [abs_lt]; constructor <;> omega
    · rw [← e]; exact h1

/-- C6. The grid built by `init` covers the image, in binary32: for every roi
with `0 < width ≤ 2 ^ 24` and `0 < height ≤ 2 ^ 24` the stored `sigma_s` is the
larger of the binary32 quotients of `height / (size_y - 1)` and
`width / (size_x - 1)` and is positive; for every pixel `0 ≤ i < width`,
`0 ≤ j < height`, `i / sigma_s ≤ size_x - 1` and `j / sigma_s ≤ size_y - 1`, and
`image_to_grid` returns the binary32 quotients unclamped.  The stored `sigma_r`
is the binary32 quotient of `100 / (size_z - 1)`, within a relative `2 ^ (-24)`
of it, and for `0 ≤ L ≤ 100 * (1 - 2 ^ (-24))`, `L / sigma_r ≤ size_z - 1` and
`image_to_grid` returns the binary32 quotient unclamped. -/
theorem C6_grid_covers_image (m : List dt_iop_colorreconstruct_Lab_t) (roi : dt_iop_roi_t)
    (iscale sigma_s sigma_r : ℚ) (hw : 0 < roi.width) (hh : 0 < roi.height)
    (hw24 : roi.width ≤ 2 ^ 24) (hh24 : roi.height ≤ 2 ^ 24) :
    ∃ b, dt_iop_colorreconstruct_bilateral_init true (some m) roi iscale sigma_s sigma_r
          = Run.done (some b)
      ∧ b.sigma_s = max (f32 ((roi.height : ℚ) / ((b.size_y : ℚ) - 1)))
                        (f32 ((roi.width : ℚ) / ((b.size_x : ℚ) - 1)))
      ∧ 0 < b.sigma_s
      ∧ (∀ i j : ℤ, 0 ≤ i → i < roi.width → 0 ≤ j → j < roi.height →
          (i : ℚ) / b.sigma_s ≤ (b.size_x : ℚ) - 1 ∧ (j : ℚ) / b.sigma_s ≤ (b.size_y : ℚ) - 1
          ∧ ∀ L : ℚ, (image_to_grid b i j L).1 = f32 ((i : ℚ) / b.sigma_s)
                   ∧ (image_to_grid b i j L).2.1 = f32 ((j : ℚ) / b.sigma_s))
      ∧ b.sigma_r = f32 (100 / ((b.size_z : ℚ) - 1))
      ∧ |b.sigma_r - 100 / ((b.size_z : ℚ) - 1)| ≤ 100 / ((b.size_z : ℚ) - 1) / 2 ^ 24
      ∧ (∀ L : ℚ, 0 ≤ L → L ≤ 100 * (1 - 1 / 2 ^ 24) →
          L / b.sigma_r ≤ (b.size_z : ℚ) - 1
          ∧ ∀ i j : ℚ, (image_to_grid b i j L).2.2 = f32 (L / b.sigma_r)) := by
  obtain ⟨b, hb, hx5, hx1001, hy5, hy1001, hz5, hz201⟩ :=
    C1_bounds_aux m roi iscale sigma_s sigma_r
  refine ⟨b, hb, ?_⟩
  have hss : b.sigma_s = MAX (f32 ((roi.height : ℚ) / ((b.size_y : ℚ) - 1)))
      (f32 ((roi.width : ℚ) / ((b.size_x : ℚ) - 1))) := by
    simp only [dt_iop_colorreconstruct_bilateral_init, Bool.not_true, Bool.false_eq_true,
      if_false, Run.done.injEq, Option.some.injEq] at hb
    rw [← hb]
  have hsr : b.sigma_r = f32 (100 / ((b.size_z : ℚ) - 1)) := by
    simp only [dt_iop_colorreconstruct_bilateral_init, Bool.not_true, Bool.false_eq_true,
      if_false, Run.done.injEq, Option.some.injEq] at hb
    rw [← hb]
  have hzq : (5 : ℚ) ≤ (b.size_z : ℚ) := by exact_mod_cast hz5
  have hsx : f32 ((roi.width : ℚ) / ((b.size_x : ℚ) - 1)) ≤ b.sigma_s := by
    rw [hss]; exact MAX_ge_right _ _
  have hsy : f32 ((roi.height : ℚ) / ((b.size_y : ℚ) - 1)) ≤ b.sigma_s := by
    rw [hss]; exact MAX_ge_left _ _
  have hpos : 0 < b.sigma_s :=
    (pitch_covers roi.width b.sigma_s b.size_x 0 (by omega) hw hw24 hsx hw).1
  refine ⟨by rw [hss, MAX_eq_max], hpos, ?_, hsr, ?_, ?_⟩
  · intro i j hi0 hi hj0 hj
    have hi0q : (0 : ℚ) ≤ (i : ℚ) := by exact_mod_cast hi0
    have hj0q : (0 : ℚ) ≤ (j : ℚ) := by exact_mod_cast hj0
    have bx := (pitch_covers roi.width b.sigma_s b.size_x i (by omega) hw hw24 hsx hi).2
    have by_ := (pitch_covers roi.height b.sigma_s b.size_y j (by omega) hh hh24 hsy hj).2
    refine ⟨bx, by_, fun L => ⟨?_, ?_⟩⟩
    · exact CLAMPS_f32_id _ b.size_x (by omega) (by omega)
        (div_nonneg hi0q (le_of_lt hpos)) bx
    · exact CLAMPS_f32_id _ b.size_y (by omega) (by omega)
        (div_nonneg hj0q (le_of_lt hpos)) by_
  · rw [hsr]
    have h := f32_error (100 / ((b.size_z : ℚ) - 1))
    have hq : (0 : ℚ) < 100 / ((b.size_z : ℚ) - 1) := div_pos (by norm_num) (by linarith)
    rwa [abs_of_pos hq] at h
  · intro L hL0 hL
    obtain ⟨hrpos, bz⟩ := range_pitch_covers b.size_z L (by omega) hL
    rw [← hsr] at hrpos bz
    exact ⟨bz, fun i j => CLAMPS_f32_id _ b.size_z (by omega) (by omega)
      (div_nonneg hL0 (le_of_lt hrpos)) bz⟩

theorem C6_grid_covers_image_witness :
    ∃ b, dt_iop_colorreconstruct_bilateral_init true (some []) ⟨0, 0, 4, 4, 1⟩ 1 400 10
          = Run.done (some b)
      ∧ b.sigma_s = max (f32 (((4 : ℤ) : ℚ) / ((b.size_y : ℚ) - 1)))
                        (f32 (((4 : ℤ) : ℚ) / ((b.size_x : ℚ) - 1)))
      ∧ 0 < b.sigma_s
      ∧ (∀ i j : ℤ, 0 ≤ i → i < 4 → 0 ≤ j → j < 4 →
          (i : ℚ) / b.sigma_s ≤ (b.size_x : ℚ) - 1 ∧ (j : ℚ) / b.sigma_s ≤ (b.size_y : ℚ) - 1
          ∧ ∀ L : ℚ, (image_to_grid b i j L).1 = f32 ((i : ℚ) / b.sigma_s)
                   ∧ (image_to_grid b i j L).2.1 = f32 ((j : ℚ) / b.sigma_s))
      ∧ b.sigma_r = f32 (100 / ((b.size_z : ℚ) - 1))
      ∧ |b.sigma_r - 100 / ((b.size_z : ℚ) - 1)| ≤ 100 / ((b.size_z : ℚ) - 1) / 2 ^ 24
      ∧ (∀ L : ℚ, 0 ≤ L → L ≤ 100 * (1 - 1 / 2 ^ 24) →
          L / b.sigma_r ≤ (b.size_z : ℚ) - 1
          ∧ ∀ i j : ℚ, (image_to_grid b i j L).2.2 = f32 (L / b.sigma_r)) :=
  C6_grid_covers_image [] ⟨0, 0, 4, 4, 1⟩ 1 400 10 (by decide) (by decide) (by decide)
    (by decide)

/-! ### Buffer access -/

theorem wr_length (buf : List dt_iop_colorreconstruct_Lab_t) (i : ℕ)
    (v : dt_iop_colorreconstruct_Lab_t) : (wr buf i v).length = buf.length := by
  simp [wr]

theorem rd_wr_same (buf : List dt_iop_colorreconstruct_Lab_t) (i : ℕ)
    (v : dt_iop_colorreconstruct_Lab_t) (h : i < buf.length) : rd (wr buf i v) i = v := by
  simp [rd, wr, List.getElem?_set, h]

theorem rd_wr_other (buf : List dt_iop_colorreconstruct_Lab_t) (i j : ℕ)
    (v : dt_iop_colorreconstruct_Lab_t) (h : j ≠ i) : rd (wr buf i v) j = rd buf j := by
  simp [rd, wr, List.getElem?_set, Ne.symm h]

/-- Two buffers of the same length with the same cells are equal. -/
theorem buf_ext (b1 b2 : List dt_iop_colorreconstruct_Lab_t) (hl : b1.length = b2.length)
    (h : ∀ k, k < b1.length → rd b1 k = rd b2 k) : b1 = b2 := by
  apply List.ext_getElem hl
  intro k h1 h2
  have := h k h1
  simpa [rd, List.getD_eq_getElem, h1, h2] using this

/-! ### Pixel loops -/

theorem pixel_index_eq (w : ℤ) (j i : ℕ) (hw : 0 ≤ w) :
    pixel_index w j i = 4 * (j * w.toNat + i) := by
  unfold pixel_index
  have : (4 * (j : ℤ) * w).toNat = 4 * j * w.toNat := by
    lift w to ℕ using hw
    simp only [Int.toNat_ofNat]
    exact_mod_cast Int.toNat_ofNat (4 * j * w)
  rw [this]
  ring

/-- Distinct pixels of an image occupy distinct float slots. -/
theorem pixel_index_inj (w : ℤ) (j i j' i' c c' : ℕ) (hi : (i : ℤ) < w) (hi' : (i' : ℤ) < w)
    (hc : c < 4) (hc' : c' < 4)
    (h : pixel_index w j i + c = pixel_index w j' i' + c') : j = j' ∧ i = i' ∧ c = c' := by
  have hw : 0 ≤ w := by omega
  rw [pixel_index_eq w j i hw, pixel_index_eq w j' i' hw] at h
  lift w to ℕ using hw
  simp only [Int.toNat_ofNat] at h
  have hi1 : i < w := by exact_mod_cast hi
  have hi2 : i' < w := by exact_mod_cast hi'
  have h1 : j * w + i = j' * w + i' := by omega
  have hc2 : c = c' := by omega
  have hj : j = j' := by
    have e1 : (j * w + i) / w = j := by
      rw [Nat.add_comm, Nat.add_mul_div_right _ _ (by omega), Nat.div_eq_of_lt hi1]; simp
    have e2 : (j' * w + i') / w = j' := by
      rw [Nat.add_comm, Nat.add_mul_div_right _ _ (by omega), Nat.div_eq_of_lt hi2]; simp
    rw [← e1, ← e2, h1]
  subst hj
  exact ⟨rfl, by omega, hc2⟩

/-- The row-major list of the pixels `(j, i)` of an `h × w` image. -/
theorem foldl_pixels {σ : Type} (F : ℕ → ℕ → σ → σ) (h w : ℕ) (s : σ) :
    (List.range h).foldl (fun s j => (List.range w).foldl (fun s i => F j i s) s) s
      = (((List.range h).map (fun j => (List.range w).map (fun i => (j, i)))).flatten).foldl
          (fun s p => F p.1 p.2 s) s := by
  rw [List.foldl_flatten, List.foldl_map]
  congr 1
  funext s j
  rw [List.foldl_map]

theorem mem_pixels (h w : ℕ) (p : ℕ × ℕ) :
    p ∈ ((List.range h).map (fun j => (List.range w).map (fun i => (j, i)))).flatten
      ↔ p.1 < h ∧ p.2 < w := by
  simp only [List.mem_flatten, List.mem_map, List.mem_range]
  constructor
  · rintro ⟨l, ⟨j, hj, rfl⟩, hp⟩
    simp only [List.mem_map, List.mem_range] at hp
    obtain ⟨i, hi, rfl⟩ := hp
    exact ⟨hj, hi⟩
  · rintro ⟨hj, hi⟩
    exact ⟨_, ⟨p.1, hj, rfl⟩, by simp only [List.mem_map, List.mem_range]; exact ⟨p.2, hi, rfl⟩⟩

/-- A fold of memory updates, each of which writes only its own slots and
writes them with values that do not depend on the memory: the slots of a pixel
in the list hold what that pixel's update writes. -/
theorem foldl_slots (F : ℕ × ℕ → (ℕ → ℚ) → (ℕ → ℚ)) (own : ℕ × ℕ → ℕ → Prop)
    (frame : ∀ p out k, ¬ own p k → F p out k = out k)
    (det : ∀ p out out' k, own p k → F p out k = F p out' k)
    (l : List (ℕ × ℕ)) (p : ℕ × ℕ) (k : ℕ) (hp : p ∈ l) (hk : own p k)
    (hdis : ∀ q ∈ l, q ≠ p → ¬ own q k) (out0 : ℕ → ℚ) :
    (l.foldl (fun out q => F q out) out0) k = F p out0 k := by
  induction l using List.reverseRecOn with
  | nil => simp at hp
  | append_singleton l q ih =>
    rw [List.foldl_append]
    simp only [List.foldl_cons, List.foldl_nil]
    by_cases hq : q = p
    · subst hq
      exact det _ _ _ _ hk
    · rw [frame q _ k (hdis q (by simp) hq)]
      have hp' : p ∈ l := by
        rcases List.mem_append.mp hp with h | h
        · exact h
        · simp at h; exact absurd h.symm hq
      exact ih hp' (fun r hr hne => hdis r (by simp [hr]) hne)

/-! ### Slice -/

theorem slice_pixel_frame (b : dt_iop_colorreconstruct_bilateral_t)
    (buf : List dt_iop_colorreconstruct_Lab_t) (inp : ℕ → ℚ) (threshold : ℚ)
    (roi : dt_iop_roi_t) (iscale : ℚ) (j i : ℕ) (out : ℕ → ℚ) (k : ℕ)
    (hk : ∀ c, c < 4 → k ≠ pixel_index roi.width j i + c) :
    slice_pixel b buf inp threshold roi iscale j i out k = out k := by
  have h0 : k ≠ pixel_index roi.width j i := by simpa using hk 0 (by norm_num)
  have h1 := hk 1 (by norm_num)
  have h2 := hk 2 (by norm_num)
  have h3 := hk 3 (by norm_num)
  unfold slice_pixel
  simp only []
  split_ifs <;> simp [Function.update_apply, h0, h1, h2, h3]

theorem slice_pixel_det (b : dt_iop_colorreconstruct_bilateral_t)
    (buf : List dt_iop_colorreconstruct_Lab_t) (inp : ℕ → ℚ) (threshold : ℚ)
    (roi : dt_iop_roi_t) (iscale : ℚ) (j i : ℕ) (out out' : ℕ → ℚ) (c : ℕ) (hc : c < 4) :
    slice_pixel b buf inp threshold roi iscale j i out (pixel_index roi.width j i + c)
      = slice_pixel b buf inp threshold roi iscale j i out' (pixel_index roi.width j i + c) := by
  unfold slice_pixel
  simp only []
  interval_cases c <;> split_ifs <;> simp [Function.update_apply]

/-- After the two loops of `slice`, the four floats of pixel `(i, j)` of the roi
are those written by the loop body for that pixel. -/
theorem slice_cells_at (b : dt_iop_colorreconstruct_bilateral_t)
    (buf : List dt_iop_colorreconstruct_Lab_t) (inp out0 : ℕ → ℚ) (threshold : ℚ)
    (roi : dt_iop_roi_t) (iscale : ℚ) (j i c : ℕ) (hj : (j : ℤ) < roi.height)
    (hi : (i : ℤ) < roi.width) (hc : c < 4) :
    slice_cells b buf inp out0 threshold roi iscale (pixel_index roi.width j i + c)
      = slice_pixel b buf inp threshold roi iscale j i out0 (pixel_index roi.width j i + c) := by
  unfold slice_cells
  rw [foldl_pixels (fun j i out => slice_pixel b buf inp threshold roi iscale j i out)]
  refine foldl_slots (fun p out => slice_pixel b buf inp threshold roi iscale p.1 p.2 out)
    (fun p k => ∃ c, c < 4 ∧ k = pixel_index roi.width p.1 p.2 + c) ?_ ?_ _ (j, i) _ ?_
    ⟨c, hc, rfl⟩ ?_ out0
  · intro p out k hk
    exact slice_pixel_frame b buf inp threshold roi iscale p.1 p.2 out k
      (fun c hc hkc => hk ⟨c, hc, hkc⟩)
  · rintro p out out' k ⟨c, hc, rfl⟩
    exact slice_pixel_det b buf inp threshold roi iscale p.1 p.2 out out' c hc
  · rw [mem_pixels]
    exact ⟨by omega, by omega⟩
  · rintro q hq hne ⟨c', hc', hk⟩
    rw [mem_pixels] at hq
    have := pixel_index_inj roi.width j i q.1 q.2 c c' hi (by omega) hc hc' hk
    exact hne (Prod.ext this.1.symm this.2.1.symm)

/-- The blend factor is zero exactly when the binary32 product
`fl(fl(20 / threshold) * Lin)` does not exceed 19. -/
theorem slice_blend_eq_zero_iff (threshold Lin : ℚ) :
    slice_blend threshold Lin = 0 ↔ f32 (f32 (20 / threshold) * Lin) ≤ 19 := by
  unfold slice_blend CLAMPS
  constructor
  · intro h
    by_contra hc
    push_neg at hc
    have hp : f32 (f32 (f32 (20 / threshold) * Lin) - 19) > 0 := f32_pos _ (by linarith)
    rw [if_pos hp] at h
    split_ifs at h with h1
    · linarith
    · norm_num at h
  · intro h
    have hn : ¬ (f32 (f32 (f32 (20 / threshold) * Lin) - 19) > 0) := by
      intro hc
      have := (f32_pos_iff _).mp hc
      linarith
    rw [if_neg hn]

/-- Up to `0.95 * threshold * (1 - 2 ^ (-24))`, for a positive threshold, the
blend factor is zero. -/
theorem slice_blend_eq_zero (threshold Lin : ℚ) (ht : 0 < threshold)
    (hL : Lin ≤ 19 / 20 * threshold * (1 - 1 / 2 ^ 24)) : slice_blend threshold Lin = 0 := by
  rw [slice_blend_eq_zero_iff]
  have e19 : (19 : ℚ) = ((19 : ℤ) : ℚ) := by norm_num
  rw [e19]
  apply f32_le_intCast _ 19 (by norm_num)
  push_cast
  have hq : 0 < 20 / threshold := div_pos (by norm_num) ht
  have he := f32_error (20 / threshold)
  rw [abs_of_pos hq, abs_le] at he
  have ha := f32_pos _ hq
  by_cases hL0 : Lin ≤ 0
  · nlinarith
  · push_neg at hL0
    have h1 : f32 (20 / threshold) ≤ 20 / threshold * (1 + 1 / 2 ^ 24) := by linarith [he.2]
    calc f32 (20 / threshold) * Lin
        ≤ 20 / threshold * (1 + 1 / 2 ^ 24) * Lin :=
          mul_le_mul_of_nonneg_right h1 (le_of_lt hL0)
      _ ≤ 20 / threshold * (1 + 1 / 2 ^ 24) * (19 / 20 * threshold * (1 - 1 / 2 ^ 24)) :=
          mul_le_mul_of_nonneg_left hL (by positivity)
      _ = 19 * (1 - (1 / 2 ^ 24) ^ 2) := by
          field_simp
          ring
      _ ≤ 19 := by norm_num

/-- C3. Pass-through below threshold, in binary32: for every grid (with its
cell buffer), every roi and every threshold `> 0`, `slice` returns, and for
every pixel of the roi whose input `L` is at most
`0.95 * threshold * (1 - 2 ^ (-24))` the blend factor is `0` and the output `a`
and `b` are exactly the input `a` and `b`. -/
theorem C3_pass_through_below_margin (b : dt_iop_colorreconstruct_bilateral_t)
    (buf : List dt_iop_colorreconstruct_Lab_t) (inp out0 : ℕ → ℚ) (threshold : ℚ)
    (roi : dt_iop_roi_t) (iscale : ℚ) (j i : ℕ) (hbuf : b.buf = some buf)
    (ht : 0 < threshold) (hj : (j : ℤ) < roi.height) (hi : (i : ℤ) < roi.width)
    (hL : inp (pixel_index roi.width j i) ≤ 95 / 100 * threshold * (1 - 1 / 2 ^ 24)) :
    ∃ out, dt_iop_colorreconstruct_bilateral_slice b inp out0 threshold roi iscale
          = Run.done out
      ∧ slice_blend threshold (inp (pixel_index roi.width j i)) = 0
      ∧ out (pixel_index roi.width j i + 1) = inp (pixel_index roi.width j i + 1)
      ∧ out (pixel_index roi.width j i + 2) = inp (pixel_index roi.width j i + 2) := by
  have hb0 : slice_blend threshold (inp (pixel_index roi.width j i)) = 0 :=
    slice_blend_eq_zero _ _ ht (by linarith)
  refine ⟨slice_cells b buf inp out0 threshold roi iscale, ?_, hb0, ?_, ?_⟩
  · simp [dt_iop_colorreconstruct_bilateral_slice, hbuf]
  · rw [slice_cells_at b buf inp out0 threshold roi iscale j i 1 hj hi (by norm_num)]
    unfold slice_pixel
    simp [hb0, Function.update_apply]
  · rw [slice_cells_at b buf inp out0 threshold roi iscale j i 2 hj hi (by norm_num)]
    unfold slice_pixel
    simp [hb0, Function.update_apply]

theorem float_to_int_natCast (n : ℕ) (h : n ≤ 2147483647) : float_to_int (n : ℚ) = (n : ℤ) := by
  unfold float_to_int INT_MIN INT_MAX
  have h0 : (0 : ℚ) ≤ (n : ℚ) := Nat.cast_nonneg n
  simp only [h0, if_true]
  have hf : ⌊(n : ℚ)⌋ = (n : ℤ) := Int.floor_natCast n
  rw [hf]
  rw [if_pos]
  constructor <;> omega

theorem Lab_fields_id (c : dt_iop_colorreconstruct_Lab_t) : Lab_fields (fun f => f c) = c := by
  cases c; rfl

/-- The floor index and fractional offset of `slice` on one axis at an integer
coordinate `x ≤ n - 1`: either the node itself with offset `0`, or, on the
upper face, the node below it with offset `1`. -/
theorem slice_axis_node (n x : ℕ) (hn : 2 ≤ n) (hn' : n ≤ 2147483648) (hx : x + 1 ≤ n) :
    ∃ xi : ℕ, MIN (float_to_int (x : ℚ)) ((n : ℤ) - 2) = (xi : ℤ)
      ∧ (((x : ℚ) - ((xi : ℤ) : ℚ) = 0 ∧ xi = x) ∨ ((x : ℚ) - ((xi : ℤ) : ℚ) = 1 ∧ xi + 1 = x)) := by
  rw [float_to_int_natCast x (by omega)]
  by_cases h : x + 2 ≤ n
  · refine ⟨x, ?_, Or.inl ⟨by simp, rfl⟩⟩
    unfold MIN
    split_ifs with h1
    · rfl
    · omega
  · refine ⟨x - 1, ?_, Or.inr ⟨?_, by omega⟩⟩
    · unfold MIN
      split_ifs with h1
      · omega
      · omega
    · have : ((x - 1 : ℕ) : ℤ) = (x : ℤ) - 1 := by omega
      rw [this]
      push_cast
      ring

/-- C5. Exact-node interpolation: for every grid with sizes at least 2 (and
within the range of `int`), when the grid coordinates returned by
`image_to_grid` for a pixel are all integers `(x, y, z)`, nodes of the upper
faces included, the trilinear lookup of `slice` returns exactly the cell
stored at index `x + size_x * (y + size_y * z)`, whatever the other cells
hold. -/
theorem C5_exact_node_interpolation (b : dt_iop_colorreconstruct_bilateral_t)
    (buf : List dt_iop_colorreconstruct_Lab_t) (px py Lin : ℚ) (x y z : ℕ)
    (hx2 : 2 ≤ b.size_x) (hy2 : 2 ≤ b.size_y) (hz2 : 2 ≤ b.size_z)
    (hxm : b.size_x ≤ 2147483648) (hym : b.size_y ≤ 2147483648) (hzm : b.size_z ≤ 2147483648)
    (hnode : image_to_grid b px py Lin = ((x : ℚ), (y : ℚ), (z : ℚ))) :
    x < b.size_x ∧ y < b.size_y ∧ z < b.size_z
    ∧ slice_lookup b buf (image_to_grid b px py Lin).1 (image_to_grid b px py Lin).2.1
        (image_to_grid b px py Lin).2.2 = rd buf (x + b.size_x * (y + b.size_y * z)) := by
  have hbx : x < b.size_x := by
    have h := CLAMPS_le (f32 (px / b.sigma_s)) 0 ((b.size_x : ℚ) - 1)
      (by have : (2 : ℚ) ≤ (b.size_x : ℚ) := by exact_mod_cast hx2
          linarith)
    have e : CLAMPS (f32 (px / b.sigma_s)) 0 ((b.size_x : ℚ) - 1) = (x : ℚ) := congrArg Prod.fst hnode
    rw [e] at h
    have : (x : ℚ) + 1 ≤ (b.size_x : ℚ) := by linarith
    have : x + 1 ≤ b.size_x := by exact_mod_cast this
    omega
  have hby : y < b.size_y := by
    have h := CLAMPS_le (f32 (py / b.sigma_s)) 0 ((b.size_y : ℚ) - 1)
      (by have : (2 : ℚ) ≤ (b.size_y : ℚ) := by exact_mod_cast hy2
          linarith)
    have e : CLAMPS (f32 (py / b.sigma_s)) 0 ((b.size_y : ℚ) - 1) = (y : ℚ) :=
      congrArg (fun p => p.2.1) hnode
    rw [e] at h
    have : (y : ℚ) + 1 ≤ (b.size_y : ℚ) := by linarith
    have : y + 1 ≤ b.size_y := by exact_mod_cast this
    omega
  have hbz : z < b.size_z := by
    have h := CLAMPS_le (f32 (Lin / b.sigma_r)) 0 ((b.size_z : ℚ) - 1)
      (by have : (2 : ℚ) ≤ (b.size_z : ℚ) := by exact_mod_cast hz2
          linarith)
    have e : CLAMPS (f32 (Lin / b.sigma_r)) 0 ((b.size_z : ℚ) - 1) = (z : ℚ) :=
      congrArg (fun p => p.2.2) hnode
    rw [e] at h
    have : (z : ℚ) + 1 ≤ (b.size_z : ℚ) := by linarith
    have : z + 1 ≤ b.size_z := by exact_mod_cast this
    omega
  refine ⟨hbx, hby, hbz, ?_⟩
  rw [hnode]
  obtain ⟨xi, hxi, hxc⟩ := slice_axis_node b.size_x x hx2 hxm (by omega)
  obtain ⟨yi, hyi, hyc⟩ := slice_axis_node b.size_y y hy2 hym (by omega)
  obtain ⟨zi, hzi, hzc⟩ := slice_axis_node b.size_z z hz2 hzm (by omega)
  unfold slice_lookup
  simp only [hxi, hyi, hzi]
  have hgi : ((xi : ℤ) + (b.size_x : ℤ) * ((yi : ℤ) + (b.size_y : ℤ) * (zi : ℤ))).toNat
      = xi + b.size_x * (yi + b.size_y * zi) := by
    have : ((xi : ℤ) + (b.size_x : ℤ) * ((yi : ℤ) + (b.size_y : ℤ) * (zi : ℤ)))
        = ((xi + b.size_x * (yi + b.size_y * zi) : ℕ) : ℤ) := by push_cast; ring
    rw [this, Int.toNat_ofNat]
  rw [hgi]
  rcases hxc with ⟨hxf, rfl⟩ | ⟨hxf, rfl⟩ <;> rcases hyc with ⟨hyf, rfl⟩ | ⟨hyf, rfl⟩ <;>
    rcases hzc with ⟨hzf, rfl⟩ | ⟨hzf, rfl⟩ <;>
    simp only [hxf, hyf, hzf, sub_zero, sub_self, mul_zero, mul_one, add_zero, zero_add,
      Lab_fields_id] <;>
    congr 1 <;> ring

/-! ### Splat -/

/-- Closest-integer rounding of a grid coordinate `0 ≤ q ≤ n - 1`, as done by
`splat`: a natural number below `n` at distance at most `1 / 2` from `q`. -/
theorem splat_round (q : ℚ) (n : ℕ) (hn : 1 ≤ n) (hn' : n ≤ 2147483648) (h0 : 0 ≤ q)
    (h1 : q ≤ (n : ℚ) - 1) :
    ∃ xi : ℕ, CLAMPS (float_to_int (roundf q)) 0 ((n : ℤ) - 1) = (xi : ℤ) ∧ xi < n
      ∧ |(xi : ℚ) - q| ≤ 1 / 2 := by
  have hm0 : 0 ≤ ⌊q + 1 / 2⌋ := Int.floor_nonneg.mpr (by linarith)
  obtain ⟨m, hm⟩ := Int.eq_ofNat_of_zero_le hm0
  have hle : ((m : ℤ) : ℚ) ≤ q + 1 / 2 := by rw [← hm]; exact Int.floor_le _
  have hlt : q + 1 / 2 < ((m : ℤ) : ℚ) + 1 := by rw [← hm]; exact Int.lt_floor_add_one _
  simp only [Int.cast_natCast] at hle hlt
  have hmn : m < n := by
    have : (m : ℚ) < (n : ℚ) := by linarith
    exact_mod_cast this
  have hr : roundf q = (m : ℚ) := by
    unfold roundf
    rw [if_pos h0, hm]
    simp
  refine ⟨m, ?_, hmn, ?_⟩
  · rw [hr, float_to_int_natCast m (by omega)]
    exact CLAMPS_id _ _ _ (by omega) (by omega)
  · rw [abs_le]
    constructor <;> linarith

theorem image_to_grid_range (b : dt_iop_colorreconstruct_bilateral_t) (i j L : ℚ)
    (hx : 1 ≤ b.size_x) (hy : 1 ≤ b.size_y) (hz : 1 ≤ b.size_z) :
    (0 ≤ (image_to_grid b i j L).1 ∧ (image_to_grid b i j L).1 ≤ (b.size_x : ℚ) - 1)
    ∧ (0 ≤ (image_to_grid b i j L).2.1 ∧ (image_to_grid b i j L).2.1 ≤ (b.size_y : ℚ) - 1)
    ∧ (0 ≤ (image_to_grid b i j L).2.2 ∧ (image_to_grid b i j L).2.2 ≤ (b.size_z : ℚ) - 1) := by
  have hxq : (0 : ℚ) ≤ (b.size_x : ℚ) - 1 := by
    have : (1 : ℚ) ≤ (b.size_x : ℚ) := by exact_mod_cast hx
    linarith
  have hyq : (0 : ℚ) ≤ (b.size_y : ℚ) - 1 := by
    have : (1 : ℚ) ≤ (b.size_y : ℚ) := by exact_mod_cast hy
    linarith
  have hzq : (0 : ℚ) ≤ (b.size_z : ℚ) - 1 := by
    have : (1 : ℚ) ≤ (b.size_z : ℚ) := by exact_mod_cast hz
    linarith
  exact ⟨⟨CLAMPS_ge _ _ _ hxq, CLAMPS_le _ _ _ hxq⟩, ⟨CLAMPS_ge _ _ _ hyq, CLAMPS_le _ _ _ hyq⟩,
    ⟨CLAMPS_ge _ _ _ hzq, CLAMPS_le _ _ _ hzq⟩⟩

/-- A grid index built from coordinates inside the grid is inside the buffer. -/
theorem grid_index_lt (sx sy sz x y z : ℕ) (hx : x < sx) (hy : y < sy) (hz : z < sz) :
    x + sx * (y + sy * z) < sx * sy * sz := by
  have h1 : y + sy * z + 1 ≤ sy * sz := by
    have : sy * (z + 1) ≤ sy * sz := Nat.mul_le_mul_left sy hz
    have e : sy * (z + 1) = sy * z + sy := by ring
    omega
  have h2 : sx * (y + sy * z + 1) ≤ sx * (sy * sz) := Nat.mul_le_mul_left sx h1
  have e2 : sx * (y + sy * z + 1) = sx * (y + sy * z) + sx := by ring
  have e3 : sx * (sy * sz) = sx * sy * sz := by ring
  omega

/-- The cell `splat` accumulates a pixel into: nearest-integer coordinates
inside the grid. -/
theorem splat_index_spec (b : dt_iop_colorreconstruct_bilateral_t) (j i : ℕ) (Lin : ℚ)
    (hx : 1 ≤ b.size_x) (hy : 1 ≤ b.size_y) (hz : 1 ≤ b.size_z)
    (hxm : b.size_x ≤ 2147483648) (hym : b.size_y ≤ 2147483648) (hzm : b.size_z ≤ 2147483648) :
    ∃ xi yi zi : ℕ, xi < b.size_x ∧ yi < b.size_y ∧ zi < b.size_z
      ∧ |(xi : ℚ) - (image_to_grid b (i : ℚ) (j : ℚ) Lin).1| ≤ 1 / 2
      ∧ |(yi : ℚ) - (image_to_grid b (i : ℚ) (j : ℚ) Lin).2.1| ≤ 1 / 2
      ∧ |(zi : ℚ) - (image_to_grid b (i : ℚ) (j : ℚ) Lin).2.2| ≤ 1 / 2
      ∧ splat_index b j i Lin = xi + b.size_x * (yi + b.size_y * zi) := by
  obtain ⟨⟨x0, x1⟩, ⟨y0, y1⟩, ⟨z0, z1⟩⟩ := image_to_grid_range b (i : ℚ) (j : ℚ) Lin hx hy hz
  obtain ⟨xi, hxi, hxl, hxa⟩ := splat_round _ b.size_x hx hxm x0 x1
  obtain ⟨yi, hyi, hyl, hya⟩ := splat_round _ b.size_y hy hym y0 y1
  obtain ⟨zi, hzi, hzl, hza⟩ := splat_round _ b.size_z hz hzm z0 z1
  refine ⟨xi, yi, zi, hxl, hyl, hzl, hxa, hya, hza, ?_⟩
  unfold splat_index
  simp only [hxi, hyi, hzi]
  have : ((xi : ℤ) + (b.size_x : ℤ) * ((yi : ℤ) + (b.size_y : ℤ) * (zi : ℤ)))
      = ((xi + b.size_x * (yi + b.size_y * zi) : ℕ) : ℤ) := by push_cast; ring
  rw [this, Int.toNat_ofNat]

/-- C10. Splat of a single pixel.  For every grid with sizes at least 1 (within
the range of `int`) and a cell buffer of `size_x * size_y * size_z` cells, and
every pixel `(i, j)`: if the pixel's `L` exceeds the threshold the buffer is
unchanged; otherwise exactly one cell changes, the one at index
`xi + size_x * (yi + size_y * zi)` where `(xi, yi, zi)` are the
`image_to_grid` coordinates rounded to the nearest integer inside the grid, and
its `L`, `a`, `b` grow by the pixel's and its weight by 1.  `splat` is the
composition of these updates over the pixels in row-major order. -/
theorem C10_splat_single_pixel (b : dt_iop_colorreconstruct_bilateral_t)
    (buf : List dt_iop_colorreconstruct_Lab_t) (inp : ℕ → ℚ) (threshold : ℚ) (j i : ℕ)
    (hbuf : b.buf = some buf)
    (hx : 1 ≤ b.size_x) (hy : 1 ≤ b.size_y) (hz : 1 ≤ b.size_z)
    (hxm : b.size_x ≤ 2147483648) (hym : b.size_y ≤ 2147483648) (hzm : b.size_z ≤ 2147483648)
    (hlen : buf.length = b.size_x * b.size_y * b.size_z) :
    (inp (pixel_index b.width j i) > threshold → splat_pixel b inp threshold j i buf = buf)
    ∧ (inp (pixel_index b.width j i) ≤ threshold →
        ∃ xi yi zi : ℕ, xi < b.size_x ∧ yi < b.size_y ∧ zi < b.size_z
          ∧ |(xi : ℚ) - (image_to_grid b (i : ℚ) (j : ℚ) (inp (pixel_index b.width j i))).1|
              ≤ 1 / 2
          ∧ |(yi : ℚ) - (image_to_grid b (i : ℚ) (j : ℚ) (inp (pixel_index b.width j i))).2.1|
              ≤ 1 / 2
          ∧ |(zi : ℚ) - (image_to_grid b (i : ℚ) (j : ℚ) (inp (pixel_index b.width j i))).2.2|
              ≤ 1 / 2
          ∧ xi + b.size_x * (yi + b.size_y * zi) < buf.length
          ∧ (splat_pixel b inp threshold j i buf).length = buf.length
          ∧ rd (splat_pixel b inp threshold j i buf) (xi + b.size_x * (yi + b.size_y * zi))
              = ⟨(rd buf (xi + b.size_x * (yi + b.size_y * zi))).L
                    + inp (pixel_index b.width j i),
                 (rd buf (xi + b.size_x * (yi + b.size_y * zi))).a
                    + inp (pixel_index b.width j i + 1),
                 (rd buf (xi + b.size_x * (yi + b.size_y * zi))).b
                    + inp (pixel_index b.width j i + 2),
                 (rd buf (xi + b.size_x * (yi + b.size_y * zi))).weight + 1⟩
          ∧ rd (splat_pixel b inp threshold j i buf) (xi + b.size_x * (yi + b.size_y * zi))
              ≠ rd buf (xi + b.size_x * (yi + b.size_y * zi))
          ∧ ∀ k, k ≠ xi + b.size_x * (yi + b.size_y * zi) →
              rd (splat_pixel b inp threshold j i buf) k = rd buf k)
    ∧ dt_iop_colorreconstruct_bilateral_splat b inp threshold
        = Run.done
          { b with
            buf := some
              ((((List.range b.height.toNat).map
                  (fun j => (List.range b.width.toNat).map (fun i => (j, i)))).flatten).foldl
                (fun buf p => splat_pixel b inp threshold p.1 p.2 buf) buf) } := by
  refine ⟨?_, ?_, ?_⟩
  · intro h
    unfold splat_pixel
    simp only [h, if_true]
  · intro h
    obtain ⟨xi, yi, zi, hxl, hyl, hzl, hxa, hya, hza, hidx⟩ :=
      splat_index_spec b j i (inp (pixel_index b.width j i)) hx hy hz hxm hym hzm
    have hlt : xi + b.size_x * (yi + b.size_y * zi) < buf.length := by
      rw [hlen]; exact grid_index_lt _ _ _ _ _ _ hxl hyl hzl
    have hsp : splat_pixel b inp threshold j i buf
        = wr buf (xi + b.size_x * (yi + b.size_y * zi))
            ⟨(rd buf (xi + b.size_x * (yi + b.size_y * zi))).L + inp (pixel_index b.width j i),
             (rd buf (xi + b.size_x * (yi + b.size_y * zi))).a
                + inp (pixel_index b.width j i + 1),
             (rd buf (xi + b.size_x * (yi + b.size_y * zi))).b
                + inp (pixel_index b.width j i + 2),
             (rd buf (xi + b.size_x * (yi + b.size_y * zi))).weight + 1⟩ := by
      unfold splat_pixel
      simp only [not_lt.mpr h, if_false, hidx]
    refine ⟨xi, yi, zi, hxl, hyl, hzl, hxa, hya, hza, hlt, ?_, ?_, ?_, ?_⟩
    · rw [hsp, wr_length]
    · rw [hsp, rd_wr_same _ _ _ hlt]
    · rw [hsp, rd_wr_same _ _ _ hlt]
      intro e
      have := congrArg dt_iop_colorreconstruct_Lab_t.weight e
      simp at this
    · intro k hk
      rw [hsp, rd_wr_other _ _ _ _ hk]
  · unfold dt_iop_colorreconstruct_bilateral_splat
    rw [hbuf]
    simp only [splat_cells]
    rw [foldl_pixels (fun j i buf => splat_pixel b inp threshold j i buf)]

/-! ### process -/

/-- The snapshot taken from the cache slot at the head of `process`. -/
theorem process_can_eq_some (data : dt_iop_colorreconstruct_data_t)
    (g : Option dt_iop_colorreconstruct_gui_data_t) (env : process_env)
    (c : dt_iop_colorreconstruct_bilateral_frozen_t) :
    process_can data g env = some c ↔
      (env.pipe_type = dt_dev_pixelpipe_type_t.DT_DEV_PIXELPIPE_FULL ∧ env.gui_attached = true
        ∧ data.spatial > 50 ∧ (∃ gd, g = some gd ∧ gd.can = some c)
        ∧ env.cur_scale > f32 (float_1_05 * env.min_scale)) := by
  unfold process_can DT_COLORRECONSTRUCT_SPATIAL_APPROX
  cases g with
  | none => simp
  | some gd =>
    simp only [Option.some.injEq, exists_eq_left']
    split_ifs with h1 h2
    · constructor
      · intro h; exact ⟨h1.2.2, h1.2.1, h1.1, h, h2⟩
      · intro h; exact h.2.2.2.1
    · constructor
      · intro h; exact absurd h (by simp)
      · intro h; exact absurd h.2.2.2.2 h2
    · constructor
      · intro h; exact absurd h (by simp)
      · intro h; exact absurd ⟨h.2.2.1, h.2.1, h.1⟩ h1

/-- The grid handed to `slice` by `process`: either the thawed snapshot, or
the grid built by `init`, `splat` and `blur`. -/
theorem process_grid_cases (data : dt_iop_colorreconstruct_data_t)
    (g : Option dt_iop_colorreconstruct_gui_data_t) (env : process_env) (inp : ℕ → ℚ)
    (roi_in : dt_iop_roi_t) (b : dt_iop_colorreconstruct_bilateral_t) (calls : List Call)
    (h : process_grid data g env inp roi_in = Run.done (some b, calls)) :
    (∃ c, process_can data g env = some c
        ∧ dt_iop_colorreconstruct_bilateral_thaw env.grid_malloc_ok env.grid_mem (some c) = some b
        ∧ calls = [Call.thaw])
    ∨ (process_can data g env = none
        ∧ (∃ b0 b1, dt_iop_colorreconstruct_bilateral_init env.grid_malloc_ok env.grid_mem roi_in
              env.iscale (data.spatial / (env.iscale / roi_in.scale)) data.range
              = Run.done (some b0)
            ∧ dt_iop_colorreconstruct_bilateral_splat b0 inp data.threshold = Run.done b1
            ∧ dt_iop_colorreconstruct_bilateral_blur b1 = Run.done b)
        ∧ calls = [Call.init, Call.splat, Call.blur]) := by
  unfold process_grid at h
  simp only [] at h
  cases hc : process_can data g env with
  | some c =>
    rw [hc] at h
    simp only [Run.done.injEq, Prod.mk.injEq] at h
    exact Or.inl ⟨c, rfl, h.1, h.2.symm⟩
  | none =>
    rw [hc] at h
    right
    refine ⟨rfl, ?_⟩
    cases hi : dt_iop_colorreconstruct_bilateral_init env.grid_malloc_ok env.grid_mem roi_in
        env.iscale (data.spatial / (env.iscale / roi_in.scale)) data.range with
    | fault => rw [hi] at h; simp at h
    | done ob =>
      rw [hi] at h
      cases ob with
      | none => simp at h
      | some b0 =>
        simp only [] at h
        cases hs : dt_iop_colorreconstruct_bilateral_splat b0 inp data.threshold with
        | fault => rw [hs] at h; simp at h
        | done b1 =>
          rw [hs] at h
          simp only [] at h
          cases hb : dt_iop_colorreconstruct_bilateral_blur b1 with
          | fault => rw [hb] at h; simp at h
          | done b2 =>
            rw [hb] at h
            simp only [Run.done.injEq, Prod.mk.injEq, Option.some.injEq] at h
            exact ⟨⟨b0, b1, rfl, hs, by rw [← h.1]; exact hb⟩, h.2.symm⟩

/-- The second half of `process`, once the grid `b` is known. -/
theorem process_cases (data : dt_iop_colorreconstruct_data_t)
    (g : Option dt_iop_colorreconstruct_gui_data_t) (env : process_env) (inp out : ℕ → ℚ)
    (roi_in : dt_iop_roi_t) (r : process_result)
    (h : process data g env inp out roi_in = Run.done r) :
    ∃ calls, process_grid data g env inp roi_in = Run.done (some r.b, calls)
      ∧ dt_iop_colorreconstruct_bilateral_slice r.b inp out data.threshold roi_in env.iscale
          = Run.done r.out
      ∧ ((∃ gd, g = some gd ∧ env.gui_attached = true
            ∧ env.pipe_type = dt_dev_pixelpipe_type_t.DT_DEV_PIXELPIPE_PREVIEW
            ∧ ((data.spatial > 50
                ∧ r.g = some ⟨dt_iop_colorreconstruct_bilateral_freeze env.frozen_malloc_ok
                    env.frozen_mem (some r.b)⟩
                ∧ r.calls = calls ++ [Call.slice, Call.dump, Call.freeze])
              ∨ (data.spatial ≤ 50 ∧ r.g = some ⟨none⟩
                ∧ r.calls = calls ++ [Call.slice, Call.dump])))
        ∨ (¬ (g ≠ none ∧ env.gui_attached = true
              ∧ env.pipe_type = dt_dev_pixelpipe_type_t.DT_DEV_PIXELPIPE_PREVIEW)
            ∧ r.g = g ∧ r.calls = calls ++ [Call.slice])) := by
  unfold process at h
  cases hg : process_grid data g env inp roi_in with
  | fault => rw [hg] at h; simp at h
  | done p =>
    obtain ⟨ob, calls⟩ := p
    rw [hg] at h
    cases ob with
    | none => simp at h
    | some b =>
      simp only [] at h
      cases hs : dt_iop_colorreconstruct_bilateral_slice b inp out data.threshold roi_in
          env.iscale with
      | fault => rw [hs] at h; simp at h
      | done o =>
        rw [hs] at h
        simp only [DT_COLORRECONSTRUCT_SPATIAL_APPROX] at h
        cases g with
        | none =>
          simp only [Run.done.injEq] at h
          subst h
          exact ⟨calls, rfl, hs, Or.inr ⟨by simp, rfl, rfl⟩⟩
        | some gd =>
          simp only [] at h
          split_ifs at h with h1 h2
          · simp only [Run.done.injEq] at h
            subst h
            exact ⟨calls, rfl, hs, Or.inl ⟨gd, rfl, h1.1, h1.2, Or.inl ⟨h2, rfl, rfl⟩⟩⟩
          · simp only [Run.done.injEq] at h
            subst h
            exact ⟨calls, rfl, hs,
              Or.inl ⟨gd, rfl, h1.1, h1.2, Or.inr ⟨not_lt.mp h2, rfl, rfl⟩⟩⟩
          · simp only [Run.done.injEq] at h
            subst h
            exact ⟨calls, rfl, hs, Or.inr ⟨fun hh => h1 ⟨hh.2.1, hh.2.2⟩, rfl, rfl⟩⟩

theorem splat_returns (b : dt_iop_colorreconstruct_bilateral_t)
    (buf : List dt_iop_colorreconstruct_Lab_t) (inp : ℕ → ℚ) (threshold : ℚ)
    (h : b.buf = some buf) :
    dt_iop_colorreconstruct_bilateral_splat b inp threshold
      = Run.done { b with buf := some (splat_cells b inp threshold buf) } := by
  unfold dt_iop_colorreconstruct_bilateral_splat
  rw [h]

theorem blur_returns (b : dt_iop_colorreconstruct_bilateral_t)
    (buf : List dt_iop_colorreconstruct_Lab_t) (h : b.buf = some buf) :
    ∃ b', dt_iop_colorreconstruct_bilateral_blur b = Run.done b' ∧ b'.buf ≠ none := by
  unfold dt_iop_colorreconstruct_bilateral_blur
  rw [h]
  exact ⟨_, rfl, by simp⟩

theorem slice_returns (b : dt_iop_colorreconstruct_bilateral_t) (inp out : ℕ → ℚ)
    (threshold : ℚ) (roi : dt_iop_roi_t) (iscale : ℚ) (h : b.buf ≠ none) :
    ∃ o, dt_iop_colorreconstruct_bilateral_slice b inp out threshold roi iscale = Run.done o := by
  unfold dt_iop_colorreconstruct_bilateral_slice
  cases hb : b.buf with
  | none => exact absurd hb h
  | some buf => exact ⟨_, rfl⟩

theorem init_returns (m : List dt_iop_colorreconstruct_Lab_t) (roi : dt_iop_roi_t)
    (iscale sigma_s sigma_r : ℚ) :
    ∃ b, dt_iop_colorreconstruct_bilateral_init true (some m) roi iscale sigma_s sigma_r
          = Run.done (some b) ∧ b.buf ≠ none :=
  ⟨_, rfl, by simp⟩

/-- With the allocations of the grid succeeding (and a cached snapshot, if
any, holding its buffer), the first half of `process` produces a grid with a
cell buffer. -/
theorem process_grid_returns (data : dt_iop_colorreconstruct_data_t)
    (g : Option dt_iop_colorreconstruct_gui_data_t) (env : process_env) (inp : ℕ → ℚ)
    (roi_in : dt_iop_roi_t) (m : List dt_iop_colorreconstruct_Lab_t)
    (hm : env.grid_malloc_ok = true) (hmem : env.grid_mem = some m)
    (hcan : ∀ gd c, g = some gd → gd.can = some c → c.buf ≠ none) :
    ∃ b calls, process_grid data g env inp roi_in = Run.done (some b, calls) ∧ b.buf ≠ none := by
  unfold process_grid
  simp only []
  cases hc : process_can data g env with
  | some c =>
    obtain ⟨-, -, -, ⟨gd, hg, hgc⟩, -⟩ := (process_can_eq_some data g env c).mp hc
    have hcb := hcan gd c hg hgc
    cases hbuf : c.buf with
    | none => exact absurd hbuf hcb
    | some src =>
      simp only [dt_iop_colorreconstruct_bilateral_thaw, hm, hmem, hbuf, Bool.not_true,
        Bool.false_eq_true, if_false]
      exact ⟨_, _, rfl, by simp⟩
  | none =>
    obtain ⟨b0, hi, hb0⟩ := init_returns m roi_in env.iscale
      (data.spatial / (env.iscale / roi_in.scale)) data.range
    rw [hm, hmem, hi]
    simp only []
    cases hbuf0 : b0.buf with
    | none => exact absurd hbuf0 hb0
    | some buf0 =>
      rw [splat_returns b0 buf0 inp data.threshold hbuf0]
      simp only []
      obtain ⟨b2, hb2, hne⟩ := blur_returns
        { b0 with buf := some (splat_cells b0 inp data.threshold buf0) } _ rfl
      rw [hb2]
      exact ⟨b2, _, rfl, hne⟩

/-- With the allocations of the grid succeeding, `process` returns. -/
theorem process_returns (data : dt_iop_colorreconstruct_data_t)
    (g : Option dt_iop_colorreconstruct_gui_data_t) (env : process_env) (inp out : ℕ → ℚ)
    (roi_in : dt_iop_roi_t) (m : List dt_iop_colorreconstruct_Lab_t)
    (hm : env.grid_malloc_ok = true) (hmem : env.grid_mem = some m)
    (hcan : ∀ gd c, g = some gd → gd.can = some c → c.buf ≠ none) :
    ∃ r, process data g env inp out roi_in = Run.done r := by
  obtain ⟨b, calls, hg, hb⟩ := process_grid_returns data g env inp roi_in m hm hmem hcan
  obtain ⟨o, ho⟩ := slice_returns b inp out data.threshold roi_in env.iscale hb
  unfold process
  rw [hg]
  simp only [ho]
  cases g with
  | none => exact ⟨_, rfl⟩
  | some gd =>
    simp only []
    split_ifs <;> exact ⟨_, rfl⟩

/-- C7. Cache gating in `process`.  For every invocation that returns:
with `spatial ≤ 50` no `freeze` is called, whatever the pipeline stage, and on
the preview stage with a GUI attached the cache slot ends empty; on the preview
stage with a GUI attached and `spatial > 50` the cache slot ends holding
`freeze b` of the grid `b` that was sliced, the previous snapshot having been
dumped; on any stage other than preview the cache slot is unchanged.  With the
grid allocations succeeding the invocation does return. -/
theorem C7_cache_gating (data : dt_iop_colorreconstruct_data_t)
    (g : Option dt_iop_colorreconstruct_gui_data_t) (env : process_env) (inp out : ℕ → ℚ)
    (roi_in : dt_iop_roi_t) :
    (∀ r, process data g env inp out roi_in = Run.done r →
      (data.spatial ≤ 50 →
        Call.freeze ∉ r.calls
        ∧ ∀ gd, g = some gd → env.gui_attached = true →
            env.pipe_type = dt_dev_pixelpipe_type_t.DT_DEV_PIXELPIPE_PREVIEW →
            r.g = some ⟨none⟩)
      ∧ (data.spatial > 50 → ∀ gd, g = some gd → env.gui_attached = true →
          env.pipe_type = dt_dev_pixelpipe_type_t.DT_DEV_PIXELPIPE_PREVIEW →
          dt_iop_colorreconstruct_bilateral_slice r.b inp out data.threshold roi_in env.iscale
              = Run.done r.out
          ∧ r.g = some ⟨dt_iop_colorreconstruct_bilateral_freeze env.frozen_malloc_ok
                env.frozen_mem (some r.b)⟩
          ∧ Call.dump ∈ r.calls)
      ∧ (env.pipe_type ≠ dt_dev_pixelpipe_type_t.DT_DEV_PIXELPIPE_PREVIEW → r.g = g))
    ∧ (∀ m, env.grid_malloc_ok = true → env.grid_mem = some m →
        (∀ gd c, g = some gd → gd.can = some c → c.buf ≠ none) →
        ∃ r, process data g env inp out roi_in = Run.done r) := by
  refine ⟨?_, fun m hm hmem hcan => process_returns data g env inp out roi_in m hm hmem hcan⟩
  intro r hr
  obtain ⟨calls, hg, hs, hcase⟩ := process_cases data g env inp out roi_in r hr
  have hcalls : Call.freeze ∉ calls := by
    rcases process_grid_cases data g env inp roi_in r.b calls hg with ⟨c, -, -, h⟩ | ⟨-, -, h⟩ <;>
      simp [h]
  refine ⟨?_, ?_, ?_⟩
  · intro hsp
    rcases hcase with ⟨gd, hgd, hga, hpt, ⟨h1, -, -⟩ | ⟨-, h2, h3⟩⟩ | ⟨hn, h2, h3⟩
    · exact absurd hsp (not_le.mpr h1)
    · refine ⟨?_, fun _ _ _ _ => h2⟩
      rw [h3]
      simp [hcalls]
    · refine ⟨?_, fun gd' hgd' hga hpt => absurd ⟨by simp [hgd'], hga, hpt⟩ hn⟩
      rw [h3]
      simp [hcalls]
  · intro hsp gd' hgd' hga hpt
    rcases hcase with ⟨gd, hgd, -, -, ⟨-, h2, h3⟩ | ⟨h1, -, -⟩⟩ | ⟨hn, -, -⟩
    · exact ⟨hs, h2, by rw [h3]; simp⟩
    · exact absurd hsp (not_lt.mpr h1)
    · exact absurd ⟨by simp [hgd'], hga, hpt⟩ hn
  · intro hpt
    rcases hcase with ⟨gd, -, -, hp, -⟩ | ⟨-, h2, -⟩
    · exact absurd hp hpt
    · exact h2

theorem splat_pixel_length (b : dt_iop_colorreconstruct_bilateral_t) (inp : ℕ → ℚ)
    (threshold : ℚ) (j i : ℕ) (buf : List dt_iop_colorreconstruct_Lab_t) :
    (splat_pixel b inp threshold j i buf).length = buf.length := by
  unfold splat_pixel
  simp only []
  split_ifs
  · rfl
  · exact wr_length _ _ _

/-- One pixel of `splat`, read back at cell `k`: the cell gains the pixel's
contribution when the pixel is at or below the threshold and is mapped to `k`,
and is unchanged otherwise. -/
theorem splat_pixel_rd (b : dt_iop_colorreconstruct_bilateral_t) (inp : ℕ → ℚ)
    (threshold : ℚ) (j i : ℕ) (buf : List dt_iop_colorreconstruct_Lab_t) (k : ℕ)
    (hk : k < buf.length) :
    rd (splat_pixel b inp threshold j i buf) k
      = if inp (pixel_index b.width j i) ≤ threshold
            ∧ splat_index b j i (inp (pixel_index b.width j i)) = k
        then rd buf k + splat_contribution b.width inp j i else rd buf k := by
  unfold splat_pixel
  simp only []
  by_cases hL : inp (pixel_index b.width j i) > threshold
  · rw [if_pos hL, if_neg (fun h => absurd h.1 (not_le.mpr hL))]
  · rw [if_neg hL]
    by_cases hi : splat_index b j i (inp (pixel_index b.width j i)) = k
    · rw [if_pos ⟨not_lt.mp hL, hi⟩, hi, rd_wr_same _ _ _ hk]
      rfl
    · rw [if_neg (fun h => hi h.2), rd_wr_other _ _ _ _ (Ne.symm hi)]

theorem splat_fold_length (b : dt_iop_colorreconstruct_bilateral_t) (inp : ℕ → ℚ)
    (threshold : ℚ) (l : List (ℕ × ℕ)) (buf : List dt_iop_colorreconstruct_Lab_t) :
    (l.foldl (fun buf p => splat_pixel b inp threshold p.1 p.2 buf) buf).length
      = buf.length := by
  induction l generalizing buf with
  | nil => rfl
  | cons p l ih =>
    simp only [List.foldl_cons]
    rw [ih, splat_pixel_length]

/-- After splatting a list of pixels, cell `k` holds its former content plus
the sum of the contributions of the pixels of the list that are at or below
the threshold and are mapped to `k`. -/
theorem splat_fold_rd (b : dt_iop_colorreconstruct_bilateral_t) (inp : ℕ → ℚ)
    (threshold : ℚ) (l : List (ℕ × ℕ)) (buf : List dt_iop_colorreconstruct_Lab_t) (k : ℕ)
    (hk : k < buf.length) :
    rd (l.foldl (fun buf p => splat_pixel b inp threshold p.1 p.2 buf) buf) k
      = rd buf k
        + ((l.filter (fun p => decide (inp (pixel_index b.width p.1 p.2) ≤ threshold
              ∧ splat_index b p.1 p.2 (inp (pixel_index b.width p.1 p.2)) = k))).map
            (fun p => splat_contribution b.width inp p.1 p.2)).sum := by
  induction l generalizing buf with
  | nil => simp
  | cons p l ih =>
    simp only [List.foldl_cons]
    rw [ih _ (by rw [splat_pixel_length]; exact hk), splat_pixel_rd _ _ _ _ _ _ _ hk]
    by_cases hp : inp (pixel_index b.width p.1 p.2) ≤ threshold
        ∧ splat_index b p.1 p.2 (inp (pixel_index b.width p.1 p.2)) = k
    · rw [if_pos hp, List.filter_cons_of_pos (by simpa using hp)]
      simp only [List.map_cons, List.sum_cons]
      rw [add_assoc]
    · rw [if_neg hp, List.filter_cons_of_neg (by simpa using hp)]

/-- The cell buffer after `splat`, cell by cell. -/
theorem splat_cells_rd (b : dt_iop_colorreconstruct_bilateral_t) (inp : ℕ → ℚ)
    (threshold : ℚ) (buf : List dt_iop_colorreconstruct_Lab_t) (k : ℕ) (hk : k < buf.length) :
    rd (splat_cells b inp threshold buf) k
      = rd buf k
        + (((((List.range b.height.toNat).map
              (fun j => (List.range b.width.toNat).map (fun i => (j, i)))).flatten).filter
            (fun p => decide (inp (pixel_index b.width p.1 p.2) ≤ threshold
              ∧ splat_index b p.1 p.2 (inp (pixel_index b.width p.1 p.2)) = k))).map
            (fun p => splat_contribution b.width inp p.1 p.2)).sum := by
  unfold splat_cells
  rw [foldl_pixels (fun j i buf => splat_pixel b inp threshold j i buf)]
  exact splat_fold_rd b inp threshold _ buf k hk

theorem splat_cells_length (b : dt_iop_colorreconstruct_bilateral_t) (inp : ℕ → ℚ)
    (threshold : ℚ) (buf : List dt_iop_colorreconstruct_Lab_t) :
    (splat_cells b inp threshold buf).length = buf.length := by
  unfold splat_cells
  rw [foldl_pixels (fun j i buf => splat_pixel b inp threshold j i buf)]
  exact splat_fold_length b inp threshold _ buf

/-! ### The end-to-end scenario -/

theorem memset_zero_full (m : List dt_iop_colorreconstruct_Lab_t) (n : ℕ) (h : m.length = n) :
    memset_zero m n = List.replicate n Lab_zero := by
  unfold memset_zero
  rw [List.drop_of_length_le (le_of_eq h), h]
  simp

theorem rd_replicate_zero (n k : ℕ) : rd (List.replicate n Lab_zero) k = Lab_zero := by
  unfold rd
  by_cases h : k < n
  · rw [List.getD_eq_getElem _ _ (by simpa using h)]
    simp
  · rw [List.getD_eq_default _ _ (by simpa using h)]

/-- The grid `init` builds in the scenario: 5 × 5 × 11 with `sigma_s = 1` and
`sigma_r = 10`. -/
theorem scenario_init (m : List dt_iop_colorreconstruct_Lab_t) (x y : ℤ)
    (hm : m.length = 275) :
    dt_iop_colorreconstruct_bilateral_init true (some m) ⟨x, y, 4, 4, 1⟩ 1 (400 / (1 / 1)) 10
      = Run.done (some ⟨5, 5, 11, 4, 4, x, y, 1, 1, 10, some (List.replicate 275 Lab_zero)⟩) := by
  have e1 : roundf (f32 (((4 : ℤ) : ℚ) / (400 / (1 / 1)))) = 0 := by
    have e : (((4 : ℤ) : ℚ) / (400 / (1 / 1))) = 1 / 100 := by norm_num
    rw [e, f32_hundredth]
    norm_num [roundf]
  have e2 : roundf (f32 (100 / 10)) = 10 := by norm_num [roundf, f32_ten]
  have f0 : float_to_int 0 = 0 := by norm_num [float_to_int, INT_MIN, INT_MAX]
  have f10 : float_to_int 10 = 10 := by norm_num [float_to_int, INT_MIN, INT_MAX]
  simp only [dt_iop_colorreconstruct_bilateral_init, Bool.not_true, Bool.false_eq_true,
    if_false, e1, e2, f0, f10]
  have t5 : Int.toNat 5 = 5 := rfl
  have t11 : Int.toNat 11 = 11 := rfl
  norm_num [CLAMPS, MAX, DT_COLORRECONSTRUCT_BILATERAL_MAX_RES_S,
    DT_COLORRECONSTRUCT_BILATERAL_MAX_RES_R, t5, t11, memset_zero_full m 275 hm, f32_one,
    f32_ten]

/-- In the scenario grid a pixel `(i, j)` with `L = 50` is splatted to the cell
`(i, j, 5)`. -/
theorem scenario_splat_index (x y : ℤ) (buf : Option (List dt_iop_colorreconstruct_Lab_t))
    (j i : ℕ) (hj : j < 4) (hi : i < 4) :
    splat_index ⟨5, 5, 11, 4, 4, x, y, 1, 1, 10, buf⟩ j i 50 = i + 5 * (j + 5 * 5) := by
  have hz : roundf (CLAMPS (f32 ((50 : ℚ) / 10)) 0 (((11 : ℕ) : ℚ) - 1)) = ((5 : ℕ) : ℚ) := by
    norm_num [roundf, CLAMPS, f32_five]
  have hr : ∀ n : ℕ, n < 4 →
      roundf (CLAMPS (f32 ((n : ℚ) / 1)) 0 (((5 : ℕ) : ℚ) - 1)) = (n : ℚ) := by
    intro n hn
    interval_cases n <;> norm_num [roundf, CLAMPS, f32_zero, f32_one, f32_two, f32_three]
  unfold splat_index image_to_grid
  simp only [hz, hr i hi, hr j hj, float_to_int_natCast i (by omega),
    float_to_int_natCast j (by omega), float_to_int_natCast 5 (by omega)]
  rw [CLAMPS_id _ _ _ (by omega) (by omega),
    CLAMPS_id _ _ _ (by omega) (by omega),
    CLAMPS_id _ _ _ (by omega) (by omega)]
  have : ((i : ℤ) + ((5 : ℕ) : ℤ) * ((j : ℤ) + ((5 : ℕ) : ℤ) * ((5 : ℕ) : ℤ)))
      = ((i + 5 * (j + 5 * 5) : ℕ) : ℤ) := by push_cast; ring
  rw [this, Int.toNat_ofNat]

theorem sum_contribution_weight (width : ℤ) (inp : ℕ → ℚ) (l : List (ℕ × ℕ)) :
    ((l.map (fun p => splat_contribution width inp p.1 p.2)).sum).weight = (l.length : ℚ) := by
  induction l with
  | nil => rfl
  | cons p l ih =>
    simp only [List.map_cons, List.sum_cons, List.length_cons]
    have : ∀ c d : dt_iop_colorreconstruct_Lab_t, (c + d).weight = c.weight + d.weight :=
      fun _ _ => rfl
    rw [this, ih]
    simp only [splat_contribution]
    push_cast
    ring

theorem zero_add_weight (c : dt_iop_colorreconstruct_Lab_t) :
    (Lab_zero + c).weight = c.weight := by
  show (0 : ℚ) + c.weight = c.weight
  exact zero_add _

/-- In the scenario the pixels accumulated into cell `k` are those with
`i + 5 * (j + 25) = k`. -/
theorem scenario_filter (inp : ℕ → ℚ) (x y : ℤ)
    (buf : Option (List dt_iop_colorreconstruct_Lab_t)) (k : ℕ)
    (hin : ∀ n, n < 16 → inp (4 * n) = 50 ∧ inp (4 * n + 1) = 10 ∧ inp (4 * n + 2) = -5) :
    ((((List.range 4).map (fun j => (List.range 4).map (fun i => (j, i)))).flatten).filter
      (fun p => decide (inp (pixel_index (4 : ℤ) p.1 p.2) ≤ 100
        ∧ splat_index ⟨5, 5, 11, 4, 4, x, y, 1, 1, 10, buf⟩ p.1 p.2
            (inp (pixel_index (4 : ℤ) p.1 p.2)) = k)))
    = (((List.range 4).map (fun j => (List.range 4).map (fun i => (j, i)))).flatten).filter
      (fun p => decide (p.2 + 5 * (p.1 + 5 * 5) = k)) := by
  apply List.filter_congr
  intro p hp
  rw [mem_pixels] at hp
  have hidx : pixel_index (4 : ℤ) p.1 p.2 = 4 * (4 * p.1 + p.2) := by
    rw [pixel_index_eq _ _ _ (by norm_num)]
    have : (4 : ℤ).toNat = 4 := rfl
    rw [this]
    ring
  have hL := (hin (4 * p.1 + p.2) (by omega)).1
  rw [hidx, hL, scenario_splat_index x y buf p.1 p.2 hp.1 hp.2]
  have : (50 : ℚ) ≤ 100 := by norm_num
  simp [this]

/-- Whatever grid `slice` is given, when it returns, a pixel of the roi whose
`L` is at most `0.95 * threshold * (1 - 2 ^ (-24))`, for a positive threshold,
keeps its four input floats. -/
theorem slice_below_threshold (b : dt_iop_colorreconstruct_bilateral_t) (inp out0 o : ℕ → ℚ)
    (threshold : ℚ) (roi : dt_iop_roi_t) (iscale : ℚ) (j i : ℕ)
    (h : dt_iop_colorreconstruct_bilateral_slice b inp out0 threshold roi iscale = Run.done o)
    (ht : 0 < threshold) (hj : (j : ℤ) < roi.height) (hi : (i : ℤ) < roi.width)
    (hL : inp (pixel_index roi.width j i) ≤ 19 / 20 * threshold * (1 - 1 / 2 ^ 24)) :
    o (pixel_index roi.width j i) = inp (pixel_index roi.width j i)
    ∧ o (pixel_index roi.width j i + 1) = inp (pixel_index roi.width j i + 1)
    ∧ o (pixel_index roi.width j i + 2) = inp (pixel_index roi.width j i + 2)
    ∧ o (pixel_index roi.width j i + 3) = inp (pixel_index roi.width j i + 3) := by
  have hb0 : slice_blend threshold (inp (pixel_index roi.width j i)) = 0 :=
    slice_blend_eq_zero _ _ ht hL
  have key : ∀ buf, o = slice_cells b buf inp out0 threshold roi iscale →
      o (pixel_index roi.width j i) = inp (pixel_index roi.width j i)
      ∧ o (pixel_index roi.width j i + 1) = inp (pixel_index roi.width j i + 1)
      ∧ o (pixel_index roi.width j i + 2) = inp (pixel_index roi.width j i + 2)
      ∧ o (pixel_index roi.width j i + 3) = inp (pixel_index roi.width j i + 3) := by
    intro buf ho
    have h0 := slice_cells_at b buf inp out0 threshold roi iscale j i 0 hj hi (by norm_num)
    have h1 := slice_cells_at b buf inp out0 threshold roi iscale j i 1 hj hi (by norm_num)
    have h2 := slice_cells_at b buf inp out0 threshold roi iscale j i 2 hj hi (by norm_num)
    have h3 := slice_cells_at b buf inp out0 threshold roi iscale j i 3 hj hi (by norm_num)
    rw [← ho] at h0 h1 h2 h3
    rw [add_zero] at h0
    rw [h0, h1, h2, h3]
    unfold slice_pixel
    simp [hb0, Function.update_apply]
  unfold dt_iop_colorreconstruct_bilateral_slice at h
  cases hb : b.buf with
  | some buf =>
    rw [hb] at h
    simp only [Run.done.injEq] at h
    exact key buf h.symm
  | none =>
    rw [hb] at h
    simp only [] at h
    split_ifs at h
    simp only [Run.done.injEq] at h
    exact key [] h.symm

/-- C9. End-to-end scenario: a 4 × 4 input at roi scale 1 and pipeline scale 1,
every pixel `L = 50`, `a = 10`, `b = -5` (alpha arbitrary), parameters
`threshold = 100`, `spatial = 400`, `range = 10`, no cached snapshot.  `init`
yields a 5 × 5 × 11 grid with `sigma_s = 1` and `sigma_r = 10`; after `splat`
every cell outside the plane `z = 5` is zero and the weights in that plane sum
to 16; `process` returns, the grid it slices is the blur of the splatted grid,
and the output has `L = 50`, `a = 10`, `b = -5` at every pixel. -/
theorem C9_end_to_end_scenario (inp out : ℕ → ℚ)
    (g : Option dt_iop_colorreconstruct_gui_data_t) (env : process_env)
    (m : List dt_iop_colorreconstruct_Lab_t) (x y : ℤ)
    (hin : ∀ n, n < 16 → inp (4 * n) = 50 ∧ inp (4 * n + 1) = 10 ∧ inp (4 * n + 2) = -5)
    (hscale : env.iscale = 1) (hm : env.grid_malloc_ok = true) (hmem : env.grid_mem = some m)
    (hlen : m.length = 275) (hcache : ∀ gd, g = some gd → gd.can = none) :
    ∃ b0 b1 cells r,
      dt_iop_colorreconstruct_bilateral_init true (some m) ⟨x, y, 4, 4, 1⟩ 1 (400 / (1 / 1)) 10
        = Run.done (some b0)
      ∧ b0.size_x = 5 ∧ b0.size_y = 5 ∧ b0.size_z = 11 ∧ b0.sigma_s = 1 ∧ b0.sigma_r = 10
      ∧ dt_iop_colorreconstruct_bilateral_splat b0 inp 100 = Run.done b1
      ∧ b1.buf = some cells
      ∧ (∀ cx cy cz, cx < 5 → cy < 5 → cz < 11 → cz ≠ 5 →
          rd cells (cx + 5 * (cy + 5 * cz)) = Lab_zero)
      ∧ (∑ cy in Finset.range 5, ∑ cx in Finset.range 5,
          (rd cells (cx + 5 * (cy + 5 * 5))).weight) = 16
      ∧ process ⟨100, 400, 10⟩ g env inp out ⟨x, y, 4, 4, 1⟩ = Run.done r
      ∧ dt_iop_colorreconstruct_bilateral_blur b1 = Run.done r.b
      ∧ ∀ j i, j < 4 → i < 4 →
          r.out (pixel_index 4 j i) = 50 ∧ r.out (pixel_index 4 j i + 1) = 10
          ∧ r.out (pixel_index 4 j i + 2) = -5 := by
  have hinit := scenario_init m x y hlen
  have hsplat := splat_returns ⟨5, 5, 11, 4, 4, x, y, 1, 1, 10, some (List.replicate 275 Lab_zero)⟩
    (List.replicate 275 Lab_zero) inp 100 rfl
  obtain ⟨r, hr⟩ := process_returns ⟨100, 400, 10⟩ g env inp out ⟨x, y, 4, 4, 1⟩ m hm hmem
    (fun gd c hg hc => by rw [hcache gd hg] at hc; exact absurd hc (by simp))
  obtain ⟨calls, hg, hs, -⟩ := process_cases _ g env inp out _ r hr
  have hcan : process_can ⟨100, 400, 10⟩ g env = none := by
    cases hc : process_can ⟨100, 400, 10⟩ g env with
    | none => rfl
    | some c =>
      obtain ⟨-, -, -, ⟨gd, hgd, hgc⟩, -⟩ := (process_can_eq_some _ g env c).mp hc
      rw [hcache gd hgd] at hgc
      exact absurd hgc (by simp)
  have hblur : dt_iop_colorreconstruct_bilateral_blur
      { (⟨5, 5, 11, 4, 4, x, y, 1, 1, 10, some (List.replicate 275 Lab_zero)⟩ :
          dt_iop_colorreconstruct_bilateral_t) with
        buf := some (splat_cells
          ⟨5, 5, 11, 4, 4, x, y, 1, 1, 10, some (List.replicate 275 Lab_zero)⟩ inp 100
          (List.replicate 275 Lab_zero)) } = Run.done r.b := by
    rcases process_grid_cases _ g env inp _ r.b calls hg with ⟨c, hc, -, -⟩ | ⟨-, ⟨b0, b1, h0, h1, h2⟩, -⟩
    · rw [hcan] at hc
      exact absurd hc (by simp)
    · rw [hm, hmem, hscale] at h0
      simp only [] at h0
      rw [hinit] at h0
      simp only [Run.done.injEq, Option.some.injEq] at h0
      subst h0
      simp only [] at h1
      rw [hsplat] at h1
      simp only [Run.done.injEq] at h1
      subst h1
      exact h2
  have hcell : ∀ k, k < 275 →
      rd (splat_cells ⟨5, 5, 11, 4, 4, x, y, 1, 1, 10, some (List.replicate 275 Lab_zero)⟩
            inp 100 (List.replicate 275 Lab_zero)) k
        = Lab_zero + (((((List.range 4).map
              (fun j => (List.range 4).map (fun i => (j, i)))).flatten).filter
            (fun p => decide (p.2 + 5 * (p.1 + 5 * 5) = k))).map
            (fun p => splat_contribution 4 inp p.1 p.2)).sum := by
    intro k hk
    rw [splat_cells_rd _ _ _ _ k (by rw [List.length_replicate]; exact hk), rd_replicate_zero]
    have h4 : (4 : ℤ).toNat = 4 := rfl
    simp only [h4]
    rw [scenario_filter inp x y _ k hin]
  refine ⟨_, _, _, r, hinit, rfl, rfl, rfl, rfl, rfl, hsplat, rfl, ?_, ?_, hr, hblur, ?_⟩
  · intro cx cy cz hx hy hz hne
    rw [hcell _ (by omega)]
    have : ((((List.range 4).map (fun j => (List.range 4).map (fun i => (j, i)))).flatten).filter
        (fun p => decide (p.2 + 5 * (p.1 + 5 * 5) = cx + 5 * (cy + 5 * cz)))) = [] := by
      rw [List.filter_eq_nil_iff]
      intro p hp
      rw [mem_pixels] at hp
      simp only [decide_eq_true_eq]
      omega
    rw [this]
    simp only [List.map_nil, List.sum_nil, add_zero]
  · have key : ∀ cy ∈ Finset.range 5, ∀ cx ∈ Finset.range 5,
        (rd (splat_cells
            ⟨5, 5, 11, 4, 4, x, y, 1, 1, 10, some (List.replicate 275 Lab_zero)⟩
            inp 100 (List.replicate 275 Lab_zero)) (cx + 5 * (cy + 5 * 5))).weight
        = ((((((List.range 4).map
              (fun j => (List.range 4).map (fun i => (j, i)))).flatten).filter
            (fun p => decide (p.2 + 5 * (p.1 + 5 * 5) = cx + 5 * (cy + 5 * 5)))).length : ℕ) : ℚ) := by
      intro cy hcy cx hcx
      rw [Finset.mem_range] at hcy hcx
      rw [hcell _ (by omega), zero_add_weight, sum_contribution_weight]
    rw [Finset.sum_congr rfl (fun cy hcy => Finset.sum_congr rfl (key cy hcy))]
    have : (∑ cy in Finset.range 5, ∑ cx in Finset.range 5,
        (((List.range 4).map (fun j => (List.range 4).map (fun i => (j, i)))).flatten.filter
          (fun p => decide (p.2 + 5 * (p.1 + 5 * 5) = cx + 5 * (cy + 5 * 5)))).length) = 16 := by
      decide
    exact_mod_cast this
  · intro j i hj hi
    have hb := slice_below_threshold r.b inp out r.out 100 ⟨x, y, 4, 4, 1⟩ env.iscale j i hs
      (by norm_num) (by simp only; omega) (by simp only; omega)
    have hidx : pixel_index (4 : ℤ) j i = 4 * (4 * j + i) := by
      rw [pixel_index_eq _ _ _ (by norm_num)]
      have : (4 : ℤ).toNat = 4 := rfl
      rw [this]
      ring
    obtain ⟨e0, e1, e2⟩ := hin (4 * j + i) (by omega)
    simp only [] at hb
    rw [hidx] at hb ⊢
    obtain ⟨o0, o1, o2, -⟩ := hb (by rw [e0]; norm_num)
    rw [o0, o1, o2]
    exact ⟨e0, e1, e2⟩

/-! ### Blur of one line -/

theorem line_pos_inj (s d t t' : ℕ) (hd : 1 ≤ d) (h : s + t * d = s + t' * d) : t = t' := by
  have : t * d = t' * d := by omega
  exact Nat.eq_of_mul_eq_mul_right (by omega) this

theorem line_pos_le (s d t n : ℕ) (ht : t + 1 ≤ n) : s + t * d ≤ s + (n - 1) * d := by
  have : t * d ≤ (n - 1) * d := Nat.mul_le_mul_right d (by omega)
  omega

/-- One iteration of the inner loop of `blur_line`, started at position
`m + 2` of a line with the two saved cells holding the original values at
positions `m` and `m + 1`. -/
theorem blur_line_step_inv (buf0 : List dt_iop_colorreconstruct_Lab_t) (s d n m : ℕ)
    (st : blur_state) (hd : 1 ≤ d) (hm : m + 5 ≤ n) (hb : s + (n - 1) * d < buf0.length)
    (hidx : st.index = s + (m + 2) * d) (h1 : st.tmp1 = rd buf0 (s + m * d))
    (h2 : st.tmp2 = rd buf0 (s + (m + 1) * d)) (hlen : st.buf.length = buf0.length)
    (hrest : ∀ t, m + 2 ≤ t → t < n → rd st.buf (s + t * d) = rd buf0 (s + t * d)) :
    (blur_line_step d st).index = s + (m + 3) * d
    ∧ (blur_line_step d st).tmp1 = rd buf0 (s + (m + 1) * d)
    ∧ (blur_line_step d st).tmp2 = rd buf0 (s + (m + 2) * d)
    ∧ (blur_line_step d st).buf.length = buf0.length
    ∧ (∀ t, m + 3 ≤ t → t < n → rd (blur_line_step d st).buf (s + t * d) = rd buf0 (s + t * d))
    ∧ rd (blur_line_step d st).buf (s + (m + 2) * d)
        = Lab_fields (fun f => blur_kernel (fun u => f (rd buf0 (s + u * d))) n (m + 2))
    ∧ (∀ p, p ≠ s + (m + 2) * d → rd (blur_line_step d st).buf p = rd st.buf p) := by
  have e1 : s + (m + 2) * d + d = s + (m + 3) * d := by ring
  have e2 : s + (m + 2) * d + 2 * d = s + (m + 4) * d := by ring
  have hin : s + (m + 2) * d < st.buf.length := by
    rw [hlen]
    exact lt_of_le_of_lt (line_pos_le s d (m + 2) n (by omega)) hb
  unfold blur_line_step
  simp only [hidx, e1, e2]
  refine ⟨trivial, h2, hrest (m + 2) (by omega) (by omega), ?_, ?_, ?_, ?_⟩
  · rw [wr_length, hlen]
  · intro t ht htn
    rw [rd_wr_other _ _ _ _ (fun h => by have := line_pos_inj s d _ _ hd h; omega)]
    exact hrest t (by omega) htn
  · rw [rd_wr_same _ _ _ hin]
    congr 1
    funext f
    unfold blur_kernel
    rw [hrest (m + 2) (by omega) (by omega), hrest (m + 3) (by omega) (by omega),
      hrest (m + 4) (by omega) (by omega), h1, h2]
    have c1 : m + 2 + 1 < n := by omega
    have c2 : 1 ≤ m + 2 := by omega
    have c3 : m + 2 + 2 < n := by omega
    have c4 : 2 ≤ m + 2 := by omega
    simp only [c1, c2, c3, c4, if_true]
    have a1 : m + 2 + 1 = m + 3 := rfl
    have a2 : m + 2 - 1 = m + 1 := rfl
    have a3 : m + 2 + 2 = m + 4 := rfl
    have a4 : m + 2 - 2 = m := rfl
    rw [a1, a2, a3, a4]
    ring
  · intro p hp
    exact rd_wr_other _ _ _ _ hp

/-- The inner loop of `blur_line` after `k` iterations. -/
theorem blur_line_iter_inv (buf0 : List dt_iop_colorreconstruct_Lab_t) (s d n : ℕ)
    (st0 : blur_state) (hd : 1 ≤ d) (hb : s + (n - 1) * d < buf0.length)
    (hidx0 : st0.index = s + 2 * d) (h10 : st0.tmp1 = rd buf0 s)
    (h20 : st0.tmp2 = rd buf0 (s + d)) (hlen0 : st0.buf.length = buf0.length)
    (hrest0 : ∀ t, 2 ≤ t → t < n → rd st0.buf (s + t * d) = rd buf0 (s + t * d))
    (k : ℕ) (hk : k + 4 ≤ n) :
    ((blur_line_step d)^[k] st0).index = s + (k + 2) * d
    ∧ ((blur_line_step d)^[k] st0).tmp1 = rd buf0 (s + k * d)
    ∧ ((blur_line_step d)^[k] st0).tmp2 = rd buf0 (s + (k + 1) * d)
    ∧ ((blur_line_step d)^[k] st0).buf.length = buf0.length
    ∧ (∀ t, k + 2 ≤ t → t < n →
        rd ((blur_line_step d)^[k] st0).buf (s + t * d) = rd buf0 (s + t * d))
    ∧ (∀ t, 2 ≤ t → t < k + 2 →
        rd ((blur_line_step d)^[k] st0).buf (s + t * d)
          = Lab_fields (fun f => blur_kernel (fun u => f (rd buf0 (s + u * d))) n t))
    ∧ (∀ p, (∀ t, 2 ≤ t → t < k + 2 → p ≠ s + t * d) →
        rd ((blur_line_step d)^[k] st0).buf p = rd st0.buf p) := by
  induction k with
  | zero =>
    simp only [Function.iterate_zero, id_eq, zero_add, zero_mul, add_zero, one_mul]
    exact ⟨hidx0, h10, h20, hlen0, hrest0, fun t h2 h3 => by omega, fun p _ => trivial⟩
  | succ k ih =>
    obtain ⟨i1, i2, i3, i4, i5, i6, i7⟩ := ih (by omega)
    rw [Function.iterate_succ_apply']
    obtain ⟨j1, j2, j3, j4, j5, j6, j7⟩ :=
      blur_line_step_inv buf0 s d n k ((blur_line_step d)^[k] st0) hd (by omega) hb
        i1 i2 i3 i4 i5
    refine ⟨j1, j2, j3, j4, j5, ?_, ?_⟩
    · intro t ht2 htk
      by_cases h : t = k + 2
      · rw [h]; exact j6
      · rw [j7 _ (fun e => h (line_pos_inj s d _ _ hd e))]
        exact i6 t ht2 (by omega)
    · intro p hp
      rw [j7 p (hp (k + 2) (by omega) (by omega))]
      exact i7 p (fun t ht2 htk => hp t ht2 (by omega))

/-- The blur of one line by `blur_line`, against the out-of-place kernel: the
line of `n ≥ 4` cells starting at `s` with stride `d` receives at each position
the kernel of the original values of the line, every other cell of the buffer
is unchanged, and the running index moves to `s + offset2`. -/
theorem blur_line_row_spec (buf : List dt_iop_colorreconstruct_Lab_t) (s o2 d n : ℕ)
    (hn : 4 ≤ n) (hd : 1 ≤ d) (hb : s + (n - 1) * d < buf.length) :
    (blur_line_row o2 d n (buf, s)).2 = s + o2
    ∧ (blur_line_row o2 d n (buf, s)).1.length = buf.length
    ∧ (∀ t, t < n → rd (blur_line_row o2 d n (buf, s)).1 (s + t * d)
        = Lab_fields (fun f => blur_kernel (fun u => f (rd buf (s + u * d))) n t))
    ∧ (∀ p, (∀ t, t < n → p ≠ s + t * d) → rd (blur_line_row o2 d n (buf, s)).1 p = rd buf p) := by
  -- the first two writes
  obtain ⟨B1, hB1⟩ : ∃ B1, B1 = wr buf s (Lab_fields fun f =>
    f (rd buf s) * blur_w0 + blur_w1 * f (rd buf (s + d)) + blur_w2 * f (rd buf (s + 2 * d))) :=
    ⟨_, rfl⟩
  obtain ⟨B2, hB2⟩ : ∃ B2, B2 = wr B1 (s + d) (Lab_fields fun f =>
    f (rd B1 (s + d)) * blur_w0 + blur_w1 * (f (rd B1 (s + d + d)) + f (rd buf s))
      + blur_w2 * f (rd B1 (s + d + 2 * d))) := ⟨_, rfl⟩
  obtain ⟨st, hst⟩ : ∃ st, st = (blur_line_step d)^[n - 4]
    { buf := B2, index := s + d + d, tmp1 := rd buf s, tmp2 := rd B1 (s + d) } := ⟨_, rfl⟩
  have hrow : blur_line_row o2 d n (buf, s)
      = (wr (wr st.buf st.index (Lab_fields fun f =>
            f (rd st.buf st.index) * blur_w0
              + blur_w1 * (f (rd st.buf (st.index + d)) + f st.tmp2) + blur_w2 * f st.tmp1))
          (st.index + d) (Lab_fields fun f =>
            f (rd (wr st.buf st.index (Lab_fields fun f =>
              f (rd st.buf st.index) * blur_w0
                + blur_w1 * (f (rd st.buf (st.index + d)) + f st.tmp2) + blur_w2 * f st.tmp1))
              (st.index + d)) * blur_w0 + blur_w1 * f (rd st.buf st.index) + blur_w2 * f st.tmp2),
         st.index + d + d + o2 - d * n) := by
    rw [hst, hB2, hB1]
    rfl
  have hs0 : s + 0 * d = s := by ring
  have hs1 : s + 1 * d = s + d := by ring
  have hlt : ∀ t, t < n → s + t * d < buf.length :=
    fun t ht => lt_of_le_of_lt (line_pos_le s d t n (by omega)) hb
  have hne : ∀ t t', t ≠ t' → s + t * d ≠ s + t' * d :=
    fun t t' h e => h (line_pos_inj s d t t' hd e)
  have lB1 : B1.length = buf.length := by rw [hB1, wr_length]
  have lB2 : B2.length = buf.length := by rw [hB2, wr_length, lB1]
  have rB1 : ∀ p, p ≠ s → rd B1 p = rd buf p := fun p hp => by rw [hB1, rd_wr_other _ _ _ _ hp]
  have rB2 : ∀ p, p ≠ s + d → rd B2 p = rd B1 p := fun p hp => by
    rw [hB2, rd_wr_other _ _ _ _ hp]
  have rB1t : ∀ t, 1 ≤ t → rd B1 (s + t * d) = rd buf (s + t * d) := fun t ht =>
    rB1 _ (by have := hne t 0 (by omega); rwa [hs0] at this)
  have rB2t : ∀ t, 2 ≤ t → rd B2 (s + t * d) = rd buf (s + t * d) := fun t ht => by
    rw [rB2 _ (by have := hne t 1 (by omega); rwa [hs1] at this)]
    exact rB1t t (by omega)
  have c0 : rd B2 s = Lab_fields (fun f => blur_kernel (fun u => f (rd buf (s + u * d))) n 0) := by
    rw [rB2 _ (by omega), hB1, rd_wr_same _ _ _ (by have := hlt 0 (by omega); rwa [hs0] at this)]
    congr 1
    funext f
    unfold blur_kernel
    have a1 : (0 + 1 < n) := by omega
    have a2 : (0 + 2 < n) := by omega
    simp only [a1, a2, if_true, Nat.not_succ_le_zero, if_false, hs0, hs1, zero_add, one_mul,
      add_zero, Nat.reduceLeDiff]
    ring
  have c1 : rd B2 (s + d)
      = Lab_fields (fun f => blur_kernel (fun u => f (rd buf (s + u * d))) n 1) := by
    rw [hB2, rd_wr_same _ _ _ (by rw [lB1]; have := hlt 1 (by omega); rwa [hs1] at this)]
    congr 1
    funext f
    unfold blur_kernel
    have e2 : s + d + d = s + 2 * d := by ring
    have e3 : s + d + 2 * d = s + 3 * d := by ring
    have r1 := rB1t 1 (by omega)
    have r2 := rB1t 2 (by omega)
    have r3 := rB1t 3 (by omega)
    rw [hs1] at r1
    rw [e2, e3, r1, r2, r3]
    have a1 : (1 + 1 < n) := by omega
    have a2 : (1 + 2 < n) := by omega
    simp only [a1, a2, if_true, le_refl, Nat.reduceAdd, Nat.sub_self, hs0, hs1,
      Nat.reduceLeDiff, if_false, zero_mul, add_zero]
    ring
  -- the inner loop
  obtain ⟨i1, i2, i3, i4, i5, i6, i7⟩ := blur_line_iter_inv buf s d n
    { buf := B2, index := s + d + d, tmp1 := rd buf s, tmp2 := rd B1 (s + d) } hd hb
    (by show s + d + d = s + 2 * d; ring) rfl
    (by show rd B1 (s + d) = rd buf (s + d); have := rB1t 1 (by omega); rwa [hs1] at this)
    lB2 (fun t ht _ => rB2t t ht) (n - 4) (by omega)
  rw [← hst] at i1 i2 i3 i4 i5 i6 i7
  simp only [] at i7
  have en2 : n - 4 + 2 = n - 2 := by omega
  have en3 : n - 4 + 1 = n - 3 := by omega
  rw [en2] at i1 i5 i6 i7
  rw [en3] at i3
  have e5 : s + (n - 2) * d + d = s + (n - 1) * d := by
    have : n - 1 = (n - 2) + 1 := by omega
    rw [this]; ring
  have e6 : s + (n - 1) * d + d + o2 - d * n = s + o2 := by
    have : n = (n - 1) + 1 := by omega
    have e : d * n = (n - 1) * d + d := by
      conv_lhs => rw [this]
      ring
    rw [e]
    omega
  have hin2 : s + (n - 2) * d < st.buf.length := by rw [i4]; exact hlt _ (by omega)
  have hin1 : s + (n - 1) * d < st.buf.length := by rw [i4]; exact hlt _ (by omega)
  have hne21 : s + (n - 1) * d ≠ s + (n - 2) * d := hne _ _ (by omega)
  rw [hrow, i1, e5]
  simp only []
  refine ⟨e6, ?_, ?_, ?_⟩
  · rw [wr_length, wr_length, i4]
  · intro t ht
    by_cases h1 : t = n - 1
    · -- last position
      rw [h1, rd_wr_same _ _ _ (by rw [wr_length]; exact hin1)]
      congr 1
      funext f
      unfold blur_kernel
      rw [rd_wr_other _ _ _ _ hne21, i5 (n - 1) (by omega) (by omega),
        i5 (n - 2) (by omega) (by omega), i3]
      have a1 : ¬ (n - 1 + 1 < n) := by omega
      have a2 : ¬ (n - 1 + 2 < n) := by omega
      have a3 : 1 ≤ n - 1 := by omega
      have a4 : 2 ≤ n - 1 := by omega
      have a5 : n - 1 - 1 = n - 2 := by omega
      have a6 : n - 1 - 2 = n - 3 := by omega
      simp only [a1, a2, a3, a4, a5, a6, if_true, if_false]
      ring
    · rw [rd_wr_other _ _ _ _ (hne _ _ h1)]
      by_cases h2 : t = n - 2
      · -- last but one position
        rw [h2, rd_wr_same _ _ _ hin2]
        congr 1
        funext f
        unfold blur_kernel
        rw [i5 (n - 2) (by omega) (by omega), i5 (n - 1) (by omega) (by omega), i3, i2]
        have a1 : n - 2 + 1 < n := by omega
        have a2 : ¬ (n - 2 + 2 < n) := by omega
        have a3 : 1 ≤ n - 2 := by omega
        have a4 : 2 ≤ n - 2 := by omega
        have a5 : n - 2 + 1 = n - 1 := by omega
        have a6 : n - 2 - 1 = n - 3 := by omega
        have a7 : n - 2 - 2 = n - 4 := by omega
        have a8 : n - 1 < n := by omega
        simp only [a1, a2, a3, a4, a5, a6, a7, a8, if_true, if_false]
        ring
      · rw [rd_wr_other _ _ _ _ (hne _ _ h2)]
        by_cases h3 : 2 ≤ t
        · exact i6 t h3 (by omega)
        · rw [i7 _ (fun t' ht2 _ => hne _ _ (by omega))]
          have : t = 0 ∨ t = 1 := by omega
          rcases this with rfl | rfl
          · rw [hs0]; exact c0
          · rw [hs1]; exact c1
  · intro p hp
    rw [rd_wr_other _ _ _ _ (hp (n - 1) (by omega)), rd_wr_other _ _ _ _ (hp (n - 2) (by omega)),
      i7 p (fun t _ ht => hp t (by omega)),
      rB2 p (by have := hp 1 (by omega); rwa [hs1] at this),
      rB1 p (by have := hp 0 (by omega); rwa [hs0] at this)]

theorem blur_kernel_congr (o o' : ℕ → ℚ) (n t : ℕ) (ht : t < n) (h : ∀ u, u < n → o u = o' u) :
    blur_kernel o n t = blur_kernel o' n t := by
  unfold blur_kernel
  rw [h t ht]
  have e1 : (if t + 1 < n then o (t + 1) else 0) = (if t + 1 < n then o' (t + 1) else 0) := by
    split_ifs with c
    · exact h _ c
    · rfl
  have e2 : (if 1 ≤ t then o (t - 1) else 0) = (if 1 ≤ t then o' (t - 1) else 0) := by
    split_ifs with c
    · exact h _ (by omega)
    · rfl
  have e3 : (if t + 2 < n then o (t + 2) else 0) = (if t + 2 < n then o' (t + 2) else 0) := by
    split_ifs with c
    · exact h _ c
    · rfl
  have e4 : (if 2 ≤ t then o (t - 2) else 0) = (if 2 ≤ t then o' (t - 2) else 0) := by
    split_ifs with c
    · exact h _ (by omega)
    · rfl
  rw [e1, e2, e3, e4]

/-- The `j` loop of `blur_line`: `J` consecutive lines starting at `base`,
`offset2` apart. -/
theorem blur_rows_spec (buf : List dt_iop_colorreconstruct_Lab_t) (base o2 d n J : ℕ)
    (hn : 4 ≤ n) (hd : 1 ≤ d)
    (hinj : ∀ j t j' t', j < J → t < n → j' < J → t' < n →
      base + j * o2 + t * d = base + j' * o2 + t' * d → j = j' ∧ t = t')
    (hbound : ∀ j t, j < J → t < n → base + j * o2 + t * d < buf.length) :
    ((blur_line_row o2 d n)^[J] (buf, base)).2 = base + J * o2
    ∧ ((blur_line_row o2 d n)^[J] (buf, base)).1.length = buf.length
    ∧ (∀ j t, j < J → t < n →
        rd ((blur_line_row o2 d n)^[J] (buf, base)).1 (base + j * o2 + t * d)
          = Lab_fields (fun f => blur_kernel (fun u => f (rd buf (base + j * o2 + u * d))) n t))
    ∧ (∀ p, (∀ j t, j < J → t < n → p ≠ base + j * o2 + t * d) →
        rd ((blur_line_row o2 d n)^[J] (buf, base)).1 p = rd buf p) := by
  induction J with
  | zero =>
    simp only [Function.iterate_zero, id_eq, zero_mul, add_zero]
    exact ⟨trivial, trivial, fun j t hj => absurd hj (Nat.not_lt_zero j), fun p _ => trivial⟩
  | succ J ih =>
    obtain ⟨i1, i2, i3, i4⟩ := ih
      (fun j t j' t' hj ht hj' ht' => hinj j t j' t' (by omega) ht (by omega) ht')
      (fun j t hj ht => hbound j t (by omega) ht)
    rw [Function.iterate_succ_apply']
    have hR : (blur_line_row o2 d n)^[J] (buf, base)
        = (((blur_line_row o2 d n)^[J] (buf, base)).1, base + J * o2) := by
      rw [← i1]
    rw [hR]
    have hb' : base + J * o2 + (n - 1) * d < ((blur_line_row o2 d n)^[J] (buf, base)).1.length := by
      rw [i2]; exact hbound J (n - 1) (by omega) (by omega)
    obtain ⟨r1, r2, r3, r4⟩ := blur_line_row_spec
      ((blur_line_row o2 d n)^[J] (buf, base)).1 (base + J * o2) o2 d n hn hd hb'
    have hold : ∀ u, u < n → rd ((blur_line_row o2 d n)^[J] (buf, base)).1 (base + J * o2 + u * d)
        = rd buf (base + J * o2 + u * d) := by
      intro u hu
      apply i4
      intro j t hj ht e
      have := hinj J u j t (by omega) hu (by omega) ht e
      omega
    refine ⟨?_, ?_, ?_, ?_⟩
    · rw [r1]; ring
    · rw [r2, i2]
    · intro j t hj ht
      by_cases hjJ : j = J
      · subst hjJ
        rw [r3 t ht]
        congr 1
        funext f
        exact blur_kernel_congr _ _ n t ht (fun u hu => by rw [hold u hu])
      · rw [r4 _ (fun t' ht' e => hjJ (hinj j t J t' hj ht (by omega) ht' e).1)]
        exact i3 j t (by omega) ht
    · intro p hp
      rw [r4 p (fun t ht => hp J t (by omega) ht)]
      exact i4 p (fun j t hj ht => hp j t (by omega) ht)

/-- Specification of `blur_line` against the out-of-place kernel.  When the lines
`k * offset1 + j * offset2 + t * offset3` (`k < size1`, `j < size2`,
`t < size3`) are pairwise disjoint and lie inside the buffer, every cell of a
line receives the kernel of the values the line held before the call, and
every cell outside the lines is unchanged. -/
theorem blur_line_spec (buf : List dt_iop_colorreconstruct_Lab_t)
    (o1 o2 o3 s1 s2 s3 : ℕ) (hn : 4 ≤ s3) (hd : 1 ≤ o3)
    (hinj : ∀ k j t k' j' t', k < s1 → j < s2 → t < s3 → k' < s1 → j' < s2 → t' < s3 →
      k * o1 + j * o2 + t * o3 = k' * o1 + j' * o2 + t' * o3 → k = k' ∧ j = j' ∧ t = t')
    (hbound : ∀ k j t, k < s1 → j < s2 → t < s3 → k * o1 + j * o2 + t * o3 < buf.length) :
    (blur_line buf o1 o2 o3 s1 s2 s3).length = buf.length
    ∧ (∀ k j t, k < s1 → j < s2 → t < s3 →
        rd (blur_line buf o1 o2 o3 s1 s2 s3) (k * o1 + j * o2 + t * o3)
          = Lab_fields (fun f =>
              blur_kernel (fun u => f (rd buf (k * o1 + j * o2 + u * o3))) s3 t))
    ∧ (∀ p, (∀ k j t, k < s1 → j < s2 → t < s3 → p ≠ k * o1 + j * o2 + t * o3) →
        rd (blur_line buf o1 o2 o3 s1 s2 s3) p = rd buf p) := by
  unfold blur_line
  induction s1 with
  | zero =>
    simp only [List.range_zero, List.foldl_nil]
    exact ⟨trivial, fun k j t hk => absurd hk (Nat.not_lt_zero k), fun p _ => trivial⟩
  | succ K ih =>
    obtain ⟨i1, i2, i3⟩ := ih
      (fun k j t k' j' t' hk hj ht hk' hj' ht' =>
        hinj k j t k' j' t' (by omega) hj ht (by omega) hj' ht')
      (fun k j t hk hj ht => hbound k j t (by omega) hj ht)
    rw [List.range_succ, List.foldl_append]
    simp only [List.foldl_cons, List.foldl_nil]
    obtain ⟨r1, r2, r3, r4⟩ := blur_rows_spec
      ((List.range K).foldl
        (fun buf k => ((blur_line_row o2 o3 s3)^[s2] (buf, k * o1)).1) buf)
      (K * o1) o2 o3 s3 s2 hn hd
      (fun j t j' t' hj ht hj' ht' e =>
        (hinj K j t K j' t' (by omega) hj ht (by omega) hj' ht' e).2)
      (fun j t hj ht => by rw [i1]; exact hbound K j t (by omega) hj ht)
    have hold : ∀ j u, j < s2 → u < s3 →
        rd ((List.range K).foldl
          (fun buf k => ((blur_line_row o2 o3 s3)^[s2] (buf, k * o1)).1) buf)
          (K * o1 + j * o2 + u * o3) = rd buf (K * o1 + j * o2 + u * o3) := by
      intro j u hj hu
      apply i3
      intro k j' t hk hj' ht e
      have := hinj K j u k j' t (by omega) hj hu (by omega) hj' ht e
      omega
    refine ⟨?_, ?_, ?_⟩
    · rw [r2, i1]
    · intro k j t hk hj ht
      by_cases hkK : k = K
      · subst hkK
        rw [r3 j t hj ht]
        congr 1
        funext f
        exact blur_kernel_congr _ _ s3 t ht (fun u hu => by rw [hold j u hj hu])
      · rw [r4 _ (fun j' t' hj' ht' e =>
          hkK (hinj k j t K j' t' hk hj ht (by omega) hj' ht' e).1)]
        exact i2 k j t (by omega) hj ht
    · intro p hp
      rw [r4 p (fun j t hj ht => hp K j t (by omega) hj ht)]
      exact i3 p (fun k j t hk hj ht => hp k j t (by omega) hj ht)

/-! ### The three passes on a grid -/

theorem grid_index_inj (sx sy x y z x' y' z' : ℕ) (hx : x < sx) (hx' : x' < sx) (hy : y < sy)
    (hy' : y' < sy) (h : x + sx * (y + sy * z) = x' + sx * (y' + sy * z')) :
    x = x' ∧ y = y' ∧ z = z' := by
  have h1 : x = x' := by
    have := congrArg (· % sx) h
    simp only [Nat.add_mul_mod_self_left] at this
    rwa [Nat.mod_eq_of_lt hx, Nat.mod_eq_of_lt hx'] at this
  subst h1
  have h2 : y + sy * z = y' + sy * z' := by
    have : sx * (y + sy * z) = sx * (y' + sy * z') := by omega
    exact Nat.eq_of_mul_eq_mul_left (by omega) this
  have h3 : y = y' := by
    have := congrArg (· % sy) h2
    simp only [Nat.add_mul_mod_self_left] at this
    rwa [Nat.mod_eq_of_lt hy, Nat.mod_eq_of_lt hy'] at this
  subst h3
  have h4 : z = z' := by
    have : sy * z = sy * z' := by omega
    exact Nat.eq_of_mul_eq_mul_left (by omega) this
  exact ⟨rfl, rfl, h4⟩

/-- The first pass of `blur`, along x. -/
theorem blur_pass_x (buf : List dt_iop_colorreconstruct_Lab_t) (sx sy sz : ℕ) (hx : 4 ≤ sx)
    (hlen : buf.length = sx * sy * sz) :
    (blur_line buf (sx * sy) sx 1 sz sy sx).length = buf.length
    ∧ ∀ x y z, x < sx → y < sy → z < sz →
        rd (blur_line buf (sx * sy) sx 1 sz sy sx) (x + sx * (y + sy * z))
          = Lab_fields (fun f =>
              blur_kernel (fun u => f (rd buf (u + sx * (y + sy * z)))) sx x) := by
  have e : ∀ x y z : ℕ, z * (sx * sy) + y * sx + x * 1 = x + sx * (y + sy * z) := by
    intro x y z; ring
  obtain ⟨h1, h2, -⟩ := blur_line_spec buf (sx * sy) sx 1 sz sy sx hx (le_refl 1)
    (fun k j t k' j' t' hk hj ht hk' hj' ht' h => by
      rw [e, e] at h
      have := grid_index_inj sx sy t j k t' j' k' ht ht' hj hj' h
      exact ⟨this.2.2, this.2.1, this.1⟩)
    (fun k j t hk hj ht => by
      rw [e, hlen]; exact grid_index_lt _ _ _ _ _ _ ht hj hk)
  refine ⟨h1, fun x y z hx hy hz => ?_⟩
  have := h2 z y x hz hy hx
  simp only [e] at this
  exact this

/-- The second pass of `blur`, along y. -/
theorem blur_pass_y (buf : List dt_iop_colorreconstruct_Lab_t) (sx sy sz : ℕ) (hy : 4 ≤ sy)
    (hsx : 1 ≤ sx) (hlen : buf.length = sx * sy * sz) :
    (blur_line buf (sx * sy) 1 sx sz sx sy).length = buf.length
    ∧ ∀ x y z, x < sx → y < sy → z < sz →
        rd (blur_line buf (sx * sy) 1 sx sz sx sy) (x + sx * (y + sy * z))
          = Lab_fields (fun f =>
              blur_kernel (fun v => f (rd buf (x + sx * (v + sy * z)))) sy y) := by
  have e : ∀ x y z : ℕ, z * (sx * sy) + x * 1 + y * sx = x + sx * (y + sy * z) := by
    intro x y z; ring
  obtain ⟨h1, h2, -⟩ := blur_line_spec buf (sx * sy) 1 sx sz sx sy hy hsx
    (fun k j t k' j' t' hk hj ht hk' hj' ht' h => by
      rw [e, e] at h
      have := grid_index_inj sx sy j t k j' t' k' hj hj' ht ht' h
      exact ⟨this.2.2, this.1, this.2.1⟩)
    (fun k j t hk hj ht => by
      rw [e, hlen]; exact grid_index_lt _ _ _ _ _ _ hj ht hk)
  refine ⟨h1, fun x y z hx hy hz => ?_⟩
  have := h2 z x y hz hx hy
  simp only [e] at this
  exact this

/-- The third pass of `blur`, along z. -/
theorem blur_pass_z (buf : List dt_iop_colorreconstruct_Lab_t) (sx sy sz : ℕ) (hz : 4 ≤ sz)
    (hsx : 1 ≤ sx) (hsy : 1 ≤ sy) (hlen : buf.length = sx * sy * sz) :
    (blur_line buf 1 sx (sx * sy) sx sy sz).length = buf.length
    ∧ ∀ x y z, x < sx → y < sy → z < sz →
        rd (blur_line buf 1 sx (sx * sy) sx sy sz) (x + sx * (y + sy * z))
          = Lab_fields (fun f =>
              blur_kernel (fun w => f (rd buf (x + sx * (y + sy * w)))) sz z) := by
  have e : ∀ x y z : ℕ, x * 1 + y * sx + z * (sx * sy) = x + sx * (y + sy * z) := by
    intro x y z; ring
  obtain ⟨h1, h2, -⟩ := blur_line_spec buf 1 sx (sx * sy) sx sy sz hz
    (Nat.mul_pos (by omega) (by omega))
    (fun k j t k' j' t' hk hj ht hk' hj' ht' h => by
      rw [e, e] at h
      exact grid_index_inj sx sy k j t k' j' t' hk hk' hj hj' h)
    (fun k j t hk hj ht => by
      rw [e, hlen]; exact grid_index_lt _ _ _ _ _ _ hk hj ht)
  refine ⟨h1, fun x y z hx hy hz => ?_⟩
  have := h2 x y z hx hy hz
  simp only [e] at this
  exact this

/-! ### Blur of a constant field -/

theorem blur_kernel_const (c : ℚ) (n t : ℕ) :
    blur_kernel (fun _ => c) n t = c * blur_gain n t := by
  unfold blur_gain blur_kernel
  split_ifs <;> ring

/-- The weights used by `blur_line` on a line of at least 4 cells sum to
`11 / 16` at both ends of the line, to `15 / 16` next to the ends and to `1`
elsewhere. -/
theorem blur_gain_eq (n t : ℕ) (hn : 4 ≤ n) (ht : t < n) :
    blur_gain n t = if t = 0 ∨ t + 1 = n then 11 / 16
      else if t = 1 ∨ t + 2 = n then 15 / 16 else 1 := by
  unfold blur_gain blur_kernel blur_w0 blur_w1 blur_w2
  by_cases h0 : t = 0
  · subst h0
    have a1 : 0 + 1 < n := by omega
    have a2 : 0 + 2 < n := by omega
    simp only [a1, a2, if_true, true_or]
    norm_num
  · by_cases h1 : t + 1 = n
    · have a1 : ¬ (t + 1 < n) := by omega
      have a2 : ¬ (t + 2 < n) := by omega
      have a3 : 1 ≤ t := by omega
      have a4 : 2 ≤ t := by omega
      simp only [a1, a2, a3, a4, h1, if_true, if_false, or_true]
      norm_num
    · have b0 : ¬ (t = 0 ∨ t + 1 = n) := by omega
      rw [if_neg b0]
      by_cases h2 : t = 1
      · subst h2
        have a1 : 1 + 1 < n := by omega
        have a2 : 1 + 2 < n := by omega
        simp only [a1, a2, if_true, true_or, le_refl]
        norm_num
      · by_cases h3 : t + 2 = n
        · have a1 : t + 1 < n := by omega
          have a2 : ¬ (t + 2 < n) := by omega
          have a3 : 1 ≤ t := by omega
          have a4 : 2 ≤ t := by omega
          simp only [a1, a2, a3, a4, h3, if_true, if_false, or_true]
          norm_num
        · have b1 : ¬ (t = 1 ∨ t + 2 = n) := by omega
          have a1 : t + 1 < n := by omega
          have a2 : t + 2 < n := by omega
          have a3 : 1 ≤ t := by omega
          have a4 : 2 ≤ t := by omega
          simp only [a1, a2, a3, a4, b1, if_true, if_false]
          norm_num

/-- The kernel on a line whose cells all equal the cell `c` scaled by `G`. -/
theorem blur_kernel_scaled (n t : ℕ) (ht : t < n) (line : ℕ → dt_iop_colorreconstruct_Lab_t)
    (c : dt_iop_colorreconstruct_Lab_t) (G : ℚ)
    (h : ∀ u, u < n → line u = Lab_fields (fun g => g c * G)) :
    Lab_fields (fun f => blur_kernel (fun u => f (line u)) n t)
      = Lab_fields (fun f => f c * (G * blur_gain n t)) := by
  have key : ∀ f : dt_iop_colorreconstruct_Lab_t → ℚ, (∀ H, f (Lab_fields H) = H f) →
      blur_kernel (fun u => f (line u)) n t = f c * (G * blur_gain n t) := by
    intro f hf
    rw [blur_kernel_congr (fun u => f (line u)) (fun _ => f c * G) n t ht
      (fun u hu => by simp only []; rw [h u hu, hf]), blur_kernel_const]
    ring
  unfold Lab_fields
  congr 1 <;> exact key _ (fun H => rfl)

/-- The three passes of `blur` on a buffer whose cells all equal `c`: the cell
at `(x, y, z)` ends as `c` scaled by the product of the three axis gains. -/
theorem blur_constant_field (cells : List dt_iop_colorreconstruct_Lab_t) (sx sy sz : ℕ)
    (c : dt_iop_colorreconstruct_Lab_t) (hx : 4 ≤ sx) (hy : 4 ≤ sy) (hz : 4 ≤ sz)
    (hlen : cells.length = sx * sy * sz) (hconst : ∀ k, k < cells.length → rd cells k = c) :
    (blur_line (blur_line (blur_line cells (sx * sy) sx 1 sz sy sx) (sx * sy) 1 sx sz sx sy)
        1 sx (sx * sy) sx sy sz).length = cells.length
    ∧ ∀ x y z, x < sx → y < sy → z < sz →
        rd (blur_line (blur_line (blur_line cells (sx * sy) sx 1 sz sy sx) (sx * sy) 1 sx sz sx sy)
            1 sx (sx * sy) sx sy sz) (x + sx * (y + sy * z))
          = Lab_fields (fun f => f c * (blur_gain sx x * blur_gain sy y * blur_gain sz z)) := by
  obtain ⟨l1, p1⟩ := blur_pass_x cells sx sy sz hx hlen
  obtain ⟨l2, p2⟩ := blur_pass_y _ sx sy sz hy (by omega) (l1.trans hlen)
  obtain ⟨l3, p3⟩ := blur_pass_z _ sx sy sz hz (by omega) (by omega) (l2.trans (l1.trans hlen))
  have q1 : ∀ x y z, x < sx → y < sy → z < sz →
      rd (blur_line cells (sx * sy) sx 1 sz sy sx) (x + sx * (y + sy * z))
        = Lab_fields (fun g => g c * (1 * blur_gain sx x)) := by
    intro x y z hx' hy' hz'
    rw [p1 x y z hx' hy' hz']
    apply blur_kernel_scaled sx x hx' (fun u => rd cells (u + sx * (y + sy * z))) c 1
    intro u hu
    rw [hconst _ (by rw [hlen]; exact grid_index_lt _ _ _ _ _ _ hu hy' hz')]
    cases c
    simp [Lab_fields]
  have q2 : ∀ x y z, x < sx → y < sy → z < sz →
      rd (blur_line (blur_line cells (sx * sy) sx 1 sz sy sx) (sx * sy) 1 sx sz sx sy)
          (x + sx * (y + sy * z))
        = Lab_fields (fun g => g c * (1 * blur_gain sx x * blur_gain sy y)) := by
    intro x y z hx' hy' hz'
    rw [p2 x y z hx' hy' hz']
    exact blur_kernel_scaled sy y hy'
      (fun v => rd (blur_line cells (sx * sy) sx 1 sz sy sx) (x + sx * (v + sy * z))) c _
      (fun v hv => q1 x v z hx' hv hz')
  refine ⟨l3.trans (l2.trans l1), fun x y z hx' hy' hz' => ?_⟩
  rw [p3 x y z hx' hy' hz']
  rw [blur_kernel_scaled sz z hz'
    (fun w => rd (blur_line (blur_line cells (sx * sy) sx 1 sz sy sx) (sx * sy) 1 sx sz sx sy)
      (x + sx * (y + sy * w))) c _ (fun w hw => q2 x y w hx' hy' hw)]
  congr 1
  funext f
  ring

theorem rd_replicate (n k : ℕ) (c : dt_iop_colorreconstruct_Lab_t) (h : k < n) :
    rd (List.replicate n c) k = c := by
  unfold rd
  rw [List.getD_eq_getElem _ _ (by rw [List.length_replicate]; exact h)]
  simp

theorem blur_eq (b : dt_iop_colorreconstruct_bilateral_t)
    (cells : List dt_iop_colorreconstruct_Lab_t) (h : b.buf = some cells) :
    dt_iop_colorreconstruct_bilateral_blur b
      = Run.done
          { b with
            buf := some (blur_line (blur_line (blur_line cells (b.size_x * b.size_y) b.size_x 1
              b.size_z b.size_y b.size_x) (b.size_x * b.size_y) 1 b.size_x b.size_z b.size_x
              b.size_y) 1 b.size_x (b.size_x * b.size_y) b.size_x b.size_y b.size_z) } := by
  unfold dt_iop_colorreconstruct_bilateral_blur
  rw [h]

/-- C2, as amended.  For every grid with sizes at least 5 whose every cell
equals the same constant `c`, `blur` (three `blur_line` passes) returns and
leaves the cell at `(x, y, z)` equal to `c` scaled, field by field, by the
product of the sums of the kernel weights used at `x`, `y` and `z`; that sum is
`11 / 16` at both ends of a line, `15 / 16` next to the ends and `1` elsewhere,
so every cell at least two cells away from every face of the grid is left equal
to `c`. -/
theorem C2_constant_field_blur (b : dt_iop_colorreconstruct_bilateral_t)
    (cells : List dt_iop_colorreconstruct_Lab_t) (c : dt_iop_colorreconstruct_Lab_t)
    (hx : 5 ≤ b.size_x) (hy : 5 ≤ b.size_y) (hz : 5 ≤ b.size_z) (hbuf : b.buf = some cells)
    (hlen : cells.length = b.size_x * b.size_y * b.size_z)
    (hconst : ∀ k, k < cells.length → rd cells k = c) :
    ∃ cells', dt_iop_colorreconstruct_bilateral_blur b = Run.done { b with buf := some cells' }
      ∧ cells'.length = cells.length
      ∧ (∀ x y z, x < b.size_x → y < b.size_y → z < b.size_z →
          rd cells' (x + b.size_x * (y + b.size_y * z))
            = Lab_fields (fun f => f c * (blur_gain b.size_x x * blur_gain b.size_y y
                * blur_gain b.size_z z)))
      ∧ (∀ n t, 5 ≤ n → t < n →
          blur_gain n t = if t = 0 ∨ t + 1 = n then 11 / 16
            else if t = 1 ∨ t + 2 = n then 15 / 16 else 1)
      ∧ (∀ x y z, 2 ≤ x → x + 2 < b.size_x → 2 ≤ y → y + 2 < b.size_y → 2 ≤ z →
          z + 2 < b.size_z → rd cells' (x + b.size_x * (y + b.size_y * z)) = c) := by
  obtain ⟨hl, hcell⟩ := blur_constant_field cells b.size_x b.size_y b.size_z c
    (by omega) (by omega) (by omega) hlen hconst
  refine ⟨_, blur_eq b cells hbuf, hl, hcell,
    fun n t hn ht => blur_gain_eq n t (by omega) ht, ?_⟩
  intro x y z hx2 hx3 hy2 hy3 hz2 hz3
  rw [hcell x y z (by omega) (by omega) (by omega),
    blur_gain_eq b.size_x x (by omega) (by omega), blur_gain_eq b.size_y y (by omega) (by omega),
    blur_gain_eq b.size_z z (by omega) (by omega)]
  rw [if_neg (by omega), if_neg (by omega), if_neg (by omega), if_neg (by omega),
    if_neg (by omega), if_neg (by omega)]
  cases c
  simp [Lab_fields]

theorem C2_constant_field_blur_witness :
    ∃ cells', dt_iop_colorreconstruct_bilateral_blur
          ⟨5, 5, 5, 4, 4, 0, 0, 1, 1, 25, some (List.replicate 125 ⟨16, 16, 16, 16⟩)⟩
        = Run.done ⟨5, 5, 5, 4, 4, 0, 0, 1, 1, 25, some cells'⟩
      ∧ cells'.length = (List.replicate 125 (⟨16, 16, 16, 16⟩ : dt_iop_colorreconstruct_Lab_t)).length
      ∧ (∀ x y z, x < 5 → y < 5 → z < 5 →
          rd cells' (x + 5 * (y + 5 * z))
            = Lab_fields (fun f => f ⟨16, 16, 16, 16⟩ * (blur_gain 5 x * blur_gain 5 y
                * blur_gain 5 z)))
      ∧ (∀ n t, 5 ≤ n → t < n →
          blur_gain n t = if t = 0 ∨ t + 1 = n then 11 / 16
            else if t = 1 ∨ t + 2 = n then 15 / 16 else 1)
      ∧ (∀ x y z, 2 ≤ x → x + 2 < 5 → 2 ≤ y → y + 2 < 5 → 2 ≤ z →
          z + 2 < 5 → rd cells' (x + 5 * (y + 5 * z)) = ⟨16, 16, 16, 16⟩) :=
  C2_constant_field_blur ⟨5, 5, 5, 4, 4, 0, 0, 1, 1, 25, some (List.replicate 125 ⟨16, 16, 16, 16⟩)⟩
    (List.replicate 125 ⟨16, 16, 16, 16⟩) ⟨16, 16, 16, 16⟩ (le_refl 5) (le_refl 5) (le_refl 5) rfl
    (List.length_replicate _ _)
    (fun k hk => rd_replicate 125 k _ (by rw [List.length_replicate] at hk; exact hk))

/-- C2, counterexample.  In the 5 × 5 × 5 grid whose every cell is
`(16, 16, 16, 16)`, `blur` changes the corner cell to
`(1331 / 256, 1331 / 256, 1331 / 256, 1331 / 256)`: the three weights used at
the end of a line sum to `11 / 16`, not to 1. -/
theorem C2_constant_field_counterexample :
    ∃ cells', dt_iop_colorreconstruct_bilateral_blur
          ⟨5, 5, 5, 4, 4, 0, 0, 1, 1, 25, some (List.replicate 125 ⟨16, 16, 16, 16⟩)⟩
        = Run.done ⟨5, 5, 5, 4, 4, 0, 0, 1, 1, 25, some cells'⟩
      ∧ rd cells' 0 = ⟨1331 / 256, 1331 / 256, 1331 / 256, 1331 / 256⟩
      ∧ rd cells' 0 ≠ ⟨16, 16, 16, 16⟩ := by
  obtain ⟨-, hcell⟩ := blur_constant_field (List.replicate 125 ⟨16, 16, 16, 16⟩) 5 5 5
    ⟨16, 16, 16, 16⟩ (by omega) (by omega) (by omega) (List.length_replicate _ _)
    (fun k hk => rd_replicate 125 k _ (by rw [List.length_replicate] at hk; exact hk))
  have h0 := hcell 0 0 0 (by omega) (by omega) (by omega)
  rw [blur_gain_eq 5 0 (by omega) (by omega)] at h0
  simp only [true_or, if_true, mul_zero, add_zero] at h0
  have hv : rd (blur_line (blur_line (blur_line
      (List.replicate 125 (⟨16, 16, 16, 16⟩ : dt_iop_colorreconstruct_Lab_t)) (5 * 5) 5 1 5 5 5)
      (5 * 5) 1 5 5 5 5) 1 5 (5 * 5) 5 5 5) 0
      = ⟨1331 / 256, 1331 / 256, 1331 / 256, 1331 / 256⟩ := by
    rw [h0]
    norm_num [Lab_fields]
  refine ⟨_, blur_eq _ _ rfl, hv, ?_⟩
  rw [hv]
  intro e
  have := congrArg dt_iop_colorreconstruct_Lab_t.L e
  norm_num at this

/-! ### Instances at the scenario -/

theorem scenario_in_values (n : ℕ) :
    scenario_in (4 * n) = 50 ∧ scenario_in (4 * n + 1) = 10 ∧ scenario_in (4 * n + 2) = -5 := by
  unfold scenario_in
  have h0 : (4 * n) % 4 = 0 := by omega
  have h1 : (4 * n + 1) % 4 = 1 := by omega
  have h2 : (4 * n + 2) % 4 = 2 := by omega
  simp [h0, h1, h2]

theorem rd_ramp_cells (k : ℕ) (h : k < 275) :
    rd ramp_cells k = ⟨(k : ℚ) + 1, 2 * (k : ℚ), -(k : ℚ), (k : ℚ) + 3⟩ := by
  unfold rd ramp_cells
  rw [List.getD_eq_getElem _ _ (by rw [List.length_map, List.length_range]; exact h),
    List.getElem_map, List.getElem_range]

theorem blend_in_values (n : ℕ) :
    blend_in (4 * n) = 60 ∧ blend_in (4 * n + 1) = 10 ∧ blend_in (4 * n + 2) = -5 := by
  unfold blend_in
  have h0 : (4 * n) % 4 = 0 := by omega
  have h1 : (4 * n + 1) % 4 = 1 := by omega
  have h2 : (4 * n + 2) % 4 = 2 := by omega
  simp [h0, h1, h2]

/-- The blend factor of a pixel with `L = 60` at threshold 62, in binary32. -/
theorem slice_blend_62_60 : slice_blend 62 60 = 186037 / 524288 := by
  have e1 : f32 (20 / 62) = 10824010 / 33554432 := by
    rw [f32_eval_pos (20 / 62) (-2) 10824010 (by norm_num) (by norm_num) (by norm_num)
      (by norm_num)]
    norm_num
  have e2 : f32 (10824010 / 33554432 * 60) = 10147509 / 524288 := by
    rw [f32_eval_pos _ 4 10147509 (by norm_num) (by norm_num) (by norm_num) (by norm_num)]
    norm_num
  have e3 : f32 (10147509 / 524288 - 19) = 186037 / 524288 := by
    have h := f32_fixed 186037 (-19) (by norm_num)
    norm_num at h ⊢
    exact h
  unfold slice_blend
  rw [e1, e2, e3]
  norm_num [CLAMPS]

theorem ramp_lookup_pixel :
    image_to_grid ramp_grid (grid_rescale ramp_grid ((0 : ℕ) : ℤ) ((0 : ℕ) : ℤ) scenario_roi 1).1
      (grid_rescale ramp_grid ((0 : ℕ) : ℤ) ((0 : ℕ) : ℤ) scenario_roi 1).2 60 = (0, 0, 6) := by
  have f6 : f32 6 = 6 := by simpa using f32_natCast 6 (by norm_num)
  norm_num [image_to_grid, grid_rescale, ramp_grid, scenario_roi, CLAMPS, f32_zero, f6]

theorem ramp_lookup_value :
    slice_lookup ramp_grid ramp_cells 0 0 6 = ⟨151, 300, -150, 153⟩ := by
  have f0 : float_to_int 0 = 0 := by norm_num [float_to_int, INT_MIN, INT_MAX]
  have f6 : float_to_int 6 = 6 := by norm_num [float_to_int, INT_MIN, INT_MAX]
  have t : Int.toNat 150 = 150 := rfl
  unfold slice_lookup
  simp only [f0, f6]
  norm_num [MIN, ramp_grid, Lab_fields, t, rd_ramp_cells 150 (by norm_num)]

theorem C3_pass_through_below_margin_witness :
    ∃ out, dt_iop_colorreconstruct_bilateral_slice scenario_grid scenario_in (fun _ => 0) 100
          scenario_roi 1 = Run.done out
      ∧ slice_blend 100 (scenario_in (pixel_index scenario_roi.width 0 0)) = 0
      ∧ out (pixel_index scenario_roi.width 0 0 + 1)
          = scenario_in (pixel_index scenario_roi.width 0 0 + 1)
      ∧ out (pixel_index scenario_roi.width 0 0 + 2)
          = scenario_in (pixel_index scenario_roi.width 0 0 + 2) :=
  C3_pass_through_below_margin scenario_grid (List.replicate 275 Lab_zero) scenario_in
    (fun _ => 0) 100 scenario_roi 1 0 0 rfl (by norm_num) (by decide) (by decide)
    (by norm_num [scenario_in, scenario_roi, pixel_index])

/-- Witness for C5 on the ramp grid: the node `(4, 0, 5)`, on the upper face
of the x axis, where the lookup returns cell 129, `(130, 258, -129, 132)`. -/
theorem C5_exact_node_interpolation_witness :
    (4 < ramp_grid.size_x ∧ 0 < ramp_grid.size_y ∧ 5 < ramp_grid.size_z
      ∧ slice_lookup ramp_grid ramp_cells
          (image_to_grid ramp_grid 4 0 50).1 (image_to_grid ramp_grid 4 0 50).2.1
          (image_to_grid ramp_grid 4 0 50).2.2
        = rd ramp_cells (4 + ramp_grid.size_x * (0 + ramp_grid.size_y * 5)))
    ∧ rd ramp_cells (4 + ramp_grid.size_x * (0 + ramp_grid.size_y * 5))
        = ⟨130, 258, -129, 132⟩
    ∧ rd ramp_cells (3 + ramp_grid.size_x * (0 + ramp_grid.size_y * 5))
        = ⟨129, 256, -128, 131⟩ :=
  ⟨C5_exact_node_interpolation ramp_grid ramp_cells 4 0 50 4 0 5
    (by decide) (by decide) (by decide) (by decide) (by decide) (by decide)
    (by norm_num [image_to_grid, ramp_grid, CLAMPS, f32_zero, f32_four, f32_five]),
   by
    have h : 4 + ramp_grid.size_x * (0 + ramp_grid.size_y * 5) = 129 := by decide
    rw [h, rd_ramp_cells 129 (by norm_num)]
    norm_num,
   by
    have h : 3 + ramp_grid.size_x * (0 + ramp_grid.size_y * 5) = 128 := by decide
    rw [h, rd_ramp_cells 128 (by norm_num)]
    norm_num⟩

theorem C9_end_to_end_scenario_witness :
    ∃ b0 b1 cells r,
      dt_iop_colorreconstruct_bilateral_init true (some (List.replicate 275 Lab_zero))
          ⟨0, 0, 4, 4, 1⟩ 1 (400 / (1 / 1)) 10 = Run.done (some b0)
      ∧ b0.size_x = 5 ∧ b0.size_y = 5 ∧ b0.size_z = 11 ∧ b0.sigma_s = 1 ∧ b0.sigma_r = 10
      ∧ dt_iop_colorreconstruct_bilateral_splat b0 scenario_in 100 = Run.done b1
      ∧ b1.buf = some cells
      ∧ (∀ cx cy cz, cx < 5 → cy < 5 → cz < 11 → cz ≠ 5 →
          rd cells (cx + 5 * (cy + 5 * cz)) = Lab_zero)
      ∧ (∑ cy in Finset.range 5, ∑ cx in Finset.range 5,
          (rd cells (cx + 5 * (cy + 5 * 5))).weight) = 16
      ∧ process ⟨100, 400, 10⟩ none scenario_env scenario_in (fun _ => 0) ⟨0, 0, 4, 4, 1⟩
          = Run.done r
      ∧ dt_iop_colorreconstruct_bilateral_blur b1 = Run.done r.b
      ∧ ∀ j i, j < 4 → i < 4 →
          r.out (pixel_index 4 j i) = 50 ∧ r.out (pixel_index 4 j i + 1) = 10
          ∧ r.out (pixel_index 4 j i + 2) = -5 :=
  C9_end_to_end_scenario scenario_in (fun _ => 0) none scenario_env
    (List.replicate 275 Lab_zero) 0 0 (fun n _ => scenario_in_values n) rfl rfl rfl
    (List.length_replicate _ _) (fun gd h => by simp at h)

theorem C10_splat_single_pixel_witness :
    (scenario_in (pixel_index scenario_grid.width 0 0) > 100 →
      splat_pixel scenario_grid scenario_in 100 0 0 (List.replicate 275 Lab_zero)
        = List.replicate 275 Lab_zero)
    ∧ (scenario_in (pixel_index scenario_grid.width 0 0) ≤ 100 →
        ∃ xi yi zi : ℕ, xi < scenario_grid.size_x ∧ yi < scenario_grid.size_y
          ∧ zi < scenario_grid.size_z
          ∧ |(xi : ℚ) - (image_to_grid scenario_grid ((0 : ℕ) : ℚ) ((0 : ℕ) : ℚ)
                (scenario_in (pixel_index scenario_grid.width 0 0))).1| ≤ 1 / 2
          ∧ |(yi : ℚ) - (image_to_grid scenario_grid ((0 : ℕ) : ℚ) ((0 : ℕ) : ℚ)
                (scenario_in (pixel_index scenario_grid.width 0 0))).2.1| ≤ 1 / 2
          ∧ |(zi : ℚ) - (image_to_grid scenario_grid ((0 : ℕ) : ℚ) ((0 : ℕ) : ℚ)
                (scenario_in (pixel_index scenario_grid.width 0 0))).2.2| ≤ 1 / 2
          ∧ xi + scenario_grid.size_x * (yi + scenario_grid.size_y * zi)
              < (List.replicate 275 Lab_zero).length
          ∧ (splat_pixel scenario_grid scenario_in 100 0 0
                (List.replicate 275 Lab_zero)).length = (List.replicate 275 Lab_zero).length
          ∧ rd (splat_pixel scenario_grid scenario_in 100 0 0 (List.replicate 275 Lab_zero))
                (xi + scenario_grid.size_x * (yi + scenario_grid.size_y * zi))
              = ⟨(rd (List.replicate 275 Lab_zero)
                    (xi + scenario_grid.size_x * (yi + scenario_grid.size_y * zi))).L
                    + scenario_in (pixel_index scenario_grid.width 0 0),
                 (rd (List.replicate 275 Lab_zero)
                    (xi + scenario_grid.size_x * (yi + scenario_grid.size_y * zi))).a
                    + scenario_in (pixel_index scenario_grid.width 0 0 + 1),
                 (rd (List.replicate 275 Lab_zero)
                    (xi + scenario_grid.size_x * (yi + scenario_grid.size_y * zi))).b
                    + scenario_in (pixel_index scenario_grid.width 0 0 + 2),
                 (rd (List.replicate 275 Lab_zero)
                    (xi + scenario_grid.size_x * (yi + scenario_grid.size_y * zi))).weight + 1⟩
          ∧ rd (splat_pixel scenario_grid scenario_in 100 0 0 (List.replicate 275 Lab_zero))
                (xi + scenario_grid.size_x * (yi + scenario_grid.size_y * zi))
              ≠ rd (List.replicate 275 Lab_zero)
                  (xi + scenario_grid.size_x * (yi + scenario_grid.size_y * zi))
          ∧ ∀ k, k ≠ xi + scenario_grid.size_x * (yi + scenario_grid.size_y * zi) →
              rd (splat_pixel scenario_grid scenario_in 100 0 0 (List.replicate 275 Lab_zero)) k
                = rd (List.replicate 275 Lab_zero) k)
    ∧ dt_iop_colorreconstruct_bilateral_splat scenario_grid scenario_in 100
        = Run.done
          { scenario_grid with
            buf := some
              ((((List.range scenario_grid.height.toNat).map
                  (fun j => (List.range scenario_grid.width.toNat).map
                    (fun i => (j, i)))).flatten).foldl
                (fun buf p => splat_pixel scenario_grid scenario_in 100 p.1 p.2 buf)
                (List.replicate 275 Lab_zero)) } :=
  C10_splat_single_pixel scenario_grid (List.replicate 275 Lab_zero) scenario_in 100 0 0 rfl
    (by decide) (by decide) (by decide) (by decide) (by decide) (by decide)
    (List.length_replicate _ _)

/-! ### Slice: what is written for a pixel -/

/-- The four floats `slice` writes for pixel `(i, j)` when it is given the cell
buffer `buf`: `L` and the fourth channel are copied; `a` and `b` are copied
when the blend factor is zero or the interpolated weight is not positive, and
are otherwise blended with the grid's chroma rescaled by `Lin / Lout`. -/
theorem slice_pixel_values (b : dt_iop_colorreconstruct_bilateral_t)
    (buf : List dt_iop_colorreconstruct_Lab_t) (inp out0 : ℕ → ℚ) (threshold : ℚ)
    (roi : dt_iop_roi_t) (iscale : ℚ) (j i : ℕ) (hj : (j : ℤ) < roi.height)
    (hi : (i : ℤ) < roi.width) :
    slice_cells b buf inp out0 threshold roi iscale (pixel_index roi.width j i)
        = inp (pixel_index roi.width j i)
    ∧ slice_cells b buf inp out0 threshold roi iscale (pixel_index roi.width j i + 3)
        = inp (pixel_index roi.width j i + 3)
    ∧ slice_cells b buf inp out0 threshold roi iscale (pixel_index roi.width j i + 1)
        = (if slice_blend threshold (inp (pixel_index roi.width j i)) = 0
           then inp (pixel_index roi.width j i + 1)
           else if (slice_lookup b buf
                (image_to_grid b (grid_rescale b (i : ℤ) (j : ℤ) roi iscale).1
                  (grid_rescale b (i : ℤ) (j : ℤ) roi iscale).2
                  (inp (pixel_index roi.width j i))).1
                (image_to_grid b (grid_rescale b (i : ℤ) (j : ℤ) roi iscale).1
                  (grid_rescale b (i : ℤ) (j : ℤ) roi iscale).2
                  (inp (pixel_index roi.width j i))).2.1
                (image_to_grid b (grid_rescale b (i : ℤ) (j : ℤ) roi iscale).1
                  (grid_rescale b (i : ℤ) (j : ℤ) roi iscale).2
                  (inp (pixel_index roi.width j i))).2.2).weight > 0
           then inp (pixel_index roi.width j i + 1)
                  * (1 - slice_blend threshold (inp (pixel_index roi.width j i)))
                + (slice_lookup b buf
                    (image_to_grid b (grid_rescale b (i : ℤ) (j : ℤ) roi iscale).1
                      (grid_rescale b (i : ℤ) (j : ℤ) roi iscale).2
                      (inp (pixel_index roi.width j i))).1
                    (image_to_grid b (grid_rescale b (i : ℤ) (j : ℤ) roi iscale).1
                      (grid_rescale b (i : ℤ) (j : ℤ) roi iscale).2
                      (inp (pixel_index roi.width j i))).2.1
                    (image_to_grid b (grid_rescale b (i : ℤ) (j : ℤ) roi iscale).1
                      (grid_rescale b (i : ℤ) (j : ℤ) roi iscale).2
                      (inp (pixel_index roi.width j i))).2.2).a
                  * inp (pixel_index roi.width j i)
                  / (slice_lookup b buf
                    (image_to_grid b (grid_rescale b (i : ℤ) (j : ℤ) roi iscale).1
                      (grid_rescale b (i : ℤ) (j : ℤ) roi iscale).2
                      (inp (pixel_index roi.width j i))).1
                    (image_to_grid b (grid_rescale b (i : ℤ) (j : ℤ) roi iscale).1
                      (grid_rescale b (i : ℤ) (j : ℤ) roi iscale).2
                      (inp (pixel_index roi.width j i))).2.1
                    (image_to_grid b (grid_rescale b (i : ℤ) (j : ℤ) roi iscale).1
                      (grid_rescale b (i : ℤ) (j : ℤ) roi iscale).2
                      (inp (pixel_index roi.width j i))).2.2).L
                  * slice_blend threshold (inp (pixel_index roi.width j i))
           else inp (pixel_index roi.width j i + 1))
    ∧ slice_cells b buf inp out0 threshold roi iscale (pixel_index roi.width j i + 2)
        = (if slice_blend threshold (inp (pixel_index roi.width j i)) = 0
           then inp (pixel_index roi.width j i + 2)
           else if (slice_lookup b buf
                (image_to_grid b (grid_rescale b (i : ℤ) (j : ℤ) roi iscale).1
                  (grid_rescale b (i : ℤ) (j : ℤ) roi iscale).2
                  (inp (pixel_index roi.width j i))).1
                (image_to_grid b (grid_rescale b (i : ℤ) (j : ℤ) roi iscale).1
                  (grid_rescale b (i : ℤ) (j : ℤ) roi iscale).2
                  (inp (pixel_index roi.width j i))).2.1
                (image_to_grid b (grid_rescale b (i : ℤ) (j : ℤ) roi iscale).1
                  (grid_rescale b (i : ℤ) (j : ℤ) roi iscale).2
                  (inp (pixel_index roi.width j i))).2.2).weight > 0
           then inp (pixel_index roi.width j i + 2)
                  * (1 - slice_blend threshold (inp (pixel_index roi.width j i)))
                + (slice_lookup b buf
                    (image_to_grid b (grid_rescale b (i : ℤ) (j : ℤ) roi iscale).1
                      (grid_rescale b (i : ℤ) (j : ℤ) roi iscale).2
                      (inp (pixel_index roi.width j i))).1
                    (image_to_grid b (grid_rescale b (i : ℤ) (j : ℤ) roi iscale).1
                      (grid_rescale b (i : ℤ) (j : ℤ) roi iscale).2
                      (inp (pixel_index roi.width j i))).2.1
                    (image_to_grid b (grid_rescale b (i : ℤ) (j : ℤ) roi iscale).1
                      (grid_rescale b (i : ℤ) (j : ℤ) roi iscale).2
                      (inp (pixel_index roi.width j i))).2.2).b
                  * inp (pixel_index roi.width j i)
                  / (slice_lookup b buf
                    (image_to_grid b (grid_rescale b (i : ℤ) (j : ℤ) roi iscale).1
                      (grid_rescale b (i : ℤ) (j : ℤ) roi iscale).2
                      (inp (pixel_index roi.width j i))).1
                    (image_to_grid b (grid_rescale b (i : ℤ) (j : ℤ) roi iscale).1
                      (grid_rescale b (i : ℤ) (j : ℤ) roi iscale).2
                      (inp (pixel_index roi.width j i))).2.1
                    (image_to_grid b (grid_rescale b (i : ℤ) (j : ℤ) roi iscale).1
                      (grid_rescale b (i : ℤ) (j : ℤ) roi iscale).2
                      (inp (pixel_index roi.width j i))).2.2).L
                  * slice_blend threshold (inp (pixel_index roi.width j i))
           else inp (pixel_index roi.width j i + 2)) := by
  have h0 := slice_cells_at b buf inp out0 threshold roi iscale j i 0 hj hi (by norm_num)
  have h1 := slice_cells_at b buf inp out0 threshold roi iscale j i 1 hj hi (by norm_num)
  have h2 := slice_cells_at b buf inp out0 threshold roi iscale j i 2 hj hi (by norm_num)
  have h3 := slice_cells_at b buf inp out0 threshold roi iscale j i 3 hj hi (by norm_num)
  rw [add_zero] at h0
  rw [h0, h1, h2, h3]
  unfold slice_pixel
  simp only [add_zero]
  refine ⟨?_, ?_, ?_, ?_⟩
  · split_ifs <;> simp [Function.update_apply]
  · split_ifs <;> simp [Function.update_apply]
  · split_ifs <;> simp [Function.update_apply]
  · split_ifs <;> simp [Function.update_apply]

/-- When `slice` returns, the output memory is the one its two loops produce
from some cell buffer: the grid's own, or none at all when the grid has no
buffer and no pixel blends. -/
theorem slice_done_cells (b : dt_iop_colorreconstruct_bilateral_t) (inp out0 o : ℕ → ℚ)
    (threshold : ℚ) (roi : dt_iop_roi_t) (iscale : ℚ)
    (h : dt_iop_colorreconstruct_bilateral_slice b inp out0 threshold roi iscale = Run.done o) :
    ∃ buf, o = slice_cells b buf inp out0 threshold roi iscale := by
  unfold dt_iop_colorreconstruct_bilateral_slice at h
  cases hb : b.buf with
  | some buf =>
    rw [hb] at h
    simp only [Run.done.injEq] at h
    exact ⟨buf, h.symm⟩
  | none =>
    rw [hb] at h
    simp only [] at h
    split_ifs at h
    simp only [Run.done.injEq] at h
    exact ⟨[], h.symm⟩

/-- C13. Slice leaves `L` and alpha untouched: for every grid, threshold, roi
and input, `slice` returns when the grid has its cell buffer, and whenever it
returns, every pixel of the roi, blending or not, has its output `L` equal to
its input `L` and its output fourth channel equal to its input fourth
channel. -/
theorem C13_slice_keeps_L_alpha (b : dt_iop_colorreconstruct_bilateral_t)
    (inp out0 : ℕ → ℚ) (threshold : ℚ) (roi : dt_iop_roi_t) (iscale : ℚ) (j i : ℕ)
    (hj : (j : ℤ) < roi.height) (hi : (i : ℤ) < roi.width) :
    (b.buf ≠ none →
      ∃ o, dt_iop_colorreconstruct_bilateral_slice b inp out0 threshold roi iscale = Run.done o)
    ∧ ∀ o, dt_iop_colorreconstruct_bilateral_slice b inp out0 threshold roi iscale = Run.done o →
      o (pixel_index roi.width j i) = inp (pixel_index roi.width j i)
      ∧ o (pixel_index roi.width j i + 3) = inp (pixel_index roi.width j i + 3) := by
  refine ⟨slice_returns b inp out0 threshold roi iscale, ?_⟩
  intro o h
  obtain ⟨buf, rfl⟩ := slice_done_cells b inp out0 o threshold roi iscale h
  obtain ⟨h0, h3, -, -⟩ := slice_pixel_values b buf inp out0 threshold roi iscale j i hj hi
  exact ⟨h0, h3⟩

/-- Witness for C13 on the scenario: pixel `(2, 1)` keeps `L` and alpha. -/
theorem C13_slice_keeps_L_alpha_witness :
    slice_cells scenario_grid (List.replicate 275 Lab_zero) scenario_in (fun _ => 0) 100
        scenario_roi 1 (pixel_index scenario_roi.width 1 2)
      = scenario_in (pixel_index scenario_roi.width 1 2)
    ∧ slice_cells scenario_grid (List.replicate 275 Lab_zero) scenario_in (fun _ => 0) 100
        scenario_roi 1 (pixel_index scenario_roi.width 1 2 + 3)
      = scenario_in (pixel_index scenario_roi.width 1 2 + 3) :=
  (C13_slice_keeps_L_alpha scenario_grid scenario_in (fun _ => 0) 100 scenario_roi 1 1 2
    (by decide) (by decide)).2 _ rfl

/-- The blend factor is never negative, so a pixel blends exactly when its
blend factor is positive. -/
theorem slice_blend_nonneg (threshold Lin : ℚ) : 0 ≤ slice_blend threshold Lin :=
  CLAMPS_ge _ _ _ (by norm_num)

/-- C12. Slice correction formula.  For every pixel of the roi whose blend
factor, the binary32 value of `clamp (20 / threshold * L_in - 19) 0 1`, is
positive, with `c` the trilinear interpolation of the 8 surrounding cells at
the pixel's grid coordinates: if `c.weight ≤ 0` the output `a` and `b` are the
input `a` and `b`; otherwise, for `c.L ≠ 0`,
`a_out = a_in * (1 - blend) + (c.a * L_in / c.L) * blend` and
`b_out = b_in * (1 - blend) + (c.b * L_in / c.L) * blend`. -/
theorem C12_slice_correction_formula (b : dt_iop_colorreconstruct_bilateral_t)
    (buf : List dt_iop_colorreconstruct_Lab_t) (inp out0 : ℕ → ℚ) (threshold : ℚ)
    (roi : dt_iop_roi_t) (iscale : ℚ) (j i : ℕ) (hbuf : b.buf = some buf)
    (hj : (j : ℤ) < roi.height) (hi : (i : ℤ) < roi.width)
    (hblend : 0 < slice_blend threshold (inp (pixel_index roi.width j i))) :
    ∃ out c, dt_iop_colorreconstruct_bilateral_slice b inp out0 threshold roi iscale
          = Run.done out
      ∧ slice_blend threshold (inp (pixel_index roi.width j i))
          = CLAMPS (f32 (f32 (f32 (20 / threshold) * inp (pixel_index roi.width j i)) - 19)) 0 1
      ∧ c = slice_lookup b buf
            (image_to_grid b (grid_rescale b (i : ℤ) (j : ℤ) roi iscale).1
              (grid_rescale b (i : ℤ) (j : ℤ) roi iscale).2
              (inp (pixel_index roi.width j i))).1
            (image_to_grid b (grid_rescale b (i : ℤ) (j : ℤ) roi iscale).1
              (grid_rescale b (i : ℤ) (j : ℤ) roi iscale).2
              (inp (pixel_index roi.width j i))).2.1
            (image_to_grid b (grid_rescale b (i : ℤ) (j : ℤ) roi iscale).1
              (grid_rescale b (i : ℤ) (j : ℤ) roi iscale).2
              (inp (pixel_index roi.width j i))).2.2
      ∧ (c.weight ≤ 0 →
          out (pixel_index roi.width j i + 1) = inp (pixel_index roi.width j i + 1)
          ∧ out (pixel_index roi.width j i + 2) = inp (pixel_index roi.width j i + 2))
      ∧ (0 < c.weight → c.L ≠ 0 →
          out (pixel_index roi.width j i + 1)
            = inp (pixel_index roi.width j i + 1)
                * (1 - slice_blend threshold (inp (pixel_index roi.width j i)))
              + (c.a * inp (pixel_index roi.width j i) / c.L)
                * slice_blend threshold (inp (pixel_index roi.width j i))
          ∧ out (pixel_index roi.width j i + 2)
            = inp (pixel_index roi.width j i + 2)
                * (1 - slice_blend threshold (inp (pixel_index roi.width j i)))
              + (c.b * inp (pixel_index roi.width j i) / c.L)
                * slice_blend threshold (inp (pixel_index roi.width j i))) := by
  obtain ⟨-, -, h1, h2⟩ := slice_pixel_values b buf inp out0 threshold roi iscale j i hj hi
  have hne : slice_blend threshold (inp (pixel_index roi.width j i)) ≠ 0 := ne_of_gt hblend
  rw [if_neg hne] at h1 h2
  refine ⟨slice_cells b buf inp out0 threshold roi iscale, _, ?_, rfl, rfl, ?_, ?_⟩
  · simp [dt_iop_colorreconstruct_bilateral_slice, hbuf]
  · intro hw
    rw [if_neg (not_lt.mpr hw)] at h1 h2
    exact ⟨h1, h2⟩
  · intro hw _
    rw [if_pos hw] at h1 h2
    exact ⟨h1, h2⟩

/-- Witness for C12 on the ramp grid: pixel `(0, 0)` with `L = 60` at threshold
62 has blend `186037 / 524288`, its grid coordinates are `(0, 0, 6)` and the
interpolated cell is `(151, 300, -150, 153)`, of positive weight and nonzero
`L`, so the formula branch applies. -/
theorem C12_slice_correction_formula_witness :
    0 < slice_blend 62 (blend_in (pixel_index scenario_roi.width 0 0))
    ∧ (∃ out c, dt_iop_colorreconstruct_bilateral_slice ramp_grid blend_in (fun _ => 0) 62
          scenario_roi 1 = Run.done out
      ∧ slice_blend 62 (blend_in (pixel_index scenario_roi.width 0 0))
          = CLAMPS (f32 (f32 (f32 (20 / 62) * blend_in (pixel_index scenario_roi.width 0 0))
              - 19)) 0 1
      ∧ c = slice_lookup ramp_grid ramp_cells
            (image_to_grid ramp_grid
              (grid_rescale ramp_grid ((0 : ℕ) : ℤ) ((0 : ℕ) : ℤ) scenario_roi 1).1
              (grid_rescale ramp_grid ((0 : ℕ) : ℤ) ((0 : ℕ) : ℤ) scenario_roi 1).2
              (blend_in (pixel_index scenario_roi.width 0 0))).1
            (image_to_grid ramp_grid
              (grid_rescale ramp_grid ((0 : ℕ) : ℤ) ((0 : ℕ) : ℤ) scenario_roi 1).1
              (grid_rescale ramp_grid ((0 : ℕ) : ℤ) ((0 : ℕ) : ℤ) scenario_roi 1).2
              (blend_in (pixel_index scenario_roi.width 0 0))).2.1
            (image_to_grid ramp_grid
              (grid_rescale ramp_grid ((0 : ℕ) : ℤ) ((0 : ℕ) : ℤ) scenario_roi 1).1
              (grid_rescale ramp_grid ((0 : ℕ) : ℤ) ((0 : ℕ) : ℤ) scenario_roi 1).2
              (blend_in (pixel_index scenario_roi.width 0 0))).2.2
      ∧ (c.weight ≤ 0 →
          out (pixel_index scenario_roi.width 0 0 + 1)
            = blend_in (pixel_index scenario_roi.width 0 0 + 1)
          ∧ out (pixel_index scenario_roi.width 0 0 + 2)
            = blend_in (pixel_index scenario_roi.width 0 0 + 2))
      ∧ (0 < c.weight → c.L ≠ 0 →
          out (pixel_index scenario_roi.width 0 0 + 1)
            = blend_in (pixel_index scenario_roi.width 0 0 + 1)
                * (1 - slice_blend 62 (blend_in (pixel_index scenario_roi.width 0 0)))
              + (c.a * blend_in (pixel_index scenario_roi.width 0 0) / c.L)
                * slice_blend 62 (blend_in (pixel_index scenario_roi.width 0 0))
          ∧ out (pixel_index scenario_roi.width 0 0 + 2)
            = blend_in (pixel_index scenario_roi.width 0 0 + 2)
                * (1 - slice_blend 62 (blend_in (pixel_index scenario_roi.width 0 0)))
              + (c.b * blend_in (pixel_index scenario_roi.width 0 0) / c.L)
                * slice_blend 62 (blend_in (pixel_index scenario_roi.width 0 0))))
    ∧ blend_in (pixel_index scenario_roi.width 0 0) = 60
    ∧ slice_blend 62 60 = 186037 / 524288
    ∧ image_to_grid ramp_grid
        (grid_rescale ramp_grid ((0 : ℕ) : ℤ) ((0 : ℕ) : ℤ) scenario_roi 1).1
        (grid_rescale ramp_grid ((0 : ℕ) : ℤ) ((0 : ℕ) : ℤ) scenario_roi 1).2 60 = (0, 0, 6)
    ∧ slice_lookup ramp_grid ramp_cells 0 0 6 = ⟨151, 300, -150, 153⟩ :=
  have hL : blend_in (pixel_index scenario_roi.width 0 0) = 60 := (blend_in_values 0).1
  have hb : 0 < slice_blend 62 (blend_in (pixel_index scenario_roi.width 0 0)) := by
    rw [hL, slice_blend_62_60]
    norm_num
  ⟨hb, C12_slice_correction_formula ramp_grid ramp_cells blend_in (fun _ => 0) 62
      scenario_roi 1 0 0 rfl (by decide) (by decide) hb,
    hL, slice_blend_62_60, ramp_lookup_pixel, ramp_lookup_value⟩

/-! ### Boundary cases of the binary32 arithmetic -/

theorem edge_in_values (n : ℕ) :
    edge_in (4 * n) = 4649157 / 65536 ∧ edge_in (4 * n + 1) = 10
      ∧ edge_in (4 * n + 2) = -5 := by
  unfold edge_in
  have h0 : (4 * n) % 4 = 0 := by omega
  have h1 : (4 * n + 1) % 4 = 1 := by omega
  have h2 : (4 * n + 2) % 4 = 2 := by omega
  simp [h0, h1, h2]

/-- The blend factor at `edge_threshold` of the luma of `edge_in`, in
binary32: the quotient rounds up, the product rounds up to
`19 + 2 ^ (-19)`. -/
theorem slice_blend_edge : slice_blend edge_threshold (4649157 / 65536) = 1 / 524288 := by
  have e1 : f32 (20 / (9787699 / 131072)) = 4493443 / 16777216 := by
    rw [f32_eval_pos _ (-2) 8986886 (by norm_num) (by norm_num) (by norm_num) (by norm_num)]
    norm_num
  have e2 : f32 (4493443 / 16777216 * (4649157 / 65536)) = 9961473 / 524288 := by
    rw [f32_eval_pos _ 4 9961473 (by norm_num) (by norm_num) (by norm_num) (by norm_num)]
    norm_num
  have e3 : f32 (9961473 / 524288 - 19) = 1 / 524288 := by
    have h := f32_fixed 1 (-19) (by norm_num)
    norm_num at h ⊢
    exact h
  unfold slice_blend edge_threshold
  rw [e1, e2, e3]
  norm_num [CLAMPS]

theorem flat_lookup_pixel :
    image_to_grid flat_grid (grid_rescale flat_grid ((0 : ℕ) : ℤ) ((0 : ℕ) : ℤ) ⟨0, 0, 1, 1, 1⟩ 1).1
      (grid_rescale flat_grid ((0 : ℕ) : ℤ) ((0 : ℕ) : ℤ) ⟨0, 0, 1, 1, 1⟩ 1).2 (4649157 / 65536)
      = (0, 0, 7438651 / 1048576) := by
  have e : f32 (4649157 / 655360) = 7438651 / 1048576 := by
    rw [f32_eval_pos _ 2 14877302 (by norm_num) (by norm_num) (by norm_num) (by norm_num)]
    norm_num
  simp only [image_to_grid, grid_rescale, flat_grid]
  norm_num [CLAMPS, f32_zero, e]

theorem flat_lookup_value :
    slice_lookup flat_grid flat_cells 0 0 (7438651 / 1048576) = ⟨50, 20, 5, 1⟩ := by
  have f0 : float_to_int 0 = 0 := by norm_num [float_to_int, INT_MIN, INT_MAX]
  have f7 : float_to_int (7438651 / 1048576) = 7 := by
    have : ⌊(7438651 / 1048576 : ℚ)⌋ = 7 := by
      rw [Int.floor_eq_iff]; norm_num
    norm_num [float_to_int, INT_MIN, INT_MAX, this]
  have t : Int.toNat 175 = 175 := rfl
  unfold slice_lookup
  simp only [f0, f7]
  norm_num [MIN, flat_grid, Lab_fields, t, flat_cells, rd_replicate]

/-- Counterexample to C3 as stated: on a 1 × 1 roi over the flat grid, with
`threshold = 9787699 / 131072` and the pixel's `L = 4649157 / 65536` below
`0.95 * threshold`, the binary32 blend is `2 ^ (-19)`, not 0, and `slice`
writes `a = 10 + 3010757 / 85899345920` (about 10.000035, the blend formula
being evaluated exactly) where the input has `a = 10`. -/
theorem C3_pass_through_counterexample :
    0 < edge_threshold
    ∧ edge_in (pixel_index 1 0 0) < 95 / 100 * edge_threshold
    ∧ slice_blend edge_threshold (edge_in (pixel_index 1 0 0)) = 1 / 524288
    ∧ ∃ out, dt_iop_colorreconstruct_bilateral_slice flat_grid edge_in (fun _ => 0)
          edge_threshold ⟨0, 0, 1, 1, 1⟩ 1 = Run.done out
        ∧ edge_in (pixel_index 1 0 0 + 1) = 10
        ∧ out (pixel_index 1 0 0 + 1) = 10 + 3010757 / 85899345920
        ∧ out (pixel_index 1 0 0 + 1) ≠ edge_in (pixel_index 1 0 0 + 1) := by
  have hL : edge_in (pixel_index 1 0 0) = 4649157 / 65536 := (edge_in_values 0).1
  have ha : edge_in (pixel_index 1 0 0 + 1) = 10 := (edge_in_values 0).2.1
  obtain ⟨-, -, h1, -⟩ := slice_pixel_values flat_grid flat_cells edge_in (fun _ => 0)
    edge_threshold ⟨0, 0, 1, 1, 1⟩ 1 0 0 (by decide) (by decide)
  have hv : slice_cells flat_grid flat_cells edge_in (fun _ => 0) edge_threshold
      ⟨0, 0, 1, 1, 1⟩ 1 (pixel_index 1 0 0 + 1) = 10 + 3010757 / 85899345920 := by
    rw [h1, hL, ha, slice_blend_edge, flat_lookup_pixel, flat_lookup_value]
    norm_num
  refine ⟨by norm_num [edge_threshold], by rw [hL]; norm_num [edge_threshold],
    by rw [hL]; exact slice_blend_edge,
    slice_cells flat_grid flat_cells edge_in (fun _ => 0) edge_threshold ⟨0, 0, 1, 1, 1⟩ 1,
    by simp [dt_iop_colorreconstruct_bilateral_slice, flat_grid], ha, hv, ?_⟩
  rw [hv, ha]
  norm_num

/-- The binary32 pitch of 97 range intervals. -/
theorem f32_range_pitch : f32 (100 / 97) = 8648049 / 8388608 := by
  rw [f32_eval_pos _ 0 8648049 (by norm_num) (by norm_num) (by norm_num) (by norm_num)]
  norm_num

/-- The binary32 quotient of `L = 100` by the pitch of 97 range intervals. -/
theorem f32_range_top : f32 (100 / (8648049 / 8388608)) = 12713985 / 131072 := by
  rw [f32_eval_pos _ 6 12713985 (by norm_num) (by norm_num) (by norm_num) (by norm_num)]
  norm_num

theorem range_grid_init :
    dt_iop_colorreconstruct_bilateral_init true (some (List.replicate 2450 Lab_zero))
        ⟨0, 0, 4, 4, 1⟩ 1 400 (33 / 32) = Run.done (some range_grid) := by
  have e1 : roundf (f32 (((4 : ℤ) : ℚ) / 400)) = 0 := by
    have e : (((4 : ℤ) : ℚ) / 400) = 1 / 100 := by norm_num
    rw [e, f32_hundredth]
    norm_num [roundf]
  have e2 : roundf (f32 (100 / (33 / 32))) = 97 := by
    have e : f32 (100 / (33 / 32)) = 3177503 / 32768 := by
      rw [f32_eval_pos _ 6 12710012 (by norm_num) (by norm_num) (by norm_num) (by norm_num)]
      norm_num
    have : ⌊(3177503 / 32768 + 1 / 2 : ℚ)⌋ = 97 := by
      rw [Int.floor_eq_iff]; norm_num
    rw [e]
    norm_num [roundf, this]
  have f0 : float_to_int 0 = 0 := by norm_num [float_to_int, INT_MIN, INT_MAX]
  have f97 : float_to_int 97 = 97 := by norm_num [float_to_int, INT_MIN, INT_MAX]
  simp only [dt_iop_colorreconstruct_bilateral_init, Bool.not_true, Bool.false_eq_true,
    if_false, e1, e2, f0, f97]
  have t5 : Int.toNat 5 = 5 := rfl
  have t98 : Int.toNat 98 = 98 := rfl
  have hm : memset_zero (List.replicate 2450 Lab_zero) 2450 = List.replicate 2450 Lab_zero :=
    memset_zero_full _ 2450 (List.length_replicate _ _)
  norm_num [CLAMPS, MAX, DT_COLORRECONSTRUCT_BILATERAL_MAX_RES_S,
    DT_COLORRECONSTRUCT_BILATERAL_MAX_RES_R, t5, t98, hm, f32_one, f32_range_pitch, range_grid]

/-- Counterexample to C6 as stated: for a 4 × 4 roi with the range pitch
`33 / 32` requested, `init` builds 98 range cells and stores the binary32
pitch `8648049 / 8388608`, which is not `100 / 97`; at `L = 100` the quotient
`L / sigma_r` exceeds `size_z - 1 = 97`, in exact arithmetic and in binary32
(`12713985 / 131072`), and `image_to_grid` returns the clamped value 97. -/
theorem C6_range_axis_counterexample :
    dt_iop_colorreconstruct_bilateral_init true (some (List.replicate 2450 Lab_zero))
        ⟨0, 0, 4, 4, 1⟩ 1 400 (33 / 32) = Run.done (some range_grid)
    ∧ range_grid.sigma_r = 8648049 / 8388608
    ∧ range_grid.sigma_r ≠ 100 / ((range_grid.size_z : ℚ) - 1)
    ∧ ¬ ((100 : ℚ) / range_grid.sigma_r ≤ (range_grid.size_z : ℚ) - 1)
    ∧ f32 (100 / range_grid.sigma_r) = 12713985 / 131072
    ∧ ¬ (f32 (100 / range_grid.sigma_r) ≤ (range_grid.size_z : ℚ) - 1)
    ∧ (image_to_grid range_grid 0 0 100).2.2 = (range_grid.size_z : ℚ) - 1
    ∧ (image_to_grid range_grid 0 0 100).2.2 ≠ f32 (100 / range_grid.sigma_r) := by
  have hs : range_grid.sigma_r = 8648049 / 8388608 := rfl
  have hz : ((range_grid.size_z : ℚ)) = 98 := by norm_num [range_grid]
  have hi : (image_to_grid range_grid 0 0 100).2.2 = (range_grid.size_z : ℚ) - 1 := by
    simp only [image_to_grid, hs, hz, f32_range_top]
    norm_num [CLAMPS]
  refine ⟨range_grid_init, hs, ?_, ?_, ?_, ?_, hi, ?_⟩
  · rw [hs, hz]; norm_num
  · rw [hs, hz]; norm_num
  · rw [hs]; exact f32_range_top
  · rw [hs, f32_range_top, hz]; norm_num
  · rw [hi, hs, f32_range_top, hz]; norm_num

/-- The binary32 product of `1.05f` and 7: the exact product lies halfway
between two neighbours and rounds down to the even one. -/
theorem f32_zoom_product : f32 (float_1_05 * 7) = 7707033 / 1048576 := by
  unfold float_1_05
  rw [f32_eval_tie _ 2 15414066 (by norm_num) (by norm_num) (by norm_num)
    (Or.inl (by norm_num))]
  norm_num

/-- On the full pipe zoomed to `cur_scale = 15414067 / 2097152` over a fit
scale of 7 the zoom test passes in binary32. -/
theorem zoom_test_passes : zoom_env.cur_scale > f32 (float_1_05 * zoom_env.min_scale) := by
  have hm : zoom_env.min_scale = 7 := rfl
  have hc : zoom_env.cur_scale = 15414067 / 2097152 := rfl
  rw [hm, hc, f32_zoom_product]
  norm_num

/-- The first block of `process` in the zoomed environment takes the cached
snapshot. -/
theorem zoom_process_can :
    process_can scenario_data (some ⟨some zoom_can⟩) zoom_env = some zoom_can :=
  (process_can_eq_some _ _ _ _).mpr
    ⟨rfl, rfl, by norm_num [scenario_data], ⟨_, rfl, rfl⟩, zoom_test_passes⟩

/-- The run of `process` in the zoomed environment: the snapshot is thawed and
sliced, no grid is built. -/
theorem zoom_process :
    ∃ r, process scenario_data (some ⟨some zoom_can⟩) zoom_env scenario_in (fun _ => 0)
          scenario_roi = Run.done r
      ∧ dt_iop_colorreconstruct_bilateral_thaw zoom_env.grid_malloc_ok zoom_env.grid_mem
          (some zoom_can) = some r.b
      ∧ r.calls = [Call.thaw, Call.slice] := by
  obtain ⟨r, hr⟩ := process_returns scenario_data (some ⟨some zoom_can⟩) zoom_env scenario_in
    (fun _ => 0) scenario_roi (List.replicate 275 Lab_zero) rfl rfl
    (by
      intro gd c hg hcc
      simp only [Option.some.injEq] at hg
      rw [← hg] at hcc
      simp only [Option.some.injEq] at hcc
      rw [← hcc]
      simp [zoom_can])
  refine ⟨r, hr, ?_⟩
  obtain ⟨calls, hg, -, hcase⟩ := process_cases _ _ _ _ _ _ r hr
  have hcalls : r.calls = calls ++ [Call.slice] := by
    rcases hcase with ⟨gd, -, -, hp, -⟩ | ⟨-, -, h⟩
    · have hf : zoom_env.pipe_type = dt_dev_pixelpipe_type_t.DT_DEV_PIXELPIPE_FULL := rfl
      rw [hf] at hp
      cases hp
    · exact h
  rcases process_grid_cases _ _ _ _ _ _ _ hg with ⟨c, hc1, hc2, hc3⟩ | ⟨hn, -⟩
  · rw [zoom_process_can] at hc1
    simp only [Option.some.injEq] at hc1
    rw [← hc1] at hc2
    exact ⟨hc2, by rw [hcalls, hc3]; rfl⟩
  · rw [zoom_process_can] at hn
    exact absurd hn (by simp)

/-- Splatting two lists of pixels that are permutations of each other yields
the same buffer. -/
theorem splat_fold_perm (b : dt_iop_colorreconstruct_bilateral_t) (inp : ℕ → ℚ)
    (threshold : ℚ) (l1 l2 : List (ℕ × ℕ)) (h : l1.Perm l2)
    (buf : List dt_iop_colorreconstruct_Lab_t) :
    l1.foldl (fun buf p => splat_pixel b inp threshold p.1 p.2 buf) buf
      = l2.foldl (fun buf p => splat_pixel b inp threshold p.1 p.2 buf) buf := by
  apply buf_ext
  · rw [splat_fold_length, splat_fold_length]
  · intro k hk
    rw [splat_fold_length] at hk
    rw [splat_fold_rd b inp threshold l1 buf k hk, splat_fold_rd b inp threshold l2 buf k hk]
    congr 1
    exact List.Perm.sum_eq ((h.filter _).map _)

/-- C11. Splat is order-independent: for every grid, threshold and input,
accumulating the pixels in any permutation of the pixel order yields the same
cell buffer as the row-major order used by `splat`; in particular two
per-pixel updates commute. -/
theorem C11_splat_order_independent (b : dt_iop_colorreconstruct_bilateral_t)
    (buf : List dt_iop_colorreconstruct_Lab_t) (inp : ℕ → ℚ) (threshold : ℚ)
    (l : List (ℕ × ℕ))
    (hl : l.Perm (((List.range b.height.toNat).map
      (fun j => (List.range b.width.toNat).map (fun i => (j, i)))).flatten)) :
    l.foldl (fun buf p => splat_pixel b inp threshold p.1 p.2 buf) buf
        = splat_cells b inp threshold buf
    ∧ ∀ p q : ℕ × ℕ,
        splat_pixel b inp threshold p.1 p.2 (splat_pixel b inp threshold q.1 q.2 buf)
          = splat_pixel b inp threshold q.1 q.2 (splat_pixel b inp threshold p.1 p.2 buf) := by
  constructor
  · unfold splat_cells
    rw [foldl_pixels (fun j i buf => splat_pixel b inp threshold j i buf)]
    exact splat_fold_perm b inp threshold _ _ hl buf
  · intro p q
    exact splat_fold_perm b inp threshold [q, p] [p, q] (List.Perm.swap p q []) buf

theorem C11_splat_order_independent_witness :
    ((((List.range scenario_grid.height.toNat).map
        (fun j => (List.range scenario_grid.width.toNat).map (fun i => (j, i)))).flatten).reverse).foldl
        (fun buf p => splat_pixel scenario_grid scenario_in 100 p.1 p.2 buf)
        (List.replicate 275 Lab_zero)
      = splat_cells scenario_grid scenario_in 100 (List.replicate 275 Lab_zero)
    ∧ ∀ p q : ℕ × ℕ,
        splat_pixel scenario_grid scenario_in 100 p.1 p.2
            (splat_pixel scenario_grid scenario_in 100 q.1 q.2 (List.replicate 275 Lab_zero))
          = splat_pixel scenario_grid scenario_in 100 q.1 q.2
            (splat_pixel scenario_grid scenario_in 100 p.1 p.2 (List.replicate 275 Lab_zero)) :=
  C11_splat_order_independent scenario_grid (List.replicate 275 Lab_zero) scenario_in 100 _
    (List.reverse_perm _)

/-! ### Two runs on inputs that differ only above the threshold -/

theorem foldl_congr_mem {σ α : Type} (f g : σ → α → σ) (l : List α)
    (h : ∀ a, a ∈ l → ∀ s, f s a = g s a) (s : σ) : l.foldl f s = l.foldl g s := by
  induction l generalizing s with
  | nil => rfl
  | cons a l ih =>
    simp only [List.foldl_cons]
    rw [h a (by simp), ih (fun a' ha' => h a' (by simp [ha']))]

/-- The loop body of `splat` for one pixel reads the input only at that
pixel's `L`, `a`, `b`, and reads `a`, `b` only when `L` is at or below the
threshold. -/
theorem splat_pixel_congr (b : dt_iop_colorreconstruct_bilateral_t) (inp1 inp2 : ℕ → ℚ)
    (threshold : ℚ) (j i : ℕ) (buf : List dt_iop_colorreconstruct_Lab_t)
    (hL : inp1 (pixel_index b.width j i) = inp2 (pixel_index b.width j i))
    (hab : inp1 (pixel_index b.width j i) ≤ threshold →
      inp1 (pixel_index b.width j i + 1) = inp2 (pixel_index b.width j i + 1)
      ∧ inp1 (pixel_index b.width j i + 2) = inp2 (pixel_index b.width j i + 2)) :
    splat_pixel b inp1 threshold j i buf = splat_pixel b inp2 threshold j i buf := by
  unfold splat_pixel
  simp only []
  rw [← hL]
  by_cases h : inp1 (pixel_index b.width j i) > threshold
  · rw [if_pos h, if_pos h]
  · rw [if_neg h, if_neg h]
    obtain ⟨ha, hb⟩ := hab (not_lt.mp h)
    rw [ha, hb]

/-- Two inputs with the same `L` at every pixel and the same `a`, `b` at every
pixel at or below the threshold are splatted to the same buffer. -/
theorem splat_cells_congr (b : dt_iop_colorreconstruct_bilateral_t) (inp1 inp2 : ℕ → ℚ)
    (threshold : ℚ) (buf : List dt_iop_colorreconstruct_Lab_t)
    (h : ∀ j i : ℕ, (j : ℤ) < b.height → (i : ℤ) < b.width →
      inp1 (pixel_index b.width j i) = inp2 (pixel_index b.width j i)
      ∧ (inp1 (pixel_index b.width j i) ≤ threshold →
          inp1 (pixel_index b.width j i + 1) = inp2 (pixel_index b.width j i + 1)
          ∧ inp1 (pixel_index b.width j i + 2) = inp2 (pixel_index b.width j i + 2))) :
    splat_cells b inp1 threshold buf = splat_cells b inp2 threshold buf := by
  unfold splat_cells
  rw [foldl_pixels (fun j i buf => splat_pixel b inp1 threshold j i buf),
    foldl_pixels (fun j i buf => splat_pixel b inp2 threshold j i buf)]
  apply foldl_congr_mem
  intro p hp s
  rw [mem_pixels] at hp
  obtain ⟨hL, hab⟩ := h p.1 p.2 (by omega) (by omega)
  exact splat_pixel_congr b inp1 inp2 threshold p.1 p.2 s hL hab

/-- The grid `process` slices on the non-cached path, with the grid
allocations succeeding: `blur (splat (init ...))`, with a cell buffer. -/
theorem process_grid_noncached (data : dt_iop_colorreconstruct_data_t)
    (g : Option dt_iop_colorreconstruct_gui_data_t) (env : process_env)
    (roi_in : dt_iop_roi_t) (m : List dt_iop_colorreconstruct_Lab_t)
    (hm : env.grid_malloc_ok = true) (hmem : env.grid_mem = some m)
    (hnc : process_can data g env = none) :
    ∃ b0 buf0, dt_iop_colorreconstruct_bilateral_init true (some m) roi_in env.iscale
          (data.spatial / (env.iscale / roi_in.scale)) data.range = Run.done (some b0)
      ∧ b0.buf = some buf0 ∧ b0.width = roi_in.width ∧ b0.height = roi_in.height
      ∧ ∀ inp : ℕ → ℚ, ∃ cells,
          dt_iop_colorreconstruct_bilateral_splat b0 inp data.threshold
            = Run.done { b0 with buf := some (splat_cells b0 inp data.threshold buf0) }
          ∧ dt_iop_colorreconstruct_bilateral_blur
              { b0 with buf := some (splat_cells b0 inp data.threshold buf0) }
            = Run.done { b0 with buf := some cells }
          ∧ process_grid data g env inp roi_in
            = Run.done (some { b0 with buf := some cells },
                [Call.init, Call.splat, Call.blur]) := by
  obtain ⟨b0, hi, hb0⟩ := init_returns m roi_in env.iscale
    (data.spatial / (env.iscale / roi_in.scale)) data.range
  have hw : b0.width = roi_in.width ∧ b0.height = roi_in.height := by
    simp only [dt_iop_colorreconstruct_bilateral_init, Bool.not_true, Bool.false_eq_true,
      if_false, Run.done.injEq, Option.some.injEq] at hi
    rw [← hi]
    exact ⟨rfl, rfl⟩
  cases hbuf0 : b0.buf with
  | none => exact absurd hbuf0 hb0
  | some buf0 =>
    refine ⟨b0, buf0, hi, hbuf0, hw.1, hw.2, fun inp => ?_⟩
    have hs := splat_returns b0 buf0 inp data.threshold hbuf0
    have hbl := blur_eq { b0 with buf := some (splat_cells b0 inp data.threshold buf0) }
      (splat_cells b0 inp data.threshold buf0) rfl
    refine ⟨_, hs, hbl, ?_⟩
    unfold process_grid
    simp only [hnc]
    rw [hm, hmem, hi]
    simp only []
    rw [hs]
    simp only []
    rw [hbl]

/-- Once the first half of `process` has produced a grid with a cell buffer,
`process` returns. -/
theorem process_returns_of_grid (data : dt_iop_colorreconstruct_data_t)
    (g : Option dt_iop_colorreconstruct_gui_data_t) (env : process_env) (inp out : ℕ → ℚ)
    (roi_in : dt_iop_roi_t) (b : dt_iop_colorreconstruct_bilateral_t) (calls : List Call)
    (hg : process_grid data g env inp roi_in = Run.done (some b, calls)) (hb : b.buf ≠ none) :
    ∃ r, process data g env inp out roi_in = Run.done r := by
  obtain ⟨o, ho⟩ := slice_returns b inp out data.threshold roi_in env.iscale hb
  unfold process
  rw [hg]
  simp only [ho]
  cases g with
  | none => exact ⟨_, rfl⟩
  | some gd =>
    simp only []
    split_ifs <;> exact ⟨_, rfl⟩

/-- Two runs of `slice` on the same grid agree at a pixel of the roi whose four
input floats are the same in both runs. -/
theorem slice_cells_congr_pixel (b : dt_iop_colorreconstruct_bilateral_t)
    (buf : List dt_iop_colorreconstruct_Lab_t) (inp1 inp2 out1 out2 : ℕ → ℚ) (threshold : ℚ)
    (roi : dt_iop_roi_t) (iscale : ℚ) (j i : ℕ) (hj : (j : ℤ) < roi.height)
    (hi : (i : ℤ) < roi.width)
    (h0 : inp1 (pixel_index roi.width j i) = inp2 (pixel_index roi.width j i))
    (h1 : inp1 (pixel_index roi.width j i + 1) = inp2 (pixel_index roi.width j i + 1))
    (h2 : inp1 (pixel_index roi.width j i + 2) = inp2 (pixel_index roi.width j i + 2))
    (h3 : inp1 (pixel_index roi.width j i + 3) = inp2 (pixel_index roi.width j i + 3))
    (c : ℕ) (hc : c < 4) :
    slice_cells b buf inp1 out1 threshold roi iscale (pixel_index roi.width j i + c)
      = slice_cells b buf inp2 out2 threshold roi iscale (pixel_index roi.width j i + c) := by
  obtain ⟨a0, a3, a1, a2⟩ := slice_pixel_values b buf inp1 out1 threshold roi iscale j i hj hi
  obtain ⟨b0, b3, b1, b2⟩ := slice_pixel_values b buf inp2 out2 threshold roi iscale j i hj hi
  interval_cases c
  · rw [add_zero, a0, b0, h0]
  · rw [a1, b1, h0, h1]
  · rw [a2, b2, h0, h2]
  · rw [a3, b3, h3]

/-- C18. Above-threshold pixels never contribute to the grid.  On the
non-cached path of `process` (`init`, `splat`, `blur`, `slice`), with the grid
allocations succeeding, for every two inputs that have the same `L` and alpha
at every pixel and the same `a` and `b` at every pixel with `L ≤ threshold`:
both runs return, `splat` yields the same grid for both inputs, the two
splatted-and-blurred grids are equal, and the two outputs agree at every pixel
whose own input `a` and `b` are the same in both runs. -/
theorem C18_above_threshold_no_contribution (data : dt_iop_colorreconstruct_data_t)
    (g : Option dt_iop_colorreconstruct_gui_data_t) (env : process_env)
    (inp1 inp2 out : ℕ → ℚ) (roi_in : dt_iop_roi_t) (m : List dt_iop_colorreconstruct_Lab_t)
    (hm : env.grid_malloc_ok = true) (hmem : env.grid_mem = some m)
    (hnc : process_can data g env = none)
    (hsame : ∀ j i : ℕ, (j : ℤ) < roi_in.height → (i : ℤ) < roi_in.width →
      inp1 (pixel_index roi_in.width j i) = inp2 (pixel_index roi_in.width j i)
      ∧ inp1 (pixel_index roi_in.width j i + 3) = inp2 (pixel_index roi_in.width j i + 3)
      ∧ (inp1 (pixel_index roi_in.width j i) ≤ data.threshold →
          inp1 (pixel_index roi_in.width j i + 1) = inp2 (pixel_index roi_in.width j i + 1)
          ∧ inp1 (pixel_index roi_in.width j i + 2)
              = inp2 (pixel_index roi_in.width j i + 2))) :
    ∃ r1 r2 b0 b1, process data g env inp1 out roi_in = Run.done r1
      ∧ process data g env inp2 out roi_in = Run.done r2
      ∧ dt_iop_colorreconstruct_bilateral_init true (some m) roi_in env.iscale
          (data.spatial / (env.iscale / roi_in.scale)) data.range = Run.done (some b0)
      ∧ dt_iop_colorreconstruct_bilateral_splat b0 inp1 data.threshold = Run.done b1
      ∧ dt_iop_colorreconstruct_bilateral_splat b0 inp2 data.threshold = Run.done b1
      ∧ dt_iop_colorreconstruct_bilateral_blur b1 = Run.done r1.b
      ∧ r1.b = r2.b
      ∧ ∀ j i : ℕ, (j : ℤ) < roi_in.height → (i : ℤ) < roi_in.width →
          inp1 (pixel_index roi_in.width j i + 1) = inp2 (pixel_index roi_in.width j i + 1) →
          inp1 (pixel_index roi_in.width j i + 2) = inp2 (pixel_index roi_in.width j i + 2) →
          ∀ c, c < 4 →
            r1.out (pixel_index roi_in.width j i + c) = r2.out (pixel_index roi_in.width j i + c) := by
  obtain ⟨b0, buf0, hi, hbuf0, hw, hh, hall⟩ :=
    process_grid_noncached data g env roi_in m hm hmem hnc
  obtain ⟨cells1, hs1, hb1, hg1⟩ := hall inp1
  obtain ⟨cells2, hs2, hb2, hg2⟩ := hall inp2
  have hsp : splat_cells b0 inp1 data.threshold buf0 = splat_cells b0 inp2 data.threshold buf0 := by
    apply splat_cells_congr
    intro j i hj hi'
    rw [hw] at hi' ⊢
    rw [hh] at hj
    obtain ⟨e0, -, e12⟩ := hsame j i hj hi'
    exact ⟨e0, e12⟩
  rw [← hsp] at hs2 hb2
  have hcells : cells1 = cells2 := by
    rw [hb1] at hb2
    simp only [Run.done.injEq, dt_iop_colorreconstruct_bilateral_t.mk.injEq, Option.some.injEq,
      true_and] at hb2
    exact hb2
  subst hcells
  obtain ⟨r1, hr1⟩ := process_returns_of_grid data g env inp1 out roi_in _ _ hg1 (by simp)
  obtain ⟨r2, hr2⟩ := process_returns_of_grid data g env inp2 out roi_in _ _ hg2 (by simp)
  obtain ⟨calls1, hpg1, hsl1, -⟩ := process_cases data g env inp1 out roi_in r1 hr1
  obtain ⟨calls2, hpg2, hsl2, -⟩ := process_cases data g env inp2 out roi_in r2 hr2
  rw [hg1] at hpg1
  rw [hg2] at hpg2
  simp only [Run.done.injEq, Prod.mk.injEq, Option.some.injEq] at hpg1 hpg2
  have e1 : r1.b = { b0 with buf := some cells1 } := hpg1.1.symm
  have e2 : r2.b = { b0 with buf := some cells1 } := hpg2.1.symm
  refine ⟨r1, r2, b0, _, hr1, hr2, hi, hs1, hs2, by rw [e1]; exact hb1, by rw [e1, e2], ?_⟩
  intro j i hj hi' ha hb c hc
  rw [e1] at hsl1
  rw [e2] at hsl2
  simp only [dt_iop_colorreconstruct_bilateral_slice, Run.done.injEq] at hsl1 hsl2
  rw [← hsl1, ← hsl2]
  obtain ⟨e0, e3, -⟩ := hsame j i hj hi'
  exact slice_cells_congr_pixel _ cells1 inp1 inp2 out out data.threshold roi_in env.iscale j i
    hj hi' e0 ha hb e3 c hc

theorem scenario_in_other_values (n : ℕ) :
    scenario_in_other (4 * n) = 50 ∧ scenario_in_other (4 * n + 3) = 1
    ∧ scenario_in (4 * n + 3) = 1 := by
  unfold scenario_in_other scenario_in
  have h0 : (4 * n) % 4 = 0 := by omega
  have h3 : (4 * n + 3) % 4 = 3 := by omega
  simp [h0, h3]

theorem C18_above_threshold_no_contribution_witness :
    ∃ r1 r2 b0 b1,
      process ⟨40, 400, 10⟩ none scenario_env scenario_in (fun _ => 0) scenario_roi = Run.done r1
      ∧ process ⟨40, 400, 10⟩ none scenario_env scenario_in_other (fun _ => 0) scenario_roi
          = Run.done r2
      ∧ dt_iop_colorreconstruct_bilateral_init true (some (List.replicate 275 Lab_zero))
          scenario_roi scenario_env.iscale
          ((⟨40, 400, 10⟩ : dt_iop_colorreconstruct_data_t).spatial
            / (scenario_env.iscale / scenario_roi.scale))
          (⟨40, 400, 10⟩ : dt_iop_colorreconstruct_data_t).range = Run.done (some b0)
      ∧ dt_iop_colorreconstruct_bilateral_splat b0 scenario_in
          (⟨40, 400, 10⟩ : dt_iop_colorreconstruct_data_t).threshold = Run.done b1
      ∧ dt_iop_colorreconstruct_bilateral_splat b0 scenario_in_other
          (⟨40, 400, 10⟩ : dt_iop_colorreconstruct_data_t).threshold = Run.done b1
      ∧ dt_iop_colorreconstruct_bilateral_blur b1 = Run.done r1.b
      ∧ r1.b = r2.b
      ∧ ∀ j i : ℕ, (j : ℤ) < scenario_roi.height → (i : ℤ) < scenario_roi.width →
          scenario_in (pixel_index scenario_roi.width j i + 1)
            = scenario_in_other (pixel_index scenario_roi.width j i + 1) →
          scenario_in (pixel_index scenario_roi.width j i + 2)
            = scenario_in_other (pixel_index scenario_roi.width j i + 2) →
          ∀ c, c < 4 →
            r1.out (pixel_index scenario_roi.width j i + c)
              = r2.out (pixel_index scenario_roi.width j i + c) :=
  C18_above_threshold_no_contribution ⟨40, 400, 10⟩ none scenario_env scenario_in
    scenario_in_other (fun _ => 0) scenario_roi (List.replicate 275 Lab_zero) rfl rfl rfl
    (fun j i _ _ => by
      have hidx : pixel_index scenario_roi.width j i = 4 * (j * 4 + i) :=
        pixel_index_eq _ _ _ (by decide)
      rw [hidx]
      obtain ⟨a0, -, -⟩ := scenario_in_values (j * 4 + i)
      obtain ⟨b0, b3, a3⟩ := scenario_in_other_values (j * 4 + i)
      refine ⟨by rw [a0, b0], by rw [a3, b3], fun h => ?_⟩
      rw [a0] at h
      norm_num at h)
/-! ### Tile negotiation -/

theorem tile_loop_eq (lim : cl_limits) (bx by_ : ℕ) :
    tile_loop lim bx by_
      = if tile_exceeds lim bx by_ then
          (if bx = 1 ∨ by_ = 1 then (bx, by_)
           else if bx > by_ then tile_loop lim (bx >>> 1) by_
           else tile_loop lim bx (by_ >>> 1))
        else (bx, by_) := by
  rw [tile_loop]
  split_ifs <;> rfl

/-- A smaller tile satisfies every limit a larger tile satisfies. -/
theorem tile_exceeds_mono (lim : cl_limits) (w h w' h' : ℕ) (hw : w ≤ w') (hh : h ≤ h')
    (he : tile_exceeds lim w h) : tile_exceeds lim w' h' := by
  unfold tile_exceeds at *
  have hp : w * h ≤ w' * h' := Nat.mul_le_mul hw hh
  have hp2 : w * h * (4 * 4 + 4) ≤ w' * h' * (4 * 4 + 4) := Nat.mul_le_mul_right _ hp
  rcases he with h1 | h1 | h1 | h1 | h1
  · exact Or.inl (by omega)
  · exact Or.inr (Or.inl (by omega))
  · exact Or.inr (Or.inr (Or.inl (by omega)))
  · exact Or.inr (Or.inr (Or.inr (Or.inl (by omega))))
  · exact Or.inr (Or.inr (Or.inr (Or.inr (by omega))))

/-- The loop never enlarges the tile. -/
theorem tile_loop_le (lim : cl_limits) (n : ℕ) :
    ∀ bx by_ : ℕ, bx + by_ ≤ n →
      (tile_loop lim bx by_).1 ≤ bx ∧ (tile_loop lim bx by_).2 ≤ by_ := by
  induction n with
  | zero =>
    intro bx by_ h
    rw [tile_loop_eq]
    have hx : bx = 0 := by omega
    have hy : by_ = 0 := by omega
    subst hx; subst hy
    have : ¬ tile_exceeds lim 0 0 := by simp [tile_exceeds]
    rw [if_neg this]
    exact ⟨le_refl _, le_refl _⟩
  | succ n ih =>
    intro bx by_ h
    rw [tile_loop_eq]
    split_ifs with h0 h1 h2
    · exact ⟨le_refl _, le_refl _⟩
    · have hs : bx >>> 1 = bx / 2 := by simp [Nat.shiftRight_eq_div_pow]
      rw [hs]
      have := ih (bx / 2) by_ (by omega)
      exact ⟨by omega, this.2⟩
    · have hs : by_ >>> 1 = by_ / 2 := by simp [Nat.shiftRight_eq_div_pow]
      rw [hs]
      have hy : by_ ≠ 0 := by
        intro e
        have hx : bx = 0 := by omega
        subst e; subst hx
        simp [tile_exceeds] at h0
      have := ih bx (by_ / 2) (by omega)
      exact ⟨this.1, by omega⟩
    · exact ⟨le_refl _, le_refl _⟩

/-- The tile at which the negotiation leaves the loop, by cases on the first
tile of the sequence 64×64, 64×32, 32×32, 32×16, 16×16 that exceeds no limit:
that tile, or a tile of fewer than `16 * 16` items when all five exceed one. -/
theorem tile_loop_cases (lim : cl_limits) :
    (¬ tile_exceeds lim 64 64 ∧ tile_loop lim 64 64 = (64, 64))
    ∨ (tile_exceeds lim 64 64 ∧ ¬ tile_exceeds lim 64 32 ∧ tile_loop lim 64 64 = (64, 32))
    ∨ (tile_exceeds lim 64 64 ∧ tile_exceeds lim 64 32 ∧ ¬ tile_exceeds lim 32 32
        ∧ tile_loop lim 64 64 = (32, 32))
    ∨ (tile_exceeds lim 64 64 ∧ tile_exceeds lim 64 32 ∧ tile_exceeds lim 32 32
        ∧ ¬ tile_exceeds lim 32 16 ∧ tile_loop lim 64 64 = (32, 16))
    ∨ (tile_exceeds lim 64 64 ∧ tile_exceeds lim 64 32 ∧ tile_exceeds lim 32 32
        ∧ tile_exceeds lim 32 16 ∧ ¬ tile_exceeds lim 16 16 ∧ tile_loop lim 64 64 = (16, 16))
    ∨ (tile_exceeds lim 64 64 ∧ tile_exceeds lim 64 32 ∧ tile_exceeds lim 32 32
        ∧ tile_exceeds lim 32 16 ∧ tile_exceeds lim 16 16
        ∧ (tile_loop lim 64 64).1 * (tile_loop lim 64 64).2 < 16 * 16) := by
  have s64 : 64 >>> 1 = 32 := rfl
  have s32 : 32 >>> 1 = 16 := rfl
  have s16 : 16 >>> 1 = 8 := rfl
  by_cases e1 : tile_exceeds lim 64 64
  · right
    by_cases e2 : tile_exceeds lim 64 32
    · right
      by_cases e3 : tile_exceeds lim 32 32
      · right
        by_cases e4 : tile_exceeds lim 32 16
        · right
          by_cases e5 : tile_exceeds lim 16 16
          · right
            refine ⟨e1, e2, e3, e4, e5, ?_⟩
            have h : tile_loop lim 64 64 = tile_loop lim 16 8 := by
              rw [tile_loop_eq, if_pos e1]
              simp only [s64, Nat.reduceEqDiff, or_self, if_false, gt_iff_lt, lt_self_iff_false]
              rw [tile_loop_eq, if_pos e2]
              simp only [s64, Nat.reduceEqDiff, or_self, if_false, gt_iff_lt, Nat.reduceLT,
                if_true]
              rw [tile_loop_eq, if_pos e3]
              simp only [s32, Nat.reduceEqDiff, or_self, if_false, gt_iff_lt, lt_self_iff_false]
              rw [tile_loop_eq, if_pos e4]
              simp only [s32, Nat.reduceEqDiff, or_self, if_false, gt_iff_lt, Nat.reduceLT,
                if_true]
              rw [tile_loop_eq, if_pos e5]
              simp only [s16, Nat.reduceEqDiff, or_self, if_false, gt_iff_lt, lt_self_iff_false]
            rw [h]
            have := tile_loop_le lim (16 + 8) 16 8 (le_refl _)
            have hp := Nat.mul_le_mul this.1 this.2
            omega
          · left
            refine ⟨e1, e2, e3, e4, e5, ?_⟩
            rw [tile_loop_eq, if_pos e1]
            simp only [s64, Nat.reduceEqDiff, or_self, if_false, gt_iff_lt, lt_self_iff_false]
            rw [tile_loop_eq, if_pos e2]
            simp only [s64, Nat.reduceEqDiff, or_self, if_false, gt_iff_lt, Nat.reduceLT,
              if_true]
            rw [tile_loop_eq, if_pos e3]
            simp only [s32, Nat.reduceEqDiff, or_self, if_false, gt_iff_lt, lt_self_iff_false]
            rw [tile_loop_eq, if_pos e4]
            simp only [s32, Nat.reduceEqDiff, or_self, if_false, gt_iff_lt, Nat.reduceLT,
              if_true]
            rw [tile_loop_eq, if_neg e5]
        · left
          refine ⟨e1, e2, e3, e4, ?_⟩
          rw [tile_loop_eq, if_pos e1]
          simp only [s64, Nat.reduceEqDiff, or_self, if_false, gt_iff_lt, lt_self_iff_false]
          rw [tile_loop_eq, if_pos e2]
          simp only [s64, Nat.reduceEqDiff, or_self, if_false, gt_iff_lt, Nat.reduceLT,
            if_true]
          rw [tile_loop_eq, if_pos e3]
          simp only [s32, Nat.reduceEqDiff, or_self, if_false, gt_iff_lt, lt_self_iff_false]
          rw [tile_loop_eq, if_neg e4]
      · left
        refine ⟨e1, e2, e3, ?_⟩
        rw [tile_loop_eq, if_pos e1]
        simp only [s64, Nat.reduceEqDiff, or_self, if_false, gt_iff_lt, lt_self_iff_false]
        rw [tile_loop_eq, if_pos e2]
        simp only [s64, Nat.reduceEqDiff, or_self, if_false, gt_iff_lt, Nat.reduceLT,
          if_true]
        rw [tile_loop_eq, if_neg e3]
    · left
      refine ⟨e1, e2, ?_⟩
      rw [tile_loop_eq, if_pos e1]
      simp only [s64, Nat.reduceEqDiff, or_self, if_false, gt_iff_lt, lt_self_iff_false]
      rw [tile_loop_eq, if_neg e2]
  · left
    refine ⟨e1, ?_⟩
    rw [tile_loop_eq, if_neg e1]

/-- The head of `init_cl` and `thaw_cl` refuses the device exactly when the
16 × 16 tile exceeds a limit; otherwise it yields the first tile of the
sequence that exceeds none. -/
theorem bilateral_cl_blocksize_spec (lim : cl_limits) :
    (tile_exceeds lim 16 16 ∧ bilateral_cl_blocksize (some lim) = none)
    ∨ (¬ tile_exceeds lim 16 16
        ∧ ∃ p, bilateral_cl_blocksize (some lim) = some p
          ∧ [(64, 64), (64, 32), (32, 32), (32, 16), (16, 16)].find?
              (fun q => decide (¬ tile_exceeds lim q.1 q.2)) = some p
          ∧ ¬ tile_exceeds lim p.1 p.2) := by
  unfold bilateral_cl_blocksize
  simp only []
  rcases tile_loop_cases lim with ⟨n1, h⟩ | ⟨e1, n2, h⟩ | ⟨e1, e2, n3, h⟩ | ⟨e1, e2, e3, n4, h⟩
    | ⟨e1, e2, e3, e4, n5, h⟩ | ⟨e1, e2, e3, e4, e5, h⟩
  · right
    refine ⟨fun e => n1 (tile_exceeds_mono lim 16 16 64 64 (by omega) (by omega) e), ?_⟩
    rw [h]
    exact ⟨(64, 64), by simp, by simp [List.find?, n1], n1⟩
  · right
    refine ⟨fun e => n2 (tile_exceeds_mono lim 16 16 64 32 (by omega) (by omega) e), ?_⟩
    rw [h]
    exact ⟨(64, 32), by simp, by simp [List.find?, e1, n2], n2⟩
  · right
    refine ⟨fun e => n3 (tile_exceeds_mono lim 16 16 32 32 (by omega) (by omega) e), ?_⟩
    rw [h]
    exact ⟨(32, 32), by simp, by simp [List.find?, e1, e2, n3], n3⟩
  · right
    refine ⟨fun e => n4 (tile_exceeds_mono lim 16 16 32 16 (by omega) (by omega) e), ?_⟩
    rw [h]
    exact ⟨(32, 16), by simp, by simp [List.find?, e1, e2, e3, n4], n4⟩
  · right
    refine ⟨n5, ?_⟩
    rw [h]
    exact ⟨(16, 16), by simp, by simp [List.find?, e1, e2, e3, e4, n5], n5⟩
  · left
    exact ⟨e5, by rw [if_pos h]⟩

/-- C16. Tile negotiation refusal.  For all device limits that were read
successfully, the head of `init_cl` and `thaw_cl` declares the device unusable
if and only if the 16 × 16 tile exceeds a limit, that is if and only if no tile
of width and height at least 16 satisfies all limits, that is if and only if
one of `maxsizes[0] ≥ 16`, `maxsizes[1] ≥ 16`, `localmemsize ≥ 16 * 16 * 20`,
`workgroupsize ≥ 256`, `kernelworkgroupsize ≥ 256` fails.  In that case
`init_cl` and `thaw_cl` return `NULL` whatever the allocations would give; in
the other case they return a grid when every later step succeeds. -/
theorem C16_tile_negotiation_refusal (lim : cl_limits) :
    (bilateral_cl_blocksize (some lim) = none ↔ tile_exceeds lim 16 16)
    ∧ (tile_exceeds lim 16 16 ↔ ¬ ∃ w h : ℕ, 16 ≤ w ∧ 16 ≤ h ∧ ¬ tile_exceeds lim w h)
    ∧ (tile_exceeds lim 16 16 ↔
        ¬ (16 ≤ lim.maxsizes0 ∧ 16 ≤ lim.maxsizes1 ∧ 16 * 16 * 20 ≤ lim.localmemsize
          ∧ 256 ≤ lim.workgroupsize ∧ 256 ≤ lim.kernelworkgroupsize))
    ∧ (tile_exceeds lim 16 16 →
        (∀ malloc_ok dev_mem dev_mem_tmp zero_ok roi iscale sigma_s sigma_r,
          dt_iop_colorreconstruct_bilateral_init_cl (some lim) malloc_ok dev_mem dev_mem_tmp
            zero_ok roi iscale sigma_s sigma_r = none)
        ∧ ∀ malloc_ok dev_mem dev_mem_tmp write_ok bf,
          dt_iop_colorreconstruct_bilateral_thaw_cl (some lim) malloc_ok dev_mem dev_mem_tmp
            write_ok bf = none)
    ∧ (¬ tile_exceeds lim 16 16 →
        (∀ grid tmp roi iscale sigma_s sigma_r,
          dt_iop_colorreconstruct_bilateral_init_cl (some lim) true (some grid) (some tmp)
            true roi iscale sigma_s sigma_r ≠ none)
        ∧ ∀ grid tmp bf,
          dt_iop_colorreconstruct_bilateral_thaw_cl (some lim) true (some grid) (some tmp)
            true (some bf) ≠ none) := by
  have hspec := bilateral_cl_blocksize_spec lim
  refine ⟨?_, ?_, ?_, ?_, ?_⟩
  · rcases hspec with ⟨e, h⟩ | ⟨n, p, h, -⟩
    · exact ⟨fun _ => e, fun _ => h⟩
    · rw [h]
      exact ⟨fun c => absurd c (by simp), fun c => absurd c n⟩
  · constructor
    · rintro e ⟨w, h, hw, hh, hn⟩
      exact hn (tile_exceeds_mono lim 16 16 w h hw hh e)
    · intro hne
      by_contra hc
      exact hne ⟨16, 16, le_refl _, le_refl _, hc⟩
  · unfold tile_exceeds
    constructor
    · intro h hc
      omega
    · intro h
      by_contra hc
      apply h
      simp only [not_or, not_lt] at hc
      omega
  · intro e
    have hnone : bilateral_cl_blocksize (some lim) = none := by
      rcases hspec with ⟨-, h⟩ | ⟨n, -⟩
      · exact h
      · exact absurd e n
    constructor
    · intro malloc_ok dev_mem dev_mem_tmp zero_ok roi iscale sigma_s sigma_r
      unfold dt_iop_colorreconstruct_bilateral_init_cl
      rw [hnone]
    · intro malloc_ok dev_mem dev_mem_tmp write_ok bf
      unfold dt_iop_colorreconstruct_bilateral_thaw_cl
      cases bf with
      | none => rfl
      | some bf => simp only [hnone]
  · intro n
    obtain ⟨p, hp⟩ : ∃ p, bilateral_cl_blocksize (some lim) = some p := by
      rcases hspec with ⟨e, -⟩ | ⟨-, p, h, -⟩
      · exact absurd e n
      · exact ⟨p, h⟩
    obtain ⟨p1, p2⟩ := p
    constructor
    · intro grid tmp roi iscale sigma_s sigma_r
      unfold dt_iop_colorreconstruct_bilateral_init_cl
      rw [hp]
      simp
    · intro grid tmp bf
      unfold dt_iop_colorreconstruct_bilateral_thaw_cl
      simp only [hp]
      cases hb : bf.buf <;> simp

/-- A grid returned by `init_cl` carries the negotiated tile. -/
theorem init_cl_blocksize (lim : Option cl_limits) (malloc_ok : Bool)
    (dev_mem dev_mem_tmp : Option (List dt_iop_colorreconstruct_Lab_t)) (zero_ok : Bool)
    (roi : dt_iop_roi_t) (iscale sigma_s sigma_r : ℚ)
    (b : dt_iop_colorreconstruct_bilateral_cl_t)
    (h : dt_iop_colorreconstruct_bilateral_init_cl lim malloc_ok dev_mem dev_mem_tmp zero_ok
      roi iscale sigma_s sigma_r = some b) :
    bilateral_cl_blocksize lim = some (b.blocksizex, b.blocksizey) := by
  unfold dt_iop_colorreconstruct_bilateral_init_cl at h
  cases hp : bilateral_cl_blocksize lim with
  | none => simp [hp] at h
  | some p =>
    obtain ⟨p1, p2⟩ := p
    simp only [hp] at h
    cases malloc_ok <;> cases dev_mem <;> cases dev_mem_tmp <;> cases zero_ok <;>
      simp at h
    rw [← h]

/-- A grid returned by `thaw_cl` carries the negotiated tile. -/
theorem thaw_cl_blocksize (lim : Option cl_limits) (malloc_ok : Bool)
    (dev_mem dev_mem_tmp : Option (List dt_iop_colorreconstruct_Lab_t)) (write_ok : Bool)
    (bf : Option dt_iop_colorreconstruct_bilateral_frozen_t)
    (b : dt_iop_colorreconstruct_bilateral_cl_t)
    (h : dt_iop_colorreconstruct_bilateral_thaw_cl lim malloc_ok dev_mem dev_mem_tmp write_ok
      bf = some b) :
    bilateral_cl_blocksize lim = some (b.blocksizex, b.blocksizey) := by
  unfold dt_iop_colorreconstruct_bilateral_thaw_cl at h
  cases bf with
  | none => simp at h
  | some bf =>
    cases hp : bilateral_cl_blocksize lim with
    | none => simp [hp] at h
    | some p =>
      obtain ⟨p1, p2⟩ := p
      simp only [hp] at h
      cases malloc_ok <;> cases dev_mem <;> cases dev_mem_tmp <;> cases write_ok <;>
        cases hb : bf.buf <;> simp [hb] at h <;> rw [← h]

/-- C17. Tile negotiation result.  The halving loop is a total function of the
device limits (its recursion is well founded, so it terminates for all limits),
and whenever the negotiation succeeds with the tile `p`, `p` is the first
element of the sequence 64x64, 64x32, 32x32, 32x16, 16x16 that satisfies all
five limits; `p` satisfies them, and every grid returned by `init_cl` or
`thaw_cl` stores `p` in `blocksizex`, `blocksizey`. -/
theorem C17_tile_negotiation_result (lim : cl_limits) (p : ℕ × ℕ)
    (h : bilateral_cl_blocksize (some lim) = some p) :
    p = tile_loop lim 64 64
    ∧ [(64, 64), (64, 32), (32, 32), (32, 16), (16, 16)].find?
        (fun q => decide (¬ tile_exceeds lim q.1 q.2)) = some p
    ∧ (p.1 ≤ lim.maxsizes0 ∧ p.2 ≤ lim.maxsizes1
        ∧ p.1 * p.2 * (4 * 4 + 4) ≤ lim.localmemsize
        ∧ p.1 * p.2 ≤ lim.workgroupsize ∧ p.1 * p.2 ≤ lim.kernelworkgroupsize)
    ∧ (∀ malloc_ok dev_mem dev_mem_tmp zero_ok roi iscale sigma_s sigma_r b,
        dt_iop_colorreconstruct_bilateral_init_cl (some lim) malloc_ok dev_mem dev_mem_tmp
          zero_ok roi iscale sigma_s sigma_r = some b →
        (b.blocksizex, b.blocksizey) = p)
    ∧ (∀ malloc_ok dev_mem dev_mem_tmp write_ok bf b,
        dt_iop_colorreconstruct_bilateral_thaw_cl (some lim) malloc_ok dev_mem dev_mem_tmp
          write_ok bf = some b →
        (b.blocksizex, b.blocksizey) = p) := by
  refine ⟨?_, ?_, ?_, ?_, ?_⟩
  · unfold bilateral_cl_blocksize at h
    simp only [] at h
    split_ifs at h
    exact (Option.some.inj h).symm
  · rcases bilateral_cl_blocksize_spec lim with ⟨-, hn⟩ | ⟨-, q, hq, hf, -⟩
    · rw [hn] at h
      exact absurd h (by simp)
    · rw [hq] at h
      rw [← Option.some.inj h]
      exact hf
  · rcases bilateral_cl_blocksize_spec lim with ⟨-, hn⟩ | ⟨-, q, hq, -, hs⟩
    · rw [hn] at h
      exact absurd h (by simp)
    · rw [hq] at h
      rw [← Option.some.inj h]
      unfold tile_exceeds at hs
      simp only [not_or, not_lt] at hs
      exact hs
  · intro malloc_ok dev_mem dev_mem_tmp zero_ok roi iscale sigma_s sigma_r b hb
    have := init_cl_blocksize _ _ _ _ _ _ _ _ _ b hb
    rw [h] at this
    exact (Option.some.inj this).symm
  · intro malloc_ok dev_mem dev_mem_tmp write_ok bf b hb
    have := thaw_cl_blocksize _ _ _ _ _ _ b hb
    rw [h] at this
    exact (Option.some.inj this).symm

/-- The scenario's device negotiates the tile 32 × 32. -/
theorem scenario_limits_blocksize :
    bilateral_cl_blocksize (some scenario_limits) = some (32, 32) := by
  rcases bilateral_cl_blocksize_spec scenario_limits with ⟨e, -⟩ | ⟨-, q, hq, hf, -⟩
  · exact absurd e (by decide)
  · rw [hq]
    have hd : [(64, 64), (64, 32), (32, 32), (32, 16), (16, 16)].find?
        (fun q => decide (¬ tile_exceeds scenario_limits q.1 q.2)) = some (32, 32) := by
      decide
    rw [hd] at hf
    rw [← Option.some.inj hf]

/-- Witness for C17 on the scenario's device, where two halvings occur. -/
theorem C17_tile_negotiation_result_witness :
    bilateral_cl_blocksize (some scenario_limits) = some (32, 32)
    ∧ (32, 32) = tile_loop scenario_limits 64 64
    ∧ (32 ≤ scenario_limits.maxsizes0 ∧ 32 ≤ scenario_limits.maxsizes1
        ∧ 32 * 32 * (4 * 4 + 4) ≤ scenario_limits.localmemsize
        ∧ 32 * 32 ≤ scenario_limits.workgroupsize
        ∧ 32 * 32 ≤ scenario_limits.kernelworkgroupsize) :=
  ⟨scenario_limits_blocksize,
    (C17_tile_negotiation_result scenario_limits (32, 32) scenario_limits_blocksize).1,
    (C17_tile_negotiation_result scenario_limits (32, 32) scenario_limits_blocksize).2.2.1⟩

/-! ### The cache mutex -/

/-- The run of `process_traced` against the run of `process`: the same faults,
the same final state, and the events in closed form. -/
theorem process_traced_eq (data : dt_iop_colorreconstruct_data_t)
    (g : Option dt_iop_colorreconstruct_gui_data_t) (env : process_env) (inp out : ℕ → ℚ)
    (roi_in : dt_iop_roi_t) :
    process_traced data g env inp out roi_in
      = match process data g env inp out roi_in with
        | Run.fault => Run.fault
        | Run.done r =>
          Run.done (r,
            (process_first_block data g env).2
            ++ (match process_can data g env with
                | some _ => [Event.op Call.thaw]
                | none => [Event.op Call.init, Event.op Call.splat, Event.op Call.blur])
            ++ [Event.op Call.slice]
            ++ process_last_block_events data g env) := by
  unfold process_traced process process_grid process_can process_first_block
    process_last_block_events DT_COLORRECONSTRUCT_SPATIAL_APPROX
  cases g with
  | none =>
    simp only []
    cases hi : dt_iop_colorreconstruct_bilateral_init env.grid_malloc_ok env.grid_mem roi_in
        env.iscale (data.spatial / (env.iscale / roi_in.scale)) data.range with
    | fault => simp
    | done ob =>
      cases ob with
      | none => simp
      | some b0 =>
        simp only []
        cases hs : dt_iop_colorreconstruct_bilateral_splat b0 inp data.threshold with
        | fault => simp
        | done b1 =>
          simp only []
          cases hb : dt_iop_colorreconstruct_bilateral_blur b1 with
          | fault => simp
          | done b2 =>
            simp only []
            cases hsl : dt_iop_colorreconstruct_bilateral_slice b2 inp out data.threshold roi_in
                env.iscale with
            | fault => simp
            | done o => simp [Event.call]
  | some gd =>
    have hg : (some gd ≠ none) = True := by simp
    by_cases h1 : (data.spatial > 50 ∧ env.gui_attached = true
        ∧ env.pipe_type = dt_dev_pixelpipe_type_t.DT_DEV_PIXELPIPE_FULL)
    · by_cases hz : env.cur_scale > f32 (float_1_05 * env.min_scale)
      · cases hc : gd.can with
        | some c =>
          simp only [hg, h1, hz, hc, if_true, true_and, and_self]
          cases ht : dt_iop_colorreconstruct_bilateral_thaw env.grid_malloc_ok env.grid_mem
              (some c) with
          | none => simp
          | some b =>
            simp only []
            cases hsl : dt_iop_colorreconstruct_bilateral_slice b inp out data.threshold
                roi_in env.iscale with
            | fault => simp
            | done o =>
              by_cases h2 : (env.gui_attached = true
                ∧ env.pipe_type = dt_dev_pixelpipe_type_t.DT_DEV_PIXELPIPE_PREVIEW) <;>
              by_cases h3 : data.spatial > 50 <;>
              simp [h2, h3, Event.call]
        | none =>
          simp only [hg, h1, hz, hc, if_true, true_and, and_self]
          cases hi : dt_iop_colorreconstruct_bilateral_init env.grid_malloc_ok env.grid_mem roi_in
              env.iscale (data.spatial / (env.iscale / roi_in.scale)) data.range with
          | fault => simp
          | done ob =>
            cases ob with
            | none => simp
            | some b0 =>
              simp only []
              cases hs : dt_iop_colorreconstruct_bilateral_splat b0 inp data.threshold with
              | fault => simp
              | done b1 =>
                simp only []
                cases hb : dt_iop_colorreconstruct_bilateral_blur b1 with
                | fault => simp
                | done b2 =>
                  simp only []
                  cases hsl : dt_iop_colorreconstruct_bilateral_slice b2 inp out data.threshold
                      roi_in env.iscale with
                  | fault => simp
                  | done o =>
                    by_cases h2 : (env.gui_attached = true
                      ∧ env.pipe_type = dt_dev_pixelpipe_type_t.DT_DEV_PIXELPIPE_PREVIEW) <;>
                    by_cases h3 : data.spatial > 50 <;>
                    simp [h2, h3, Event.call]
      · 
        simp only [hg, h1, hz, if_true, if_false, true_and, and_self]
        cases hi : dt_iop_colorreconstruct_bilateral_init env.grid_malloc_ok env.grid_mem roi_in
            env.iscale (data.spatial / (env.iscale / roi_in.scale)) data.range with
        | fault => simp
        | done ob =>
          cases ob with
          | none => simp
          | some b0 =>
            simp only []
            cases hs : dt_iop_colorreconstruct_bilateral_splat b0 inp data.threshold with
            | fault => simp
            | done b1 =>
              simp only []
              cases hb : dt_iop_colorreconstruct_bilateral_blur b1 with
              | fault => simp
              | done b2 =>
                simp only []
                cases hsl : dt_iop_colorreconstruct_bilateral_slice b2 inp out data.threshold
                    roi_in env.iscale with
                | fault => simp
                | done o =>
                  by_cases h2 : (env.gui_attached = true
                    ∧ env.pipe_type = dt_dev_pixelpipe_type_t.DT_DEV_PIXELPIPE_PREVIEW) <;>
                  by_cases h3 : data.spatial > 50 <;>
                  simp [h2, h3, Event.call]
    · 
      simp only [hg, h1, if_true, if_false, true_and, and_self]
      cases hi : dt_iop_colorreconstruct_bilateral_init env.grid_malloc_ok env.grid_mem roi_in
          env.iscale (data.spatial / (env.iscale / roi_in.scale)) data.range with
      | fault => simp
      | done ob =>
        cases ob with
        | none => simp
        | some b0 =>
          simp only []
          cases hs : dt_iop_colorreconstruct_bilateral_splat b0 inp data.threshold with
          | fault => simp
          | done b1 =>
            simp only []
            cases hb : dt_iop_colorreconstruct_bilateral_blur b1 with
            | fault => simp
            | done b2 =>
              simp only []
              cases hsl : dt_iop_colorreconstruct_bilateral_slice b2 inp out data.threshold
                  roi_in env.iscale with
              | fault => simp
              | done o =>
                by_cases h2 : (env.gui_attached = true
                  ∧ env.pipe_type = dt_dev_pixelpipe_type_t.DT_DEV_PIXELPIPE_PREVIEW) <;>
                by_cases h3 : data.spatial > 50 <;>
                simp [h2, h3, Event.call]

/-- The calls of the state returned by `process_traced` are the calls among
its events. -/
theorem process_traced_calls (data : dt_iop_colorreconstruct_data_t)
    (g : Option dt_iop_colorreconstruct_gui_data_t) (env : process_env) (inp out : ℕ → ℚ)
    (roi_in : dt_iop_roi_t) (r : process_result) (es : List Event)
    (h : process_traced data g env inp out roi_in = Run.done (r, es)) :
    es.filterMap Event.call = r.calls := by
  unfold process_traced at h
  simp only [] at h
  split at h
  · exact absurd h (by simp)
  · exact absurd h (by simp)
  · split at h
    · exact absurd h (by simp)
    · split at h
      · split at h
        · split at h <;>
          · simp only [Run.done.injEq, Prod.mk.injEq] at h
            rw [← h.1, ← h.2]
        · simp only [Run.done.injEq, Prod.mk.injEq] at h
          rw [← h.1, ← h.2]
      · simp only [Run.done.injEq, Prod.mk.injEq] at h
        rw [← h.1, ← h.2]


/-- Calls made with the mutex released are not under it. -/
theorem events_under_lock_ops (cs : List Call) (es : List Event) :
    events_under_lock false (cs.map Event.op ++ es) = events_under_lock false es := by
  induction cs with
  | nil => rfl
  | cons c cs ih =>
    simp only [List.map_cons, List.cons_append, events_under_lock, Bool.false_eq_true, if_false]
    exact ih

/-- Calls made with the mutex released are outside it. -/
theorem events_outside_lock_ops (cs : List Call) (es : List Event) :
    events_outside_lock false (cs.map Event.op ++ es)
      = cs.map Event.op ++ events_outside_lock false es := by
  induction cs with
  | nil => rfl
  | cons c cs ih =>
    simp only [List.map_cons, List.cons_append, events_outside_lock, Bool.false_eq_true,
      if_false]
    exact congrArg _ ih

/-- The first block of `process` and `process_cl`: the pointer is read under
the mutex, and nothing is done outside it. -/
theorem first_block_events (data : dt_iop_colorreconstruct_data_t)
    (g : Option dt_iop_colorreconstruct_gui_data_t) (env : process_env) (es : List Event) :
    events_under_lock false ((process_first_block data g env).2 ++ es)
      = (if g ≠ none ∧ data.spatial > 50 ∧ env.gui_attached = true
            ∧ env.pipe_type = dt_dev_pixelpipe_type_t.DT_DEV_PIXELPIPE_FULL
            ∧ env.cur_scale > f32 (float_1_05 * env.min_scale)
         then [Event.read_can] else []) ++ events_under_lock false es
    ∧ events_outside_lock false ((process_first_block data g env).2 ++ es)
      = events_outside_lock false es := by
  unfold process_first_block DT_COLORRECONSTRUCT_SPATIAL_APPROX
  cases g with
  | none => simp
  | some gd =>
    by_cases h1 : data.spatial > 50 <;>
    by_cases h2 : env.gui_attached = true <;>
    by_cases h3 : env.pipe_type = dt_dev_pixelpipe_type_t.DT_DEV_PIXELPIPE_FULL <;>
    by_cases h5 : env.cur_scale > f32 (float_1_05 * env.min_scale) <;>
    simp [events_under_lock, events_outside_lock, h1, h2, h3, h5]

/-- The last block of `process` and `process_cl`: the dump, the freeze copy
and the assignment to `g->can` are under the mutex, and nothing is done
outside it. -/
theorem last_block_events (data : dt_iop_colorreconstruct_data_t)
    (g : Option dt_iop_colorreconstruct_gui_data_t) (env : process_env) :
    events_under_lock false (process_last_block_events data g env)
      = (if g ≠ none ∧ env.gui_attached = true
            ∧ env.pipe_type = dt_dev_pixelpipe_type_t.DT_DEV_PIXELPIPE_PREVIEW
         then (if data.spatial > 50
               then [Event.op Call.dump, Event.op Call.freeze, Event.install]
               else [Event.op Call.dump, Event.install])
         else [])
    ∧ events_outside_lock false (process_last_block_events data g env) = [] := by
  unfold process_last_block_events DT_COLORRECONSTRUCT_SPATIAL_APPROX
  cases g with
  | none => simp [events_under_lock, events_outside_lock]
  | some gd =>
    by_cases h1 : data.spatial > 50 <;>
    by_cases h2 : env.gui_attached = true <;>
    by_cases h4 : env.pipe_type = dt_dev_pixelpipe_type_t.DT_DEV_PIXELPIPE_PREVIEW <;>
    simp [events_under_lock, events_outside_lock, h1, h2, h4]

/-- The events of `process_cl`: the first block, calls on the grid, and, when
the function returns `TRUE`, the last block. -/
theorem process_cl_events_form (data : dt_iop_colorreconstruct_data_t)
    (g : Option dt_iop_colorreconstruct_gui_data_t) (env : process_env)
    (grid_ok splat_ok blur_ok slice_ok : Bool) :
    ∃ cs : List Call,
      (∀ c ∈ cs, c = Call.thaw ∨ c = Call.init ∨ c = Call.splat ∨ c = Call.blur
        ∨ c = Call.slice)
      ∧ (process_cl_events data g env grid_ok splat_ok blur_ok slice_ok).1
          = (process_first_block data g env).2 ++ (cs.map Event.op
            ++ (if (process_cl_events data g env grid_ok splat_ok blur_ok slice_ok).2 = true
                then process_last_block_events data g env else [])) := by
  unfold process_cl_events
  simp only []
  generalize process_first_block data g env = first
  obtain ⟨fc, fe⟩ := first
  cases fc with
  | some c =>
    cases grid_ok
    · exact ⟨[Call.thaw], by simp, by simp⟩
    · cases slice_ok
      · exact ⟨[Call.thaw, Call.slice], by simp, by simp⟩
      · exact ⟨[Call.thaw, Call.slice], by simp, by simp⟩
  | none =>
    cases grid_ok
    · exact ⟨[Call.init], by simp, by simp⟩
    · cases splat_ok
      · exact ⟨[Call.init, Call.splat], by simp, by simp⟩
      · cases blur_ok
        · exact ⟨[Call.init, Call.splat, Call.blur], by simp, by simp⟩
        · cases slice_ok
          · exact ⟨[Call.init, Call.splat, Call.blur, Call.slice], by simp, by simp⟩
          · exact ⟨[Call.init, Call.splat, Call.blur, Call.slice], by simp, by simp⟩

/-- C19, amended.  In `process` and `process_cl` no thaw copy, `init`, splat,
blur or slice is executed between `dt_pthread_mutex_lock(&g->lock)` and the
matching unlock, and the slot `g->can` is read and assigned only there: the
events under the mutex are the read of the pointer on the full pipe (with a
GUI, `spatial > 50` and the zoom test passed) and, on the preview pipe with a
GUI, the dump of the cached snapshot, the freeze copy that builds the new one
when `spatial > 50`, and the assignment of the new pointer.  The traced run
returns whenever `process` does, with the same state, and carries its calls. -/
theorem C19_lock_scope (data : dt_iop_colorreconstruct_data_t)
    (g : Option dt_iop_colorreconstruct_gui_data_t) (env : process_env) (inp out : ℕ → ℚ)
    (roi_in : dt_iop_roi_t) :
    (∀ r, process data g env inp out roi_in = Run.done r →
      ∃ es, process_traced data g env inp out roi_in = Run.done (r, es))
    ∧ (∀ r es, process_traced data g env inp out roi_in = Run.done (r, es) →
        process data g env inp out roi_in = Run.done r
        ∧ es.filterMap Event.call = r.calls
        ∧ events_under_lock false es
            = (if g ≠ none ∧ data.spatial > 50 ∧ env.gui_attached = true
                  ∧ env.pipe_type = dt_dev_pixelpipe_type_t.DT_DEV_PIXELPIPE_FULL
                  ∧ env.cur_scale > f32 (float_1_05 * env.min_scale)
               then [Event.read_can] else [])
              ++ (if g ≠ none ∧ env.gui_attached = true
                    ∧ env.pipe_type = dt_dev_pixelpipe_type_t.DT_DEV_PIXELPIPE_PREVIEW
                  then (if data.spatial > 50
                        then [Event.op Call.dump, Event.op Call.freeze, Event.install]
                        else [Event.op Call.dump, Event.install])
                  else [])
        ∧ (∀ e ∈ events_outside_lock false es,
            e = Event.op Call.thaw ∨ e = Event.op Call.init ∨ e = Event.op Call.splat
              ∨ e = Event.op Call.blur ∨ e = Event.op Call.slice))
    ∧ ∀ grid_ok splat_ok blur_ok slice_ok : Bool,
        events_under_lock false
            (process_cl_events data g env grid_ok splat_ok blur_ok slice_ok).1
          = (if g ≠ none ∧ data.spatial > 50 ∧ env.gui_attached = true
                ∧ env.pipe_type = dt_dev_pixelpipe_type_t.DT_DEV_PIXELPIPE_FULL
                ∧ env.cur_scale > f32 (float_1_05 * env.min_scale)
             then [Event.read_can] else [])
            ++ (if (process_cl_events data g env grid_ok splat_ok blur_ok slice_ok).2 = true
                  ∧ g ≠ none ∧ env.gui_attached = true
                  ∧ env.pipe_type = dt_dev_pixelpipe_type_t.DT_DEV_PIXELPIPE_PREVIEW
                then (if data.spatial > 50
                      then [Event.op Call.dump, Event.op Call.freeze, Event.install]
                      else [Event.op Call.dump, Event.install])
                else [])
        ∧ (∀ e ∈ events_outside_lock false
              (process_cl_events data g env grid_ok splat_ok blur_ok slice_ok).1,
            e = Event.op Call.thaw ∨ e = Event.op Call.init ∨ e = Event.op Call.splat
              ∨ e = Event.op Call.blur ∨ e = Event.op Call.slice) := by
  have heq := process_traced_eq data g env inp out roi_in
  obtain ⟨hl1, hl2⟩ := last_block_events data g env
  refine ⟨?_, ?_, ?_⟩
  · intro r hr
    rw [hr] at heq
    exact ⟨_, heq⟩
  · intro r es h
    have hcalls := process_traced_calls data g env inp out roi_in r es h
    rw [h] at heq
    cases hp : process data g env inp out roi_in with
    | fault => rw [hp] at heq; exact absurd heq (by simp)
    | done r' =>
      rw [hp] at heq
      simp only [Run.done.injEq, Prod.mk.injEq] at heq
      obtain ⟨hr, hes⟩ := heq
      have hmid : ∃ cs : List Call,
          (∀ c ∈ cs, c = Call.thaw ∨ c = Call.init ∨ c = Call.splat ∨ c = Call.blur
            ∨ c = Call.slice)
          ∧ es = (process_first_block data g env).2
              ++ (cs.map Event.op ++ process_last_block_events data g env) := by
        rw [hes]
        cases process_can data g env with
        | some c => exact ⟨[Call.thaw, Call.slice], by simp, by simp⟩
        | none => exact ⟨[Call.init, Call.splat, Call.blur, Call.slice], by simp, by simp⟩
      obtain ⟨cs, hcs, hE⟩ := hmid
      refine ⟨by rw [hr], hcalls, ?_, ?_⟩
      · rw [hE, (first_block_events data g env _).1, events_under_lock_ops, hl1]
      · intro e he
        rw [hE, (first_block_events data g env _).2, events_outside_lock_ops, hl2,
          List.append_nil, List.mem_map] at he
        obtain ⟨c, hc, rfl⟩ := he
        rcases hcs c hc with h | h | h | h | h <;> rw [h] <;> simp
  · intro grid_ok splat_ok blur_ok slice_ok
    obtain ⟨cs, hcs, hE⟩ := process_cl_events_form data g env grid_ok splat_ok blur_ok slice_ok
    rw [hE]
    refine ⟨?_, ?_⟩
    · rw [(first_block_events data g env _).1, events_under_lock_ops]
      by_cases hok : (process_cl_events data g env grid_ok splat_ok blur_ok slice_ok).2 = true
      · rw [if_pos hok, hl1]
        simp only [hok, true_and]
      · rw [if_neg hok]
        simp only [hok, false_and, if_false]
        rfl
    · intro e he
      rw [(first_block_events data g env _).2, events_outside_lock_ops] at he
      have hnil : events_outside_lock false
          (if (process_cl_events data g env grid_ok splat_ok blur_ok slice_ok).2 = true
            then process_last_block_events data g env else []) = [] := by
        split_ifs
        · exact hl2
        · rfl
      rw [hnil, List.append_nil, List.mem_map] at he
      obtain ⟨c, hc, rfl⟩ := he
      rcases hcs c hc with h | h | h | h | h <;> rw [h] <;> simp

/-- Counterexample to C19 as stated.  On the preview pipe the freeze copy is
made between the lock and the matching unlock.  And in `race_schedule`, a
schedule of a run of the full stage and a run of the preview stage on a cache
slot that holds `zoom_can`, which respects the mutex, the preview stage dumps
(frees) the snapshot after the full stage has read the pointer to it and
before the full stage makes its thaw copy from it. -/
theorem C19_lock_scope_counterexample :
    (∃ rp, process_traced scenario_data (some ⟨some zoom_can⟩) scenario_env_preview scenario_in
          (fun _ => 0) scenario_roi = Run.done (rp, schedule_of Stage.preview race_schedule)
      ∧ Event.op Call.freeze ∈ events_under_lock false (schedule_of Stage.preview race_schedule))
    ∧ (∃ rf, process_traced scenario_data (some ⟨some zoom_can⟩) zoom_env scenario_in
          (fun _ => 0) scenario_roi = Run.done (rf, schedule_of Stage.full race_schedule)
      ∧ (process_first_block scenario_data (some ⟨some zoom_can⟩) zoom_env).1 = some zoom_can
      ∧ dt_iop_colorreconstruct_bilateral_thaw zoom_env.grid_malloc_ok zoom_env.grid_mem
          (some zoom_can) = some rf.b)
    ∧ schedule_of Stage.full race_schedule
        = [Event.lock, Event.read_can, Event.unlock, Event.op Call.thaw, Event.op Call.slice]
    ∧ schedule_of Stage.preview race_schedule
        = [Event.op Call.init, Event.op Call.splat, Event.op Call.blur, Event.op Call.slice,
           Event.lock, Event.op Call.dump, Event.op Call.freeze, Event.install, Event.unlock]
    ∧ mutex_respected none race_schedule = true
    ∧ race_schedule
        = [(Stage.full, Event.lock), (Stage.full, Event.read_can), (Stage.full, Event.unlock),
            (Stage.preview, Event.op Call.init), (Stage.preview, Event.op Call.splat),
            (Stage.preview, Event.op Call.blur), (Stage.preview, Event.op Call.slice),
            (Stage.preview, Event.lock)]
          ++ [(Stage.preview, Event.op Call.dump)]
          ++ [(Stage.preview, Event.op Call.freeze), (Stage.preview, Event.install),
            (Stage.preview, Event.unlock)]
          ++ [(Stage.full, Event.op Call.thaw)]
          ++ [(Stage.full, Event.op Call.slice)] := by
  have hsp : scenario_data.spatial > 50 := by norm_num [scenario_data]
  have hfull : process_first_block scenario_data (some ⟨some zoom_can⟩) zoom_env
      = (some zoom_can, [Event.lock, Event.read_can, Event.unlock]) := by
    unfold process_first_block DT_COLORRECONSTRUCT_SPATIAL_APPROX
    have h1 : scenario_data.spatial > 50 ∧ zoom_env.gui_attached = true
        ∧ zoom_env.pipe_type = dt_dev_pixelpipe_type_t.DT_DEV_PIXELPIPE_FULL := ⟨hsp, rfl, rfl⟩
    simp only [h1, zoom_test_passes, and_self, if_true]
  have hprev : process_first_block scenario_data (some ⟨some zoom_can⟩) scenario_env_preview
      = (none, []) := by
    unfold process_first_block
    have h1 : ¬ (scenario_data.spatial > DT_COLORRECONSTRUCT_SPATIAL_APPROX
        ∧ scenario_env_preview.gui_attached = true
        ∧ scenario_env_preview.pipe_type = dt_dev_pixelpipe_type_t.DT_DEV_PIXELPIPE_FULL) := by
      intro h
      have hf : scenario_env_preview.pipe_type
          = dt_dev_pixelpipe_type_t.DT_DEV_PIXELPIPE_PREVIEW := rfl
      rw [hf] at h
      exact absurd h.2.2 (by decide)
    simp only [h1, if_false]
  have hlastp : process_last_block_events scenario_data (some ⟨some zoom_can⟩)
      scenario_env_preview
      = [Event.lock, Event.op Call.dump, Event.op Call.freeze, Event.install, Event.unlock] := by
    unfold process_last_block_events DT_COLORRECONSTRUCT_SPATIAL_APPROX
    have h1 : scenario_env_preview.gui_attached = true
        ∧ scenario_env_preview.pipe_type = dt_dev_pixelpipe_type_t.DT_DEV_PIXELPIPE_PREVIEW :=
      ⟨rfl, rfl⟩
    simp only [h1, hsp, and_self, if_true]
  have hlastf : process_last_block_events scenario_data (some ⟨some zoom_can⟩) zoom_env = [] := by
    unfold process_last_block_events
    have h1 : ¬ (zoom_env.gui_attached = true
        ∧ zoom_env.pipe_type = dt_dev_pixelpipe_type_t.DT_DEV_PIXELPIPE_PREVIEW) := by
      intro h
      have hf : zoom_env.pipe_type = dt_dev_pixelpipe_type_t.DT_DEV_PIXELPIPE_FULL := rfl
      rw [hf] at h
      exact absurd h.2 (by decide)
    simp only [h1, if_false]
  have hcanp : process_can scenario_data (some ⟨some zoom_can⟩) scenario_env_preview = none := by
    cases hc : process_can scenario_data (some ⟨some zoom_can⟩) scenario_env_preview with
    | none => rfl
    | some c =>
      have h := ((process_can_eq_some _ _ _ _).mp hc).1
      have hf : scenario_env_preview.pipe_type
          = dt_dev_pixelpipe_type_t.DT_DEV_PIXELPIPE_PREVIEW := rfl
      rw [hf] at h
      exact absurd h (by decide)
  have sf : schedule_of Stage.full race_schedule
      = [Event.lock, Event.read_can, Event.unlock, Event.op Call.thaw, Event.op Call.slice] :=
    rfl
  have sp : schedule_of Stage.preview race_schedule
      = [Event.op Call.init, Event.op Call.splat, Event.op Call.blur, Event.op Call.slice,
         Event.lock, Event.op Call.dump, Event.op Call.freeze, Event.install, Event.unlock] :=
    rfl
  refine ⟨?_, ?_, sf, sp, rfl, rfl⟩
  · obtain ⟨r, hr⟩ := process_returns scenario_data (some ⟨some zoom_can⟩) scenario_env_preview
      scenario_in (fun _ => 0) scenario_roi (List.replicate 275 Lab_zero) rfl rfl
      (by
        intro gd c hg hcc
        simp only [Option.some.injEq] at hg
        rw [← hg] at hcc
        simp only [Option.some.injEq] at hcc
        rw [← hcc]
        simp [zoom_can])
    have heq := process_traced_eq scenario_data (some ⟨some zoom_can⟩) scenario_env_preview
      scenario_in (fun _ => 0) scenario_roi
    rw [hr] at heq
    simp only [hprev, hcanp, hlastp] at heq
    refine ⟨r, by rw [heq, sp]; rfl, ?_⟩
    rw [sp]
    simp [events_under_lock]
  · obtain ⟨r, hr, hthaw, -⟩ := zoom_process
    have heq := process_traced_eq scenario_data (some ⟨some zoom_can⟩) zoom_env
      scenario_in (fun _ => 0) scenario_roi
    rw [hr] at heq
    simp only [hfull, zoom_process_can, hlastf] at heq
    exact ⟨r, by rw [heq, sf]; rfl, by rw [hfull], hthaw⟩

/-! ### In-place blur against the out-of-place kernel -/

/-- The kernel written out: the interior form and the four boundary forms. -/
theorem blur_kernel_forms (o : ℕ → ℚ) (n : ℕ) (hn : 4 ≤ n) :
    (∀ t, 2 ≤ t → t + 3 ≤ n →
      blur_kernel o n t = (6 * o t + 4 * (o (t - 1) + o (t + 1)) + (o (t - 2) + o (t + 2))) / 16)
    ∧ blur_kernel o n 0 = (6 * o 0 + 4 * o 1 + o 2) / 16
    ∧ blur_kernel o n 1 = (6 * o 1 + 4 * (o 0 + o 2) + o 3) / 16
    ∧ blur_kernel o n (n - 2)
        = (6 * o (n - 2) + 4 * (o (n - 3) + o (n - 1)) + o (n - 4)) / 16
    ∧ blur_kernel o n (n - 1) = (6 * o (n - 1) + 4 * o (n - 2) + o (n - 3)) / 16 := by
  refine ⟨?_, ?_, ?_, ?_, ?_⟩
  · intro t h2 h3
    unfold blur_kernel blur_w0 blur_w1 blur_w2
    rw [if_pos (by omega : t + 1 < n), if_pos (by omega : 1 ≤ t), if_pos (by omega : t + 2 < n),
      if_pos h2]
    ring
  · unfold blur_kernel blur_w0 blur_w1 blur_w2
    rw [if_pos (by omega : 0 + 1 < n), if_neg (by omega : ¬ 1 ≤ 0),
      if_pos (by omega : 0 + 2 < n), if_neg (by omega : ¬ 2 ≤ 0)]
    ring
  · unfold blur_kernel blur_w0 blur_w1 blur_w2
    rw [if_pos (by omega : 1 + 1 < n), if_pos (le_refl 1), if_pos (by omega : 1 + 2 < n),
      if_neg (by omega : ¬ 2 ≤ 1)]
    ring
  · unfold blur_kernel blur_w0 blur_w1 blur_w2
    rw [if_pos (by omega : n - 2 + 1 < n), if_pos (by omega : 1 ≤ n - 2),
      if_neg (by omega : ¬ n - 2 + 2 < n), if_pos (by omega : 2 ≤ n - 2)]
    have e1 : n - 2 + 1 = n - 1 := by omega
    have e2 : n - 2 - 1 = n - 3 := by omega
    have e3 : n - 2 - 2 = n - 4 := by omega
    rw [e1, e2, e3]
    ring
  · unfold blur_kernel blur_w0 blur_w1 blur_w2
    rw [if_neg (by omega : ¬ n - 1 + 1 < n), if_pos (by omega : 1 ≤ n - 1),
      if_neg (by omega : ¬ n - 1 + 2 < n), if_pos (by omega : 2 ≤ n - 1)]
    have e2 : n - 1 - 1 = n - 2 := by omega
    have e3 : n - 1 - 2 = n - 3 := by omega
    rw [e2, e3]
    ring

/-- C20. In-place blur equals the out-of-place kernel on pre-blur values.  For
every line of length `n ≥ 4` (so for every `n ≥ 5`) processed by `blur_line`,
the lines being disjoint and inside the buffer, with `o` the line's values
before the pass, the value written at position `t` is
`(6*o[t] + 4*(o[t-1]+o[t+1]) + (o[t-2]+o[t+2]))/16` for `2 ≤ t ≤ n-3`, and at
positions `0`, `1`, `n-2`, `n-1` the same expression with the taps outside
`[0, n-1]` omitted; this holds for each of the four fields `L`, `a`, `b`,
`weight` separately, every tap being a value the buffer held before the pass. -/
theorem C20_blur_in_place (buf : List dt_iop_colorreconstruct_Lab_t)
    (o1 o2 o3 s1 s2 s3 : ℕ) (hn : 4 ≤ s3) (hd : 1 ≤ o3)
    (hinj : ∀ k j t k' j' t', k < s1 → j < s2 → t < s3 → k' < s1 → j' < s2 → t' < s3 →
      k * o1 + j * o2 + t * o3 = k' * o1 + j' * o2 + t' * o3 → k = k' ∧ j = j' ∧ t = t')
    (hbound : ∀ k j t, k < s1 → j < s2 → t < s3 → k * o1 + j * o2 + t * o3 < buf.length) :
    ∀ k j, k < s1 → j < s2 →
      ∀ f ∈ [dt_iop_colorreconstruct_Lab_t.L, dt_iop_colorreconstruct_Lab_t.a,
          dt_iop_colorreconstruct_Lab_t.b, dt_iop_colorreconstruct_Lab_t.weight],
        (∀ t, t < s3 →
          f (rd (blur_line buf o1 o2 o3 s1 s2 s3) (k * o1 + j * o2 + t * o3))
            = blur_kernel (fun u => f (rd buf (k * o1 + j * o2 + u * o3))) s3 t)
        ∧ (∀ t, 2 ≤ t → t + 3 ≤ s3 →
          f (rd (blur_line buf o1 o2 o3 s1 s2 s3) (k * o1 + j * o2 + t * o3))
            = (6 * f (rd buf (k * o1 + j * o2 + t * o3))
                + 4 * (f (rd buf (k * o1 + j * o2 + (t - 1) * o3))
                  + f (rd buf (k * o1 + j * o2 + (t + 1) * o3)))
                + (f (rd buf (k * o1 + j * o2 + (t - 2) * o3))
                  + f (rd buf (k * o1 + j * o2 + (t + 2) * o3)))) / 16)
        ∧ f (rd (blur_line buf o1 o2 o3 s1 s2 s3) (k * o1 + j * o2 + 0 * o3))
            = (6 * f (rd buf (k * o1 + j * o2 + 0 * o3))
                + 4 * f (rd buf (k * o1 + j * o2 + 1 * o3))
                + f (rd buf (k * o1 + j * o2 + 2 * o3))) / 16
        ∧ f (rd (blur_line buf o1 o2 o3 s1 s2 s3) (k * o1 + j * o2 + 1 * o3))
            = (6 * f (rd buf (k * o1 + j * o2 + 1 * o3))
                + 4 * (f (rd buf (k * o1 + j * o2 + 0 * o3))
                  + f (rd buf (k * o1 + j * o2 + 2 * o3)))
                + f (rd buf (k * o1 + j * o2 + 3 * o3))) / 16
        ∧ f (rd (blur_line buf o1 o2 o3 s1 s2 s3) (k * o1 + j * o2 + (s3 - 2) * o3))
            = (6 * f (rd buf (k * o1 + j * o2 + (s3 - 2) * o3))
                + 4 * (f (rd buf (k * o1 + j * o2 + (s3 - 3) * o3))
                  + f (rd buf (k * o1 + j * o2 + (s3 - 1) * o3)))
                + f (rd buf (k * o1 + j * o2 + (s3 - 4) * o3))) / 16
        ∧ f (rd (blur_line buf o1 o2 o3 s1 s2 s3) (k * o1 + j * o2 + (s3 - 1) * o3))
            = (6 * f (rd buf (k * o1 + j * o2 + (s3 - 1) * o3))
                + 4 * f (rd buf (k * o1 + j * o2 + (s3 - 2) * o3))
                + f (rd buf (k * o1 + j * o2 + (s3 - 3) * o3))) / 16 := by
  intro k j hk hj f hf
  obtain ⟨-, hline, -⟩ := blur_line_spec buf o1 o2 o3 s1 s2 s3 hn hd hinj hbound
  have hker : ∀ t, t < s3 →
      f (rd (blur_line buf o1 o2 o3 s1 s2 s3) (k * o1 + j * o2 + t * o3))
        = blur_kernel (fun u => f (rd buf (k * o1 + j * o2 + u * o3))) s3 t := by
    intro t ht
    rw [hline k j t hk hj ht]
    simp only [List.mem_cons, List.mem_singleton, List.not_mem_nil, or_false] at hf
    rcases hf with rfl | rfl | rfl | rfl <;> rfl
  obtain ⟨k1, k2, k3, k4, k5⟩ :=
    blur_kernel_forms (fun u => f (rd buf (k * o1 + j * o2 + u * o3))) s3 hn
  refine ⟨hker, ?_, ?_, ?_, ?_, ?_⟩
  · intro t h2 h3
    rw [hker t (by omega)]
    exact k1 t h2 h3
  · rw [hker 0 (by omega)]
    exact k2
  · rw [hker 1 (by omega)]
    exact k3
  · rw [hker (s3 - 2) (by omega)]
    exact k4
  · rw [hker (s3 - 1) (by omega)]
    exact k5

/-- Witness for C20: the five-cell line `L = 1, 2, 3, 4, 5`; its middle cell
receives `(6*3 + 4*(2+4) + (1+5))/16 = 3` and its first cell
`(6*1 + 4*2 + 3)/16 = 17/16`. -/
theorem C20_blur_in_place_witness :
    (rd (blur_line scenario_line 5 5 1 1 1 5) 2).L = 3
    ∧ (rd (blur_line scenario_line 5 5 1 1 1 5) 0).L = 17 / 16 := by
  have h := C20_blur_in_place scenario_line 5 5 1 1 1 5 (by decide) (by decide)
    (by intro k j t k' j' t' hk hj ht hk' hj' ht' he; omega)
    (by
      intro k j t hk hj ht
      have : scenario_line.length = 5 := rfl
      omega)
    0 0 (by decide) (by decide) dt_iop_colorreconstruct_Lab_t.L (by simp)
  obtain ⟨-, h2, h0, -⟩ := h
  have h2 := h2 2 (le_refl 2) (by decide)
  norm_num [scenario_line, rd] at h2 h0
  exact ⟨h2, h0⟩

/-! ### Allocation failures in `init`, `freeze` and `thaw` -/

/-- The host `freeze` returns a snapshot only with both buffers present, and
the snapshot then holds the copy of the grid's cells. -/
theorem freeze_atomic (malloc_ok : Bool) (mem : Option (List dt_iop_colorreconstruct_Lab_t))
    (b : Option dt_iop_colorreconstruct_bilateral_t)
    (bf : dt_iop_colorreconstruct_bilateral_frozen_t)
    (h : dt_iop_colorreconstruct_bilateral_freeze malloc_ok mem b = some bf) :
    ∃ g dst src, b = some g ∧ malloc_ok = true ∧ mem = some dst ∧ g.buf = some src
      ∧ bf.buf = some (memcpy dst src (g.size_x * g.size_y * g.size_z)) := by
  unfold dt_iop_colorreconstruct_bilateral_freeze at h
  cases b with
  | none => simp at h
  | some g =>
    cases malloc_ok with
    | false => simp at h
    | true =>
      cases mem with
      | none => simp at h
      | some dst =>
        cases hb : g.buf with
        | none => simp [hb] at h
        | some src =>
          simp only [hb, Bool.not_true, Bool.false_eq_true, if_false, Option.some.injEq] at h
          exact ⟨g, dst, src, rfl, rfl, rfl, hb, by rw [← h]⟩

/-- The host `thaw` returns a grid only with both buffers present, and the
grid then holds the copy of the snapshot's cells. -/
theorem thaw_atomic (malloc_ok : Bool) (mem : Option (List dt_iop_colorreconstruct_Lab_t))
    (bf : Option dt_iop_colorreconstruct_bilateral_frozen_t)
    (b : dt_iop_colorreconstruct_bilateral_t)
    (h : dt_iop_colorreconstruct_bilateral_thaw malloc_ok mem bf = some b) :
    ∃ s dst src, bf = some s ∧ malloc_ok = true ∧ mem = some dst ∧ s.buf = some src
      ∧ b.buf = some (memcpy dst src (s.size_x * s.size_y * s.size_z)) := by
  unfold dt_iop_colorreconstruct_bilateral_thaw at h
  cases bf with
  | none => simp at h
  | some s =>
    cases malloc_ok with
    | false => simp at h
    | true =>
      cases mem with
      | none => simp at h
      | some dst =>
        cases hb : s.buf with
        | none => simp [hb] at h
        | some src =>
          simp only [hb, Bool.not_true, Bool.false_eq_true, if_false, Option.some.injEq] at h
          exact ⟨s, dst, src, rfl, rfl, rfl, hb, by rw [← h]⟩

/-- C14. Freeze and thaw do not all fail atomically.  The host `freeze` and
`thaw` return an object only when its cell buffer is present and holds the copy
of the source cells.  The device variant `freeze_cl` has no `else` branch:
when `dt_alloc_align` fails it returns a snapshot whose cell buffer is absent,
and `thaw_cl` turns such a snapshot into a grid whose device buffer holds no
copy of any cells (it is returned as allocated). -/
theorem C14_freeze_cl_not_atomic :
    (∃ bf, dt_iop_colorreconstruct_bilateral_freeze_cl true none true (some scenario_grid_cl)
        = some bf ∧ bf.buf = none)
    ∧ (∀ bf, dt_iop_colorreconstruct_bilateral_freeze_cl true none true
          (some scenario_grid_cl) = some bf →
        ∀ grid tmp, ∃ b, dt_iop_colorreconstruct_bilateral_thaw_cl (some scenario_limits) true
          (some grid) (some tmp) true (some bf) = some b ∧ b.dev_grid = some grid)
    ∧ (dt_iop_colorreconstruct_bilateral_freeze true none (some scenario_grid) = none)
    ∧ (∀ malloc_ok mem b bf,
        dt_iop_colorreconstruct_bilateral_freeze malloc_ok mem b = some bf →
        ∃ g dst src, b = some g ∧ mem = some dst ∧ g.buf = some src
          ∧ bf.buf = some (memcpy dst src (g.size_x * g.size_y * g.size_z)))
    ∧ (∀ malloc_ok mem bf b,
        dt_iop_colorreconstruct_bilateral_thaw malloc_ok mem bf = some b →
        ∃ s dst src, bf = some s ∧ mem = some dst ∧ s.buf = some src
          ∧ b.buf = some (memcpy dst src (s.size_x * s.size_y * s.size_z))) := by
  have hfr : dt_iop_colorreconstruct_bilateral_freeze_cl true none true (some scenario_grid_cl)
      = some ⟨5, 5, 11, 4, 4, 0, 0, 1, 1, 10, none⟩ := rfl
  refine ⟨⟨_, hfr, rfl⟩, ?_, rfl, ?_, ?_⟩
  · intro bf hbf grid tmp
    rw [hfr] at hbf
    rw [← Option.some.inj hbf]
    unfold dt_iop_colorreconstruct_bilateral_thaw_cl
    simp only [scenario_limits_blocksize]
    exact ⟨_, rfl, rfl⟩
  · intro malloc_ok mem b bf h
    obtain ⟨g, dst, src, h1, -, h3, h4, h5⟩ := freeze_atomic malloc_ok mem b bf h
    exact ⟨g, dst, src, h1, h3, h4, h5⟩
  · intro malloc_ok mem bf b h
    obtain ⟨s, dst, src, h1, -, h3, h4, h5⟩ := thaw_atomic malloc_ok mem bf b h
    exact ⟨s, dst, src, h1, h3, h4, h5⟩

/-- The outcomes of `init`: no grid when the record allocation fails, a fault
when the record is allocated and the buffer is not, and otherwise a grid whose
buffer is the allocated memory with its first `size_x * size_y * size_z` cells
zeroed. -/
theorem init_outcomes (mem : Option (List dt_iop_colorreconstruct_Lab_t)) (roi : dt_iop_roi_t)
    (iscale sigma_s sigma_r : ℚ) :
    dt_iop_colorreconstruct_bilateral_init false mem roi iscale sigma_s sigma_r = Run.done none
    ∧ dt_iop_colorreconstruct_bilateral_init true none roi iscale sigma_s sigma_r = Run.fault
    ∧ ∀ m, ∃ b, dt_iop_colorreconstruct_bilateral_init true (some m) roi iscale sigma_s sigma_r
          = Run.done (some b)
        ∧ b.buf = some (memset_zero m (b.size_x * b.size_y * b.size_z)) :=
  ⟨rfl, rfl, fun _ => ⟨_, rfl, rfl⟩⟩

/-- C15. Function `init` does not return "no grid" when the allocation of the
cell buffer fails: the buffer pointer goes unchecked into `memset`, which
dereferences `NULL`.  It returns no grid exactly when the allocation of the
record fails; the run with the buffer allocation failing returns nothing at
all; and whenever it returns a grid, the cell buffer is present, and when the
allocated memory has `size_x * size_y * size_z` cells, every cell of it is
`(0, 0, 0, 0)`. -/
theorem C15_init_buffer_allocation_unchecked :
    dt_iop_colorreconstruct_bilateral_init true none scenario_roi 1 400 10 = Run.fault
    ∧ (∀ malloc_ok mem roi iscale sigma_s sigma_r,
        dt_iop_colorreconstruct_bilateral_init malloc_ok mem roi iscale sigma_s sigma_r
            = Run.done none ↔ malloc_ok = false)
    ∧ (∀ roi iscale sigma_s sigma_r,
        dt_iop_colorreconstruct_bilateral_init true none roi iscale sigma_s sigma_r = Run.fault)
    ∧ (∀ malloc_ok mem roi iscale sigma_s sigma_r b,
        dt_iop_colorreconstruct_bilateral_init malloc_ok mem roi iscale sigma_s sigma_r
            = Run.done (some b) →
        ∃ m, mem = some m ∧ b.buf = some (memset_zero m (b.size_x * b.size_y * b.size_z))
          ∧ (m.length = b.size_x * b.size_y * b.size_z →
              b.buf = some (List.replicate (b.size_x * b.size_y * b.size_z) Lab_zero))) := by
  refine ⟨rfl, ?_, fun _ _ _ _ => rfl, ?_⟩
  · intro malloc_ok mem roi iscale sigma_s sigma_r
    cases malloc_ok with
    | false => exact ⟨fun _ => rfl, fun _ => rfl⟩
    | true =>
      cases mem with
      | none =>
        rw [(init_outcomes none roi iscale sigma_s sigma_r).2.1]
        simp
      | some m =>
        obtain ⟨b, hb, -⟩ := (init_outcomes none roi iscale sigma_s sigma_r).2.2 m
        rw [hb]
        simp
  · intro malloc_ok mem roi iscale sigma_s sigma_r b h
    cases malloc_ok with
    | false =>
      rw [(init_outcomes mem roi iscale sigma_s sigma_r).1] at h
      simp at h
    | true =>
      cases mem with
      | none =>
        rw [(init_outcomes none roi iscale sigma_s sigma_r).2.1] at h
        simp at h
      | some m =>
        obtain ⟨b', hb, hbuf⟩ := (init_outcomes none roi iscale sigma_s sigma_r).2.2 m
        rw [hb] at h
        simp only [Run.done.injEq, Option.some.injEq] at h
        subst h
        refine ⟨m, rfl, hbuf, ?_⟩
        intro hlen
        rw [hbuf, memset_zero_full m _ hlen]

/-! ### The trilinear lookup stays inside the grid -/

/-- The lookup of `slice` written with its floor indices and its eight buffer
indices. -/
theorem slice_lookup_eq (b : dt_iop_colorreconstruct_bilateral_t)
    (buf : List dt_iop_colorreconstruct_Lab_t) (x y z : ℚ) :
    slice_lookup b buf x y z
      = Lab_fields fun f =>
          f (rd buf ((slice_lookup_indices b x y z).getD 0 0))
              * (1 - (x - (slice_floor_index b x y z).1))
              * (1 - (y - (slice_floor_index b x y z).2.1))
              * (1 - (z - (slice_floor_index b x y z).2.2))
          + f (rd buf ((slice_lookup_indices b x y z).getD 1 0))
              * (x - (slice_floor_index b x y z).1)
              * (1 - (y - (slice_floor_index b x y z).2.1))
              * (1 - (z - (slice_floor_index b x y z).2.2))
          + f (rd buf ((slice_lookup_indices b x y z).getD 2 0))
              * (1 - (x - (slice_floor_index b x y z).1))
              * (y - (slice_floor_index b x y z).2.1)
              * (1 - (z - (slice_floor_index b x y z).2.2))
          + f (rd buf ((slice_lookup_indices b x y z).getD 3 0))
              * (x - (slice_floor_index b x y z).1)
              * (y - (slice_floor_index b x y z).2.1)
              * (1 - (z - (slice_floor_index b x y z).2.2))
          + f (rd buf ((slice_lookup_indices b x y z).getD 4 0))
              * (1 - (x - (slice_floor_index b x y z).1))
              * (1 - (y - (slice_floor_index b x y z).2.1))
              * (z - (slice_floor_index b x y z).2.2)
          + f (rd buf ((slice_lookup_indices b x y z).getD 5 0))
              * (x - (slice_floor_index b x y z).1)
              * (1 - (y - (slice_floor_index b x y z).2.1))
              * (z - (slice_floor_index b x y z).2.2)
          + f (rd buf ((slice_lookup_indices b x y z).getD 6 0))
              * (1 - (x - (slice_floor_index b x y z).1))
              * (y - (slice_floor_index b x y z).2.1)
              * (z - (slice_floor_index b x y z).2.2)
          + f (rd buf ((slice_lookup_indices b x y z).getD 7 0))
              * (x - (slice_floor_index b x y z).1)
              * (y - (slice_floor_index b x y z).2.1)
              * (z - (slice_floor_index b x y z).2.2) :=
  rfl

/-- One axis of the lookup: for a coordinate `q` in `[0, n - 1]` the floor index
`MIN((int)q, n - 2)` is a natural number at most `n - 2`, and the offset
`q - xi` lies in `[0, 1]`. -/
theorem slice_axis_floor (q : ℚ) (n : ℕ) (hn : 2 ≤ n) (hn' : n ≤ 2147483648) (h0 : 0 ≤ q)
    (h1 : q ≤ (n : ℚ) - 1) :
    ∃ xi : ℕ, MIN (float_to_int q) ((n : ℤ) - 2) = (xi : ℤ) ∧ xi + 2 ≤ n
      ∧ 0 ≤ q - ((xi : ℤ) : ℚ) ∧ q - ((xi : ℤ) : ℚ) ≤ 1 := by
  have hf0 : 0 ≤ ⌊q⌋ := Int.floor_nonneg.mpr h0
  have hf1 : ⌊q⌋ ≤ (n : ℤ) - 1 := by
    have : ⌊q⌋ ≤ ⌊(n : ℚ) - 1⌋ := Int.floor_le_floor h1
    have e : ⌊(n : ℚ) - 1⌋ = (n : ℤ) - 1 := by
      have : ((n : ℚ) - 1) = (((n : ℤ) - 1 : ℤ) : ℚ) := by push_cast; ring
      rw [this, Int.floor_intCast]
    rw [e] at this
    exact this
  have hfi : float_to_int q = ⌊q⌋ := by
    unfold float_to_int INT_MIN INT_MAX
    simp only [if_pos h0]
    rw [if_pos]
    constructor <;> omega
  rw [hfi]
  unfold MIN
  split_ifs with hlt
  · refine ⟨⌊q⌋.toNat, (Int.toNat_of_nonneg hf0).symm, ?_, ?_, ?_⟩
    · have := Int.toNat_of_nonneg hf0
      omega
    · rw [Int.toNat_of_nonneg hf0]
      exact sub_nonneg.mpr (Int.floor_le q)
    · rw [Int.toNat_of_nonneg hf0]
      have := Int.lt_floor_add_one q
      linarith
  · refine ⟨n - 2, by omega, by omega, ?_, ?_⟩
    · have hge : ((n : ℤ) - 2 : ℤ) ≤ ⌊q⌋ := not_lt.mp hlt
      have h2 : (((n : ℤ) - 2 : ℤ) : ℚ) ≤ q := le_trans (by exact_mod_cast hge) (Int.floor_le q)
      have e : (((n - 2 : ℕ) : ℤ) : ℚ) = (n : ℚ) - 2 := by
        have : ((n - 2 : ℕ) : ℤ) = (n : ℤ) - 2 := by omega
        rw [this]; push_cast; ring
      rw [e]
      push_cast at h2
      linarith
    · have e : (((n - 2 : ℕ) : ℤ) : ℚ) = (n : ℚ) - 2 := by
        have : ((n - 2 : ℕ) : ℤ) = (n : ℤ) - 2 := by omega
        rw [this]; push_cast; ring
      rw [e]
      linarith

/-- The lookup at coordinates inside the grid: floor indices, offsets and the
eight buffer indices. -/
theorem slice_lookup_in_grid (b : dt_iop_colorreconstruct_bilateral_t) (x y z : ℚ)
    (hx : 2 ≤ b.size_x) (hy : 2 ≤ b.size_y) (hz : 2 ≤ b.size_z)
    (hxm : b.size_x ≤ 2147483648) (hym : b.size_y ≤ 2147483648) (hzm : b.size_z ≤ 2147483648)
    (x0 : 0 ≤ x) (x1 : x ≤ (b.size_x : ℚ) - 1) (y0 : 0 ≤ y) (y1 : y ≤ (b.size_y : ℚ) - 1)
    (z0 : 0 ≤ z) (z1 : z ≤ (b.size_z : ℚ) - 1) :
    ∃ xi yi zi : ℕ, slice_floor_index b x y z = ((xi : ℤ), (yi : ℤ), (zi : ℤ))
      ∧ xi + 2 ≤ b.size_x ∧ yi + 2 ≤ b.size_y ∧ zi + 2 ≤ b.size_z
      ∧ (0 ≤ x - ((xi : ℤ) : ℚ) ∧ x - ((xi : ℤ) : ℚ) ≤ 1)
      ∧ (0 ≤ y - ((yi : ℤ) : ℚ) ∧ y - ((yi : ℤ) : ℚ) ≤ 1)
      ∧ (0 ≤ z - ((zi : ℤ) : ℚ) ∧ z - ((zi : ℤ) : ℚ) ≤ 1)
      ∧ slice_lookup_indices b x y z
          = [xi + b.size_x * (yi + b.size_y * zi),
             (xi + 1) + b.size_x * (yi + b.size_y * zi),
             xi + b.size_x * ((yi + 1) + b.size_y * zi),
             (xi + 1) + b.size_x * ((yi + 1) + b.size_y * zi),
             xi + b.size_x * (yi + b.size_y * (zi + 1)),
             (xi + 1) + b.size_x * (yi + b.size_y * (zi + 1)),
             xi + b.size_x * ((yi + 1) + b.size_y * (zi + 1)),
             (xi + 1) + b.size_x * ((yi + 1) + b.size_y * (zi + 1))]
      ∧ ∀ k ∈ slice_lookup_indices b x y z, k < b.size_x * b.size_y * b.size_z := by
  obtain ⟨xi, hxi, hxb, hxf0, hxf1⟩ := slice_axis_floor x b.size_x hx hxm x0 x1
  obtain ⟨yi, hyi, hyb, hyf0, hyf1⟩ := slice_axis_floor y b.size_y hy hym y0 y1
  obtain ⟨zi, hzi, hzb, hzf0, hzf1⟩ := slice_axis_floor z b.size_z hz hzm z0 z1
  have hfl : slice_floor_index b x y z = ((xi : ℤ), (yi : ℤ), (zi : ℤ)) := by
    unfold slice_floor_index
    rw [hxi, hyi, hzi]
  have hgi : ((xi : ℤ) + (b.size_x : ℤ) * ((yi : ℤ) + (b.size_y : ℤ) * (zi : ℤ))).toNat
      = xi + b.size_x * (yi + b.size_y * zi) := by
    have : ((xi : ℤ) + (b.size_x : ℤ) * ((yi : ℤ) + (b.size_y : ℤ) * (zi : ℤ)))
        = ((xi + b.size_x * (yi + b.size_y * zi) : ℕ) : ℤ) := by push_cast; ring
    rw [this, Int.toNat_natCast]
  have hidx : slice_lookup_indices b x y z
      = [xi + b.size_x * (yi + b.size_y * zi),
         (xi + 1) + b.size_x * (yi + b.size_y * zi),
         xi + b.size_x * ((yi + 1) + b.size_y * zi),
         (xi + 1) + b.size_x * ((yi + 1) + b.size_y * zi),
         xi + b.size_x * (yi + b.size_y * (zi + 1)),
         (xi + 1) + b.size_x * (yi + b.size_y * (zi + 1)),
         xi + b.size_x * ((yi + 1) + b.size_y * (zi + 1)),
         (xi + 1) + b.size_x * ((yi + 1) + b.size_y * (zi + 1))] := by
    unfold slice_lookup_indices
    simp only [hfl, hgi]
    ring_nf
  refine ⟨xi, yi, zi, hfl, hxb, hyb, hzb, ⟨hxf0, hxf1⟩, ⟨hyf0, hyf1⟩, ⟨hzf0, hzf1⟩, hidx, ?_⟩
  intro k hk
  rw [hidx] at hk
  simp only [List.mem_cons, List.mem_singleton, List.not_mem_nil, or_false] at hk
  rcases hk with rfl | rfl | rfl | rfl | rfl | rfl | rfl | rfl
  · exact grid_index_lt _ _ _ _ _ _ (by omega) (by omega) (by omega)
  · exact grid_index_lt _ _ _ _ _ _ (by omega) (by omega) (by omega)
  · exact grid_index_lt _ _ _ _ _ _ (by omega) (by omega) (by omega)
  · exact grid_index_lt _ _ _ _ _ _ (by omega) (by omega) (by omega)
  · exact grid_index_lt _ _ _ _ _ _ (by omega) (by omega) (by omega)
  · exact grid_index_lt _ _ _ _ _ _ (by omega) (by omega) (by omega)
  · exact grid_index_lt _ _ _ _ _ _ (by omega) (by omega) (by omega)
  · exact grid_index_lt _ _ _ _ _ _ (by omega) (by omega) (by omega)

/-- C22. Trilinear lookup stays inside the grid.  For every grid with sizes at
least 5 (and within the range of `int`, as `(int)x` requires), every roi,
scale, pixel `(i, j)` and input `L`, with `(x, y, z)` the grid coordinates that
`slice` computes for the pixel: the floor indices satisfy
`0 ≤ xi ≤ size_x - 2`, `0 ≤ yi ≤ size_y - 2`, `0 ≤ zi ≤ size_z - 2`, the
offsets `xf`, `yf`, `zf` lie in `[0, 1]`, and the eight indices the lookup reads
are the corners `(xi or xi+1, yi or yi+1, zi or zi+1)` of one grid cube, all
below `size_x * size_y * size_z`. -/
theorem C22_trilinear_lookup_in_grid (b : dt_iop_colorreconstruct_bilateral_t)
    (roi : dt_iop_roi_t) (iscale : ℚ) (i j : ℤ) (L x y z : ℚ)
    (hx : 5 ≤ b.size_x) (hy : 5 ≤ b.size_y) (hz : 5 ≤ b.size_z)
    (hxm : b.size_x ≤ 2147483648) (hym : b.size_y ≤ 2147483648) (hzm : b.size_z ≤ 2147483648)
    (hg : image_to_grid b (grid_rescale b i j roi iscale).1 (grid_rescale b i j roi iscale).2 L
      = (x, y, z)) :
    ∃ xi yi zi : ℕ, slice_floor_index b x y z = ((xi : ℤ), (yi : ℤ), (zi : ℤ))
      ∧ xi + 2 ≤ b.size_x ∧ yi + 2 ≤ b.size_y ∧ zi + 2 ≤ b.size_z
      ∧ (0 ≤ x - ((xi : ℤ) : ℚ) ∧ x - ((xi : ℤ) : ℚ) ≤ 1)
      ∧ (0 ≤ y - ((yi : ℤ) : ℚ) ∧ y - ((yi : ℤ) : ℚ) ≤ 1)
      ∧ (0 ≤ z - ((zi : ℤ) : ℚ) ∧ z - ((zi : ℤ) : ℚ) ≤ 1)
      ∧ slice_lookup_indices b x y z
          = [xi + b.size_x * (yi + b.size_y * zi),
             (xi + 1) + b.size_x * (yi + b.size_y * zi),
             xi + b.size_x * ((yi + 1) + b.size_y * zi),
             (xi + 1) + b.size_x * ((yi + 1) + b.size_y * zi),
             xi + b.size_x * (yi + b.size_y * (zi + 1)),
             (xi + 1) + b.size_x * (yi + b.size_y * (zi + 1)),
             xi + b.size_x * ((yi + 1) + b.size_y * (zi + 1)),
             (xi + 1) + b.size_x * ((yi + 1) + b.size_y * (zi + 1))]
      ∧ ∀ k ∈ slice_lookup_indices b x y z, k < b.size_x * b.size_y * b.size_z := by
  obtain ⟨⟨x0, x1⟩, ⟨y0, y1⟩, ⟨z0, z1⟩⟩ := image_to_grid_range b
    (grid_rescale b i j roi iscale).1 (grid_rescale b i j roi iscale).2 L
    (by omega) (by omega) (by omega)
  rw [hg] at x0 x1 y0 y1 z0 z1
  exact slice_lookup_in_grid b x y z (by omega) (by omega) (by omega) hxm hym hzm
    x0 x1 y0 y1 z0 z1

/-- The grid coordinates of pixel `(2, 1)` with `L = 50` in the scenario. -/
theorem scenario_image_to_grid :
    image_to_grid scenario_grid (grid_rescale scenario_grid 2 1 scenario_roi 1).1
      (grid_rescale scenario_grid 2 1 scenario_roi 1).2 50 = (2, 1, 5) := by
  norm_num [image_to_grid, grid_rescale, scenario_grid, scenario_roi, CLAMPS, f32_one,
    f32_two, f32_five]

/-- Witness for C22: pixel `(2, 1)` of the scenario, at grid coordinates
`(2, 1, 5)`. -/
theorem C22_trilinear_lookup_in_grid_witness :
    ∃ xi yi zi : ℕ, slice_floor_index scenario_grid 2 1 5 = ((xi : ℤ), (yi : ℤ), (zi : ℤ))
      ∧ xi + 2 ≤ scenario_grid.size_x ∧ yi + 2 ≤ scenario_grid.size_y
      ∧ zi + 2 ≤ scenario_grid.size_z
      ∧ (0 ≤ (2 : ℚ) - ((xi : ℤ) : ℚ) ∧ (2 : ℚ) - ((xi : ℤ) : ℚ) ≤ 1)
      ∧ (0 ≤ (1 : ℚ) - ((yi : ℤ) : ℚ) ∧ (1 : ℚ) - ((yi : ℤ) : ℚ) ≤ 1)
      ∧ (0 ≤ (5 : ℚ) - ((zi : ℤ) : ℚ) ∧ (5 : ℚ) - ((zi : ℤ) : ℚ) ≤ 1)
      ∧ slice_lookup_indices scenario_grid 2 1 5
          = [xi + scenario_grid.size_x * (yi + scenario_grid.size_y * zi),
             (xi + 1) + scenario_grid.size_x * (yi + scenario_grid.size_y * zi),
             xi + scenario_grid.size_x * ((yi + 1) + scenario_grid.size_y * zi),
             (xi + 1) + scenario_grid.size_x * ((yi + 1) + scenario_grid.size_y * zi),
             xi + scenario_grid.size_x * (yi + scenario_grid.size_y * (zi + 1)),
             (xi + 1) + scenario_grid.size_x * (yi + scenario_grid.size_y * (zi + 1)),
             xi + scenario_grid.size_x * ((yi + 1) + scenario_grid.size_y * (zi + 1)),
             (xi + 1) + scenario_grid.size_x * ((yi + 1) + scenario_grid.size_y * (zi + 1))]
      ∧ ∀ k ∈ slice_lookup_indices scenario_grid 2 1 5,
          k < scenario_grid.size_x * scenario_grid.size_y * scenario_grid.size_z :=
  C22_trilinear_lookup_in_grid scenario_grid scenario_roi 1 2 1 50 2 1 5 (by decide)
    (by decide) (by decide) (by decide) (by decide) (by decide) scenario_image_to_grid

/-! ### Rescaling on the grid's own roi -/

/-- The rescaling of a pixel position to a grid whose `scale`, `x` and `y`
are those `init` stores for the same roi and pipeline scale is the identity. -/
theorem grid_rescale_own_roi (b : dt_iop_colorreconstruct_bilateral_t) (roi : dt_iop_roi_t)
    (iscale : ℚ) (i j : ℤ) (hs : roi.scale ≠ 0) (hi : iscale ≠ 0)
    (hbs : b.scale = iscale / roi.scale) (hbx : b.x = roi.x) (hby : b.y = roi.y) :
    grid_rescale b i j roi iscale = ((i : ℚ), (j : ℚ)) := by
  unfold grid_rescale
  have hne : iscale / roi.scale ≠ 0 := div_ne_zero hi hs
  simp only [hbs, hbx, hby, div_self hne]
  push_cast
  ext <;> simp

/-- The metadata `init` stores: the scale of the grid and the origin of the
roi. -/
theorem init_metadata (m : List dt_iop_colorreconstruct_Lab_t) (roi : dt_iop_roi_t)
    (iscale sigma_s sigma_r : ℚ) :
    ∃ b, dt_iop_colorreconstruct_bilateral_init true (some m) roi iscale sigma_s sigma_r
          = Run.done (some b)
      ∧ b.scale = iscale / roi.scale ∧ b.x = roi.x ∧ b.y = roi.y :=
  ⟨_, rfl, rfl, rfl, rfl⟩

/-- C25. Function `grid_rescale` is the identity on the grid's own roi.  For
every grid built by `init` from `(roi, iscale)` with `roi.scale ≠ 0` and
`iscale ≠ 0`, and whatever its cell buffer has become since,
`grid_rescale(grid, i, j, roi, iscale)` is `(i, j)` for every pixel, so that
`slice` computes for a pixel the grid coordinates `splat` computes for it;
on the non-cached path of `process` the grid handed to `slice` is such a grid. -/
theorem C25_grid_rescale_identity (m : List dt_iop_colorreconstruct_Lab_t) (roi : dt_iop_roi_t)
    (iscale sigma_s sigma_r : ℚ) (hs : roi.scale ≠ 0) (hi : iscale ≠ 0) :
    (∃ b, dt_iop_colorreconstruct_bilateral_init true (some m) roi iscale sigma_s sigma_r
          = Run.done (some b)
      ∧ ∀ (cells : Option (List dt_iop_colorreconstruct_Lab_t)),
          (∀ i j : ℤ, grid_rescale { b with buf := cells } i j roi iscale = ((i : ℚ), (j : ℚ)))
          ∧ ∀ (i j : ℕ) (L : ℚ),
              image_to_grid { b with buf := cells }
                  (grid_rescale { b with buf := cells } (i : ℤ) (j : ℤ) roi iscale).1
                  (grid_rescale { b with buf := cells } (i : ℤ) (j : ℤ) roi iscale).2 L
                = image_to_grid b (i : ℚ) (j : ℚ) L)
    ∧ ∀ (data : dt_iop_colorreconstruct_data_t)
        (g : Option dt_iop_colorreconstruct_gui_data_t) (env : process_env) (inp : ℕ → ℚ),
        env.iscale = iscale → env.grid_malloc_ok = true → env.grid_mem = some m →
        process_can data g env = none →
        ∃ gs calls, process_grid data g env inp roi = Run.done (some gs, calls)
          ∧ ∀ i j : ℤ, grid_rescale gs i j roi env.iscale = ((i : ℚ), (j : ℚ)) := by
  constructor
  · obtain ⟨b, hb, hbs, hbx, hby⟩ := init_metadata m roi iscale sigma_s sigma_r
    refine ⟨b, hb, ?_⟩
    intro cells
    have key : ∀ i j : ℤ, grid_rescale { b with buf := cells } i j roi iscale
        = ((i : ℚ), (j : ℚ)) :=
      fun i j => grid_rescale_own_roi { b with buf := cells } roi iscale i j hs hi hbs hbx hby
    refine ⟨fun i j => key i j, ?_⟩
    intro i j L
    rw [key i j]
    simp only [Int.cast_natCast]
    rfl
  · intro data g env inp hie hm hmem hnc
    obtain ⟨b0, buf0, hinit, -, -, -, hall⟩ := process_grid_noncached data g env roi m hm hmem hnc
    obtain ⟨cells, -, -, hpg⟩ := hall inp
    refine ⟨_, _, hpg, ?_⟩
    intro i j
    obtain ⟨b, hb, hbs, hbx, hby⟩ := init_metadata m roi env.iscale
      (data.spatial / (env.iscale / roi.scale)) data.range
    rw [hinit] at hb
    simp only [Run.done.injEq, Option.some.injEq] at hb
    subst hb
    exact grid_rescale_own_roi { b0 with buf := some cells } roi env.iscale i j hs
      (by rw [hie]; exact hi) hbs hbx hby

/-- Witness for C25 on the scenario's roi at pipeline scale 1. -/
theorem C25_grid_rescale_identity_witness :
    ∃ b, dt_iop_colorreconstruct_bilateral_init true (some (List.replicate 275 Lab_zero))
          scenario_roi 1 400 10 = Run.done (some b)
      ∧ ∀ (cells : Option (List dt_iop_colorreconstruct_Lab_t)),
          (∀ i j : ℤ, grid_rescale { b with buf := cells } i j scenario_roi 1
            = ((i : ℚ), (j : ℚ)))
          ∧ ∀ (i j : ℕ) (L : ℚ),
              image_to_grid { b with buf := cells }
                  (grid_rescale { b with buf := cells } (i : ℤ) (j : ℤ) scenario_roi 1).1
                  (grid_rescale { b with buf := cells } (i : ℤ) (j : ℤ) scenario_roi 1).2 L
                = image_to_grid b (i : ℚ) (j : ℚ) L :=
  (C25_grid_rescale_identity (List.replicate 275 Lab_zero) scenario_roi 1 400 10
    (by norm_num [scenario_roi]) (by norm_num)).1

/-! ### Memory estimates -/

/-- The grid `init` returns, with its sizes bounded and its buffer zeroed over
`size_x * size_y * size_z` cells, and the two estimates written with the same
sizes, before the reduction modulo `2 ^ 64`. -/
theorem init_sizes_estimates (m : List dt_iop_colorreconstruct_Lab_t) (roi : dt_iop_roi_t)
    (iscale sigma_s sigma_r : ℚ) :
    ∃ b, dt_iop_colorreconstruct_bilateral_init true (some m) roi iscale sigma_s sigma_r
          = Run.done (some b)
      ∧ (5 ≤ b.size_x ∧ b.size_x ≤ 1001 ∧ 5 ≤ b.size_y ∧ b.size_y ≤ 1001
        ∧ 5 ≤ b.size_z ∧ b.size_z ≤ 201)
      ∧ b.buf = some (memset_zero m (b.size_x * b.size_y * b.size_z))
      ∧ dt_iop_colorreconstruct_bilateral_singlebuffer_size roi.width roi.height sigma_s sigma_r
          = (b.size_x * b.size_y * b.size_z * 4 * sizeof_float) % 2 ^ 64
      ∧ dt_iop_colorreconstruct_bilateral_memory_use roi.width roi.height sigma_s sigma_r
          = (b.size_x * b.size_y * b.size_z * 4 * sizeof_float * 2) % 2 ^ 64 := by
  obtain ⟨b, hb, hbounds⟩ := C1_bounds_aux m roi iscale sigma_s sigma_r
  refine ⟨b, hb, hbounds, ?_, ?_, ?_⟩
  · have h := hb
    unfold dt_iop_colorreconstruct_bilateral_init at h
    simp only [Bool.not_true, Bool.false_eq_true, if_false, Run.done.injEq,
      Option.some.injEq] at h
    rw [← h]
  · have h := hb
    unfold dt_iop_colorreconstruct_bilateral_init at h
    simp only [Bool.not_true, Bool.false_eq_true, if_false, Run.done.injEq,
      Option.some.injEq] at h
    rw [← h]
    rfl
  · have h := hb
    unfold dt_iop_colorreconstruct_bilateral_init at h
    simp only [Bool.not_true, Bool.false_eq_true, if_false, Run.done.injEq,
      Option.some.injEq] at h
    rw [← h]
    rfl

/-- A product of sizes within the bounds of `init`, times 32, is below
`2 ^ 64`. -/
theorem sizes_no_wrap (sx sy sz : ℕ) (hx : sx ≤ 1001) (hy : sy ≤ 1001) (hz : sz ≤ 201) :
    sx * sy * sz * 4 * sizeof_float * 2 < 2 ^ 64 := by
  have h1 : sx * sy ≤ 1001 * 1001 := Nat.mul_le_mul hx hy
  have h2 : sx * sy * sz ≤ 1001 * 1001 * 201 := Nat.mul_le_mul h1 hz
  unfold sizeof_float
  omega

/-- C27. Memory estimates agree with build.  For every width, height,
`sigma_s` and `sigma_r`, `dt_iop_colorreconstruct_bilateral_singlebuffer_size`
returns `size_x * size_y * size_z * 16` for the sizes of the grid that `init`
returns for the same arguments, which is 16 bytes for every cell of that
grid's zeroed buffer, and `dt_iop_colorreconstruct_bilateral_memory_use`
returns twice that value; no product wraps in `size_t`. -/
theorem C27_memory_estimates (m : List dt_iop_colorreconstruct_Lab_t) (roi : dt_iop_roi_t)
    (iscale sigma_s sigma_r : ℚ) :
    ∃ b, dt_iop_colorreconstruct_bilateral_init true (some m) roi iscale sigma_s sigma_r
          = Run.done (some b)
      ∧ dt_iop_colorreconstruct_bilateral_singlebuffer_size roi.width roi.height sigma_s sigma_r
          = b.size_x * b.size_y * b.size_z * 16
      ∧ dt_iop_colorreconstruct_bilateral_memory_use roi.width roi.height sigma_s sigma_r
          = 2 * dt_iop_colorreconstruct_bilateral_singlebuffer_size roi.width roi.height
              sigma_s sigma_r
      ∧ (m.length = b.size_x * b.size_y * b.size_z →
          ∃ cells, b.buf = some cells
            ∧ dt_iop_colorreconstruct_bilateral_singlebuffer_size roi.width roi.height
                sigma_s sigma_r = cells.length * (4 * sizeof_float)) := by
  obtain ⟨b, hb, ⟨-, hx, -, hy, -, hz⟩, hbuf, hs, hm⟩ :=
    init_sizes_estimates m roi iscale sigma_s sigma_r
  have hw := sizes_no_wrap b.size_x b.size_y b.size_z hx hy hz
  have hs' : dt_iop_colorreconstruct_bilateral_singlebuffer_size roi.width roi.height
      sigma_s sigma_r = b.size_x * b.size_y * b.size_z * 16 := by
    rw [hs, Nat.mod_eq_of_lt (by omega)]
    unfold sizeof_float
    omega
  refine ⟨b, hb, hs', ?_, ?_⟩
  · rw [hm, hs', Nat.mod_eq_of_lt hw]
    unfold sizeof_float
    omega
  · intro hlen
    refine ⟨_, hbuf, ?_⟩
    rw [hs', memset_zero_full m _ hlen, List.length_replicate]
    unfold sizeof_float
    omega

/-! ### Splat conserves mass -/

/-- The sum of a field over a buffer after one cell is overwritten. -/
theorem sum_map_wr (f : dt_iop_colorreconstruct_Lab_t → ℚ)
    (buf : List dt_iop_colorreconstruct_Lab_t) (k : ℕ) (v : dt_iop_colorreconstruct_Lab_t)
    (hk : k < buf.length) :
    ((wr buf k v).map f).sum = (buf.map f).sum - f (rd buf k) + f v := by
  unfold wr rd
  induction buf generalizing k with
  | nil => simp at hk
  | cons c buf ih =>
    cases k with
    | zero =>
      simp only [List.set_cons_zero, List.map_cons, List.sum_cons, List.getD_cons_zero]
      ring
    | succ k =>
      simp only [List.set_cons_succ, List.map_cons, List.sum_cons, List.getD_cons_succ]
      rw [ih k (by simpa using hk)]
      ring

/-- One pixel of `splat` adds its contribution to the sum of a field over the
buffer when it is at or below the threshold, and nothing otherwise. -/
theorem splat_pixel_mass (f : dt_iop_colorreconstruct_Lab_t → ℚ)
    (hf : ∀ c d : dt_iop_colorreconstruct_Lab_t, f (c + d) = f c + f d)
    (b : dt_iop_colorreconstruct_bilateral_t) (inp : ℕ → ℚ) (threshold : ℚ) (j i : ℕ)
    (buf : List dt_iop_colorreconstruct_Lab_t)
    (hidx : splat_index b j i (inp (pixel_index b.width j i)) < buf.length) :
    ((splat_pixel b inp threshold j i buf).map f).sum
      = (buf.map f).sum
        + (if inp (pixel_index b.width j i) ≤ threshold
            then f (splat_contribution b.width inp j i) else 0) := by
  unfold splat_pixel
  simp only []
  split_ifs with h1 h2 h2
  · exact absurd h2 (not_le.mpr h1)
  · rw [add_zero]
  · rw [sum_map_wr f buf _ _ hidx]
    have : (⟨(rd buf (splat_index b j i (inp (pixel_index b.width j i)))).L
          + inp (pixel_index b.width j i),
        (rd buf (splat_index b j i (inp (pixel_index b.width j i)))).a
          + inp (pixel_index b.width j i + 1),
        (rd buf (splat_index b j i (inp (pixel_index b.width j i)))).b
          + inp (pixel_index b.width j i + 2),
        (rd buf (splat_index b j i (inp (pixel_index b.width j i)))).weight + 1⟩ :
          dt_iop_colorreconstruct_Lab_t)
        = rd buf (splat_index b j i (inp (pixel_index b.width j i)))
          + splat_contribution b.width inp j i := rfl
    rw [this, hf]
    ring
  · exact absurd (le_of_not_lt h1) h2

/-- The sum of a field over the buffer after splatting a list of pixels. -/
theorem splat_fold_mass (f : dt_iop_colorreconstruct_Lab_t → ℚ)
    (hf : ∀ c d : dt_iop_colorreconstruct_Lab_t, f (c + d) = f c + f d)
    (b : dt_iop_colorreconstruct_bilateral_t) (inp : ℕ → ℚ) (threshold : ℚ)
    (l : List (ℕ × ℕ)) (buf : List dt_iop_colorreconstruct_Lab_t)
    (hidx : ∀ p ∈ l, splat_index b p.1 p.2 (inp (pixel_index b.width p.1 p.2)) < buf.length) :
    ((l.foldl (fun buf p => splat_pixel b inp threshold p.1 p.2 buf) buf).map f).sum
      = (buf.map f).sum
        + ((l.filter (fun p => decide (inp (pixel_index b.width p.1 p.2) ≤ threshold))).map
            (fun p => f (splat_contribution b.width inp p.1 p.2))).sum := by
  induction l generalizing buf with
  | nil => simp
  | cons p l ih =>
    simp only [List.foldl_cons]
    rw [ih (splat_pixel b inp threshold p.1 p.2 buf)
      (fun q hq => by rw [splat_pixel_length]; exact hidx q (List.mem_cons_of_mem _ hq)),
      splat_pixel_mass f hf b inp threshold p.1 p.2 buf (hidx p (List.mem_cons_self _ _))]
    by_cases hp : inp (pixel_index b.width p.1 p.2) ≤ threshold
    · rw [if_pos hp, List.filter_cons_of_pos (by simpa using hp), List.map_cons, List.sum_cons]
      ring
    · rw [if_neg hp, List.filter_cons_of_neg (by simpa using hp)]
      ring

/-- The sum of a field over the buffer after `splat` on a zeroed buffer of the
grid's size: the sum of the field over the contributions of the pixels at or
below the threshold. -/
theorem splat_cells_mass (f : dt_iop_colorreconstruct_Lab_t → ℚ)
    (hf : ∀ c d : dt_iop_colorreconstruct_Lab_t, f (c + d) = f c + f d)
    (hf0 : f Lab_zero = 0)
    (b : dt_iop_colorreconstruct_bilateral_t) (inp : ℕ → ℚ) (threshold : ℚ)
    (hx : 1 ≤ b.size_x) (hy : 1 ≤ b.size_y) (hz : 1 ≤ b.size_z)
    (hxm : b.size_x ≤ 2147483648) (hym : b.size_y ≤ 2147483648) (hzm : b.size_z ≤ 2147483648) :
    ((splat_cells b inp threshold
        (List.replicate (b.size_x * b.size_y * b.size_z) Lab_zero)).map f).sum
      = (((((List.range b.height.toNat).map
            (fun j => (List.range b.width.toNat).map (fun i => (j, i)))).flatten).filter
          (fun p => decide (inp (pixel_index b.width p.1 p.2) ≤ threshold))).map
          (fun p => f (splat_contribution b.width inp p.1 p.2))).sum := by
  unfold splat_cells
  rw [foldl_pixels (fun j i buf => splat_pixel b inp threshold j i buf)]
  rw [splat_fold_mass f hf b inp threshold _ _ (by
    intro p _
    obtain ⟨xi, yi, zi, h1, h2, h3, -, -, -, he⟩ := splat_index_spec b p.1 p.2
      (inp (pixel_index b.width p.1 p.2)) hx hy hz hxm hym hzm
    rw [he, List.length_replicate]
    exact grid_index_lt _ _ _ _ _ _ h1 h2 h3)]
  have h0 : ((List.replicate (b.size_x * b.size_y * b.size_z) Lab_zero).map f).sum = 0 := by
    rw [List.map_replicate, hf0, List.sum_replicate]
    simp
  rw [h0, zero_add]

/-- A sum of ones over a list is its length. -/
theorem sum_map_one {α : Type} (l : List α) : (l.map (fun _ => (1 : ℚ))).sum = (l.length : ℚ) := by
  induction l with
  | nil => simp
  | cons a l ih =>
    rw [List.map_cons, List.sum_cons, ih, List.length_cons]
    push_cast
    ring

/-- C24. Splat conserves mass.  For the grid `init` builds (its buffer holding
`size_x * size_y * size_z` cells, all zero), `splat` returns, and in the buffer
it leaves the sum of `weight` over all cells is the number of input pixels
with `L ≤ threshold`, and the sums of `L`, `a` and `b` over all cells are the
sums of `L`, `a` and `b` over exactly those pixels. -/
theorem C24_splat_conserves_mass (m : List dt_iop_colorreconstruct_Lab_t) (roi : dt_iop_roi_t)
    (iscale sigma_s sigma_r : ℚ) (inp : ℕ → ℚ) (threshold : ℚ) :
    ∃ b, dt_iop_colorreconstruct_bilateral_init true (some m) roi iscale sigma_s sigma_r
          = Run.done (some b)
      ∧ b.width = roi.width ∧ b.height = roi.height
      ∧ (m.length = b.size_x * b.size_y * b.size_z →
        ∃ b1 cells, dt_iop_colorreconstruct_bilateral_splat b inp threshold = Run.done b1
          ∧ b1.buf = some cells
          ∧ cells.length = b.size_x * b.size_y * b.size_z
          ∧ (cells.map dt_iop_colorreconstruct_Lab_t.weight).sum
              = (((((List.range roi.height.toNat).map
                    (fun j => (List.range roi.width.toNat).map (fun i => (j, i)))).flatten).filter
                  (fun p => decide (inp (pixel_index roi.width p.1 p.2) ≤ threshold))).length : ℚ)
          ∧ (cells.map dt_iop_colorreconstruct_Lab_t.L).sum
              = (((((List.range roi.height.toNat).map
                    (fun j => (List.range roi.width.toNat).map (fun i => (j, i)))).flatten).filter
                  (fun p => decide (inp (pixel_index roi.width p.1 p.2) ≤ threshold))).map
                  (fun p => inp (pixel_index roi.width p.1 p.2))).sum
          ∧ (cells.map dt_iop_colorreconstruct_Lab_t.a).sum
              = (((((List.range roi.height.toNat).map
                    (fun j => (List.range roi.width.toNat).map (fun i => (j, i)))).flatten).filter
                  (fun p => decide (inp (pixel_index roi.width p.1 p.2) ≤ threshold))).map
                  (fun p => inp (pixel_index roi.width p.1 p.2 + 1))).sum
          ∧ (cells.map dt_iop_colorreconstruct_Lab_t.b).sum
              = (((((List.range roi.height.toNat).map
                    (fun j => (List.range roi.width.toNat).map (fun i => (j, i)))).flatten).filter
                  (fun p => decide (inp (pixel_index roi.width p.1 p.2) ≤ threshold))).map
                  (fun p => inp (pixel_index roi.width p.1 p.2 + 2))).sum) := by
  obtain ⟨b, hb, ⟨hx, hxm, hy, hym, hz, hzm⟩, hbuf, -, -⟩ :=
    init_sizes_estimates m roi iscale sigma_s sigma_r
  have hw : b.width = roi.width := by
    have h := hb
    unfold dt_iop_colorreconstruct_bilateral_init at h
    simp only [Bool.not_true, Bool.false_eq_true, if_false, Run.done.injEq,
      Option.some.injEq] at h
    rw [← h]
  have hh : b.height = roi.height := by
    have h := hb
    unfold dt_iop_colorreconstruct_bilateral_init at h
    simp only [Bool.not_true, Bool.false_eq_true, if_false, Run.done.injEq,
      Option.some.injEq] at h
    rw [← h]
  refine ⟨b, hb, hw, hh, ?_⟩
  intro hlen
  rw [memset_zero_full m _ hlen] at hbuf
  refine ⟨_, _, splat_returns b _ inp threshold hbuf, rfl, ?_, ?_, ?_, ?_, ?_⟩
  · rw [splat_cells_length, List.length_replicate]
  · rw [splat_cells_mass dt_iop_colorreconstruct_Lab_t.weight (fun _ _ => rfl) rfl b inp
      threshold (by omega) (by omega) (by omega) (by omega) (by omega) (by omega), hw, hh]
    exact sum_map_one _
  · rw [splat_cells_mass dt_iop_colorreconstruct_Lab_t.L (fun _ _ => rfl) rfl b inp
      threshold (by omega) (by omega) (by omega) (by omega) (by omega) (by omega), hw, hh]
    rfl
  · rw [splat_cells_mass dt_iop_colorreconstruct_Lab_t.a (fun _ _ => rfl) rfl b inp
      threshold (by omega) (by omega) (by omega) (by omega) (by omega) (by omega), hw, hh]
    rfl
  · rw [splat_cells_mass dt_iop_colorreconstruct_Lab_t.b (fun _ _ => rfl) rfl b inp
      threshold (by omega) (by omega) (by omega) (by omega) (by omega) (by omega), hw, hh]
    rfl

/-! ### The accesses of a blur pass -/

theorem range_split4 (m : ℕ) :
    List.range (m + 4) = [0, 1] ++ (List.range m).map (fun i => i + 2) ++ [m + 2, m + 3] := by
  induction m with
  | zero => rfl
  | succ m ih =>
    rw [show m + 1 + 4 = (m + 4) + 1 from rfl, List.range_succ, ih, List.range_succ,
      List.map_append]
    simp

/-- The accesses of the inner loop of `blur_line`, in closed form. -/
theorem blur_access_iter (o3 n : ℕ) (acc : List blur_access) (idx : ℕ) :
    (blur_access_step o3)^[n] (acc, idx)
      = (acc ++ (List.range n).map
          (fun i => (⟨idx + i * o3,
            [idx + i * o3, idx + i * o3 + o3, idx + i * o3 + 2 * o3]⟩ : blur_access)),
         idx + n * o3) := by
  induction n with
  | zero => simp
  | succ n ih =>
    rw [Function.iterate_succ_apply', ih]
    simp only [blur_access_step, List.range_succ, List.map_append, List.map_cons, List.map_nil,
      List.append_assoc]
    congr 1
    ring

/-- The accesses of one line of `blur_line`, in closed form. -/
theorem blur_line_row_accesses_eq (o2 o3 s3 : ℕ) (hn : 4 ≤ s3) (acc : List blur_access)
    (idx : ℕ) :
    blur_line_row_accesses o2 o3 s3 (acc, idx)
      = (acc ++ (List.range s3).map (blur_line_access_at o3 s3 idx), idx + o2) := by
  obtain ⟨m, rfl⟩ : ∃ m, s3 = m + 4 := ⟨s3 - 4, by omega⟩
  have a0 : blur_line_access_at o3 (m + 4) idx 0 = ⟨idx, [idx, idx + o3, idx + 2 * o3]⟩ := by
    simp only [blur_line_access_at]
    rw [if_pos (by omega)]
    ring_nf
  have a1 : blur_line_access_at o3 (m + 4) idx 1
      = ⟨idx + o3, [idx + o3, idx + o3 + o3, idx + o3 + 2 * o3]⟩ := by
    simp only [blur_line_access_at]
    rw [if_pos (by omega)]
    ring_nf
  have amid : ∀ i, i < m → blur_line_access_at o3 (m + 4) idx (i + 2)
      = ⟨idx + o3 + o3 + i * o3,
          [idx + o3 + o3 + i * o3, idx + o3 + o3 + i * o3 + o3,
            idx + o3 + o3 + i * o3 + 2 * o3]⟩ := by
    intro i hi
    simp only [blur_line_access_at]
    rw [if_pos (by omega)]
    ring_nf
  have a2 : blur_line_access_at o3 (m + 4) idx (m + 2)
      = ⟨idx + o3 + o3 + m * o3, [idx + o3 + o3 + m * o3, idx + o3 + o3 + m * o3 + o3]⟩ := by
    simp only [blur_line_access_at]
    rw [if_neg (by omega), if_pos (by omega)]
    ring_nf
  have a3 : blur_line_access_at o3 (m + 4) idx (m + 3)
      = ⟨idx + o3 + o3 + m * o3 + o3, [idx + o3 + o3 + m * o3 + o3]⟩ := by
    simp only [blur_line_access_at]
    rw [if_neg (by omega), if_neg (by omega)]
    ring_nf
  have hmap : (List.range m).map (blur_line_access_at o3 (m + 4) idx ∘ fun i => i + 2)
      = (List.range m).map (fun i => (⟨idx + o3 + o3 + i * o3,
          [idx + o3 + o3 + i * o3, idx + o3 + o3 + i * o3 + o3,
            idx + o3 + o3 + i * o3 + 2 * o3]⟩ : blur_access)) :=
    List.map_congr_left (fun i hi => amid i (List.mem_range.mp hi))
  have hidx : idx + o3 + o3 + m * o3 + o3 + o3 + o2 - o3 * (m + 4) = idx + o2 := by
    have : idx + o3 + o3 + m * o3 + o3 + o3 + o2 = (idx + o2) + o3 * (m + 4) := by ring
    rw [this, Nat.add_sub_cancel]
  unfold blur_line_row_accesses
  simp only [Nat.add_sub_cancel, blur_access_iter]
  rw [range_split4, hidx]
  simp only [List.map_append, List.map_cons, List.map_nil, List.map_map, List.append_assoc,
    List.cons_append, List.nil_append, a0, a1, a2, a3, hmap]

/-- The accesses of `size2` consecutive lines of `blur_line`, in closed form. -/
theorem blur_line_rows_accesses_eq (o2 o3 s3 : ℕ) (hn : 4 ≤ s3) (n : ℕ)
    (acc : List blur_access) (idx : ℕ) :
    (blur_line_row_accesses o2 o3 s3)^[n] (acc, idx)
      = (acc ++ (List.range n).flatMap
          (fun j => (List.range s3).map (blur_line_access_at o3 s3 (idx + j * o2))),
         idx + n * o2) := by
  induction n with
  | zero => simp
  | succ n ih =>
    rw [Function.iterate_succ_apply', ih, blur_line_row_accesses_eq o2 o3 s3 hn]
    simp only [List.range_succ, List.flatMap_append, List.flatMap_cons, List.flatMap_nil,
      List.append_nil, List.append_assoc]
    congr 1
    ring

/-- The accesses of a call of `blur_line`, in closed form: line by line, every
position of a line once, in order. -/
theorem blur_line_accesses_eq (o1 o2 o3 s1 s2 s3 : ℕ) (hn : 4 ≤ s3) :
    blur_line_accesses o1 o2 o3 s1 s2 s3
      = (List.range s1).flatMap (fun k => (List.range s2).flatMap
          (fun j => (List.range s3).map (blur_line_access_at o3 s3 (k * o1 + j * o2)))) := by
  unfold blur_line_accesses
  have key : ∀ (l : List ℕ) (acc : List blur_access),
      l.foldl (fun acc k =>
          ((blur_line_row_accesses o2 o3 s3)^[s2] (acc, k * o1)).1) acc
        = acc ++ l.flatMap (fun k => (List.range s2).flatMap
            (fun j => (List.range s3).map (blur_line_access_at o3 s3 (k * o1 + j * o2)))) := by
    intro l
    induction l with
    | nil => intro acc; simp
    | cons k l ih =>
      intro acc
      rw [List.foldl_cons, ih, blur_line_rows_accesses_eq o2 o3 s3 hn]
      simp only [List.flatMap_cons, List.append_assoc]
  rw [key, List.nil_append]

/-- Every index below `sx * sy * sz` is the index of one grid position. -/
theorem grid_index_surj (sx sy sz p : ℕ) (hp : p < sx * sy * sz) :
    ∃ x y z, x < sx ∧ y < sy ∧ z < sz ∧ p = x + sx * (y + sy * z) := by
  have hsx : 0 < sx := by
    rcases Nat.eq_zero_or_pos sx with h | h
    · subst h; simp at hp
    · exact h
  have hsy : 0 < sy := by
    rcases Nat.eq_zero_or_pos sy with h | h
    · subst h; simp at hp
    · exact h
  refine ⟨p % sx, (p / sx) % sy, p / sx / sy, Nat.mod_lt _ hsx, Nat.mod_lt _ hsy, ?_, ?_⟩
  · apply Nat.div_lt_of_lt_mul
    apply Nat.div_lt_of_lt_mul
    calc p < sx * sy * sz := hp
      _ = sx * (sy * sz) := by ring
  · have h1 := Nat.mod_add_div p sx
    have h2 := Nat.mod_add_div (p / sx) sy
    rw [h2, h1]

/-- The accesses of a call of `blur_line` whose lines are pairwise disjoint and
cover the indices below `n`: every access writes one position of one line and
reads positions of the same line only, and the writes, in order, are a
permutation of the indices below `n`. -/
theorem blur_line_accesses_spec (o1 o2 o3 s1 s2 s3 n : ℕ) (hn : 4 ≤ s3)
    (hinj : ∀ k j t k' j' t', k < s1 → j < s2 → t < s3 → k' < s1 → j' < s2 → t' < s3 →
      k * o1 + j * o2 + t * o3 = k' * o1 + j' * o2 + t' * o3 → k = k' ∧ j = j' ∧ t = t')
    (hbound : ∀ k j t, k < s1 → j < s2 → t < s3 → k * o1 + j * o2 + t * o3 < n)
    (hsurj : ∀ p, p < n → ∃ k j t, k < s1 ∧ j < s2 ∧ t < s3 ∧ p = k * o1 + j * o2 + t * o3) :
    (∀ a ∈ blur_line_accesses o1 o2 o3 s1 s2 s3,
      ∃ k j t, k < s1 ∧ j < s2 ∧ t < s3 ∧ a.write = k * o1 + j * o2 + t * o3
        ∧ ∀ r ∈ a.reads, ∃ u, u < s3 ∧ r = k * o1 + j * o2 + u * o3)
    ∧ ((blur_line_accesses o1 o2 o3 s1 s2 s3).map blur_access.write).Perm (List.range n) := by
  rw [blur_line_accesses_eq o1 o2 o3 s1 s2 s3 hn]
  constructor
  · intro a ha
    simp only [List.mem_flatMap, List.mem_map, List.mem_range] at ha
    obtain ⟨k, hk, j, hj, t, ht, rfl⟩ := ha
    refine ⟨k, j, t, hk, hj, ht, rfl, ?_⟩
    intro r hr
    simp only [blur_line_access_at] at hr
    split_ifs at hr with h2 h1
    · simp only [List.mem_cons, List.mem_singleton, List.not_mem_nil, or_false] at hr
      rcases hr with rfl | rfl | rfl
      · exact ⟨t, ht, rfl⟩
      · exact ⟨t + 1, by omega, rfl⟩
      · exact ⟨t + 2, h2, rfl⟩
    · simp only [List.mem_cons, List.mem_singleton, List.not_mem_nil, or_false] at hr
      rcases hr with rfl | rfl
      · exact ⟨t, ht, rfl⟩
      · exact ⟨t + 1, h1, rfl⟩
    · simp only [List.mem_singleton] at hr
      exact ⟨t, ht, hr⟩
  · have hw : ((List.range s1).flatMap (fun k => (List.range s2).flatMap
          (fun j => (List.range s3).map (blur_line_access_at o3 s3 (k * o1 + j * o2))))).map
          blur_access.write
        = (List.range s1).flatMap (fun k => (List.range s2).flatMap
          (fun j => (List.range s3).map (fun t => k * o1 + j * o2 + t * o3))) := by
      simp only [List.map_flatMap, List.map_map]
      rfl
    rw [hw]
    have hmem : ∀ p, p ∈ (List.range s1).flatMap (fun k => (List.range s2).flatMap
          (fun j => (List.range s3).map (fun t => k * o1 + j * o2 + t * o3)))
        ↔ ∃ k j t, k < s1 ∧ j < s2 ∧ t < s3 ∧ p = k * o1 + j * o2 + t * o3 := by
      intro p
      simp only [List.mem_flatMap, List.mem_map, List.mem_range]
      constructor
      · rintro ⟨k, hk, j, hj, t, ht, rfl⟩
        exact ⟨k, j, t, hk, hj, ht, rfl⟩
      · rintro ⟨k, j, t, hk, hj, ht, rfl⟩
        exact ⟨k, hk, j, hj, t, ht, rfl⟩
    have hnd : ((List.range s1).flatMap (fun k => (List.range s2).flatMap
          (fun j => (List.range s3).map (fun t => k * o1 + j * o2 + t * o3)))).Nodup := by
      rw [List.nodup_flatMap]
      constructor
      · intro k hk
        rw [List.mem_range] at hk
        rw [List.nodup_flatMap]
        constructor
        · intro j hj
          rw [List.mem_range] at hj
          apply List.Nodup.map_on _ (List.nodup_range s3)
          intro t ht t' ht' h
          rw [List.mem_range] at ht ht'
          exact (hinj k j t k j t' hk hj ht hk hj ht' h).2.2
        · apply List.Nodup.pairwise_of_forall_ne (List.nodup_range s2)
          intro j hj j' hj' hne
          rw [List.mem_range] at hj hj'
          intro p hp hp'
          simp only [List.mem_map, List.mem_range] at hp hp'
          obtain ⟨t, ht, rfl⟩ := hp
          obtain ⟨t', ht', h⟩ := hp'
          exact hne (hinj k j' t' k j t hk hj' ht' hk hj ht h).2.1.symm
      · apply List.Nodup.pairwise_of_forall_ne (List.nodup_range s1)
        intro k hk k' hk' hne
        rw [List.mem_range] at hk hk'
        intro p hp hp'
        simp only [List.mem_flatMap, List.mem_map, List.mem_range] at hp hp'
        obtain ⟨j, hj, t, ht, rfl⟩ := hp
        obtain ⟨j', hj', t', ht', h⟩ := hp'
        exact hne (hinj k' j' t' k j t hk' hj' ht' hk hj ht h).1.symm
    rw [List.perm_ext_iff_of_nodup hnd (List.nodup_range n)]
    intro p
    rw [hmem, List.mem_range]
    constructor
    · rintro ⟨k, j, t, hk, hj, ht, rfl⟩
      exact hbound k j t hk hj ht
    · exact hsurj p

/-- The accesses of the first pass of `blur`, along x. -/
theorem blur_pass_x_accesses (sx sy sz : ℕ) (hx : 4 ≤ sx) :
    (∀ a ∈ blur_line_accesses (sx * sy) sx 1 sz sy sx,
      ∃ x y z, x < sx ∧ y < sy ∧ z < sz ∧ a.write = x + sx * (y + sy * z)
        ∧ a.write < sx * sy * sz
        ∧ ∀ r ∈ a.reads, r < sx * sy * sz ∧ ∃ u, u < sx ∧ r = u + sx * (y + sy * z))
    ∧ ((blur_line_accesses (sx * sy) sx 1 sz sy sx).map blur_access.write).Perm
        (List.range (sx * sy * sz)) := by
  have e : ∀ x y z : ℕ, z * (sx * sy) + y * sx + x * 1 = x + sx * (y + sy * z) := by
    intro x y z; ring
  obtain ⟨h1, h2⟩ := blur_line_accesses_spec (sx * sy) sx 1 sz sy sx (sx * sy * sz) hx
    (fun k j t k' j' t' hk hj ht hk' hj' ht' h => by
      rw [e, e] at h
      have := grid_index_inj sx sy t j k t' j' k' ht ht' hj hj' h
      exact ⟨this.2.2, this.2.1, this.1⟩)
    (fun k j t hk hj ht => by
      rw [e]; exact grid_index_lt _ _ _ _ _ _ ht hj hk)
    (fun p hp => by
      obtain ⟨x, y, z, hx', hy', hz', rfl⟩ := grid_index_surj sx sy sz p hp
      exact ⟨z, y, x, hz', hy', hx', (e x y z).symm⟩)
  refine ⟨?_, h2⟩
  intro a ha
  obtain ⟨k, j, t, hk, hj, ht, hw, hr⟩ := h1 a ha
  refine ⟨t, j, k, ht, hj, hk, by rw [hw, e], ?_, ?_⟩
  · rw [hw, e]; exact grid_index_lt _ _ _ _ _ _ ht hj hk
  · intro r hrm
    obtain ⟨u, hu, rfl⟩ := hr r hrm
    rw [e]
    exact ⟨grid_index_lt _ _ _ _ _ _ hu hj hk, u, hu, rfl⟩

/-- The accesses of the second pass of `blur`, along y. -/
theorem blur_pass_y_accesses (sx sy sz : ℕ) (hy : 4 ≤ sy) :
    (∀ a ∈ blur_line_accesses (sx * sy) 1 sx sz sx sy,
      ∃ x y z, x < sx ∧ y < sy ∧ z < sz ∧ a.write = x + sx * (y + sy * z)
        ∧ a.write < sx * sy * sz
        ∧ ∀ r ∈ a.reads, r < sx * sy * sz ∧ ∃ v, v < sy ∧ r = x + sx * (v + sy * z))
    ∧ ((blur_line_accesses (sx * sy) 1 sx sz sx sy).map blur_access.write).Perm
        (List.range (sx * sy * sz)) := by
  have e : ∀ x y z : ℕ, z * (sx * sy) + x * 1 + y * sx = x + sx * (y + sy * z) := by
    intro x y z; ring
  obtain ⟨h1, h2⟩ := blur_line_accesses_spec (sx * sy) 1 sx sz sx sy (sx * sy * sz) hy
    (fun k j t k' j' t' hk hj ht hk' hj' ht' h => by
      rw [e, e] at h
      have := grid_index_inj sx sy j t k j' t' k' hj hj' ht ht' h
      exact ⟨this.2.2, this.1, this.2.1⟩)
    (fun k j t hk hj ht => by
      rw [e]; exact grid_index_lt _ _ _ _ _ _ hj ht hk)
    (fun p hp => by
      obtain ⟨x, y, z, hx', hy', hz', rfl⟩ := grid_index_surj sx sy sz p hp
      exact ⟨z, x, y, hz', hx', hy', (e x y z).symm⟩)
  refine ⟨?_, h2⟩
  intro a ha
  obtain ⟨k, j, t, hk, hj, ht, hw, hr⟩ := h1 a ha
  refine ⟨j, t, k, hj, ht, hk, by rw [hw, e], ?_, ?_⟩
  · rw [hw, e]; exact grid_index_lt _ _ _ _ _ _ hj ht hk
  · intro r hrm
    obtain ⟨u, hu, rfl⟩ := hr r hrm
    rw [e]
    exact ⟨grid_index_lt _ _ _ _ _ _ hj hu hk, u, hu, rfl⟩

/-- The accesses of the third pass of `blur`, along z. -/
theorem blur_pass_z_accesses (sx sy sz : ℕ) (hz : 4 ≤ sz) :
    (∀ a ∈ blur_line_accesses 1 sx (sx * sy) sx sy sz,
      ∃ x y z, x < sx ∧ y < sy ∧ z < sz ∧ a.write = x + sx * (y + sy * z)
        ∧ a.write < sx * sy * sz
        ∧ ∀ r ∈ a.reads, r < sx * sy * sz ∧ ∃ w, w < sz ∧ r = x + sx * (y + sy * w))
    ∧ ((blur_line_accesses 1 sx (sx * sy) sx sy sz).map blur_access.write).Perm
        (List.range (sx * sy * sz)) := by
  have e : ∀ x y z : ℕ, x * 1 + y * sx + z * (sx * sy) = x + sx * (y + sy * z) := by
    intro x y z; ring
  obtain ⟨h1, h2⟩ := blur_line_accesses_spec 1 sx (sx * sy) sx sy sz (sx * sy * sz) hz
    (fun k j t k' j' t' hk hj ht hk' hj' ht' h => by
      rw [e, e] at h
      exact grid_index_inj sx sy k j t k' j' t' hk hk' hj hj' h)
    (fun k j t hk hj ht => by
      rw [e]; exact grid_index_lt _ _ _ _ _ _ hk hj ht)
    (fun p hp => by
      obtain ⟨x, y, z, hx', hy', hz', rfl⟩ := grid_index_surj sx sy sz p hp
      exact ⟨x, y, z, hx', hy', hz', (e x y z).symm⟩)
  refine ⟨?_, h2⟩
  intro a ha
  obtain ⟨k, j, t, hk, hj, ht, hw, hr⟩ := h1 a ha
  refine ⟨k, j, t, hk, hj, ht, by rw [hw, e], ?_, ?_⟩
  · rw [hw, e]; exact grid_index_lt _ _ _ _ _ _ hk hj ht
  · intro r hrm
    obtain ⟨u, hu, rfl⟩ := hr r hrm
    rw [e]
    exact ⟨grid_index_lt _ _ _ _ _ _ hk hj hu, u, hu, rfl⟩

/-- The value a pass writes to a cell is a function of the values its line
held before the pass: two buffers that agree on a line along the axis of the
pass receive the same values on that line. -/
theorem blur_pass_depends (buf buf' : List dt_iop_colorreconstruct_Lab_t) (sx sy sz : ℕ)
    (hx : 4 ≤ sx) (hy : 4 ≤ sy) (hz : 4 ≤ sz)
    (hlen : buf.length = sx * sy * sz) (hlen' : buf'.length = sx * sy * sz)
    (x y z : ℕ) (hxx : x < sx) (hyy : y < sy) (hzz : z < sz) :
    ((∀ u, u < sx → rd buf' (u + sx * (y + sy * z)) = rd buf (u + sx * (y + sy * z))) →
      rd (blur_line buf' (sx * sy) sx 1 sz sy sx) (x + sx * (y + sy * z))
        = rd (blur_line buf (sx * sy) sx 1 sz sy sx) (x + sx * (y + sy * z)))
    ∧ ((∀ v, v < sy → rd buf' (x + sx * (v + sy * z)) = rd buf (x + sx * (v + sy * z))) →
      rd (blur_line buf' (sx * sy) 1 sx sz sx sy) (x + sx * (y + sy * z))
        = rd (blur_line buf (sx * sy) 1 sx sz sx sy) (x + sx * (y + sy * z)))
    ∧ ((∀ w, w < sz → rd buf' (x + sx * (y + sy * w)) = rd buf (x + sx * (y + sy * w))) →
      rd (blur_line buf' 1 sx (sx * sy) sx sy sz) (x + sx * (y + sy * z))
        = rd (blur_line buf 1 sx (sx * sy) sx sy sz) (x + sx * (y + sy * z))) := by
  refine ⟨?_, ?_, ?_⟩
  · intro h
    rw [(blur_pass_x buf' sx sy sz hx hlen').2 x y z hxx hyy hzz,
      (blur_pass_x buf sx sy sz hx hlen).2 x y z hxx hyy hzz]
    unfold Lab_fields
    congr 1 <;> exact blur_kernel_congr _ _ _ _ hxx (fun u hu => by rw [h u hu])
  · intro h
    rw [(blur_pass_y buf' sx sy sz hy (by omega) hlen').2 x y z hxx hyy hzz,
      (blur_pass_y buf sx sy sz hy (by omega) hlen).2 x y z hxx hyy hzz]
    unfold Lab_fields
    congr 1 <;> exact blur_kernel_congr _ _ _ _ hyy (fun u hu => by rw [h u hu])
  · intro h
    rw [(blur_pass_z buf' sx sy sz hz (by omega) (by omega) hlen').2 x y z hxx hyy hzz,
      (blur_pass_z buf sx sy sz hz (by omega) (by omega) hlen).2 x y z hxx hyy hzz]
    unfold Lab_fields
    congr 1 <;> exact blur_kernel_congr _ _ _ _ hzz (fun u hu => by rw [h u hu])

/-- The plain state behind a traced state of the innermost loop. -/
theorem blur_line_step_traced_buf (offset3 : ℕ) (s : blur_traced_state) :
    (⟨(blur_line_step_traced offset3 s).m.buf, (blur_line_step_traced offset3 s).index,
        (blur_line_step_traced offset3 s).tmp1, (blur_line_step_traced offset3 s).tmp2⟩ : blur_state)
      = blur_line_step offset3 ⟨s.m.buf, s.index, s.tmp1, s.tmp2⟩ := rfl

theorem blur_line_step_traced_log (offset3 : ℕ) (s : blur_traced_state) :
    ((blur_line_step_traced offset3 s).m.log, (blur_line_step_traced offset3 s).index)
      = blur_access_step offset3 (s.m.log, s.index) := rfl

theorem blur_line_steps_traced_buf (offset3 n : ℕ) (s : blur_traced_state) :
    (⟨((blur_line_step_traced offset3)^[n] s).m.buf, ((blur_line_step_traced offset3)^[n] s).index,
        ((blur_line_step_traced offset3)^[n] s).tmp1,
        ((blur_line_step_traced offset3)^[n] s).tmp2⟩ : blur_state)
      = (blur_line_step offset3)^[n] ⟨s.m.buf, s.index, s.tmp1, s.tmp2⟩ := by
  induction n generalizing s with
  | zero => rfl
  | succ n ih =>
    rw [Function.iterate_succ_apply, Function.iterate_succ_apply, ih,
      blur_line_step_traced_buf]

theorem blur_line_steps_traced_log (offset3 n : ℕ) (s : blur_traced_state) :
    (((blur_line_step_traced offset3)^[n] s).m.log, ((blur_line_step_traced offset3)^[n] s).index)
      = (blur_access_step offset3)^[n] (s.m.log, s.index) := by
  induction n generalizing s with
  | zero => rfl
  | succ n ih =>
    rw [Function.iterate_succ_apply, Function.iterate_succ_apply, ih,
      blur_line_step_traced_log]

theorem blur_line_row_traced_buf (offset2 offset3 size3 : ℕ) (st : traced_buf × ℕ) :
    ((blur_line_row_traced offset2 offset3 size3 st).1.buf,
        (blur_line_row_traced offset2 offset3 size3 st).2)
      = blur_line_row offset2 offset3 size3 (st.1.buf, st.2) := by
  have h := blur_line_steps_traced_buf offset3 (size3 - 4)
    { m := (traced_store (traced_store st.1 st.2 [st.2, st.2 + offset3, st.2 + 2 * offset3]
          (fun c => Lab_fields fun f =>
            f (c.getD 0 Lab_zero) * blur_w0 + blur_w1 * f (c.getD 1 Lab_zero)
              + blur_w2 * f (c.getD 2 Lab_zero))).1 (st.2 + offset3)
          [st.2 + offset3, st.2 + offset3 + offset3, st.2 + offset3 + 2 * offset3]
          (fun c => Lab_fields fun f =>
            f (c.getD 0 Lab_zero) * blur_w0
              + blur_w1 * (f (c.getD 1 Lab_zero) + f (rd st.1.buf st.2))
              + blur_w2 * f (c.getD 2 Lab_zero))).1
      index := st.2 + offset3 + offset3
      tmp1 := rd st.1.buf st.2
      tmp2 := rd (wr st.1.buf st.2 (Lab_fields fun f =>
              f (rd st.1.buf st.2) * blur_w0 + blur_w1 * f (rd st.1.buf (st.2 + offset3))
                + blur_w2 * f (rd st.1.buf (st.2 + 2 * offset3)))) (st.2 + offset3) }
  exact congrArg (fun s : blur_state =>
    (wr (wr s.buf s.index (Lab_fields fun f =>
        f (rd s.buf s.index) * blur_w0 + blur_w1 * (f (rd s.buf (s.index + offset3)) + f s.tmp2)
          + blur_w2 * f s.tmp1)) (s.index + offset3) (Lab_fields fun f =>
        f (rd (wr s.buf s.index (Lab_fields fun f =>
          f (rd s.buf s.index) * blur_w0
            + blur_w1 * (f (rd s.buf (s.index + offset3)) + f s.tmp2)
            + blur_w2 * f s.tmp1)) (s.index + offset3)) * blur_w0
          + blur_w1 * f (rd s.buf s.index) + blur_w2 * f s.tmp2),
      s.index + offset3 + offset3 + offset2 - offset3 * size3)) h

theorem blur_line_row_traced_log (offset2 offset3 size3 : ℕ) (st : traced_buf × ℕ) :
    ((blur_line_row_traced offset2 offset3 size3 st).1.log,
        (blur_line_row_traced offset2 offset3 size3 st).2)
      = blur_line_row_accesses offset2 offset3 size3 (st.1.log, st.2) := by
  have h := blur_line_steps_traced_log offset3 (size3 - 4)
    { m := (traced_store (traced_store st.1 st.2 [st.2, st.2 + offset3, st.2 + 2 * offset3]
          (fun c => Lab_fields fun f =>
            f (c.getD 0 Lab_zero) * blur_w0 + blur_w1 * f (c.getD 1 Lab_zero)
              + blur_w2 * f (c.getD 2 Lab_zero))).1 (st.2 + offset3)
          [st.2 + offset3, st.2 + offset3 + offset3, st.2 + offset3 + 2 * offset3]
          (fun c => Lab_fields fun f =>
            f (c.getD 0 Lab_zero) * blur_w0
              + blur_w1 * (f (c.getD 1 Lab_zero) + f (rd st.1.buf st.2))
              + blur_w2 * f (c.getD 2 Lab_zero))).1
      index := st.2 + offset3 + offset3
      tmp1 := rd st.1.buf st.2
      tmp2 := rd (wr st.1.buf st.2 (Lab_fields fun f =>
              f (rd st.1.buf st.2) * blur_w0 + blur_w1 * f (rd st.1.buf (st.2 + offset3))
                + blur_w2 * f (rd st.1.buf (st.2 + 2 * offset3)))) (st.2 + offset3) }
  exact congrArg (fun s : List blur_access × ℕ =>
    (s.1 ++ [⟨s.2, [s.2, s.2 + offset3]⟩] ++ [⟨s.2 + offset3, [s.2 + offset3]⟩],
      s.2 + offset3 + offset3 + offset2 - offset3 * size3)) h

theorem blur_line_rows_traced (offset2 offset3 size3 n : ℕ) (st : traced_buf × ℕ) :
    ((((blur_line_row_traced offset2 offset3 size3)^[n] st).1.buf,
        ((blur_line_row_traced offset2 offset3 size3)^[n] st).2)
      = (blur_line_row offset2 offset3 size3)^[n] (st.1.buf, st.2))
    ∧ ((((blur_line_row_traced offset2 offset3 size3)^[n] st).1.log,
        ((blur_line_row_traced offset2 offset3 size3)^[n] st).2)
      = (blur_line_row_accesses offset2 offset3 size3)^[n] (st.1.log, st.2)) := by
  induction n generalizing st with
  | zero => exact ⟨rfl, rfl⟩
  | succ n ih =>
    rw [Function.iterate_succ_apply, Function.iterate_succ_apply, Function.iterate_succ_apply]
    obtain ⟨h1, h2⟩ := ih (blur_line_row_traced offset2 offset3 size3 st)
    rw [h1, h2, blur_line_row_traced_buf, blur_line_row_traced_log]
    exact ⟨rfl, rfl⟩

/-- The traced `blur_line` leaves the buffer `blur_line` computes, and its log
extends the log it was given by the accesses of `blur_line_accesses`. -/
theorem blur_line_traced_spec (m : traced_buf) (offset1 offset2 offset3 size1 size2 size3 : ℕ) :
    (blur_line_traced m offset1 offset2 offset3 size1 size2 size3).buf
        = blur_line m.buf offset1 offset2 offset3 size1 size2 size3
    ∧ (blur_line_traced m offset1 offset2 offset3 size1 size2 size3).log
        = (List.range size1).foldl
            (fun acc k =>
              ((blur_line_row_accesses offset2 offset3 size3)^[size2] (acc, k * offset1)).1)
            m.log := by
  unfold blur_line_traced blur_line
  induction (List.range size1) generalizing m with
  | nil => exact ⟨rfl, rfl⟩
  | cons k l ih =>
    simp only [List.foldl_cons]
    obtain ⟨h1, h2⟩ := ih ((blur_line_row_traced offset2 offset3 size3)^[size2]
      (m, k * offset1)).1
    obtain ⟨r1, r2⟩ := blur_line_rows_traced offset2 offset3 size3 size2 (m, k * offset1)
    rw [h1, h2]
    have e1 := congrArg Prod.fst r1
    have e2 := congrArg Prod.fst r2
    simp only [] at e1 e2
    rw [e1, e2]
    exact ⟨rfl, rfl⟩

/-- The traced `blur_line` started with an empty log: the buffer is the one of
`blur_line` and the log is `blur_line_accesses`. -/
theorem blur_line_traced_eq (buf : List dt_iop_colorreconstruct_Lab_t)
    (offset1 offset2 offset3 size1 size2 size3 : ℕ) :
    (blur_line_traced ⟨buf, []⟩ offset1 offset2 offset3 size1 size2 size3).buf
        = blur_line buf offset1 offset2 offset3 size1 size2 size3
    ∧ (blur_line_traced ⟨buf, []⟩ offset1 offset2 offset3 size1 size2 size3).log
        = blur_line_accesses offset1 offset2 offset3 size1 size2 size3 :=
  blur_line_traced_spec ⟨buf, []⟩ offset1 offset2 offset3 size1 size2 size3

/-- C26. Each blur pass covers the grid exactly and stays in bounds.  For every
grid with `size_x`, `size_y`, `size_z ≥ 5` whose buffer holds
`size_x * size_y * size_z` cells, `blur` returns the buffer left by the three
`blur_line` calls below, run on a traced buffer (`p1`, `p2`, `p3`); each call
writes and reads only indices below `size_x * size_y * size_z`, reads for a
store only cells of the line of the cell written (the line along the axis of
the pass), writes every cell of the buffer exactly once (the writes, in order,
are a permutation of the indices), and writes a value that depends only on the
values that line held before the pass. -/
theorem C26_blur_pass_coverage (b : dt_iop_colorreconstruct_bilateral_t)
    (cells : List dt_iop_colorreconstruct_Lab_t) (hbuf : b.buf = some cells)
    (hx : 5 ≤ b.size_x) (hy : 5 ≤ b.size_y) (hz : 5 ≤ b.size_z)
    (hlen : cells.length = b.size_x * b.size_y * b.size_z) :
    ∃ p1 p2 p3 : traced_buf,
      p1 = blur_line_traced ⟨cells, []⟩ (b.size_x * b.size_y) b.size_x 1 b.size_z b.size_y b.size_x
    ∧ p2 = blur_line_traced ⟨p1.buf, []⟩ (b.size_x * b.size_y) 1 b.size_x b.size_z b.size_x b.size_y
    ∧ p3 = blur_line_traced ⟨p2.buf, []⟩ 1 b.size_x (b.size_x * b.size_y) b.size_x b.size_y b.size_z
    ∧ dt_iop_colorreconstruct_bilateral_blur b = Run.done { b with buf := some p3.buf }
    ∧ p3.buf.length = b.size_x * b.size_y * b.size_z
    ∧ ((∀ a ∈ p1.log,
          ∃ x y z, x < b.size_x ∧ y < b.size_y ∧ z < b.size_z
            ∧ a.write = x + b.size_x * (y + b.size_y * z)
            ∧ a.write < b.size_x * b.size_y * b.size_z
            ∧ ∀ r ∈ a.reads, r < b.size_x * b.size_y * b.size_z
                ∧ ∃ u, u < b.size_x ∧ r = u + b.size_x * (y + b.size_y * z))
        ∧ (p1.log.map blur_access.write).Perm
            (List.range (b.size_x * b.size_y * b.size_z)))
    ∧ ((∀ a ∈ p2.log,
          ∃ x y z, x < b.size_x ∧ y < b.size_y ∧ z < b.size_z
            ∧ a.write = x + b.size_x * (y + b.size_y * z)
            ∧ a.write < b.size_x * b.size_y * b.size_z
            ∧ ∀ r ∈ a.reads, r < b.size_x * b.size_y * b.size_z
                ∧ ∃ v, v < b.size_y ∧ r = x + b.size_x * (v + b.size_y * z))
        ∧ (p2.log.map blur_access.write).Perm
            (List.range (b.size_x * b.size_y * b.size_z)))
    ∧ ((∀ a ∈ p3.log,
          ∃ x y z, x < b.size_x ∧ y < b.size_y ∧ z < b.size_z
            ∧ a.write = x + b.size_x * (y + b.size_y * z)
            ∧ a.write < b.size_x * b.size_y * b.size_z
            ∧ ∀ r ∈ a.reads, r < b.size_x * b.size_y * b.size_z
                ∧ ∃ w, w < b.size_z ∧ r = x + b.size_x * (y + b.size_y * w))
        ∧ (p3.log.map blur_access.write).Perm
            (List.range (b.size_x * b.size_y * b.size_z)))
    ∧ ∀ buf buf' : List dt_iop_colorreconstruct_Lab_t,
        buf.length = b.size_x * b.size_y * b.size_z →
        buf'.length = b.size_x * b.size_y * b.size_z →
        ∀ x y z, x < b.size_x → y < b.size_y → z < b.size_z →
          ((∀ u, u < b.size_x → rd buf' (u + b.size_x * (y + b.size_y * z)) = rd buf (u + b.size_x * (y + b.size_y * z))) →
            rd (blur_line_traced ⟨buf', []⟩ (b.size_x * b.size_y) b.size_x 1 b.size_z b.size_y b.size_x).buf (x + b.size_x * (y + b.size_y * z))
              = rd (blur_line_traced ⟨buf, []⟩ (b.size_x * b.size_y) b.size_x 1 b.size_z b.size_y b.size_x).buf (x + b.size_x * (y + b.size_y * z)))
          ∧ ((∀ v, v < b.size_y → rd buf' (x + b.size_x * (v + b.size_y * z)) = rd buf (x + b.size_x * (v + b.size_y * z))) →
            rd (blur_line_traced ⟨buf', []⟩ (b.size_x * b.size_y) 1 b.size_x b.size_z b.size_x b.size_y).buf (x + b.size_x * (y + b.size_y * z))
              = rd (blur_line_traced ⟨buf, []⟩ (b.size_x * b.size_y) 1 b.size_x b.size_z b.size_x b.size_y).buf (x + b.size_x * (y + b.size_y * z)))
          ∧ ((∀ w, w < b.size_z → rd buf' (x + b.size_x * (y + b.size_y * w)) = rd buf (x + b.size_x * (y + b.size_y * w))) →
            rd (blur_line_traced ⟨buf', []⟩ 1 b.size_x (b.size_x * b.size_y) b.size_x b.size_y b.size_z).buf (x + b.size_x * (y + b.size_y * z))
              = rd (blur_line_traced ⟨buf, []⟩ 1 b.size_x (b.size_x * b.size_y) b.size_x b.size_y b.size_z).buf (x + b.size_x * (y + b.size_y * z))) := by
  have l1 := (blur_pass_x cells b.size_x b.size_y b.size_z (by omega) hlen).1
  have l2 := (blur_pass_y _ b.size_x b.size_y b.size_z (by omega) (by omega)
    (l1.trans hlen)).1
  have l3 := (blur_pass_z _ b.size_x b.size_y b.size_z (by omega) (by omega) (by omega)
    ((l2.trans l1).trans hlen)).1
  refine ⟨_, _, _, rfl, rfl, rfl, ?_, ?_, ?_, ?_, ?_, ?_⟩
  · simp only [(blur_line_traced_eq _ _ _ _ _ _ _).1]
    exact blur_eq b cells hbuf
  · simp only [(blur_line_traced_eq _ _ _ _ _ _ _).1]
    exact ((l3.trans l2).trans l1).trans hlen
  · rw [(blur_line_traced_eq _ _ _ _ _ _ _).2]
    exact blur_pass_x_accesses _ _ _ (by omega)
  · rw [(blur_line_traced_eq _ _ _ _ _ _ _).2]
    exact blur_pass_y_accesses _ _ _ (by omega)
  · rw [(blur_line_traced_eq _ _ _ _ _ _ _).2]
    exact blur_pass_z_accesses _ _ _ (by omega)
  · intro buf buf' hl hl' x y z hxx hyy hzz
    simp only [(blur_line_traced_eq _ _ _ _ _ _ _).1]
    exact blur_pass_depends buf buf' _ _ _ (by omega) (by omega) (by omega) hl hl' x y z
      hxx hyy hzz

/-- Witness for C26 on the scenario's grid of 5 × 5 × 11 cells filled with
`ramp_cells`; the last conjunct shows one store of the first pass: cell 0
receives `(6 * 1 + 4 * 2 + 1 * 3) / 16` in its `L` field. -/
theorem C26_blur_pass_coverage_witness :
    (∃ p1 p2 p3 : traced_buf,
      p1 = blur_line_traced ⟨ramp_cells, []⟩ (ramp_grid.size_x * ramp_grid.size_y) ramp_grid.size_x 1 ramp_grid.size_z ramp_grid.size_y ramp_grid.size_x
    ∧ p2 = blur_line_traced ⟨p1.buf, []⟩ (ramp_grid.size_x * ramp_grid.size_y) 1 ramp_grid.size_x ramp_grid.size_z ramp_grid.size_x ramp_grid.size_y
    ∧ p3 = blur_line_traced ⟨p2.buf, []⟩ 1 ramp_grid.size_x (ramp_grid.size_x * ramp_grid.size_y) ramp_grid.size_x ramp_grid.size_y ramp_grid.size_z
    ∧ dt_iop_colorreconstruct_bilateral_blur ramp_grid = Run.done { ramp_grid with buf := some p3.buf }
    ∧ p3.buf.length = ramp_grid.size_x * ramp_grid.size_y * ramp_grid.size_z
    ∧ ((∀ a ∈ p1.log,
          ∃ x y z, x < ramp_grid.size_x ∧ y < ramp_grid.size_y ∧ z < ramp_grid.size_z
            ∧ a.write = x + ramp_grid.size_x * (y + ramp_grid.size_y * z)
            ∧ a.write < ramp_grid.size_x * ramp_grid.size_y * ramp_grid.size_z
            ∧ ∀ r ∈ a.reads, r < ramp_grid.size_x * ramp_grid.size_y * ramp_grid.size_z
                ∧ ∃ u, u < ramp_grid.size_x ∧ r = u + ramp_grid.size_x * (y + ramp_grid.size_y * z))
        ∧ (p1.log.map blur_access.write).Perm
            (List.range (ramp_grid.size_x * ramp_grid.size_y * ramp_grid.size_z)))
    ∧ ((∀ a ∈ p2.log,
          ∃ x y z, x < ramp_grid.size_x ∧ y < ramp_grid.size_y ∧ z < ramp_grid.size_z
            ∧ a.write = x + ramp_grid.size_x * (y + ramp_grid.size_y * z)
            ∧ a.write < ramp_grid.size_x * ramp_grid.size_y * ramp_grid.size_z
            ∧ ∀ r ∈ a.reads, r < ramp_grid.size_x * ramp_grid.size_y * ramp_grid.size_z
                ∧ ∃ v, v < ramp_grid.size_y ∧ r = x + ramp_grid.size_x * (v + ramp_grid.size_y * z))
        ∧ (p2.log.map blur_access.write).Perm
            (List.range (ramp_grid.size_x * ramp_grid.size_y * ramp_grid.size_z)))
    ∧ ((∀ a ∈ p3.log,
          ∃ x y z, x < ramp_grid.size_x ∧ y < ramp_grid.size_y ∧ z < ramp_grid.size_z
            ∧ a.write = x + ramp_grid.size_x * (y + ramp_grid.size_y * z)
            ∧ a.write < ramp_grid.size_x * ramp_grid.size_y * ramp_grid.size_z
            ∧ ∀ r ∈ a.reads, r < ramp_grid.size_x * ramp_grid.size_y * ramp_grid.size_z
                ∧ ∃ w, w < ramp_grid.size_z ∧ r = x + ramp_grid.size_x * (y + ramp_grid.size_y * w))
        ∧ (p3.log.map blur_access.write).Perm
            (List.range (ramp_grid.size_x * ramp_grid.size_y * ramp_grid.size_z)))
    ∧ ∀ buf buf' : List dt_iop_colorreconstruct_Lab_t,
        buf.length = ramp_grid.size_x * ramp_grid.size_y * ramp_grid.size_z →
        buf'.length = ramp_grid.size_x * ramp_grid.size_y * ramp_grid.size_z →
        ∀ x y z, x < ramp_grid.size_x → y < ramp_grid.size_y → z < ramp_grid.size_z →
          ((∀ u, u < ramp_grid.size_x → rd buf' (u + ramp_grid.size_x * (y + ramp_grid.size_y * z)) = rd buf (u + ramp_grid.size_x * (y + ramp_grid.size_y * z))) →
            rd (blur_line_traced ⟨buf', []⟩ (ramp_grid.size_x * ramp_grid.size_y) ramp_grid.size_x 1 ramp_grid.size_z ramp_grid.size_y ramp_grid.size_x).buf (x + ramp_grid.size_x * (y + ramp_grid.size_y * z))
              = rd (blur_line_traced ⟨buf, []⟩ (ramp_grid.size_x * ramp_grid.size_y) ramp_grid.size_x 1 ramp_grid.size_z ramp_grid.size_y ramp_grid.size_x).buf (x + ramp_grid.size_x * (y + ramp_grid.size_y * z)))
          ∧ ((∀ v, v < ramp_grid.size_y → rd buf' (x + ramp_grid.size_x * (v + ramp_grid.size_y * z)) = rd buf (x + ramp_grid.size_x * (v + ramp_grid.size_y * z))) →
            rd (blur_line_traced ⟨buf', []⟩ (ramp_grid.size_x * ramp_grid.size_y) 1 ramp_grid.size_x ramp_grid.size_z ramp_grid.size_x ramp_grid.size_y).buf (x + ramp_grid.size_x * (y + ramp_grid.size_y * z))
              = rd (blur_line_traced ⟨buf, []⟩ (ramp_grid.size_x * ramp_grid.size_y) 1 ramp_grid.size_x ramp_grid.size_z ramp_grid.size_x ramp_grid.size_y).buf (x + ramp_grid.size_x * (y + ramp_grid.size_y * z)))
          ∧ ((∀ w, w < ramp_grid.size_z → rd buf' (x + ramp_grid.size_x * (y + ramp_grid.size_y * w)) = rd buf (x + ramp_grid.size_x * (y + ramp_grid.size_y * w))) →
            rd (blur_line_traced ⟨buf', []⟩ 1 ramp_grid.size_x (ramp_grid.size_x * ramp_grid.size_y) ramp_grid.size_x ramp_grid.size_y ramp_grid.size_z).buf (x + ramp_grid.size_x * (y + ramp_grid.size_y * z))
              = rd (blur_line_traced ⟨buf, []⟩ 1 ramp_grid.size_x (ramp_grid.size_x * ramp_grid.size_y) ramp_grid.size_x ramp_grid.size_y ramp_grid.size_z).buf (x + ramp_grid.size_x * (y + ramp_grid.size_y * z))))
    ∧ (rd (blur_line_traced ⟨ramp_cells, []⟩ (ramp_grid.size_x * ramp_grid.size_y)
        ramp_grid.size_x 1 ramp_grid.size_z ramp_grid.size_y ramp_grid.size_x).buf 0).L
      = 17 / 16 :=
  ⟨C26_blur_pass_coverage ramp_grid ramp_cells rfl (by decide) (by decide) (by decide)
    (by simp [ramp_cells, ramp_grid]), by
    rw [(blur_line_traced_eq _ _ _ _ _ _ _).1]
    have h := (blur_pass_x ramp_cells ramp_grid.size_x ramp_grid.size_y ramp_grid.size_z
      (by decide) (by simp [ramp_cells, ramp_grid])).2 0 0 0 (by decide) (by decide)
      (by decide)
    have e : 0 + ramp_grid.size_x * (0 + ramp_grid.size_y * 0) = 0 := by decide
    rw [e] at h
    rw [h]
    have s5 : ramp_grid.size_x = 5 := rfl
    have sy : ramp_grid.size_y = 5 := rfl
    simp only [Lab_fields, blur_kernel, s5, sy]
    norm_num [rd_ramp_cells 0 (by norm_num), rd_ramp_cells 1 (by norm_num),
      rd_ramp_cells 2 (by norm_num), blur_w0, blur_w1, blur_w2]⟩

/-! ### The weight guard of the division in slice -/

theorem guarded_zero : cell_guarded 0 0 := ⟨le_refl 0, le_refl 0, Iff.rfl⟩

theorem guarded_add (w1 l1 w2 l2 : ℚ) (h1 : cell_guarded w1 l1) (h2 : cell_guarded w2 l2) :
    cell_guarded (w1 + w2) (l1 + l2) := by
  obtain ⟨a1, b1, c1⟩ := h1
  obtain ⟨a2, b2, c2⟩ := h2
  refine ⟨add_nonneg a1 a2, add_nonneg b1 b2, ?_⟩
  constructor
  · intro h
    by_cases hw : 0 < w1
    · exact add_pos_of_pos_of_nonneg (c1.mp hw) b2
    · have hw1 : w1 = 0 := le_antisymm (not_lt.mp hw) a1
      have : 0 < w2 := by rw [hw1, zero_add] at h; exact h
      exact add_pos_of_nonneg_of_pos b1 (c2.mp this)
  · intro h
    by_cases hl : 0 < l1
    · exact add_pos_of_pos_of_nonneg (c1.mpr hl) a2
    · have hl1 : l1 = 0 := le_antisymm (not_lt.mp hl) b1
      have : 0 < l2 := by rw [hl1, zero_add] at h; exact h
      exact add_pos_of_nonneg_of_pos a1 (c2.mpr this)

theorem guarded_mul_left (c w l : ℚ) (hc : 0 ≤ c) (h : cell_guarded w l) :
    cell_guarded (c * w) (c * l) := by
  obtain ⟨a, b, e⟩ := h
  rcases eq_or_lt_of_le hc with h0 | hpos
  · rw [← h0, zero_mul, zero_mul]
    exact guarded_zero
  · refine ⟨mul_nonneg hc a, mul_nonneg hc b, ?_⟩
    constructor
    · intro h
      have : 0 < w := (mul_pos_iff_of_pos_left hpos).mp h
      exact mul_pos hpos (e.mp this)
    · intro h
      have : 0 < l := (mul_pos_iff_of_pos_left hpos).mp h
      exact mul_pos hpos (e.mpr this)

theorem guarded_mul_right (c w l : ℚ) (hc : 0 ≤ c) (h : cell_guarded w l) :
    cell_guarded (w * c) (l * c) := by
  rw [mul_comm w c, mul_comm l c]
  exact guarded_mul_left c w l hc h

theorem guarded_ite (p : Prop) [Decidable p] (w l : ℚ) (h : cell_guarded w l) :
    cell_guarded (if p then w else 0) (if p then l else 0) := by
  split_ifs
  · exact h
  · exact guarded_zero

/-- The kernel of the blur keeps the guard: its weights are positive and the
same for `weight` and for `L`. -/
theorem guarded_kernel (ow ol : ℕ → ℚ) (n t : ℕ) (h : ∀ u, cell_guarded (ow u) (ol u)) :
    cell_guarded (blur_kernel ow n t) (blur_kernel ol n t) := by
  unfold blur_kernel
  have h0 : (0 : ℚ) ≤ blur_w0 := by norm_num [blur_w0]
  have h1 : (0 : ℚ) ≤ blur_w1 := by norm_num [blur_w1]
  have h2 : (0 : ℚ) ≤ blur_w2 := by norm_num [blur_w2]
  apply guarded_add
  · apply guarded_add
    · exact guarded_mul_left _ _ _ h0 (h t)
    · apply guarded_mul_left _ _ _ h1
      exact guarded_add _ _ _ _ (guarded_ite _ _ _ (h _)) (guarded_ite _ _ _ (h _))
  · apply guarded_mul_left _ _ _ h2
    exact guarded_add _ _ _ _ (guarded_ite _ _ _ (h _)) (guarded_ite _ _ _ (h _))

/-- A sum of contributions of pixels of positive luma is guarded. -/
theorem guarded_contributions (width : ℤ) (inp : ℕ → ℚ) (l : List (ℕ × ℕ))
    (hpos : ∀ p ∈ l, 0 < inp (pixel_index width p.1 p.2)) :
    cell_guarded ((l.map (fun p => splat_contribution width inp p.1 p.2)).sum).weight
      ((l.map (fun p => splat_contribution width inp p.1 p.2)).sum).L := by
  induction l with
  | nil => exact guarded_zero
  | cons p l ih =>
    simp only [List.map_cons, List.sum_cons]
    have hw : ∀ c d : dt_iop_colorreconstruct_Lab_t, (c + d).weight = c.weight + d.weight :=
      fun _ _ => rfl
    have hl : ∀ c d : dt_iop_colorreconstruct_Lab_t, (c + d).L = c.L + d.L := fun _ _ => rfl
    rw [hw, hl]
    apply guarded_add
    · have hp := hpos p (List.mem_cons_self _ _)
      exact ⟨by norm_num [splat_contribution], le_of_lt hp,
        ⟨fun _ => hp, fun _ => by norm_num [splat_contribution]⟩⟩
    · exact ih (fun q hq => hpos q (List.mem_cons_of_mem _ hq))

/-- After `splat` on a zeroed buffer, with every accumulated pixel of positive
luma, every cell is guarded. -/
theorem guarded_splat (b : dt_iop_colorreconstruct_bilateral_t) (inp : ℕ → ℚ) (threshold : ℚ)
    (n : ℕ)
    (hpos : ∀ j i : ℕ, (j : ℤ) < b.height → (i : ℤ) < b.width →
      inp (pixel_index b.width j i) ≤ threshold → 0 < inp (pixel_index b.width j i))
    (k : ℕ) :
    cell_guarded (rd (splat_cells b inp threshold (List.replicate n Lab_zero)) k).weight
      (rd (splat_cells b inp threshold (List.replicate n Lab_zero)) k).L := by
  by_cases hk : k < n
  · rw [splat_cells_rd b inp threshold _ k (by rw [List.length_replicate]; exact hk),
      rd_replicate_zero]
    have hz : ∀ c : dt_iop_colorreconstruct_Lab_t,
        (Lab_zero + c).weight = c.weight ∧ (Lab_zero + c).L = c.L := by
      intro c
      constructor
      · show (0 : ℚ) + c.weight = c.weight
        exact zero_add _
      · show (0 : ℚ) + c.L = c.L
        exact zero_add _
    rw [(hz _).1, (hz _).2]
    apply guarded_contributions
    intro p hp
    rw [List.mem_filter] at hp
    obtain ⟨hmem, hdec⟩ := hp
    rw [mem_pixels] at hmem
    have hd := of_decide_eq_true hdec
    exact hpos p.1 p.2 (by omega) (by omega) hd.1
  · have : rd (splat_cells b inp threshold (List.replicate n Lab_zero)) k = Lab_zero := by
      unfold rd
      rw [List.getD_eq_default _ _ (by
        rw [splat_cells_length, List.length_replicate]; omega)]
    rw [this]
    exact guarded_zero

/-- A read outside a buffer gives the zero cell. -/
theorem rd_out_of_range (buf : List dt_iop_colorreconstruct_Lab_t) (k : ℕ)
    (hk : buf.length ≤ k) : rd buf k = Lab_zero := by
  unfold rd
  exact List.getD_eq_default _ _ hk

/-- Each pass of `blur` keeps every cell guarded. -/
theorem guarded_blur_pass (buf : List dt_iop_colorreconstruct_Lab_t) (sx sy sz : ℕ)
    (hx : 4 ≤ sx) (hy : 4 ≤ sy) (hz : 4 ≤ sz) (hlen : buf.length = sx * sy * sz)
    (h : ∀ k, cell_guarded (rd buf k).weight (rd buf k).L) :
    (∀ k, cell_guarded (rd (blur_line buf (sx * sy) sx 1 sz sy sx) k).weight
        (rd (blur_line buf (sx * sy) sx 1 sz sy sx) k).L)
    ∧ (∀ k, cell_guarded (rd (blur_line buf (sx * sy) 1 sx sz sx sy) k).weight
        (rd (blur_line buf (sx * sy) 1 sx sz sx sy) k).L)
    ∧ (∀ k, cell_guarded (rd (blur_line buf 1 sx (sx * sy) sx sy sz) k).weight
        (rd (blur_line buf 1 sx (sx * sy) sx sy sz) k).L) := by
  obtain ⟨lx, px⟩ := blur_pass_x buf sx sy sz hx hlen
  obtain ⟨ly, py⟩ := blur_pass_y buf sx sy sz hy (by omega) hlen
  obtain ⟨lz, pz⟩ := blur_pass_z buf sx sy sz hz (by omega) (by omega) hlen
  refine ⟨?_, ?_, ?_⟩
  · intro k
    by_cases hk : k < sx * sy * sz
    · obtain ⟨x, y, z, hxx, hyy, hzz, rfl⟩ := grid_index_surj sx sy sz k hk
      rw [px x y z hxx hyy hzz]
      exact guarded_kernel _ _ _ _ (fun u => h _)
    · rw [rd_out_of_range _ k (by rw [lx, hlen]; omega)]
      exact guarded_zero
  · intro k
    by_cases hk : k < sx * sy * sz
    · obtain ⟨x, y, z, hxx, hyy, hzz, rfl⟩ := grid_index_surj sx sy sz k hk
      rw [py x y z hxx hyy hzz]
      exact guarded_kernel _ _ _ _ (fun u => h _)
    · rw [rd_out_of_range _ k (by rw [ly, hlen]; omega)]
      exact guarded_zero
  · intro k
    by_cases hk : k < sx * sy * sz
    · obtain ⟨x, y, z, hxx, hyy, hzz, rfl⟩ := grid_index_surj sx sy sz k hk
      rw [pz x y z hxx hyy hzz]
      exact guarded_kernel _ _ _ _ (fun u => h _)
    · rw [rd_out_of_range _ k (by rw [lz, hlen]; omega)]
      exact guarded_zero

/-- The three passes of `blur` keep every cell guarded. -/
theorem guarded_blur (buf : List dt_iop_colorreconstruct_Lab_t) (sx sy sz : ℕ)
    (hx : 4 ≤ sx) (hy : 4 ≤ sy) (hz : 4 ≤ sz) (hlen : buf.length = sx * sy * sz)
    (h : ∀ k, cell_guarded (rd buf k).weight (rd buf k).L) (k : ℕ) :
    cell_guarded
      (rd (blur_line (blur_line (blur_line buf (sx * sy) sx 1 sz sy sx) (sx * sy) 1 sx sz sx sy)
        1 sx (sx * sy) sx sy sz) k).weight
      (rd (blur_line (blur_line (blur_line buf (sx * sy) sx 1 sz sy sx) (sx * sy) 1 sx sz sx sy)
        1 sx (sx * sy) sx sy sz) k).L := by
  have l1 := (blur_pass_x buf sx sy sz hx hlen).1
  have g1 := (guarded_blur_pass buf sx sy sz hx hy hz hlen h).1
  have l2 := (blur_pass_y _ sx sy sz hy (by omega) (l1.trans hlen)).1
  have g2 := (guarded_blur_pass _ sx sy sz hx hy hz (l1.trans hlen) g1).2.1
  exact (guarded_blur_pass _ sx sy sz hx hy hz ((l2.trans l1).trans hlen) g2).2.2 k

/-- The trilinear lookup of `slice` at coordinates inside the grid, in a buffer
whose cells are guarded, is guarded: a positive interpolated `weight` comes
with a positive interpolated `L`. -/
theorem guarded_lookup (b : dt_iop_colorreconstruct_bilateral_t)
    (buf : List dt_iop_colorreconstruct_Lab_t) (x y z : ℚ)
    (hx : 2 ≤ b.size_x) (hy : 2 ≤ b.size_y) (hz : 2 ≤ b.size_z)
    (hxm : b.size_x ≤ 2147483648) (hym : b.size_y ≤ 2147483648) (hzm : b.size_z ≤ 2147483648)
    (x0 : 0 ≤ x) (x1 : x ≤ (b.size_x : ℚ) - 1) (y0 : 0 ≤ y) (y1 : y ≤ (b.size_y : ℚ) - 1)
    (z0 : 0 ≤ z) (z1 : z ≤ (b.size_z : ℚ) - 1)
    (h : ∀ k, cell_guarded (rd buf k).weight (rd buf k).L) :
    cell_guarded (slice_lookup b buf x y z).weight (slice_lookup b buf x y z).L := by
  obtain ⟨xi, yi, zi, hfl, -, -, -, ⟨a0, a1⟩, ⟨b0, b1⟩, ⟨c0, c1⟩, -, -⟩ :=
    slice_lookup_in_grid b x y z hx hy hz hxm hym hzm x0 x1 y0 y1 z0 z1
  rw [slice_lookup_eq]
  simp only [hfl, Lab_fields]
  have na : (0 : ℚ) ≤ 1 - (x - ((xi : ℤ) : ℚ)) := by linarith
  have nb : (0 : ℚ) ≤ 1 - (y - ((yi : ℤ) : ℚ)) := by linarith
  have nc : (0 : ℚ) ≤ 1 - (z - ((zi : ℤ) : ℚ)) := by linarith
  have term : ∀ (k : ℕ) (p q r : ℚ), 0 ≤ p → 0 ≤ q → 0 ≤ r →
      cell_guarded ((rd buf k).weight * p * q * r) ((rd buf k).L * p * q * r) :=
    fun k p q r hp hq hr =>
      guarded_mul_right _ _ _ hr (guarded_mul_right _ _ _ hq (guarded_mul_right _ _ _ hp (h k)))
  exact guarded_add _ _ _ _ (guarded_add _ _ _ _ (guarded_add _ _ _ _ (guarded_add _ _ _ _
    (guarded_add _ _ _ _ (guarded_add _ _ _ _ (guarded_add _ _ _ _
      (term _ _ _ _ na nb nc) (term _ _ _ _ a0 nb nc)) (term _ _ _ _ na b0 nc))
      (term _ _ _ _ a0 b0 nc)) (term _ _ _ _ na nb c0)) (term _ _ _ _ a0 nb c0))
      (term _ _ _ _ na b0 c0)) (term _ _ _ _ a0 b0 c0)

/-- The grid `init` returns: its sizes within bounds, the roi's width and
height, and the allocated buffer zeroed. -/
theorem init_grid (m : List dt_iop_colorreconstruct_Lab_t) (roi : dt_iop_roi_t)
    (iscale sigma_s sigma_r : ℚ) :
    ∃ b, dt_iop_colorreconstruct_bilateral_init true (some m) roi iscale sigma_s sigma_r
          = Run.done (some b)
      ∧ (5 ≤ b.size_x ∧ b.size_x ≤ 1001 ∧ 5 ≤ b.size_y ∧ b.size_y ≤ 1001
        ∧ 5 ≤ b.size_z ∧ b.size_z ≤ 201)
      ∧ b.width = roi.width ∧ b.height = roi.height
      ∧ b.buf = some (memset_zero m (b.size_x * b.size_y * b.size_z)) := by
  obtain ⟨b, hb, hbounds, hbuf, -, -⟩ := init_sizes_estimates m roi iscale sigma_s sigma_r
  have h := hb
  unfold dt_iop_colorreconstruct_bilateral_init at h
  simp only [Bool.not_true, Bool.false_eq_true, if_false, Run.done.injEq,
    Option.some.injEq] at h
  exact ⟨b, hb, hbounds, by rw [← h], by rw [← h], hbuf⟩

/-- C23. The division by `L_grid` in `slice` is guarded by the weight test.  If
every input pixel with `L ≤ threshold` has `L > 0`, then in the grid obtained
by `init`, `splat` and `blur` (which all return) every cell has `weight ≥ 0`
and `L ≥ 0`, with `weight > 0` exactly when `L > 0`, and for every pixel
sliced against that grid, whatever the roi and the scale, an interpolated
`weight > 0` comes with an interpolated `L_grid > 0`: the quotient
`L_in / L_grid` of the correction is never a division by zero. -/
theorem C23_weight_guards_division (m : List dt_iop_colorreconstruct_Lab_t)
    (roi : dt_iop_roi_t) (iscale sigma_s sigma_r : ℚ) (inp : ℕ → ℚ) (threshold : ℚ)
    (hpos : ∀ j i : ℕ, (j : ℤ) < roi.height → (i : ℤ) < roi.width →
      inp (pixel_index roi.width j i) ≤ threshold → 0 < inp (pixel_index roi.width j i)) :
    ∃ b, dt_iop_colorreconstruct_bilateral_init true (some m) roi iscale sigma_s sigma_r
          = Run.done (some b)
      ∧ (m.length = b.size_x * b.size_y * b.size_z →
        ∃ b1 b2 cells, dt_iop_colorreconstruct_bilateral_splat b inp threshold = Run.done b1
          ∧ dt_iop_colorreconstruct_bilateral_blur b1 = Run.done b2
          ∧ b2.buf = some cells
          ∧ (∀ k, k < b.size_x * b.size_y * b.size_z →
              0 ≤ (rd cells k).weight ∧ 0 ≤ (rd cells k).L
              ∧ (0 < (rd cells k).weight ↔ 0 < (rd cells k).L))
          ∧ ∀ (roi' : dt_iop_roi_t) (iscale' : ℚ) (i j : ℤ) (Lin : ℚ)
              (c : dt_iop_colorreconstruct_Lab_t),
              c = slice_lookup b2 cells
                    (image_to_grid b2 (grid_rescale b2 i j roi' iscale').1
                      (grid_rescale b2 i j roi' iscale').2 Lin).1
                    (image_to_grid b2 (grid_rescale b2 i j roi' iscale').1
                      (grid_rescale b2 i j roi' iscale').2 Lin).2.1
                    (image_to_grid b2 (grid_rescale b2 i j roi' iscale').1
                      (grid_rescale b2 i j roi' iscale').2 Lin).2.2 →
              0 < c.weight → 0 < c.L ∧ c.L ≠ 0) := by
  obtain ⟨b, hb, ⟨hx, hxm, hy, hym, hz, hzm⟩, hw, hh, hbuf⟩ :=
    init_grid m roi iscale sigma_s sigma_r
  refine ⟨b, hb, ?_⟩
  intro hlen
  rw [memset_zero_full m _ hlen] at hbuf
  have hsplat := splat_returns b _ inp threshold hbuf
  have hblur := blur_eq
    { b with buf := some (splat_cells b inp threshold
        (List.replicate (b.size_x * b.size_y * b.size_z) Lab_zero)) } _ rfl
  have hg1 : ∀ k, cell_guarded
      (rd (splat_cells b inp threshold
        (List.replicate (b.size_x * b.size_y * b.size_z) Lab_zero)) k).weight
      (rd (splat_cells b inp threshold
        (List.replicate (b.size_x * b.size_y * b.size_z) Lab_zero)) k).L :=
    guarded_splat b inp threshold _ (by rw [hw, hh]; exact hpos)
  have hl1 : (splat_cells b inp threshold
      (List.replicate (b.size_x * b.size_y * b.size_z) Lab_zero)).length
        = b.size_x * b.size_y * b.size_z := by
    rw [splat_cells_length, List.length_replicate]
  have hg2 := guarded_blur _ b.size_x b.size_y b.size_z (by omega) (by omega) (by omega) hl1 hg1
  refine ⟨_, _, _, hsplat, hblur, rfl, fun k _ => hg2 k, ?_⟩
  intro roi' iscale' i j Lin c hc hcw
  have hx2 : 2 ≤ b.size_x := by omega
  have hy2 : 2 ≤ b.size_y := by omega
  have hz2 : 2 ≤ b.size_z := by omega
  have hxm2 : b.size_x ≤ 2147483648 := by omega
  have hym2 : b.size_y ≤ 2147483648 := by omega
  have hzm2 : b.size_z ≤ 2147483648 := by omega
  have hx1 : 1 ≤ b.size_x := by omega
  have hy1 : 1 ≤ b.size_y := by omega
  have hz1 : 1 ≤ b.size_z := by omega
  obtain ⟨⟨x0, x1⟩, ⟨y0, y1⟩, ⟨z0, z1⟩⟩ := image_to_grid_range _
    (grid_rescale _ i j roi' iscale').1 (grid_rescale _ i j roi' iscale').2 Lin hx1 hy1 hz1
  have hgl := guarded_lookup _ _ _ _ _ hx2 hy2 hz2 hxm2 hym2 hzm2 x0 x1 y0 y1 z0 z1 hg2
  subst hc
  have hL := hgl.2.2.mp hcw
  exact ⟨hL, ne_of_gt hL⟩

/-! ### The passes of the blur in exact arithmetic -/

/-- The kernel as a linear form: every tap enters with a weight that depends on
the position only. -/
theorem blur_kernel_linear (o : ℕ → ℚ) (n t : ℕ) :
    blur_kernel o n t
      = blur_w0 * o t
        + blur_w1 * ((if t + 1 < n then 1 else 0) * o (t + 1)
            + (if 1 ≤ t then 1 else 0) * o (t - 1))
        + blur_w2 * ((if t + 2 < n then 1 else 0) * o (t + 2)
            + (if 2 ≤ t then 1 else 0) * o (t - 2)) := by
  unfold blur_kernel
  split_ifs <;> ring

/-- Kernels along two different axes commute. -/
theorem blur_kernel_comm (g : ℕ → ℕ → ℚ) (n m x y : ℕ) :
    blur_kernel (fun v => blur_kernel (fun u => g u v) n x) m y
      = blur_kernel (fun u => blur_kernel (fun v => g u v) m y) n x := by
  simp only [blur_kernel_linear]
  ring

/-- In exact arithmetic the pass along x and the pass along y commute. -/
theorem blur_pass_xy_comm (buf : List dt_iop_colorreconstruct_Lab_t) (sx sy sz : ℕ)
    (hx : 4 ≤ sx) (hy : 4 ≤ sy) (hlen : buf.length = sx * sy * sz) :
    blur_line (blur_line buf (sx * sy) sx 1 sz sy sx) (sx * sy) 1 sx sz sx sy
      = blur_line (blur_line buf (sx * sy) 1 sx sz sx sy) (sx * sy) sx 1 sz sy sx := by
  obtain ⟨lx, px⟩ := blur_pass_x buf sx sy sz hx hlen
  obtain ⟨ly, py⟩ := blur_pass_y buf sx sy sz hy (by omega) hlen
  obtain ⟨lyx, pyx⟩ := blur_pass_y (blur_line buf (sx * sy) sx 1 sz sy sx) sx sy sz hy
    (by omega) (lx.trans hlen)
  obtain ⟨lxy, pxy⟩ := blur_pass_x (blur_line buf (sx * sy) 1 sx sz sx sy) sx sy sz hx
    (ly.trans hlen)
  apply buf_ext
  · rw [lyx, lxy, lx, ly]
  · intro k hk
    rw [lyx, lx, hlen] at hk
    obtain ⟨x, y, z, hxx, hyy, hzz, rfl⟩ := grid_index_surj sx sy sz k hk
    rw [pyx x y z hxx hyy hzz, pxy x y z hxx hyy hzz]
    unfold Lab_fields
    have key : ∀ f : dt_iop_colorreconstruct_Lab_t → ℚ,
        (∀ F : (dt_iop_colorreconstruct_Lab_t → ℚ) → ℚ, f (Lab_fields F) = F f) →
        blur_kernel (fun v => f (rd (blur_line buf (sx * sy) sx 1 sz sy sx)
            (x + sx * (v + sy * z)))) sy y
          = blur_kernel (fun u => f (rd (blur_line buf (sx * sy) 1 sx sz sx sy)
            (u + sx * (y + sy * z)))) sx x := by
      intro f hf
      rw [blur_kernel_congr _ (fun v => blur_kernel
          (fun u => f (rd buf (u + sx * (v + sy * z)))) sx x) sy y hyy
          (fun v hv => by simp only []; rw [px x v z hxx hv hzz, hf]),
        blur_kernel_congr _ (fun u => blur_kernel
          (fun v => f (rd buf (u + sx * (v + sy * z)))) sy y) sx x hxx
          (fun u hu => by simp only []; rw [py u y z hu hyy hzz, hf])]
      exact blur_kernel_comm (fun u v => f (rd buf (u + sx * (v + sy * z)))) sx sy x y
    congr 1
    · exact key _ (fun _ => rfl)
    · exact key _ (fun _ => rfl)
    · exact key _ (fun _ => rfl)
    · exact key _ (fun _ => rfl)

/-- In exact arithmetic the pass along y and the pass along z commute. -/
theorem blur_pass_yz_comm (buf : List dt_iop_colorreconstruct_Lab_t) (sx sy sz : ℕ)
    (hy : 4 ≤ sy) (hz : 4 ≤ sz) (hsx : 1 ≤ sx) (hlen : buf.length = sx * sy * sz) :
    blur_line (blur_line buf (sx * sy) 1 sx sz sx sy) 1 sx (sx * sy) sx sy sz
      = blur_line (blur_line buf 1 sx (sx * sy) sx sy sz) (sx * sy) 1 sx sz sx sy := by
  obtain ⟨ly, py⟩ := blur_pass_y buf sx sy sz hy hsx hlen
  obtain ⟨lz, pz⟩ := blur_pass_z buf sx sy sz hz hsx (by omega) hlen
  obtain ⟨lzy, pzy⟩ := blur_pass_z (blur_line buf (sx * sy) 1 sx sz sx sy) sx sy sz hz
    hsx (by omega) (ly.trans hlen)
  obtain ⟨lyz, pyz⟩ := blur_pass_y (blur_line buf 1 sx (sx * sy) sx sy sz) sx sy sz hy
    hsx (lz.trans hlen)
  apply buf_ext
  · rw [lzy, lyz, ly, lz]
  · intro k hk
    rw [lzy, ly, hlen] at hk
    obtain ⟨x, y, z, hxx, hyy, hzz, rfl⟩ := grid_index_surj sx sy sz k hk
    rw [pzy x y z hxx hyy hzz, pyz x y z hxx hyy hzz]
    unfold Lab_fields
    have key : ∀ f : dt_iop_colorreconstruct_Lab_t → ℚ,
        (∀ F : (dt_iop_colorreconstruct_Lab_t → ℚ) → ℚ, f (Lab_fields F) = F f) →
        blur_kernel (fun w => f (rd (blur_line buf (sx * sy) 1 sx sz sx sy)
            (x + sx * (y + sy * w)))) sz z
          = blur_kernel (fun v => f (rd (blur_line buf 1 sx (sx * sy) sx sy sz)
            (x + sx * (v + sy * z)))) sy y := by
      intro f hf
      rw [blur_kernel_congr _ (fun w => blur_kernel
          (fun v => f (rd buf (x + sx * (v + sy * w)))) sy y) sz z hzz
          (fun w hw => by simp only []; rw [py x y w hxx hyy hw, hf]),
        blur_kernel_congr _ (fun v => blur_kernel
          (fun w => f (rd buf (x + sx * (v + sy * w)))) sz z) sy y hyy
          (fun v hv => by simp only []; rw [pz x v z hxx hv hzz, hf])]
      exact blur_kernel_comm (fun v w => f (rd buf (x + sx * (v + sy * w)))) sy sz y z
    congr 1
    · exact key _ (fun _ => rfl)
    · exact key _ (fun _ => rfl)
    · exact key _ (fun _ => rfl)
    · exact key _ (fun _ => rfl)

/-- In exact arithmetic the pass along x and the pass along z commute. -/
theorem blur_pass_xz_comm (buf : List dt_iop_colorreconstruct_Lab_t) (sx sy sz : ℕ)
    (hx : 4 ≤ sx) (hz : 4 ≤ sz) (hsy : 1 ≤ sy) (hlen : buf.length = sx * sy * sz) :
    blur_line (blur_line buf (sx * sy) sx 1 sz sy sx) 1 sx (sx * sy) sx sy sz
      = blur_line (blur_line buf 1 sx (sx * sy) sx sy sz) (sx * sy) sx 1 sz sy sx := by
  obtain ⟨lx, px⟩ := blur_pass_x buf sx sy sz hx hlen
  obtain ⟨lz, pz⟩ := blur_pass_z buf sx sy sz hz (by omega) hsy hlen
  obtain ⟨lzx, pzx⟩ := blur_pass_z (blur_line buf (sx * sy) sx 1 sz sy sx) sx sy sz hz
    (by omega) hsy (lx.trans hlen)
  obtain ⟨lxz, pxz⟩ := blur_pass_x (blur_line buf 1 sx (sx * sy) sx sy sz) sx sy sz hx
    (lz.trans hlen)
  apply buf_ext
  · rw [lzx, lxz, lx, lz]
  · intro k hk
    rw [lzx, lx, hlen] at hk
    obtain ⟨x, y, z, hxx, hyy, hzz, rfl⟩ := grid_index_surj sx sy sz k hk
    rw [pzx x y z hxx hyy hzz, pxz x y z hxx hyy hzz]
    unfold Lab_fields
    have key : ∀ f : dt_iop_colorreconstruct_Lab_t → ℚ,
        (∀ F : (dt_iop_colorreconstruct_Lab_t → ℚ) → ℚ, f (Lab_fields F) = F f) →
        blur_kernel (fun w => f (rd (blur_line buf (sx * sy) sx 1 sz sy sx)
            (x + sx * (y + sy * w)))) sz z
          = blur_kernel (fun u => f (rd (blur_line buf 1 sx (sx * sy) sx sy sz)
            (u + sx * (y + sy * z)))) sx x := by
      intro f hf
      rw [blur_kernel_congr _ (fun w => blur_kernel
          (fun u => f (rd buf (u + sx * (y + sy * w)))) sx x) sz z hzz
          (fun w hw => by simp only []; rw [px x y w hxx hyy hw, hf]),
        blur_kernel_congr _ (fun u => blur_kernel
          (fun w => f (rd buf (u + sx * (y + sy * w)))) sz z) sx x hxx
          (fun u hu => by simp only []; rw [pz u y z hu hyy hzz, hf])]
      exact blur_kernel_comm (fun u w => f (rd buf (u + sx * (y + sy * w)))) sx sz x z
    congr 1
    · exact key _ (fun _ => rfl)
    · exact key _ (fun _ => rfl)
    · exact key _ (fun _ => rfl)
    · exact key _ (fun _ => rfl)

/-- In exact arithmetic the three passes of `blur` commute: applied to a buffer
of `sx * sy * sz` cells with sizes at least 4, each of the five other orders of
the passes yields the buffer that the order x, y, z of `blur` yields.  A
difference between two orders in the compiled program can therefore only come
from the rounding of `float` operations, which this development does not
represent. -/
theorem blur_passes_commute (buf : List dt_iop_colorreconstruct_Lab_t) (sx sy sz : ℕ)
    (hx : 4 ≤ sx) (hy : 4 ≤ sy) (hz : 4 ≤ sz) (hlen : buf.length = sx * sy * sz) :
    blur_line (blur_line (blur_line buf (sx * sy) 1 sx sz sx sy) (sx * sy) sx 1 sz sy sx)
        1 sx (sx * sy) sx sy sz
      = blur_line (blur_line (blur_line buf (sx * sy) sx 1 sz sy sx) (sx * sy) 1 sx sz sx sy)
        1 sx (sx * sy) sx sy sz
    ∧ blur_line (blur_line (blur_line buf (sx * sy) sx 1 sz sy sx) 1 sx (sx * sy) sx sy sz)
        (sx * sy) 1 sx sz sx sy
      = blur_line (blur_line (blur_line buf (sx * sy) sx 1 sz sy sx) (sx * sy) 1 sx sz sx sy)
        1 sx (sx * sy) sx sy sz
    ∧ blur_line (blur_line (blur_line buf 1 sx (sx * sy) sx sy sz) (sx * sy) sx 1 sz sy sx)
        (sx * sy) 1 sx sz sx sy
      = blur_line (blur_line (blur_line buf (sx * sy) sx 1 sz sy sx) (sx * sy) 1 sx sz sx sy)
        1 sx (sx * sy) sx sy sz
    ∧ blur_line (blur_line (blur_line buf (sx * sy) 1 sx sz sx sy) 1 sx (sx * sy) sx sy sz)
        (sx * sy) sx 1 sz sy sx
      = blur_line (blur_line (blur_line buf (sx * sy) sx 1 sz sy sx) (sx * sy) 1 sx sz sx sy)
        1 sx (sx * sy) sx sy sz
    ∧ blur_line (blur_line (blur_line buf 1 sx (sx * sy) sx sy sz) (sx * sy) 1 sx sz sx sy)
        (sx * sy) sx 1 sz sy sx
      = blur_line (blur_line (blur_line buf (sx * sy) sx 1 sz sy sx) (sx * sy) 1 sx sz sx sy)
        1 sx (sx * sy) sx sy sz := by
  have lx := (blur_pass_x buf sx sy sz hx hlen).1.trans hlen
  have ly := (blur_pass_y buf sx sy sz hy (by omega) hlen).1.trans hlen
  have lz := (blur_pass_z buf sx sy sz hz (by omega) (by omega) hlen).1.trans hlen
  have xy := blur_pass_xy_comm buf sx sy sz hx hy hlen
  have yz := blur_pass_yz_comm buf sx sy sz hy hz (by omega) hlen
  have xz := blur_pass_xz_comm buf sx sy sz hx hz (by omega) hlen
  -- order y, x, z
  have o1 : blur_line (blur_line (blur_line buf (sx * sy) 1 sx sz sx sy) (sx * sy) sx 1 sz sy sx)
        1 sx (sx * sy) sx sy sz
      = blur_line (blur_line (blur_line buf (sx * sy) sx 1 sz sy sx) (sx * sy) 1 sx sz sx sy)
        1 sx (sx * sy) sx sy sz := by rw [xy]
  -- order x, z, y
  have o2 : blur_line (blur_line (blur_line buf (sx * sy) sx 1 sz sy sx) 1 sx (sx * sy) sx sy sz)
        (sx * sy) 1 sx sz sx sy
      = blur_line (blur_line (blur_line buf (sx * sy) sx 1 sz sy sx) (sx * sy) 1 sx sz sx sy)
        1 sx (sx * sy) sx sy sz :=
    (blur_pass_yz_comm _ sx sy sz hy hz (by omega) lx).symm
  -- order z, x, y
  have o3 : blur_line (blur_line (blur_line buf 1 sx (sx * sy) sx sy sz) (sx * sy) sx 1 sz sy sx)
        (sx * sy) 1 sx sz sx sy
      = blur_line (blur_line (blur_line buf (sx * sy) sx 1 sz sy sx) (sx * sy) 1 sx sz sx sy)
        1 sx (sx * sy) sx sy sz := by
    rw [← xz]
    exact o2
  -- order y, z, x
  have o4 : blur_line (blur_line (blur_line buf (sx * sy) 1 sx sz sx sy) 1 sx (sx * sy) sx sy sz)
        (sx * sy) sx 1 sz sy sx
      = blur_line (blur_line (blur_line buf (sx * sy) sx 1 sz sy sx) (sx * sy) 1 sx sz sx sy)
        1 sx (sx * sy) sx sy sz := by
    rw [← blur_pass_xz_comm _ sx sy sz hx hz (by omega) ly]
    exact o1
  -- order z, y, x
  have o5 : blur_line (blur_line (blur_line buf 1 sx (sx * sy) sx sy sz) (sx * sy) 1 sx sz sx sy)
        (sx * sy) sx 1 sz sy sx
      = blur_line (blur_line (blur_line buf (sx * sy) sx 1 sz sy sx) (sx * sy) 1 sx sz sx sy)
        1 sx (sx * sy) sx sy sz := by
    rw [← yz]
    exact o4
  exact ⟨o1, o2, o3, o4, o5⟩

/-! ### The scenario as an instance of the grid claims -/

/-- Witness for C23 on the scenario, whose every pixel has `L = 50`: the grid
`init` builds has 275 cells, and `splat`, `blur` and the guard follow. -/
theorem C23_weight_guards_division_witness :
    ∃ b1 b2 cells, dt_iop_colorreconstruct_bilateral_splat scenario_grid scenario_in 100
          = Run.done b1
      ∧ dt_iop_colorreconstruct_bilateral_blur b1 = Run.done b2
      ∧ b2.buf = some cells
      ∧ (∀ k, k < scenario_grid.size_x * scenario_grid.size_y * scenario_grid.size_z →
          0 ≤ (rd cells k).weight ∧ 0 ≤ (rd cells k).L
          ∧ (0 < (rd cells k).weight ↔ 0 < (rd cells k).L))
      ∧ ∀ (roi' : dt_iop_roi_t) (iscale' : ℚ) (i j : ℤ) (Lin : ℚ)
          (c : dt_iop_colorreconstruct_Lab_t),
          c = slice_lookup b2 cells
                (image_to_grid b2 (grid_rescale b2 i j roi' iscale').1
                  (grid_rescale b2 i j roi' iscale').2 Lin).1
                (image_to_grid b2 (grid_rescale b2 i j roi' iscale').1
                  (grid_rescale b2 i j roi' iscale').2 Lin).2.1
                (image_to_grid b2 (grid_rescale b2 i j roi' iscale').1
                  (grid_rescale b2 i j roi' iscale').2 Lin).2.2 →
          0 < c.weight → 0 < c.L ∧ c.L ≠ 0 := by
  obtain ⟨b, hb, h⟩ := C23_weight_guards_division (List.replicate 275 Lab_zero) ⟨0, 0, 4, 4, 1⟩
    1 (400 / (1 / 1)) 10 scenario_in 100 (fun j i _ _ _ => by
      have hidx : pixel_index (4 : ℤ) j i = 4 * (j * 4 + i) :=
        pixel_index_eq _ _ _ (by decide)
      show 0 < scenario_in (pixel_index (4 : ℤ) j i)
      rw [hidx, (scenario_in_values (j * 4 + i)).1]
      norm_num)
  rw [scenario_init (List.replicate 275 Lab_zero) 0 0 (List.length_replicate _ _)] at hb
  simp only [Run.done.injEq, Option.some.injEq] at hb
  subst hb
  exact h (List.length_replicate _ _)

/-- Witness for C24 on the scenario: all 16 pixels are at or below the
threshold 100, and the weights of the splatted grid sum to 16. -/
theorem C24_splat_conserves_mass_witness :
    ∃ b1 cells, dt_iop_colorreconstruct_bilateral_splat scenario_grid scenario_in 100
          = Run.done b1
      ∧ b1.buf = some cells
      ∧ cells.length = 275
      ∧ (cells.map dt_iop_colorreconstruct_Lab_t.weight).sum = 16 := by
  obtain ⟨b, hb, -, -, h⟩ := C24_splat_conserves_mass (List.replicate 275 Lab_zero)
    ⟨0, 0, 4, 4, 1⟩ 1 (400 / (1 / 1)) 10 scenario_in 100
  rw [scenario_init (List.replicate 275 Lab_zero) 0 0 (List.length_replicate _ _)] at hb
  simp only [Run.done.injEq, Option.some.injEq] at hb
  subst hb
  obtain ⟨b1, cells, h1, h2, h3, h4, -⟩ := h (List.length_replicate _ _)
  refine ⟨b1, cells, h1, h2, h3, ?_⟩
  rw [h4]
  have hall : (((List.range (4 : ℤ).toNat).map
        (fun j => (List.range (4 : ℤ).toNat).map (fun i => (j, i)))).flatten).filter
      (fun p => decide (scenario_in (pixel_index (4 : ℤ) p.1 p.2) ≤ 100))
      = ((List.range (4 : ℤ).toNat).map
        (fun j => (List.range (4 : ℤ).toNat).map (fun i => (j, i)))).flatten := by
    rw [List.filter_eq_self]
    intro p _
    have hidx : pixel_index (4 : ℤ) p.1 p.2 = 4 * (p.1 * 4 + p.2) :=
      pixel_index_eq _ _ _ (by decide)
    rw [hidx, (scenario_in_values (p.1 * 4 + p.2)).1, decide_eq_true_eq]
    norm_num
  have hlen : (((List.range (4 : ℤ).toNat).map
      (fun j => (List.range (4 : ℤ).toNat).map (fun i => (j, i)))).flatten).length = 16 := by
    decide
  show ((List.length (List.filter _ _) : ℕ) : ℚ) = 16
  rw [hall, hlen]
  norm_num

/-- Witness for C27 on the scenario: the 5 × 5 × 11 grid takes 4400 bytes, and
the estimate for both buffers is 8800 bytes. -/
theorem C27_memory_estimates_witness :
    dt_iop_colorreconstruct_bilateral_singlebuffer_size 4 4 (400 / (1 / 1)) 10 = 4400
    ∧ dt_iop_colorreconstruct_bilateral_memory_use 4 4 (400 / (1 / 1)) 10 = 8800 := by
  obtain ⟨b, hb, h1, h2, -⟩ := C27_memory_estimates (List.replicate 275 Lab_zero)
    ⟨0, 0, 4, 4, 1⟩ 1 (400 / (1 / 1)) 10
  rw [scenario_init (List.replicate 275 Lab_zero) 0 0 (List.length_replicate _ _)] at hb
  simp only [Run.done.injEq, Option.some.injEq] at hb
  subst hb
  have e1 : dt_iop_colorreconstruct_bilateral_singlebuffer_size 4 4 (400 / (1 / 1)) 10
      = 4400 := h1
  refine ⟨e1, ?_⟩
  have e2 : dt_iop_colorreconstruct_bilateral_memory_use 4 4 (400 / (1 / 1)) 10
      = 2 * dt_iop_colorreconstruct_bilateral_singlebuffer_size 4 4 (400 / (1 / 1)) 10 := h2
  rw [e2, e1]
